import Mathlib

/-! Gulf-Dive-Guide: buoy observation parser, forecast scanner and refresh caches.

A shallow embedding of `src/buoyScraper.js` and `src/server/forecast.js`.

Conventions of the embedding
* A JavaScript string is a `List Char`.
* A JavaScript number is a `JSNum`: `NaN`, the two infinities, or a finite value
  carried as a rational.  Every arithmetic result and every number read from text is
  rounded to the nearest double (IEEE 754 binary64, ties to even) by `JSNum.ofRat`:
  53 significant bits, gradual underflow below `2^-1022`, an infinity from
  `2^1024 - 2^970` on.  The sign of zero is not modelled.
* The built-ins `parseInt`, `parseFloat`, `Date.UTC` and `toISOString` follow ECMAScript
  as implemented by V8, the engine of Node.js on which the server runs.
* `null` is `none`.  Where the source only ever tests a value with `??`, `none`
  stands for `null` and `undefined` alike.
* `throw` is `Except.error`; `Date.now()` and `new Date()` are explicit arguments.
-/

namespace GulfDiveGuide

/-! ## JavaScript numbers -/

/-- A JavaScript number. -/
inductive JSNum where
  | nan
  | negInf
  | posInf
  | fin (q : ℚ)
  deriving DecidableEq

namespace JSNum

/-- Smallest magnitude that round-to-nearest sends to an infinity: `2^1024 - 2^970`. -/
def overflowBound : ℚ := 2 ^ 1024 - 2 ^ 970

/-- Worker of `ilog2`: the number of halvings that bring `n` below 2, at most `fuel`. -/
def ilog2Aux : ℕ → ℕ → ℕ
  | 0, _ => 0
  | fuel + 1, n => if n < 2 then 0 else ilog2Aux fuel (n / 2) + 1

/-- Position of the leading binary digit of `n` (0 for `n = 0`). -/
def ilog2 (n : ℕ) : ℕ := ilog2Aux n n

/-- Rounding to the nearest integer, a half going to the even neighbour. -/
def roundHalfEven (x : ℚ) : ℤ :=
  let f := ⌊x⌋
  if x - f < 1 / 2 then f
  else if 1 / 2 < x - f then f + 1
  else if f % 2 = 0 then f else f + 1

/-- Binary exponent of a positive rational: the `e` with `2^e ≤ q < 2^(e+1)`. -/
def binade (q : ℚ) : ℤ :=
  let e0 : ℤ := (ilog2 q.num.natAbs : ℤ) - (ilog2 q.den : ℤ)
  if (2 : ℚ) ^ e0 ≤ q then e0 else e0 - 1

/-- Spacing of the doubles around `q`: `2^(e-52)` in the binade `e` of `|q|`, and `2^-1074`
below the normal range. -/
def ulp (q : ℚ) : ℚ := (2 : ℚ) ^ (Max.max (binade |q|) (-1022) - 52)

/-- The multiple of the spacing nearest to `q`, ties going to the even multiple. -/
def nearest (q : ℚ) : ℚ := ulp q * roundHalfEven (q / ulp q)

/-- The Number value of a real number: the nearest double (IEEE 754 binary64, round to
nearest, ties to even), or an infinity when that reaches `2^1024` in magnitude.  The sign
of a zero result is not kept. -/
def ofRat (q : ℚ) : JSNum :=
  let r := nearest q
  if (2 : ℚ) ^ (1024 : ℕ) ≤ r then posInf
  else if r ≤ -(2 : ℚ) ^ (1024 : ℕ) then negInf
  else fin r

/-- A real number that is a double: it is its own Number value. -/
def IsDouble (q : ℚ) : Prop := ofRat q = fin q

instance (q : ℚ) : Decidable (IsDouble q) := inferInstanceAs (Decidable (ofRat q = fin q))

/-- The integer part of a real number, toward zero (`DoubleToInteger` on a finite double). -/
def truncate (q : ℚ) : ℤ := if 0 ≤ q then ⌊q⌋ else ⌈q⌉

/-- Global `isNaN` on a number. -/
def isNaN : JSNum → Bool
  | nan => true
  | _ => false

/-- Strict equality `===` on numbers: `NaN` is not equal to itself. -/
def strictEq : JSNum → JSNum → Bool
  | nan, _ => false
  | _, nan => false
  | a, b => decide (a = b)

/-- Binary `+`. -/
def add : JSNum → JSNum → JSNum
  | nan, _ => nan
  | _, nan => nan
  | posInf, negInf => nan
  | negInf, posInf => nan
  | posInf, _ => posInf
  | _, posInf => posInf
  | negInf, _ => negInf
  | _, negInf => negInf
  | fin a, fin b => ofRat (a + b)

/-- Binary `-`. -/
def sub : JSNum → JSNum → JSNum
  | nan, _ => nan
  | _, nan => nan
  | posInf, posInf => nan
  | negInf, negInf => nan
  | posInf, _ => posInf
  | _, negInf => posInf
  | negInf, _ => negInf
  | _, posInf => negInf
  | fin a, fin b => ofRat (a - b)

/-- Binary `*`. -/
def mul : JSNum → JSNum → JSNum
  | nan, _ => nan
  | _, nan => nan
  | fin a, fin b => ofRat (a * b)
  | fin a, posInf => if a = 0 then nan else if 0 < a then posInf else negInf
  | fin a, negInf => if a = 0 then nan else if 0 < a then negInf else posInf
  | posInf, fin b => if b = 0 then nan else if 0 < b then posInf else negInf
  | negInf, fin b => if b = 0 then nan else if 0 < b then negInf else posInf
  | posInf, posInf => posInf
  | negInf, negInf => posInf
  | posInf, negInf => negInf
  | negInf, posInf => negInf

/-- Binary `/` (a zero divisor is taken as `+0`). -/
def div : JSNum → JSNum → JSNum
  | nan, _ => nan
  | _, nan => nan
  | fin a, fin b =>
      if b = 0 then (if a = 0 then nan else if 0 < a then posInf else negInf)
      else ofRat (a / b)
  | fin _, posInf => fin 0
  | fin _, negInf => fin 0
  | posInf, fin b => if 0 ≤ b then posInf else negInf
  | negInf, fin b => if 0 ≤ b then negInf else posInf
  | posInf, posInf => nan
  | posInf, negInf => nan
  | negInf, posInf => nan
  | negInf, negInf => nan

/-- The call `Math.min(a, b)`. -/
def min : JSNum → JSNum → JSNum
  | nan, _ => nan
  | _, nan => nan
  | negInf, _ => negInf
  | _, negInf => negInf
  | posInf, b => b
  | a, posInf => a
  | fin a, fin b => if a ≤ b then fin a else fin b

/-- The call `Math.max(a, b)`. -/
def max : JSNum → JSNum → JSNum
  | nan, _ => nan
  | _, nan => nan
  | posInf, _ => posInf
  | _, posInf => posInf
  | negInf, b => b
  | a, negInf => a
  | fin a, fin b => if a ≤ b then fin b else fin a

/-- The call `Math.round(x)`: nearest integer, halves toward positive infinity. -/
def round : JSNum → JSNum
  | fin q => fin (⌊q + 1 / 2⌋ : ℤ)
  | x => x

end JSNum

/-! ## Condition score (`src/buoyScraper.js`, lines 248-279) -/

/-- Method `normalizeValue(value, min, max)`; `none` is a `null` value. -/
def normalizeValue (value : Option JSNum) (min max : JSNum) : JSNum :=
  match value with
  | none => JSNum.fin (1 / 2)
  | some v =>
    if v.isNaN || JSNum.strictEq min max then JSNum.fin (1 / 2)
    else JSNum.max (JSNum.fin 0) (JSNum.min (JSNum.fin 1) (JSNum.div (JSNum.sub v min) (JSNum.sub max min)))

/-- The object `latestData` built by `parseBuoyData`; a timestamp is an ISO string. -/
structure LatestData where
  timestamp : Option (List Char)
  windDirection : Option JSNum
  windSpeed : Option JSNum
  waveHeight : Option JSNum
  dominantWavePeriod : Option JSNum
  airTemperature : Option JSNum
  waterTemperature : Option JSNum
  deriving DecidableEq

/-- Method `calculateConditionScore(data)`.  A field that is `none` is `null` or
`undefined` (the `??` operator treats both alike).  `data = none` is a `null` or
`undefined` argument: reading a property of it throws, and the `catch` returns 50. -/
def calculateConditionScore (data : Option LatestData) : JSNum :=
  match data with
  | none => JSNum.fin 50
  | some d =>
    let maxWaveHeight := JSNum.fin 5
    let maxWindSpeed := JSNum.fin 25
    let waveHeight := d.waveHeight.getD (JSNum.fin 0)
    let windSpeed := d.windSpeed.getD (JSNum.fin 0)
    let normalizedWaveHeight := normalizeValue (some waveHeight) (JSNum.fin 0) maxWaveHeight
    let normalizedWindSpeed := normalizeValue (some windSpeed) (JSNum.fin 0) maxWindSpeed
    let waveScore := normalizedWaveHeight
    let windScore := normalizedWindSpeed
    let averageBadness := JSNum.div (JSNum.add waveScore windScore) (JSNum.fin 2)
    JSNum.round (JSNum.mul averageBadness (JSNum.fin 100))


/-! ## JavaScript strings -/

namespace JS

/-- ECMAScript `WhiteSpace` and `LineTerminator` code points: what `\s` matches and what
`trim` strips. -/
def isWhiteSpace (c : Char) : Bool :=
  let n := c.toNat
  n == 0x09 || n == 0x0A || n == 0x0B || n == 0x0C || n == 0x0D || n == 0x20 || n == 0xA0 ||
  n == 0x1680 || (0x2000 ≤ n && n ≤ 0x200A) || n == 0x2028 || n == 0x2029 || n == 0x202F ||
  n == 0x205F || n == 0x3000 || n == 0xFEFF

/-- ECMAScript `LineTerminator` code points: what `.` does not match. -/
def isLineTerminator (c : Char) : Bool :=
  let n := c.toNat
  n == 0x0A || n == 0x0D || n == 0x2028 || n == 0x2029

/-- ASCII decimal digit, the class `\d`. -/
def isDigit (c : Char) : Bool := 48 ≤ c.toNat && c.toNat ≤ 57

/-- String method `trimStart`. -/
def trimStart (s : List Char) : List Char := s.dropWhile isWhiteSpace

/-- String method `trimEnd`. -/
def trimEnd (s : List Char) : List Char := (s.reverse.dropWhile isWhiteSpace).reverse

/-- String method `trim`. -/
def trim (s : List Char) : List Char := trimEnd (trimStart s)

/-- Truthiness of a string: it is not empty. -/
def truthy (s : List Char) : Bool := !s.isEmpty

/-- String method `startsWith`. -/
def startsWith (s pre : List Char) : Bool := pre.isPrefixOf s

/-- String method `includes`. -/
def includes : List Char → List Char → Bool
  | [], needle => needle.isEmpty
  | c :: cs, needle => needle.isPrefixOf (c :: cs) || includes cs needle

/-- String method `split` with a one-character separator. -/
def split (sep : Char) : List Char → List (List Char)
  | [] => [[]]
  | c :: cs =>
    if c = sep then [] :: split sep cs
    else match split sep cs with
      | [] => [[c]]
      | l :: ls => (c :: l) :: ls

/-- Worker of `splitWhitespace`; `inSep` says that the previous character was whitespace. -/
def splitWhitespaceAux : List Char → Bool → List (List Char)
  | [], _ => [[]]
  | c :: cs, inSep =>
    if isWhiteSpace c then
      if inSep then splitWhitespaceAux cs true else [] :: splitWhitespaceAux cs true
    else match splitWhitespaceAux cs false with
      | [] => [[c]]
      | t :: ts => (c :: t) :: ts

/-- The call `s.split(/\s+/)`: the pieces between maximal runs of whitespace, with an empty
first (last) piece when the string starts (ends) with whitespace. -/
def splitWhitespace (s : List Char) : List (List Char) := splitWhitespaceAux s false

/-- Array method `findIndex`; `none` is the result `-1`. -/
def findIndex {α : Type} (p : α → Bool) : List α → Option Nat
  | [] => none
  | a :: l => if p a then some 0 else (findIndex p l).map (· + 1)

/-- Upper-case image of one character, exact for ASCII lower-case letters, the long s
(U+017F, to `S`) and the sharp s (U+00DF, to `SS`).  Every other character is left as it
is: none of them has an upper-case form made only of the letters `N`, `E`, `S` and `W`,
so the lookup in `directionMap` is not affected. -/
def upperChar (c : Char) : List Char :=
  if 97 ≤ c.toNat ∧ c.toNat ≤ 122 then [Char.ofNat (c.toNat - 32)]
  else if c.toNat = 0x17F then ['S']
  else if c.toNat = 0xDF then ['S', 'S']
  else [c]

/-- String method `toUpperCase` (see `upperChar`). -/
def toUpperCase (s : List Char) : List Char := s.flatMap upperChar

/-- Value of a string of decimal digits. -/
def digitsValue (ds : List Char) : Nat := ds.foldl (fun n c => 10 * n + (c.toNat - 48)) 0

/-- Value of a hexadecimal digit, if it is one. -/
def hexDigit? (c : Char) : Option Nat :=
  let n := c.toNat
  if 48 ≤ n ∧ n ≤ 57 then some (n - 48)
  else if 97 ≤ n ∧ n ≤ 102 then some (n - 87)
  else if 65 ≤ n ∧ n ≤ 70 then some (n - 55)
  else none

/-- Value of a string of hexadecimal digits. -/
def hexValue (ds : List Char) : Nat := ds.foldl (fun n c => 16 * n + (hexDigit? c).getD 0) 0

/-- The integer that `parseInt(string)` without a radix reads, `none` when it reads no
digit.  Leading whitespace and a sign are skipped, a `0x` or `0X` prefix selects radix 16,
and the longest run of digits is read. -/
def parseIntValue (s : List Char) : Option Int :=
  let t := trimStart s
  let (neg, u) : Bool × List Char :=
    match t with
    | '-' :: r => (true, r)
    | '+' :: r => (false, r)
    | _ => (false, t)
  let sign : Int := if neg then -1 else 1
  match u with
  | '0' :: x :: r =>
    if x = 'x' ∨ x = 'X' then
      let ds := r.takeWhile (fun c => (hexDigit? c).isSome)
      if ds.isEmpty then none else some (sign * (hexValue ds : Int))
    else
      let ds := u.takeWhile isDigit
      if ds.isEmpty then none else some (sign * (digitsValue ds : Int))
  | _ =>
    let ds := u.takeWhile isDigit
    if ds.isEmpty then none else some (sign * (digitsValue ds : Int))

/-- Global `parseInt(string)` without a radix: the Number value of the integer read (the
nearest double, an infinity for digits beyond the range of doubles), and `NaN` when no
digit is read. -/
def parseInt (s : List Char) : JSNum :=
  match parseIntValue s with
  | none => JSNum.nan
  | some z => JSNum.ofRat z

/-- Exponent part of a decimal literal read from the front of `r`: the value of
`[eE][+-]?digits` when `r` starts with one, else 0. -/
def exponentPart (r : List Char) : Int :=
  match r with
  | e :: r' =>
    if e = 'e' ∨ e = 'E' then
      let (neg, r'') : Bool × List Char :=
        match r' with
        | '-' :: q => (true, q)
        | '+' :: q => (false, q)
        | _ => (false, r')
      let ds := r''.takeWhile isDigit
      if ds.isEmpty then 0 else (if neg then -(digitsValue ds : Int) else (digitsValue ds : Int))
    else 0
  | [] => 0

/-- Global `parseFloat(string)`: after leading whitespace, the longest prefix that is a
`StrDecimalLiteral` (optional sign, then `Infinity` or digits with an optional fraction and
an optional exponent); `NaN` when there is none.  The decimal value read is rounded to
the nearest double. -/
def parseFloat (s : List Char) : JSNum :=
  let t := trimStart s
  let (neg, u) : Bool × List Char :=
    match t with
    | '-' :: r => (true, r)
    | '+' :: r => (false, r)
    | _ => (false, t)
  if "Infinity".toList.isPrefixOf u then (if neg then JSNum.negInf else JSNum.posInf)
  else
    let ip := u.takeWhile isDigit
    let r1 := u.dropWhile isDigit
    let (fp, r2) : List Char × List Char :=
      match r1 with
      | '.' :: r => (r.takeWhile isDigit, r.dropWhile isDigit)
      | _ => ([], r1)
    if ip.isEmpty && fp.isEmpty then JSNum.nan
    else
      let mantissa : ℚ := (digitsValue (ip ++ fp) : ℚ) / (10 : ℚ) ^ fp.length
      let value : ℚ := mantissa * (10 : ℚ) ^ (exponentPart r2)
      JSNum.ofRat (if neg then -value else value)

/-! ### Dates -/

/-- ECMAScript `DayFromYear`: the day number of 1 January of year `y`. -/
def dayFromYear (y : Int) : Int :=
  365 * (y - 1970) + (y - 1969) / 4 - (y - 1901) / 100 + (y - 1601) / 400

/-- Leap year of the proleptic Gregorian calendar. -/
def isLeapYear (y : Int) : Bool := y % 4 == 0 && (y % 100 != 0 || y % 400 == 0)

/-- Days before the first of month `mn` (0 to 11) in a year that is leap or not. -/
def daysBeforeMonth (mn : Int) (leap : Bool) : Int :=
  let base : Int :=
    if mn = 0 then 0 else if mn = 1 then 31 else if mn = 2 then 59 else if mn = 3 then 90
    else if mn = 4 then 120 else if mn = 5 then 151 else if mn = 6 then 181
    else if mn = 7 then 212 else if mn = 8 then 243 else if mn = 9 then 273
    else if mn = 10 then 304 else 334
  if leap && decide (2 ≤ mn) then base + 1 else base

/-- ECMAScript `MakeDay(year, month, date)` on mathematical integers: the day number of
day `date` of month `month` (counted from 0) of `year`, months and days carried over. -/
def dayNumber (year month date : Int) : Int :=
  let ym := year + month / 12
  let mn := month % 12
  dayFromYear ym + daysBeforeMonth mn (isLeapYear ym) + date - 1

/-- The constant `kBaseDay` of V8: the day count of 1970 in years shifted by 399999. -/
def kBaseDay : Int :=
  365 * (1970 + 399999) + (1970 + 399999) / 4 - (1970 + 399999) / 100 + (1970 + 399999) / 400

/-- The function `MakeDay(year, month, date)` as V8 computes it: `NaN` unless the year is
within a million and the month within ten million of 0 and the date is finite; else both
are truncated, the months are carried into the year, the days up to the year are counted
with truncating integer division from the year shifted by 399999, the days up to the month
are added from the table of a leap or a common year, and the truncated date is added in
double arithmetic. -/
def makeDay (year month date : JSNum) : JSNum :=
  match year, month, date with
  | JSNum.fin yr, JSNum.fin mo, JSNum.fin dt =>
    if -1000000 ≤ yr ∧ yr ≤ 1000000 ∧ -10000000 ≤ mo ∧ mo ≤ 10000000 then
      let y0 : Int := JSNum.truncate yr
      let m0 : Int := JSNum.truncate mo
      let y1 : Int := y0 + Int.tdiv m0 12
      let m1 : Int := Int.tmod m0 12
      let y : Int := if m1 < 0 then y1 - 1 else y1
      let m : Int := if m1 < 0 then m1 + 12 else m1
      let dayFromYear : Int :=
        365 * (y + 399999) + Int.tdiv (y + 399999) 4 - Int.tdiv (y + 399999) 100 +
          Int.tdiv (y + 399999) 400 - kBaseDay
      let common : Bool :=
        decide (Int.tmod y 4 ≠ 0) || (decide (Int.tmod y 100 = 0) && decide (Int.tmod y 400 ≠ 0))
      let dayFromMonth : Int := dayFromYear + daysBeforeMonth m (!common)
      JSNum.add (JSNum.fin ((dayFromMonth - 1 : Int) : ℚ))
        (JSNum.fin ((JSNum.truncate dt : Int) : ℚ))
    else JSNum.nan
  | _, _, _ => JSNum.nan

/-- The function `MakeTime(hour, min, 0, 0)`: `NaN` unless both are finite, else the
milliseconds of the truncated hours and minutes, in double arithmetic (the seconds and
milliseconds are 0 and add nothing). -/
def makeTime (hour min : JSNum) : JSNum :=
  match hour, min with
  | JSNum.fin h, JSNum.fin m =>
    JSNum.add (JSNum.mul (JSNum.fin ((JSNum.truncate h : Int) : ℚ)) (JSNum.fin 3600000))
      (JSNum.mul (JSNum.fin ((JSNum.truncate m : Int) : ℚ)) (JSNum.fin 60000))
  | _, _ => JSNum.nan

/-- The function `MakeDate(day, time)`: `NaN` unless both are finite, else
`time + day * 86400000` in double arithmetic. -/
def makeDate (day time : JSNum) : JSNum :=
  match day, time with
  | JSNum.fin d, JSNum.fin t => JSNum.add (JSNum.fin t) (JSNum.mul (JSNum.fin d) (JSNum.fin 86400000))
  | _, _ => JSNum.nan

/-- The function `TimeClip(time)`: `NaN` beyond 8.64e15 ms in magnitude. -/
def timeClip (time : JSNum) : JSNum :=
  match time with
  | JSNum.fin t =>
    if -8640000000000000 ≤ t ∧ t ≤ 8640000000000000 then JSNum.fin ((JSNum.truncate t : Int) : ℚ)
    else JSNum.nan
  | _ => JSNum.nan

/-- The call `Date.UTC(year, month, day, hour, minute)` on numbers: a year that truncates
to 0 to 99 means 1900 to 1999, and the time value is
`TimeClip(MakeDate(MakeDay(year, month, day), MakeTime(hour, minute, 0, 0)))`. -/
def dateUTC (year month day hour minute : JSNum) : JSNum :=
  let yr : JSNum :=
    match year with
    | JSNum.fin y =>
      if 0 ≤ JSNum.truncate y ∧ JSNum.truncate y ≤ 99 then
        JSNum.fin ((1900 + JSNum.truncate y : Int) : ℚ)
      else year
    | _ => year
  timeClip (makeDate (makeDay yr month day) (makeTime hour minute))

/-- Year, month (1 to 12) and day of month of a day number. -/
def civilFromDays (day : Int) : Int × Int × Int :=
  let z := day + 719468
  let era := z / 146097
  let doe := z % 146097
  let yoe := (doe - doe / 1460 + doe / 36524 - doe / 146096) / 365
  let doy := doe - (365 * yoe + yoe / 4 - yoe / 100)
  let mp := (5 * doy + 2) / 153
  let d := doy - (153 * mp + 2) / 5 + 1
  let m := if mp < 10 then mp + 3 else mp - 9
  let y := yoe + era * 400 + (if m ≤ 2 then 1 else 0)
  (y, m, d)

/-- Decimal digits of `n`, padded with zeros on the left to `width`. -/
def padZero (width n : Nat) : List Char :=
  let ds := Nat.toDigits 10 n
  List.replicate (width - ds.length) '0' ++ ds

/-- Date method `toISOString` of a valid time value. -/
def toISOString (t : Int) : List Char :=
  let ymd := civilFromDays (t / 86400000)
  let ms := (t % 86400000).toNat
  let year : List Char :=
    if 0 ≤ ymd.1 ∧ ymd.1 ≤ 9999 then padZero 4 ymd.1.toNat
    else (if ymd.1 < 0 then '-' else '+') :: padZero 6 ymd.1.natAbs
  year ++ '-' :: padZero 2 ymd.2.1.toNat ++ '-' :: padZero 2 ymd.2.2.toNat ++
    'T' :: padZero 2 (ms / 3600000) ++ ':' :: padZero 2 (ms / 60000 % 60) ++
    ':' :: padZero 2 (ms / 1000 % 60) ++ '.' :: padZero 3 (ms % 1000) ++ ['Z']

end JS

/-! ## Observation feed parser (`src/buoyScraper.js`, lines 68-285) -/

/-- Method `parseFloat(value)` of `BuoyScraper`; `value = none` is `undefined`. -/
def parseFloat (value : Option (List Char)) : Option JSNum :=
  match value with
  | none => none
  | some v =>
    if v = "MM".toList then none
    else
      let parsed := JS.parseFloat v
      if parsed.isNaN then none else some parsed

/-- Method `parseTimestamp(year, month, day, hour, minute)`; an argument `none` is
`undefined`, and `!x` holds for `undefined` and for the empty string.  The time value of a
date is NaN or a finite whole number; `isNaN(date.getTime())` is the last case of the
match. -/
def parseTimestamp (year month day hour minute : Option (List Char)) : Option (List Char) :=
  match year, month, day, hour, minute with
  | some y, some m, some d, some h, some mi =>
    if !JS.truthy y || !JS.truthy m || !JS.truthy d || !JS.truthy h || !JS.truthy mi then none
    else
      match JS.dateUTC (JS.parseInt y) (JSNum.sub (JS.parseInt m) (JSNum.fin 1)) (JS.parseInt d)
          (JS.parseInt h) (JS.parseInt mi) with
      | JSNum.fin t => some (JS.toISOString (JSNum.truncate t))
      | _ => none
  | _, _, _, _, _ => none

/-- The table `directionMap`. -/
def directionMap : List (List Char × ℚ) :=
  [("N".toList, 0), ("NNE".toList, 22.5), ("NE".toList, 45), ("ENE".toList, 67.5),
   ("E".toList, 90), ("ESE".toList, 112.5), ("SE".toList, 135), ("SSE".toList, 157.5),
   ("S".toList, 180), ("SSW".toList, 202.5), ("SW".toList, 225), ("WSW".toList, 247.5),
   ("W".toList, 270), ("WNW".toList, 292.5), ("NW".toList, 315), ("NNW".toList, 337.5)]

/-- Method `parseWindDirection(directionString)` on a string. -/
def parseWindDirection (directionString : List Char) : Option JSNum :=
  let numericDirection := JS.parseFloat directionString
  if !numericDirection.isNaN then some numericDirection
  else
    match directionMap.lookup (JS.toUpperCase directionString) with
    | some direction => some (JSNum.fin direction)
    | none => none

/-- The object returned by `parseDataLine`. -/
structure ParsedRecord where
  timestamp : Option (List Char)
  windDirection : Option JSNum
  windSpeed : Option JSNum
  gustSpeed : Option JSNum
  waveHeight : Option JSNum
  dominantWavePeriod : Option JSNum
  averageWavePeriod : Option JSNum
  meanWaveDirection : Option JSNum
  pressure : Option JSNum
  airTemperature : Option JSNum
  waterTemperature : Option JSNum
  dewPoint : Option JSNum
  visibility : Option JSNum
  pressureTendency : Option JSNum
  tide : Option JSNum
  deriving DecidableEq

/-- The expression `columns[i] || 'MM'`. -/
def columnOrMissing (columns : List (List Char)) (i : Nat) : List Char :=
  match columns.get? i with
  | some c => if JS.truthy c then c else "MM".toList
  | none => "MM".toList

/-- Method `parseDataLine(line)`; `none` is the result `null`.  Past the length test
`columns[0]` to `columns[14]` exist, and `columns[i]` beyond the end is `undefined`. -/
def parseDataLine (line : List Char) : Option ParsedRecord :=
  let columns := (JS.splitWhitespace line).filter (fun col => JS.truthy (JS.trim col))
  if columns.length < 15 then none
  else
    some {
      timestamp := parseTimestamp (columns.get? 0) (columns.get? 1) (columns.get? 2)
        (columns.get? 3) (columns.get? 4)
      windDirection := parseWindDirection ((columns.get? 5).getD [])
      windSpeed := parseFloat (columns.get? 6)
      gustSpeed := parseFloat (columns.get? 7)
      waveHeight := parseFloat (columns.get? 8)
      dominantWavePeriod := parseFloat (columns.get? 9)
      averageWavePeriod := parseFloat (columns.get? 10)
      meanWaveDirection := parseFloat (columns.get? 11)
      pressure := parseFloat (columns.get? 12)
      airTemperature := parseFloat (columns.get? 13)
      waterTemperature := parseFloat (columns.get? 14)
      dewPoint := parseFloat (some (columnOrMissing columns 15))
      visibility := parseFloat (some (columnOrMissing columns 16))
      pressureTendency := parseFloat (some (columnOrMissing columns 17))
      tide := parseFloat (some (columnOrMissing columns 18)) }

/-- Method `findMostRecentValid(dataLines, field)`; the field name is its projection. -/
def findMostRecentValid (dataLines : List ParsedRecord) (field : ParsedRecord → Option JSNum) :
    Option JSNum :=
  match dataLines.find? (fun line => (field line).isSome) with
  | some validData => field validData
  | none => none

/-- An element of `historicalData`. -/
structure HistoricalEntry where
  timestamp : Option (List Char)
  windDirection : Option JSNum
  windSpeed : Option JSNum
  waveHeight : Option JSNum
  dominantWavePeriod : Option JSNum
  airTemperature : Option JSNum
  waterTemperature : Option JSNum
  deriving DecidableEq

/-- The object returned by `parseBuoyData`. -/
structure Snapshot where
  latest : LatestData
  historical : List HistoricalEntry
  conditionScore : JSNum
  lastUpdated : List Char
  deriving DecidableEq

/-- The errors `parseBuoyData` throws. -/
inductive ParseError where
  | missingHeader
  | noValidData
  deriving DecidableEq

deriving instance DecidableEq for Except

/-- The lines of the feed that `parseBuoyData` keeps: those whose trimmed text is not
empty. -/
def feedLines (rawData : List Char) : List (List Char) :=
  (JS.split '\n' rawData).filter (fun line => JS.truthy (JS.trim line))

/-- The mapping and filtering of `parseBuoyData` that yields `parsedLines`: the records of
the lines that parse and carry a timestamp. -/
def parseLines (dataLines : List (List Char)) : List ParsedRecord :=
  (dataLines.map parseDataLine).filterMap
    (fun data => match data with
      | some r => if r.timestamp.isSome then some r else none
      | none => none)

/-- The part of `parseBuoyData` after `parsedLines` is known to be non-empty; `first` is
`parsedLines[0]` and `lastUpdated` is the text of `new Date().toISOString()`. -/
def aggregate (first : ParsedRecord) (parsedLines : List ParsedRecord) (lastUpdated : List Char) :
    Snapshot :=
  let latestData : LatestData := {
    timestamp := first.timestamp
    windDirection := findMostRecentValid parsedLines (·.windDirection)
    windSpeed := findMostRecentValid parsedLines (·.windSpeed)
    waveHeight := findMostRecentValid parsedLines (·.waveHeight)
    dominantWavePeriod := findMostRecentValid parsedLines (·.dominantWavePeriod)
    airTemperature := findMostRecentValid parsedLines (·.airTemperature)
    waterTemperature := findMostRecentValid parsedLines (·.waterTemperature) }
  let historicalData : List HistoricalEntry :=
    (parsedLines.drop (parsedLines.length - 12)).map (fun data => {
      timestamp := data.timestamp
      windDirection := data.windDirection
      windSpeed := data.windSpeed
      waveHeight := data.waveHeight
      dominantWavePeriod := data.dominantWavePeriod
      airTemperature := data.airTemperature
      waterTemperature := data.waterTemperature })
  let conditionScore := calculateConditionScore (some latestData)
  let latestData : LatestData :=
    match latestData.timestamp with
    | none => { latestData with timestamp := some lastUpdated }
    | some ts => if JS.truthy ts then latestData else { latestData with timestamp := some lastUpdated }
  { latest := latestData
    historical := historicalData
    conditionScore := conditionScore
    lastUpdated := lastUpdated }

/-- Method `parseBuoyData(rawData)`; `lastUpdated` is the text of
`new Date().toISOString()` at the call. -/
def parseBuoyData (rawData : List Char) (lastUpdated : List Char) : Except ParseError Snapshot :=
  let lines := feedLines rawData
  match JS.findIndex (fun line => JS.includes line "#YY".toList) lines with
  | none => Except.error ParseError.missingHeader
  | some headerIndex =>
    let dataLines := lines.drop (headerIndex + 1)
    let parsedLines := parseLines dataLines
    match parsedLines with
    | [] => Except.error ParseError.noValidData
    | first :: _ => Except.ok (aggregate first parsedLines lastUpdated)

/-! ### Vocabulary for the statements about the observation parser -/

/-- The value `result` is that of `field` in the first record of `records` where it is
present, and is absent exactly when the field is absent in every record. -/
def IsFirstPresent (records : List ParsedRecord) (field : ParsedRecord → Option JSNum)
    (result : Option JSNum) : Prop :=
  (∀ v, result = some v ↔
    ∃ pre r post, records = pre ++ r :: post ∧ (∀ x ∈ pre, field x = none) ∧ field r = some v) ∧
  (result = none ↔ ∀ r ∈ records, field r = none)

/-- The line contains the header marker `#YY`. -/
def hasMarker (line : List Char) : Bool := JS.includes line "#YY".toList

/-- The line parses to a record that carries a timestamp. -/
def isValidDataLine (line : List Char) : Bool :=
  match parseDataLine line with
  | some r => r.timestamp.isSome
  | none => false

/-- The non-empty tokens of a line after splitting on runs of whitespace. -/
def columnsOf (line : List Char) : List (List Char) :=
  (JS.splitWhitespace line).filter (fun col => JS.truthy (JS.trim col))

/-- The line made of leading whitespace `lead` followed by tokens, each with the
whitespace that follows it. -/
def lineOfTokens : List Char → List (List Char × List Char) → List Char
  | lead, [] => lead
  | lead, (token, sep) :: rest => lead ++ token ++ lineOfTokens sep rest

/-- The parts of `lineOfTokens` are tokens and separators: `lead` and every separator are
whitespace, every token is non-empty and free of whitespace, and every separator but the
last is non-empty. -/
def IsTokenLine : List Char → List (List Char × List Char) → Prop
  | lead, [] => ∀ c ∈ lead, JS.isWhiteSpace c = true
  | lead, (token, sep) :: rest =>
    (∀ c ∈ lead, JS.isWhiteSpace c = true) ∧ token ≠ [] ∧
    (∀ c ∈ token, JS.isWhiteSpace c = false) ∧ (rest ≠ [] → sep ≠ []) ∧ IsTokenLine sep rest

/-! ## Regular expressions (the fragment used by `src/server/forecast.js`) -/

/-- Syntax of the regular expressions of `forecast.js`.  A character class, a literal
character and `.` are all `cls`; quantifiers are greedy and apply to a class (`rep`) or,
for `?`, to any expression (`opt`); `group n` is the capturing group number `n`. -/
inductive Regex where
  | empty
  | cls (p : Char → Bool)
  | seq (a b : Regex)
  | alt (a b : Regex)
  | opt (a : Regex)
  | rep (p : Char → Bool) (min : Nat) (max : Option Nat)
  | group (n : Nat) (a : Regex)
  | eos

/-- Captured substrings, most recent first. -/
abbrev Captures := List (Nat × List Char)

namespace Regex

/-- Greedy repetition of a class: take as many characters as allowed, then give them back
one at a time until the continuation `k` succeeds.  `min` and `max` count what is still
to be taken. -/
def repGreedy {R : Type} (p : Char → Bool) (k : List Char → Option R) :
    Nat → Option Nat → List Char → Option R
  | min, _, [] => if min = 0 then k [] else none
  | min, max, c :: cs =>
    if p c && max != some 0 then
      match repGreedy p k (min - 1) (max.map (· - 1)) cs with
      | some r => some r
      | none => if min = 0 then k (c :: cs) else none
    else if min = 0 then k (c :: cs) else none

/-- Backtracking matcher in continuation-passing style: match `re` at the front of the
input, then hand the rest of the input and the captures to `k`; alternatives are tried
in the order of the ECMAScript semantics until `k` succeeds. -/
def run {R : Type} : Regex → List Char → Captures → (List Char → Captures → Option R) → Option R
  | empty, s, caps, k => k s caps
  | cls p, s, caps, k =>
    match s with
    | c :: cs => if p c then k cs caps else none
    | [] => none
  | seq a b, s, caps, k => run a s caps (fun s' caps' => run b s' caps' k)
  | alt a b, s, caps, k =>
    match run a s caps k with
    | some r => some r
    | none => run b s caps k
  | opt a, s, caps, k =>
    match run a s caps k with
    | some r => some r
    | none => k s caps
  | rep p min max, s, caps, k => repGreedy p (fun s' => k s' caps) min max s
  | group n a, s, caps, k =>
    run a s caps (fun s' caps' => k s' ((n, s.take (s.length - s'.length)) :: caps'))
  | eos, s, caps, k => if s.isEmpty then k s caps else none

/-- A match of `re` that starts at the front of the input (a pattern anchored by `^`). -/
def matchStart (re : Regex) (s : List Char) : Option Captures :=
  run re s [] (fun _ caps => some caps)

/-- The leftmost match of `re` in the input, as `String.prototype.match` finds it for a
pattern without the `g` flag. -/
def search (re : Regex) : List Char → Option Captures
  | [] => matchStart re []
  | c :: cs =>
    match matchStart re (c :: cs) with
    | some caps => some caps
    | none => search re cs

/-- Sequence of several expressions. -/
def cat (l : List Regex) : Regex := l.foldr seq empty

/-- A literal character. -/
def chr (c : Char) : Regex := cls (fun x => x == c)

/-- A literal string. -/
def lit (s : String) : Regex := cat (s.toList.map chr)

/-- ASCII letter, either case: the class `[A-Za-z]`, and `[A-Z]` under the `i` flag. -/
def isLetter (c : Char) : Bool := (65 ≤ c.toNat && c.toNat ≤ 90) || (97 ≤ c.toNat && c.toNat ≤ 122)

/-- ASCII capital letter: the class `[A-Z]`. -/
def isCapital (c : Char) : Bool := 65 ≤ c.toNat && c.toNat ≤ 90

/-- A literal ASCII letter under the `i` flag: it matches its two cases. -/
def chrI (c : Char) : Regex := cls (fun x => x == c.toLower || x == c.toUpper)

/-- A literal string of ASCII letters under the `i` flag. -/
def litI (s : String) : Regex := cat (s.toList.map chrI)

/-- The expression `\s+`. -/
def spaces : Regex := rep JS.isWhiteSpace 1 none

/-- The expression `\d+`. -/
def digits : Regex := rep JS.isDigit 1 none

/-- The text of capture group `n` (empty when the group took no part). -/
def capture (caps : Captures) (n : Nat) : List Char := (caps.lookup n).getD []

end Regex

/-! ## Forecast bulletin scanner (`src/server/forecast.js`, lines 38-110) -/

/-- The pattern `/^\.(TODAY|TONIGHT|[A-Z]{3}(?:\s+NIGHT)?)\.\.\.(.+)$/`. -/
def periodPattern : Regex :=
  Regex.cat [
    Regex.chr '.',
    Regex.group 1 (Regex.alt (Regex.lit "TODAY") (Regex.alt (Regex.lit "TONIGHT")
      (Regex.seq (Regex.rep Regex.isCapital 3 (some 3))
        (Regex.opt (Regex.seq Regex.spaces (Regex.lit "NIGHT")))))),
    Regex.lit "...",
    Regex.group 2 (Regex.rep (fun c => !JS.isLineTerminator c) 1 none),
    Regex.eos]

/-- The pattern
`/([A-Z]{1,3}(?:\s+to\s+[A-Z]{1,3})?)\s+winds?\s+(\d+(?:\s+to\s+\d+)?\s+kt)/i`. -/
def windPattern : Regex :=
  Regex.cat [
    Regex.group 1 (Regex.seq (Regex.rep Regex.isLetter 1 (some 3))
      (Regex.opt (Regex.cat [Regex.spaces, Regex.litI "to", Regex.spaces,
        Regex.rep Regex.isLetter 1 (some 3)]))),
    Regex.spaces,
    Regex.litI "wind",
    Regex.opt (Regex.chrI 's'),
    Regex.spaces,
    Regex.group 2 (Regex.cat [
      Regex.digits,
      Regex.opt (Regex.cat [Regex.spaces, Regex.litI "to", Regex.spaces, Regex.digits]),
      Regex.spaces,
      Regex.litI "kt"])]

/-- The pattern `/(?:seas|Seas)\s+(\d+\s+to\s+\d+\s+ft|\d+\s+ft\s+or\s+less)/i`. -/
def seasPattern : Regex :=
  Regex.cat [
    Regex.alt (Regex.litI "seas") (Regex.litI "Seas"),
    Regex.spaces,
    Regex.group 1 (Regex.alt
      (Regex.cat [Regex.digits, Regex.spaces, Regex.litI "to", Regex.spaces, Regex.digits,
        Regex.spaces, Regex.litI "ft"])
      (Regex.cat [Regex.digits, Regex.spaces, Regex.litI "ft", Regex.spaces, Regex.litI "or",
        Regex.spaces, Regex.litI "less"]))]

/-- The pattern `/\.\s*([A-Za-z\s]+)\./`. -/
def weatherPattern : Regex :=
  Regex.cat [
    Regex.chr '.',
    Regex.rep JS.isWhiteSpace 0 none,
    Regex.group 1 (Regex.rep (fun c => Regex.isLetter c || JS.isWhiteSpace c) 1 none),
    Regex.chr '.']

/-- Worker of `collapseWhitespace`; `inRun` says that the previous character was
whitespace. -/
def collapseWhitespaceAux : List Char → Bool → List Char
  | [], _ => []
  | c :: cs, inRun =>
    if JS.isWhiteSpace c then
      if inRun then collapseWhitespaceAux cs true else ' ' :: collapseWhitespaceAux cs true
    else c :: collapseWhitespaceAux cs false

/-- The call `s.replace(/\s+/g, ' ')`. -/
def collapseWhitespace (s : List Char) : List Char := collapseWhitespaceAux s false

/-- Function `extractWind(line)`. -/
def extractWind (line : List Char) : List Char :=
  match Regex.search windPattern line with
  | some windMatch =>
    JS.trim (collapseWhitespace
      (Regex.capture windMatch 1 ++ " winds ".toList ++ Regex.capture windMatch 2))
  | none => []

/-- Function `extractSeas(line)`. -/
def extractSeas (line : List Char) : List Char :=
  match Regex.search seasPattern line with
  | some seasMatch => JS.trim (Regex.capture seasMatch 1)
  | none => "Unknown".toList

/-- Function `extractWeather(line)`; `none` is `null`. -/
def extractWeather (line : List Char) : Option (List Char) :=
  match Regex.search weatherPattern line with
  | some weatherMatch => some (JS.trim (Regex.capture weatherMatch 1))
  | none => none

/-- An element of `forecast`. -/
structure ForecastEntry where
  date : List Char
  wind : List Char
  seas : List Char
  weather : Option (List Char)
  deriving DecidableEq

/-- The object `currentConditions`. -/
structure CurrentConditions where
  wind : List Char
  seas : List Char
  weather : Option (List Char)
  deriving DecidableEq

/-- The object returned by `parseForecastText`. -/
structure ForecastData where
  rawText : List Char
  currentConditions : Option CurrentConditions
  forecast : List ForecastEntry
  deriving DecidableEq

/-- The entry built from a line inside the target section when it matches the period
pattern. -/
def periodEntry (line : List Char) : Option ForecastEntry :=
  match Regex.matchStart periodPattern line with
  | some m =>
    let date := Regex.capture m 1
    let forecastText := Regex.capture m 2
    some {
      date := date
      wind := extractWind forecastText
      seas := extractSeas forecastText
      weather := extractWeather forecastText }
  | none => none

/-- The target header token. -/
def targetHeader : List Char := "GMZ040-".toList

/-- The generic zone header prefix. -/
def zonePrefix : List Char := "GMZ".toList

/-- The variables of the loop of `parseForecastText`. -/
structure ScanState where
  inTargetSection : Bool
  rawText : List Char
  currentConditions : Option CurrentConditions
  forecast : List ForecastEntry
  deriving DecidableEq

/-- The loop of `parseForecastText` over the remaining lines; returning the state without
a recursive call is the `break`. -/
def scanLines : List (List Char) → ScanState → ScanState
  | [], st => st
  | raw :: rest, st =>
    let line := JS.trim raw
    if !JS.truthy line then scanLines rest st
    else if JS.startsWith line targetHeader then
      scanLines rest { st with inTargetSection := true, rawText := st.rawText ++ line ++ ['\n'] }
    else if st.inTargetSection && JS.startsWith line zonePrefix
        && !JS.startsWith line targetHeader then st
    else if st.inTargetSection then
      let st1 := { st with rawText := st.rawText ++ line ++ ['\n'] }
      match periodEntry line with
      | some entry =>
        scanLines rest { st1 with
          currentConditions :=
            match st1.currentConditions with
            | some cc => some cc
            | none => some { wind := entry.wind, seas := entry.seas, weather := entry.weather }
          forecast := st1.forecast ++ [entry] }
      | none => scanLines rest st1
    else scanLines rest st

/-- Function `parseForecastText(text)`. -/
def parseForecastText (text : List Char) : ForecastData :=
  let lines := JS.split '\n' text
  let st := scanLines lines
    { inTargetSection := false, rawText := [], currentConditions := none, forecast := [] }
  { rawText := JS.trim st.rawText
    currentConditions := st.currentConditions
    forecast := st.forecast }

/-! ### Vocabulary for the statements about the forecast scanner -/

/-- The trimmed line starts with the target header token `GMZ040-`. -/
def isTargetHeader (line : List Char) : Bool := JS.startsWith line targetHeader

/-- The trimmed line starts with the generic zone prefix `GMZ` but not with the target
header token. -/
def isOtherZoneHeader (line : List Char) : Bool :=
  JS.startsWith line zonePrefix && !JS.startsWith line targetHeader

/-- The trimmed, non-blank lines of a list of lines. -/
def contentLines (lines : List (List Char)) : List (List Char) :=
  (lines.map JS.trim).filter JS.truthy

/-- The target section among the lines still to be read: from the first target header
line (or from the first line when the section has already been entered) up to, and
without, the first line that is the header of another zone. -/
def sectionFrom (inside : Bool) (lines : List (List Char)) : List (List Char) :=
  let ls := contentLines lines
  (if inside then ls else ls.dropWhile (fun l => !isTargetHeader l)).takeWhile
    (fun l => !isOtherZoneHeader l)

/-- The lines of the target (GMZ040) section of a bulletin. -/
def sectionLines (text : List Char) : List (List Char) :=
  sectionFrom false (JS.split '\n' text)

/-- The wind, seas and weather fields of an entry. -/
def ForecastEntry.conditions (e : ForecastEntry) : CurrentConditions :=
  { wind := e.wind, seas := e.seas, weather := e.weather }

/-! ## Refresh caches (`src/buoyScraper.js`, lines 3-66; `src/server/forecast.js`, lines 3-36) -/

/-- What is thrown inside the `try` blocks of the two fetch functions. -/
inductive FetchError where
  /-- The promise of `axios.get` was rejected. -/
  | request (message : List Char)
  /-- The error `No data received from NOAA`. -/
  | noData
  /-- An error thrown by `parseBuoyData`. -/
  | parse (e : ParseError)
  /-- Reading the global `cachedForecastData` before its first assignment. -/
  | reference
  deriving DecidableEq

/-- The fields of a `BuoyScraper` that `fetchBuoyData` reads and writes.  `cachedData` is
`none` while the property is `undefined`; `lastFetchTime` is `none` while it is `null`. -/
structure BuoyScraper where
  cachedData : Option Snapshot
  lastFetchTime : Option Int
  refreshInterval : Int
  deriving DecidableEq

/-- The state after the constructor. -/
def BuoyScraper.new : BuoyScraper :=
  { cachedData := none, lastFetchTime := none, refreshInterval := 60 * 60 * 1000 }

/-- The test `this.lastFetchTime && (now - this.lastFetchTime) < this.refreshInterval`;
the numbers `null` and `0` are falsy. -/
def BuoyScraper.isFresh (self : BuoyScraper) (now : Int) : Bool :=
  match self.lastFetchTime with
  | some t => t != 0 && decide (now - t < self.refreshInterval)
  | none => false

/-- The producer of `fetchBuoyData`: the statements of the `try` block after the cache
test, on the outcome `response` of `await axios.get(url)` (the text `response.data`, or
the rejection).  The test `!parsedData || !parsedData.latest` never holds for a value
returned by `parseBuoyData`. -/
def fetchAndParse (response : Except FetchError (List Char)) (lastUpdated : List Char) :
    Except FetchError Snapshot :=
  match response with
  | Except.error e => Except.error e
  | Except.ok data =>
    if !JS.truthy data then Except.error FetchError.noData
    else
      match parseBuoyData data lastUpdated with
      | Except.error e => Except.error (FetchError.parse e)
      | Except.ok parsedData => Except.ok parsedData

/-- Method `fetchBuoyData()` at instant `now` (the value of `Date.now()`): the value
returned or the error thrown, and the state afterwards.  A returned `none` is
`undefined`. -/
def fetchBuoyData (self : BuoyScraper) (now : Int) (response : Except FetchError (List Char))
    (lastUpdated : List Char) : Except FetchError (Option Snapshot) × BuoyScraper :=
  if self.isFresh now then (Except.ok self.cachedData, self)
  else
    match fetchAndParse response lastUpdated with
    | Except.ok parsedData =>
      (Except.ok (some parsedData),
        { self with cachedData := some parsedData, lastFetchTime := some now })
    | Except.error error =>
      match self.cachedData with
      | some cached => (Except.ok (some cached), self)
      | none => (Except.error error, self)

/-- The object stored in `cachedForecastData`. -/
structure ForecastBundle where
  timestamp : List Char
  rawText : List Char
  currentConditions : Option CurrentConditions
  forecast : List ForecastEntry
  deriving DecidableEq

/-- The module-level variables of `forecast.js`.  `cachedForecastData` is `none` until
its first assignment. -/
structure ForecastCache where
  lastFetchTime : Option Int
  cachedForecastData : Option ForecastBundle
  deriving DecidableEq

/-- The constant `REFRESH_INTERVAL`. -/
def REFRESH_INTERVAL : Int := 12 * 60 * 60 * 1000

/-- The test `lastFetchTime && (now - lastFetchTime) < REFRESH_INTERVAL`. -/
def ForecastCache.isFresh (vars : ForecastCache) (now : Int) : Bool :=
  match vars.lastFetchTime with
  | some t => t != 0 && decide (now - t < REFRESH_INTERVAL)
  | none => false

/-- Function `scrapeNOAAForecast()` at instant `now`: the value returned or the error
thrown, and the variables afterwards.  `response` is the outcome of `await axios.get(...)`
and `timestamp` the text of `new Date().toISOString()`.  The `catch` block logs and
rethrows. -/
def scrapeNOAAForecast (vars : ForecastCache) (now : Int)
    (response : Except FetchError (List Char)) (timestamp : List Char) :
    Except FetchError ForecastBundle × ForecastCache :=
  if vars.isFresh now then
    match vars.cachedForecastData with
    | some cached => (Except.ok cached, vars)
    | none => (Except.error FetchError.reference, vars)
  else
    match response with
    | Except.error error => (Except.error error, vars)
    | Except.ok text =>
      let forecastData := parseForecastText text
      let bundle : ForecastBundle :=
        { timestamp := timestamp
          rawText := forecastData.rawText
          currentConditions := forecastData.currentConditions
          forecast := forecastData.forecast }
      (Except.ok bundle, { lastFetchTime := some now, cachedForecastData := some bundle })

/-! ### Vocabulary for the statements about period lines -/

/-- A valid period name: `TODAY`, `TONIGHT`, or three capital letters optionally
followed by whitespace and `NIGHT`. -/
def IsPeriodName (label : List Char) : Prop :=
  label = "TODAY".toList ∨ label = "TONIGHT".toList ∨
  ∃ x y z, Regex.isCapital x = true ∧ Regex.isCapital y = true ∧ Regex.isCapital z = true ∧
    (label = [x, y, z] ∨
     ∃ ws, ws ≠ [] ∧ (∀ c ∈ ws, JS.isWhiteSpace c = true) ∧
       label = [x, y, z] ++ ws ++ "NIGHT".toList)

/-- The sixteen compass abbreviations. -/
def compassTokens : List (List Char) := directionMap.map (·.1)

/-- A non-empty string of decimal digits. -/
def IsDigitString (s : List Char) : Prop := s ≠ [] ∧ ∀ c ∈ s, JS.isDigit c = true

/-- A string of ASCII letters and spaces. -/
def IsLettersAndSpaces (s : List Char) : Prop := ∀ c ∈ s, Regex.isLetter c = true ∨ c = ' '

/-- The period line `.<label>...<dir> winds <a> to <b> kt. Seas <c> to <d> ft. <words>.` -/
def periodLine (label dir a b c d words : List Char) : List Char :=
  '.' :: label ++ "...".toList ++ dir ++ " winds ".toList ++ a ++ " to ".toList ++ b ++
    " kt. Seas ".toList ++ c ++ " to ".toList ++ d ++ " ft. ".toList ++ words ++ ['.']

/-! ## Sample inputs -/

/-- The data line of the scenario in the specification. -/
def sampleLine : List Char :=
  "2024 01 15 12 00 180 10.5 12.0 1.2 8.0 7.5 190 1013.2 15.0 14.5".toList

/-- The record of `sampleLine`. -/
def sampleRecord : ParsedRecord :=
  { timestamp := some "2024-01-15T12:00:00.000Z".toList
    windDirection := some (JSNum.fin 180)
    windSpeed := some (JSNum.fin 10.5)
    gustSpeed := some (JSNum.fin 12)
    waveHeight := some (JSNum.ofRat 1.2)
    dominantWavePeriod := some (JSNum.fin 8)
    averageWavePeriod := some (JSNum.fin 7.5)
    meanWaveDirection := some (JSNum.fin 190)
    pressure := some (JSNum.ofRat 1013.2)
    airTemperature := some (JSNum.fin 15)
    waterTemperature := some (JSNum.fin 14.5)
    dewPoint := none
    visibility := none
    pressureTendency := none
    tide := none }

/-- A data line of the sample feed, at minute `mm` past 11:00, with wave height `MM`
(missing). -/
def sampleFeedLine (mm : List Char) : List Char :=
  "2024 01 15 11 ".toList ++ mm ++ " SSW 9.0 MM MM 8.0 7.5 190 1013.2 15.0 14.5".toList

/-- A feed with two header lines, a blank line and fourteen data lines, newest first. -/
def sampleFeed : List Char :=
  "#YY  MM DD hh mm WDIR WSPD GST  WVHT   DPD   APD MWD   PRES  ATMP  WTMP\n".toList ++
  "#yr  mo dy hr mn degT m/s  m/s     m   sec   sec degT   hPa  degC  degC\n".toList ++
  sampleLine ++ "\n\n".toList ++
  sampleFeedLine "50".toList ++ ['\n'] ++ sampleFeedLine "40".toList ++ ['\n'] ++
  sampleFeedLine "30".toList ++ ['\n'] ++ sampleFeedLine "20".toList ++ ['\n'] ++
  sampleFeedLine "10".toList ++ ['\n'] ++ sampleFeedLine "00".toList ++ ['\n'] ++
  sampleFeedLine "09".toList ++ ['\n'] ++ sampleFeedLine "08".toList ++ ['\n'] ++
  sampleFeedLine "07".toList ++ ['\n'] ++ sampleFeedLine "06".toList ++ ['\n'] ++
  sampleFeedLine "05".toList ++ ['\n'] ++ sampleFeedLine "04".toList ++ ['\n'] ++
  sampleFeedLine "03".toList ++ ['\n']

/-- The historical entry of `sampleFeedLine mm`. -/
def sampleEntry (mm : List Char) : HistoricalEntry :=
  { timestamp := some ("2024-01-15T11:".toList ++ mm ++ ":00.000Z".toList)
    windDirection := some (JSNum.fin 202.5)
    windSpeed := some (JSNum.fin 9)
    waveHeight := none
    dominantWavePeriod := some (JSNum.fin 8)
    airTemperature := some (JSNum.fin 15)
    waterTemperature := some (JSNum.fin 14.5) }

/-- The capture instant used with `sampleFeed`. -/
def sampleNow : List Char := "2024-01-15T12:05:00.000Z".toList

/-- The snapshot of `sampleFeed`. -/
def sampleSnapshot : Snapshot :=
  { latest :=
      { timestamp := some "2024-01-15T12:00:00.000Z".toList
        windDirection := some (JSNum.fin 180)
        windSpeed := some (JSNum.fin 10.5)
        waveHeight := some (JSNum.ofRat 1.2)
        dominantWavePeriod := some (JSNum.fin 8)
        airTemperature := some (JSNum.fin 15)
        waterTemperature := some (JSNum.fin 14.5) }
    historical :=
      [sampleEntry "40".toList, sampleEntry "30".toList, sampleEntry "20".toList,
       sampleEntry "10".toList, sampleEntry "00".toList, sampleEntry "09".toList,
       sampleEntry "08".toList, sampleEntry "07".toList, sampleEntry "06".toList,
       sampleEntry "05".toList, sampleEntry "04".toList, sampleEntry "03".toList]
    conditionScore := JSNum.fin 33
    lastUpdated := sampleNow }

/-- A bulletin with a zone before the target zone, a target section with three periods,
and a zone after it. -/
def sampleBulletin : List Char :=
  ("OFFSHORE WATERS FORECAST\n\n" ++
   "GMZ001-151500-\n.TODAY...N winds 5 kt. Seas 1 ft or less.\n\n" ++
   "GMZ040-151500-\nNW GULF INCLUDING STETSON BANK\n\n" ++
   "  .TODAY...SE winds 15 to 20 kt. Seas 4 to 6 ft. Isolated showers.\n" ++
   ".TONIGHT...SE to S winds 15 kt. Seas 3 ft or less.\n" ++
   ".MON...Variable winds 10 kt.\n\n" ++
   "GMZ041-151500-\n.TUE...S winds 10 kt. Seas 2 to 3 ft.\n" ++
   "GMZ040-151500-\n.WED...S winds 10 kt. Seas 2 to 3 ft.\n").toList

/-- The result of `parseForecastText` on `sampleBulletin`. -/
def sampleForecast : ForecastData :=
  { rawText :=
      ("GMZ040-151500-\nNW GULF INCLUDING STETSON BANK\n" ++
       ".TODAY...SE winds 15 to 20 kt. Seas 4 to 6 ft. Isolated showers.\n" ++
       ".TONIGHT...SE to S winds 15 kt. Seas 3 ft or less.\n" ++
       ".MON...Variable winds 10 kt.").toList
    currentConditions := some
      { wind := "SE winds 15 to 20 kt".toList
        seas := "4 to 6 ft".toList
        weather := some "Isolated showers".toList }
    forecast :=
      [{ date := "TODAY".toList
         wind := "SE winds 15 to 20 kt".toList
         seas := "4 to 6 ft".toList
         weather := some "Isolated showers".toList },
       { date := "TONIGHT".toList
         wind := "SE to S winds 15 kt".toList
         seas := "3 ft or less".toList
         weather := none },
       { date := "MON".toList
         wind := "ble winds 10 kt".toList
         seas := "Unknown".toList
         weather := none }] }

/-- The text of `sampleBulletin` up to and with the header of the zone after the target
zone, followed by other text. -/
def sampleBulletinOtherTail : List Char :=
  ("OFFSHORE WATERS FORECAST\n\n" ++
   "GMZ001-151500-\n.TODAY...N winds 5 kt. Seas 1 ft or less.\n\n" ++
   "GMZ040-151500-\nNW GULF INCLUDING STETSON BANK\n\n" ++
   "  .TODAY...SE winds 15 to 20 kt. Seas 4 to 6 ft. Isolated showers.\n" ++
   ".TONIGHT...SE to S winds 15 kt. Seas 3 ft or less.\n" ++
   ".MON...Variable winds 10 kt.\n\n" ++
   "GMZ041-151500-\n" ++
   "GMZ040-990000-\n.THU...N winds 30 kt. Seas 9 to 12 ft. Gales.\nOTHER TEXT").toList

/-- The text of `sampleBulletin` before the header of the zone after the target zone. -/
def sampleBulletinHead : List Char :=
  ("OFFSHORE WATERS FORECAST\n\n" ++
   "GMZ001-151500-\n.TODAY...N winds 5 kt. Seas 1 ft or less.\n\n" ++
   "GMZ040-151500-\nNW GULF INCLUDING STETSON BANK\n\n" ++
   "  .TODAY...SE winds 15 to 20 kt. Seas 4 to 6 ft. Isolated showers.\n" ++
   ".TONIGHT...SE to S winds 15 kt. Seas 3 ft or less.\n" ++
   ".MON...Variable winds 10 kt.\n").toList

/-- A scraper that fetched `sampleSnapshot` at instant 1000. -/
def sampleScraper : BuoyScraper :=
  { cachedData := some sampleSnapshot, lastFetchTime := some 1000, refreshInterval := 3600000 }

/-- A rejected request. -/
def sampleFailure : Except FetchError (List Char) :=
  Except.error (FetchError.request "connect ETIMEDOUT".toList)

/-- The bundle of `sampleForecast` captured at `sampleNow`. -/
def sampleBundle : ForecastBundle :=
  { timestamp := sampleNow
    rawText := sampleForecast.rawText
    currentConditions := sampleForecast.currentConditions
    forecast := sampleForecast.forecast }

/-- The forecast variables after `sampleBundle` was stored at instant 1000. -/
def sampleForecastCache : ForecastCache :=
  { lastFetchTime := some 1000, cachedForecastData := some sampleBundle }

/-- The period line of the scenario in the specification. -/
def samplePeriodLine : List Char :=
  ".TODAY...SE winds 15 to 20 kt. Seas 4 to 6 ft. Isolated showers.".toList

/-- A data line whose direction column holds the number 400. -/
def sampleLineOutOfRange : List Char :=
  "2024 01 15 12 00 400 10.5 12.0 1.2 8.0 7.5 190 1013.2 15.0 14.5".toList

/-- A number of degrees on the compass circle: finite and between 0 and 360. -/
def IsDegrees (d : JSNum) : Prop :=
  ∃ q : ℚ, d = JSNum.fin q ∧ 0 ≤ q ∧ q ≤ 360

/-- A token that passes the test `!x` of `parseTimestamp`: present and not empty. -/
def IsPresent (token : Option (List Char)) : Prop :=
  ∃ s, token = some s ∧ s ≠ []

/-- The time value in milliseconds that ECMAScript gives to integer fields, before it is
clipped: whole months and days are counted from the fields as they are, so a month above
12 or a day beyond the end of its month runs over into the following year or month. -/
def timeValue (year month day hour minute : Int) : Int :=
  JS.dayNumber (if 0 ≤ year ∧ year ≤ 99 then 1900 + year else year) (month - 1) day * 86400000 +
    (hour * 3600000 + minute * 60000)

/-- Text of an optional sign: none, `+` (`some false`) or `-` (`some true`). -/
def signText : Option Bool → List Char
  | none => []
  | some false => ['+']
  | some true => ['-']

/-- The text starts, after leading whitespace and an optional sign, with `Infinity`, with
a digit, or with a point followed by a digit: it has a prefix that is a number. -/
def HasNumericPrefix (v : List Char) : Prop :=
  ∃ ws sign body rest, v = ws ++ (signText sign ++ (body ++ rest)) ∧
    (∀ c ∈ ws, JS.isWhiteSpace c = true) ∧
    (body = "Infinity".toList ∨
      ∃ d, JS.isDigit d = true ∧ (body = [d] ∨ body = ['.', d]))

/-- The text starts with what `parseInt` reads as an integer: `0x` or `0X` and a
hexadecimal digit, or a decimal digit that is not the `0` of a `0x` or `0X`. -/
def IsIntegerStart (u : List Char) : Prop :=
  (∃ x h r, (x = 'x' ∨ x = 'X') ∧ (JS.hexDigit? h).isSome = true ∧ u = '0' :: x :: h :: r) ∨
  (∃ d r, JS.isDigit d = true ∧ u = d :: r ∧
    ¬ (d = '0' ∧ ∃ x r', (x = 'x' ∨ x = 'X') ∧ r = x :: r'))

/-- The text has, after leading whitespace and an optional sign, the start of an integer. -/
def HasIntegerPrefix (v : List Char) : Prop :=
  ∃ ws sign u, v = ws ++ (signText sign ++ u) ∧ (∀ c ∈ ws, JS.isWhiteSpace c = true) ∧
    IsIntegerStart u

/-- A decimal literal in its parts: an optional sign, the digits before the point, the
digits after the point when there is a point, and an exponent part when there is one (its
letter, optional sign and digits). -/
structure DecimalLiteral where
  sign : Option Bool
  intDigits : List Char
  fraction : Option (List Char)
  exponent : Option (Char × Option Bool × List Char)

/-- Text of an optional fraction: the point and the digits after it. -/
def fractionText : Option (List Char) → List Char
  | none => []
  | some fp => '.' :: fp

/-- Value of an optional fraction: its digits read after the point. -/
def fractionValue : Option (List Char) → ℚ
  | none => 0
  | some fp => (JS.digitsValue fp : ℚ) / (10 : ℚ) ^ fp.length

/-- Text of an optional exponent part: the letter, the optional sign and the digits. -/
def exponentText : Option (Char × Option Bool × List Char) → List Char
  | none => []
  | some (e, s, ed) => e :: (signText s ++ ed)

/-- Value of an optional exponent part: the signed value of its digits. -/
def exponentValue : Option (Char × Option Bool × List Char) → Int
  | none => 0
  | some (_, s, ed) => if s = some true then -(JS.digitsValue ed : Int) else JS.digitsValue ed

/-- The text of a decimal literal. -/
def DecimalLiteral.text (lit : DecimalLiteral) : List Char :=
  signText lit.sign ++ (lit.intDigits ++ (fractionText lit.fraction ++ exponentText lit.exponent))

/-- The parts form a real-number literal: digits where digits are due, at least one digit
before or after the point, and an exponent with the letter `e` or `E` and at least one
digit. -/
def DecimalLiteral.WellFormed (lit : DecimalLiteral) : Prop :=
  (∀ c ∈ lit.intDigits, JS.isDigit c = true) ∧
  (∀ fp, lit.fraction = some fp → ∀ c ∈ fp, JS.isDigit c = true) ∧
  (lit.intDigits ≠ [] ∨ ∃ fp, lit.fraction = some fp ∧ fp ≠ []) ∧
  (∀ e s ed, lit.exponent = some (e, s, ed) →
    (e = 'e' ∨ e = 'E') ∧ ed ≠ [] ∧ ∀ c ∈ ed, JS.isDigit c = true)

/-- The real number a decimal literal denotes: integer part plus fraction, scaled by the
power of ten of the exponent, with the sign. -/
def DecimalLiteral.value (lit : DecimalLiteral) : ℚ :=
  (if lit.sign = some true then -1 else 1) *
    (((JS.digitsValue lit.intDigits : ℚ) + fractionValue lit.fraction) *
      (10 : ℚ) ^ exponentValue lit.exponent)

/-- The literal `-12.5e2`. -/
def sampleLiteral : DecimalLiteral :=
  { sign := some true
    intDigits := "12".toList
    fraction := some "5".toList
    exponent := some ('e', none, "2".toList) }

/-- The literal `0.1`. -/
def sampleTenth : DecimalLiteral :=
  { sign := none
    intDigits := "0".toList
    fraction := some "1".toList
    exponent := none }

/-- The literal `1e-400`. -/
def sampleTiny : DecimalLiteral :=
  { sign := none
    intDigits := "1".toList
    fraction := none
    exponent := some ('e', some true, "400".toList) }

/-- Every way of writing a text of upper-case ASCII letters with each letter in upper or
in lower case. -/
def caseVariants : List Char → List (List Char)
  | [] => [[]]
  | c :: cs =>
    (caseVariants cs).map (c :: ·) ++ (caseVariants cs).map (Char.ofNat (c.toNat + 32) :: ·)

/-- Clamp of a real number to the interval from 0 to 1. -/
def clamp01 (x : ℚ) : ℚ := max 0 (min 1 x)

/-- The integer nearest to `x`, the upper one when `x` lies half-way between two. -/
def roundNearest (x : ℚ) : ℤ := ⌊x + 1 / 2⌋

/-- The score of the specification for a wave height `w` and a wind speed `s`. -/
def scoreFormula (w s : ℚ) : ℤ := roundNearest (100 * (clamp01 (w / 5) + clamp01 (s / 25)) / 2)

/-- An input of `calculateConditionScore` with the given wave height and wind speed. -/
def scoreInput (waveHeight windSpeed : Option JSNum) : LatestData :=
  { timestamp := none
    windDirection := none
    windSpeed := windSpeed
    waveHeight := waveHeight
    dominantWavePeriod := none
    airTemperature := none
    waterTemperature := none }

/-! ### Vocabulary for the statements about the three extractors -/

/-- Declarative reading of an expression: `Matches re m rest delta` says that `re` matches
the text `m` when `rest` follows it, and that the groups crossed record the captures
`delta`, most recent first.  The text after the match matters only to `eos`. -/
def Regex.Matches : Regex → List Char → List Char → Captures → Prop
  | Regex.empty, m, _, delta => m = [] ∧ delta = []
  | Regex.cls p, m, _, delta => (∃ c, p c = true ∧ m = [c]) ∧ delta = []
  | Regex.seq a b, m, rest, delta =>
    ∃ m1 m2 d1 d2, m = m1 ++ m2 ∧ Regex.Matches a m1 (m2 ++ rest) d1 ∧
      Regex.Matches b m2 rest d2 ∧ delta = d2 ++ d1
  | Regex.alt a b, m, rest, delta => Regex.Matches a m rest delta ∨ Regex.Matches b m rest delta
  | Regex.opt a, m, rest, delta => Regex.Matches a m rest delta ∨ (m = [] ∧ delta = [])
  | Regex.rep p min max, m, _, delta =>
    ((∀ c ∈ m, p c = true) ∧ min ≤ m.length ∧ ∀ n, max = some n → m.length ≤ n) ∧ delta = []
  | Regex.group n a, m, rest, delta => ∃ d, Regex.Matches a m rest d ∧ delta = (n, m) :: d
  | Regex.eos, m, rest, delta => (m = [] ∧ rest = []) ∧ delta = []

/-- The text contains a match of the expression: it is `pre ++ m ++ rest` with `m` matched
by `re` in front of `rest`. -/
def Regex.Occurs (re : Regex) (text : List Char) : Prop :=
  ∃ pre m rest delta, text = pre ++ (m ++ rest) ∧ Regex.Matches re m rest delta

/-- A non-empty run of whitespace: what `\s+` matches. -/
def IsBlank (ws : List Char) : Prop := ws ≠ [] ∧ ∀ c ∈ ws, JS.isWhiteSpace c = true

/-- The text is the word, letter by letter, each letter in either case: what a literal
matches under the `i` flag. -/
def IsWord (word : String) (s : List Char) : Prop :=
  List.Forall₂ (fun x c => x = c.toLower ∨ x = c.toUpper) s word.toList

/-- One to three ASCII letters of either case: what `[A-Z]{1,3}` matches under the `i`
flag. -/
def IsLetterToken (t : List Char) : Prop :=
  (∀ c ∈ t, Regex.isLetter c = true) ∧ 1 ≤ t.length ∧ t.length ≤ 3

/-- The optional second member ` to <x>` of a pair, as it stands in the text: nothing, or
whitespace, the word `to`, whitespace and `x`, where `x` satisfies `P`. -/
def IsJoined (P : List Char → Prop) (tail : List Char) (parts : Option (List Char × List Char)) :
    Prop :=
  match parts with
  | none => tail = []
  | some (tw, x) =>
    ∃ ws1 ws2, tail = ws1 ++ (tw ++ (ws2 ++ x)) ∧ IsBlank ws1 ∧ IsWord "to" tw ∧ IsBlank ws2 ∧ P x

/-- The direction part of a wind phrase: a letter token, or two joined by `to`. -/
def IsDirectionPart (dir t1 : List Char) (second : Option (List Char × List Char)) : Prop :=
  ∃ tail, dir = t1 ++ tail ∧ IsLetterToken t1 ∧ IsJoined IsLetterToken tail second

/-- The speed part of a wind phrase: a number, or two joined by `to`, then `kt`. -/
def IsSpeedPart (speed n : List Char) (second : Option (List Char × List Char))
    (kt : List Char) : Prop :=
  ∃ tail ws, speed = n ++ (tail ++ (ws ++ kt)) ∧ IsDigitString n ∧
    IsJoined IsDigitString tail second ∧ IsBlank ws ∧ IsWord "kt" kt

/-- A wind phrase with direction part `dir` and speed part `speed`: the direction, the
word `wind` or `winds`, and the speed, separated by whitespace. -/
def IsWindPhrase (phrase dir speed : List Char) : Prop :=
  ∃ ws1 w ws2, phrase = dir ++ (ws1 ++ (w ++ (ws2 ++ speed))) ∧
    (∃ t1 second, IsDirectionPart dir t1 second) ∧ IsBlank ws1 ∧
    (IsWord "wind" w ∨ IsWord "winds" w) ∧ IsBlank ws2 ∧
    (∃ n second kt, IsSpeedPart speed n second kt)

/-- The height part of a seas phrase: `N to M ft` or `N ft or less`. -/
def IsHeightPart (h : List Char) : Prop :=
  (∃ n ws1 tw ws2 m ws3 ft, h = n ++ (ws1 ++ (tw ++ (ws2 ++ (m ++ (ws3 ++ ft))))) ∧
    IsDigitString n ∧ IsBlank ws1 ∧ IsWord "to" tw ∧ IsBlank ws2 ∧ IsDigitString m ∧
    IsBlank ws3 ∧ IsWord "ft" ft) ∨
  (∃ n ws1 ft ws2 ow ws3 less, h = n ++ (ws1 ++ (ft ++ (ws2 ++ (ow ++ (ws3 ++ less))))) ∧
    IsDigitString n ∧ IsBlank ws1 ∧ IsWord "ft" ft ∧ IsBlank ws2 ∧ IsWord "or" ow ∧
    IsBlank ws3 ∧ IsWord "less" less)

/-- A seas phrase with height part `h`: the word `seas`, whitespace and the height. -/
def IsSeasPhrase (phrase h : List Char) : Prop :=
  ∃ seas ws, phrase = seas ++ (ws ++ h) ∧ IsWord "seas" seas ∧ IsBlank ws ∧ IsHeightPart h

/-- A clause between two periods: a non-empty run of ASCII letters and whitespace. -/
def IsClause (clause : List Char) : Prop :=
  clause ≠ [] ∧ ∀ c ∈ clause, Regex.isLetter c = true ∨ JS.isWhiteSpace c = true

/-- The text an optional second member of a pair takes in the result of `extractWind`:
nothing, or ` to <x>` with single spaces. -/
def joinedText : Option (List Char × List Char) → List Char
  | none => []
  | some (tw, x) => ' ' :: (tw ++ ' ' :: x)

/-- The phrase `<t1>[ to <t2>] winds <n>[ to <m>] <kt>` with single spaces. -/
def windText (t1 : List Char) (second : Option (List Char × List Char)) (n : List Char)
    (range : Option (List Char × List Char)) (kt : List Char) : List Char :=
  t1 ++ (joinedText second ++ (" winds ".toList ++ (n ++ (joinedText range ++ ' ' :: kt))))

/-- One of the sixteen compass abbreviations of `directionMap`, each letter in either
case. -/
def IsCompassToken (t : List Char) : Prop := ∃ dir ∈ compassTokens, IsWord (String.mk dir) t

/-- The direction part of a wind phrase of the specified form: a compass token, or two
joined by `to`. -/
def IsCompassDirection (dir : List Char) : Prop :=
  ∃ t1 tail second, dir = t1 ++ tail ∧ IsCompassToken t1 ∧ IsJoined IsCompassToken tail second

/-- A wind phrase of the specified form, with direction part `dir` and speed part `speed`:
one or two compass tokens, the word `wind` or `winds`, and the speed, separated by
whitespace. -/
def IsCompassWindPhrase (phrase dir speed : List Char) : Prop :=
  ∃ ws1 w ws2, phrase = dir ++ (ws1 ++ (w ++ (ws2 ++ speed))) ∧
    IsCompassDirection dir ∧ IsBlank ws1 ∧
    (IsWord "wind" w ∨ IsWord "winds" w) ∧ IsBlank ws2 ∧
    (∃ n second kt, IsSpeedPart speed n second kt)

/-- The alternation `(?:N|NNE|NE|...|NNW)` of the sixteen compass abbreviations under the
`i` flag. -/
def compassTokenPattern : Regex :=
  compassTokens.foldr (fun dir r => Regex.alt (Regex.litI (String.mk dir)) r)
    (Regex.cls (fun _ => false))

/-- The wind pattern of the specification: the pattern of `extractWind` with the compass
alternation in the place of `[A-Z]{1,3}`. -/
def compassWindPattern : Regex :=
  Regex.cat [
    Regex.group 1 (Regex.seq compassTokenPattern
      (Regex.opt (Regex.cat [Regex.spaces, Regex.litI "to", Regex.spaces,
        compassTokenPattern]))),
    Regex.spaces,
    Regex.litI "wind",
    Regex.opt (Regex.chrI 's'),
    Regex.spaces,
    Regex.group 2 (Regex.cat [
      Regex.digits,
      Regex.opt (Regex.cat [Regex.spaces, Regex.litI "to", Regex.spaces, Regex.digits]),
      Regex.spaces,
      Regex.litI "kt"])]

/-- The comparison `a <= b` of two numbers; it is false when either is NaN. -/
def JSNum.le : JSNum → JSNum → Bool
  | JSNum.nan, _ => false
  | _, JSNum.nan => false
  | JSNum.negInf, _ => true
  | _, JSNum.posInf => true
  | JSNum.posInf, _ => false
  | _, JSNum.negInf => false
  | JSNum.fin a, JSNum.fin b => decide (a ≤ b)

/-- The share of the ceiling `c` that a number reaches, between 0 and 1: for a finite
`v` the clamp of the double quotient of the double `v` by `c`, the ends for the infinities,
and the middle for NaN. -/
def unitShare (v : JSNum) (c : ℚ) : ℚ :=
  match v with
  | JSNum.nan => 1 / 2
  | JSNum.negInf => 0
  | JSNum.posInf => 1
  | JSNum.fin q => clamp01 (JSNum.nearest (JSNum.nearest q / c))

/-- The product `averageBadness * 100` of two normalised values `a` and `b`, the sum, the
halving and the product each rounded to a double. -/
def scoreValue (a b : ℚ) : ℚ := JSNum.nearest (JSNum.nearest (JSNum.nearest (a + b) / 2) * 100)

/-! ## Lemmas on rounding to the nearest double -/

theorem JSNum.ilog2Aux_eq (fuel n : ℕ) (h : n ≤ fuel) : JSNum.ilog2Aux fuel n = Nat.log2 n := by
  induction fuel generalizing n with
  | zero =>
    have : n = 0 := by omega
    subst this
    rw [Nat.log2]
    simp [JSNum.ilog2Aux]
  | succ f ih =>
    rw [JSNum.ilog2Aux, Nat.log2]
    by_cases h2 : n < 2
    · have h3 : ¬ n ≥ 2 := by omega
      simp [h2, h3]
    · have h3 : n ≥ 2 := by omega
      simp only [h2, h3, if_true, if_false]
      rw [ih (n / 2) (by omega)]

theorem JSNum.ilog2_eq (n : ℕ) : JSNum.ilog2 n = Nat.log2 n :=
  JSNum.ilog2Aux_eq n n (le_refl n)

/-- The leading binary digit brackets a positive number. -/
theorem JSNum.ilog2_spec (n : ℕ) (h : n ≠ 0) :
    2 ^ JSNum.ilog2 n ≤ n ∧ n < 2 ^ (JSNum.ilog2 n + 1) := by
  rw [JSNum.ilog2_eq]
  exact ⟨Nat.log2_self_le h, Nat.lt_log2_self⟩

theorem JSNum.roundHalfEven_intCast (n : ℤ) : JSNum.roundHalfEven (n : ℚ) = n := by
  unfold JSNum.roundHalfEven
  simp

theorem JSNum.roundHalfEven_floor_le (x : ℚ) : ⌊x⌋ ≤ JSNum.roundHalfEven x := by
  unfold JSNum.roundHalfEven
  simp only
  split_ifs <;> omega

theorem JSNum.roundHalfEven_le_floor_succ (x : ℚ) : JSNum.roundHalfEven x ≤ ⌊x⌋ + 1 := by
  unfold JSNum.roundHalfEven
  simp only
  split_ifs <;> omega

/-- Rounding moves a number by at most one half. -/
theorem JSNum.roundHalfEven_abs_sub_le (x : ℚ) : |(JSNum.roundHalfEven x : ℚ) - x| ≤ 1 / 2 := by
  have h1 := Int.floor_le x
  have h2 := Int.lt_floor_add_one x
  unfold JSNum.roundHalfEven
  simp only
  rw [abs_le]
  split_ifs with ha hb hc
  · constructor <;> linarith
  · push_cast
    constructor <;> linarith
  · constructor <;> linarith
  · push_cast
    constructor <;> linarith

theorem JSNum.roundHalfEven_mono (x y : ℚ) (h : x ≤ y) :
    JSNum.roundHalfEven x ≤ JSNum.roundHalfEven y := by
  have hf : ⌊x⌋ ≤ ⌊y⌋ := Int.floor_mono h
  rcases hf.lt_or_eq with hlt | heq
  · calc JSNum.roundHalfEven x ≤ ⌊x⌋ + 1 := JSNum.roundHalfEven_le_floor_succ x
      _ ≤ ⌊y⌋ := hlt
      _ ≤ JSNum.roundHalfEven y := JSNum.roundHalfEven_floor_le y
  · unfold JSNum.roundHalfEven
    simp only
    rw [heq]
    have hxy : x - (⌊y⌋ : ℚ) ≤ y - (⌊y⌋ : ℚ) := by linarith
    split_ifs <;> first | omega | (exfalso; linarith)

theorem JSNum.roundHalfEven_neg (x : ℚ) : JSNum.roundHalfEven (-x) = -JSNum.roundHalfEven x := by
  have h1 := Int.floor_le x
  have h2 := Int.lt_floor_add_one x
  by_cases hint : (⌊x⌋ : ℚ) = x
  · rw [← hint, ← Int.cast_neg, JSNum.roundHalfEven_intCast, JSNum.roundHalfEven_intCast]
  · have hlt : (⌊x⌋ : ℚ) < x := lt_of_le_of_ne h1 hint
    have hfl : ⌊-x⌋ = -⌊x⌋ - 1 := by
      rw [Int.floor_eq_iff]
      push_cast
      constructor <;> linarith
    unfold JSNum.roundHalfEven
    simp only
    rw [hfl]
    push_cast
    split_ifs <;> first | omega | (exfalso; linarith)

/-- An integer below the number is below its rounding, and one above is above. -/
theorem JSNum.le_roundHalfEven (n : ℤ) (x : ℚ) (h : (n : ℚ) ≤ x) : n ≤ JSNum.roundHalfEven x := by
  have := JSNum.roundHalfEven_mono _ _ h
  rwa [JSNum.roundHalfEven_intCast] at this

theorem JSNum.roundHalfEven_le (n : ℤ) (x : ℚ) (h : x ≤ (n : ℚ)) : JSNum.roundHalfEven x ≤ n := by
  have := JSNum.roundHalfEven_mono _ _ h
  rwa [JSNum.roundHalfEven_intCast] at this

/-- A positive rational lies between the powers of two given by its binary exponent. -/
theorem JSNum.binade_spec (q : ℚ) (hq : 0 < q) :
    (2 : ℚ) ^ JSNum.binade q ≤ q ∧ q < (2 : ℚ) ^ (JSNum.binade q + 1) := by
  have hnum : 0 < q.num := Rat.num_pos.mpr hq
  have hn0 : q.num.natAbs ≠ 0 := by omega
  obtain ⟨ha1, ha2⟩ := JSNum.ilog2_spec _ hn0
  obtain ⟨hb1, hb2⟩ := JSNum.ilog2_spec _ q.den_nz
  have hN : ((q.num.natAbs : ℕ) : ℚ) = (q.num : ℚ) := by
    rw [Nat.cast_natAbs, abs_of_pos hnum]
  have hq' : q = ((q.num.natAbs : ℕ) : ℚ) / (q.den : ℚ) := by
    rw [hN]
    exact (Rat.num_div_den q).symm
  unfold JSNum.binade
  simp only
  generalize JSNum.ilog2 q.num.natAbs = a at ha1 ha2
  generalize JSNum.ilog2 q.den = b at hb1 hb2
  have hD : (0 : ℚ) < (q.den : ℚ) := by exact_mod_cast q.den_pos
  have ha1' : (2 : ℚ) ^ a ≤ ((q.num.natAbs : ℕ) : ℚ) := by exact_mod_cast ha1
  have ha2' : ((q.num.natAbs : ℕ) : ℚ) < (2 : ℚ) ^ (a + 1) := by exact_mod_cast ha2
  have hb1' : (2 : ℚ) ^ b ≤ (q.den : ℚ) := by exact_mod_cast hb1
  have hb2' : (q.den : ℚ) < (2 : ℚ) ^ (b + 1) := by exact_mod_cast hb2
  have hpa : (0 : ℚ) < (2 : ℚ) ^ a := by positivity
  have hpb : (0 : ℚ) < (2 : ℚ) ^ b := by positivity
  have e1 : (2 : ℚ) ^ ((a : ℤ) - (b : ℤ)) = (2 : ℚ) ^ a / (2 : ℚ) ^ b := by
    rw [zpow_sub₀ (by norm_num : (2 : ℚ) ≠ 0), zpow_natCast, zpow_natCast]
  have hup : q < (2 : ℚ) ^ ((a : ℤ) - (b : ℤ) + 1) := by
    rw [zpow_add_one₀ (by norm_num : (2 : ℚ) ≠ 0), e1, hq', div_lt_iff₀ hD]
    have : (2 : ℚ) ^ a / (2 : ℚ) ^ b * 2 * (q.den : ℚ) =
        (2 : ℚ) ^ (a + 1) * ((q.den : ℚ) / (2 : ℚ) ^ b) := by
      field_simp
      ring
    rw [this]
    have h1 : (1 : ℚ) ≤ (q.den : ℚ) / (2 : ℚ) ^ b := by
      rw [le_div_iff₀ hpb]
      linarith
    nlinarith [pow_pos (by norm_num : (0 : ℚ) < 2) (a + 1)]
  have hlow : (2 : ℚ) ^ ((a : ℤ) - (b : ℤ) - 1) ≤ q := by
    rw [zpow_sub_one₀ (by norm_num : (2 : ℚ) ≠ 0), e1, hq', le_div_iff₀ hD]
    have : (2 : ℚ) ^ a / (2 : ℚ) ^ b * 2⁻¹ * (q.den : ℚ) =
        (2 : ℚ) ^ a * ((q.den : ℚ) / (2 : ℚ) ^ (b + 1)) := by
      field_simp
      ring
    rw [this]
    have h1 : (q.den : ℚ) / (2 : ℚ) ^ (b + 1) ≤ 1 := by
      rw [div_le_iff₀ (by positivity)]
      linarith
    nlinarith
  split_ifs with h
  · exact ⟨h, hup⟩
  · refine ⟨hlow, ?_⟩
    rw [sub_add_cancel]
    exact lt_of_not_le h

/-- The binary exponent is the only one whose powers of two bracket the number. -/
theorem JSNum.binade_eq (q : ℚ) (e : ℤ) (h1 : (2 : ℚ) ^ e ≤ q) (h2 : q < (2 : ℚ) ^ (e + 1)) :
    JSNum.binade q = e := by
  have hq : 0 < q := lt_of_lt_of_le (zpow_pos (by norm_num) e) h1
  obtain ⟨s1, s2⟩ := JSNum.binade_spec q hq
  have a1 : JSNum.binade q < e + 1 :=
    (zpow_lt_zpow_iff_right₀ (by norm_num : (1 : ℚ) < 2)).mp (lt_of_le_of_lt s1 h2)
  have a2 : e < JSNum.binade q + 1 :=
    (zpow_lt_zpow_iff_right₀ (by norm_num : (1 : ℚ) < 2)).mp (lt_of_le_of_lt h1 s2)
  omega

theorem JSNum.binade_lt (q : ℚ) (e : ℤ) (hq : 0 < q) (h2 : q < (2 : ℚ) ^ e) :
    JSNum.binade q < e := by
  obtain ⟨s1, -⟩ := JSNum.binade_spec q hq
  exact (zpow_lt_zpow_iff_right₀ (by norm_num : (1 : ℚ) < 2)).mp (lt_of_le_of_lt s1 h2)

theorem JSNum.le_binade (q : ℚ) (e : ℤ) (h1 : (2 : ℚ) ^ e ≤ q) : e ≤ JSNum.binade q := by
  have hq : 0 < q := lt_of_lt_of_le (zpow_pos (by norm_num) e) h1
  obtain ⟨-, s2⟩ := JSNum.binade_spec q hq
  have := (zpow_lt_zpow_iff_right₀ (by norm_num : (1 : ℚ) < 2)).mp (lt_of_le_of_lt h1 s2)
  omega

theorem JSNum.binade_mono (q r : ℚ) (hq : 0 < q) (h : q ≤ r) :
    JSNum.binade q ≤ JSNum.binade r :=
  JSNum.le_binade r _ (le_trans (JSNum.binade_spec q hq).1 h)

theorem JSNum.binade_zero : JSNum.binade 0 = -1 := by decide!

/-- Exponent of the spacing: `ulp q = 2 ^ ulpExp q`. -/
theorem JSNum.ulp_pos (q : ℚ) : 0 < JSNum.ulp q := by
  unfold JSNum.ulp
  exact zpow_pos (by norm_num) _

theorem JSNum.ulp_neg (q : ℚ) : JSNum.ulp (-q) = JSNum.ulp q := by
  unfold JSNum.ulp
  rw [abs_neg]

theorem JSNum.nearest_neg (q : ℚ) : JSNum.nearest (-q) = -JSNum.nearest q := by
  unfold JSNum.nearest
  rw [JSNum.ulp_neg, neg_div, JSNum.roundHalfEven_neg]
  push_cast
  ring

theorem JSNum.nearest_zero : JSNum.nearest 0 = 0 := by
  unfold JSNum.nearest
  simp [JSNum.roundHalfEven]

/-- Rounding to a double moves a number by at most half the spacing. -/
theorem JSNum.nearest_abs_sub_le (q : ℚ) : |JSNum.nearest q - q| ≤ JSNum.ulp q / 2 := by
  have hu := JSNum.ulp_pos q
  have h := JSNum.roundHalfEven_abs_sub_le (q / JSNum.ulp q)
  unfold JSNum.nearest
  have e : JSNum.ulp q * (JSNum.roundHalfEven (q / JSNum.ulp q) : ℚ) - q =
      JSNum.ulp q * ((JSNum.roundHalfEven (q / JSNum.ulp q) : ℚ) - q / JSNum.ulp q) := by
    field_simp
    ring
  rw [e, abs_mul, abs_of_pos hu]
  calc JSNum.ulp q * |(JSNum.roundHalfEven (q / JSNum.ulp q) : ℚ) - q / JSNum.ulp q|
      ≤ JSNum.ulp q * (1 / 2) := mul_le_mul_of_nonneg_left h hu.le
    _ = JSNum.ulp q / 2 := by ring

/-- A multiple of the spacing of `q` that is below `q` is below the double nearest to `q`. -/
theorem JSNum.le_nearest_of_grid (q d : ℚ) (n : ℤ) (hd : d = JSNum.ulp q * n) (h : d ≤ q) :
    d ≤ JSNum.nearest q := by
  have hu := JSNum.ulp_pos q
  unfold JSNum.nearest
  rw [hd]
  apply mul_le_mul_of_nonneg_left _ hu.le
  have : (n : ℚ) ≤ q / JSNum.ulp q := by
    rw [le_div_iff₀ hu, mul_comm, ← hd]
    exact h
  exact_mod_cast JSNum.le_roundHalfEven n _ this

theorem JSNum.nearest_le_of_grid (q d : ℚ) (n : ℤ) (hd : d = JSNum.ulp q * n) (h : q ≤ d) :
    JSNum.nearest q ≤ d := by
  have hu := JSNum.ulp_pos q
  unfold JSNum.nearest
  rw [hd]
  apply mul_le_mul_of_nonneg_left _ hu.le
  have : q / JSNum.ulp q ≤ (n : ℚ) := by
    rw [div_le_iff₀ hu, mul_comm, ← hd]
    exact h
  exact_mod_cast JSNum.roundHalfEven_le n _ this

theorem JSNum.nearest_nonneg (q : ℚ) (h : 0 ≤ q) : 0 ≤ JSNum.nearest q :=
  JSNum.le_nearest_of_grid q 0 0 (by simp) h

theorem JSNum.nearest_nonpos (q : ℚ) (h : q ≤ 0) : JSNum.nearest q ≤ 0 :=
  JSNum.nearest_le_of_grid q 0 0 (by simp) h

theorem JSNum.roundHalfEven_of_lt_half (n : ℤ) (x : ℚ) (h1 : (n : ℚ) ≤ x)
    (h2 : x < (n : ℚ) + 1 / 2) : JSNum.roundHalfEven x = n := by
  have hf : ⌊x⌋ = n := by
    rw [Int.floor_eq_iff]
    constructor <;> linarith
  unfold JSNum.roundHalfEven
  simp only
  rw [hf, if_pos (by linarith)]

/-- A multiple of its own spacing is a double: rounding leaves it as it is. -/
theorem JSNum.nearest_of_grid (q : ℚ) (n : ℤ) (h : q = JSNum.ulp q * n) : JSNum.nearest q = q := by
  have hu := JSNum.ulp_pos q
  unfold JSNum.nearest
  have : q / JSNum.ulp q = (n : ℚ) := by
    rw [div_eq_iff hu.ne.symm, mul_comm]
    exact h
  rw [this, JSNum.roundHalfEven_intCast]
  exact h.symm

/-- Exponent of the spacing of the doubles around `q`. -/
theorem JSNum.ulp_eq (q : ℚ) :
    JSNum.ulp q = (2 : ℚ) ^ (Max.max (JSNum.binade |q|) (-1022) - 52) := rfl

/-- The spacing grows with the magnitude. -/
theorem JSNum.ulp_mono (q r : ℚ) (hq : q ≠ 0) (h : |q| ≤ |r|) : JSNum.ulp q ≤ JSNum.ulp r := by
  have hb := JSNum.binade_mono |q| |r| (abs_pos.mpr hq) h
  rw [JSNum.ulp_eq, JSNum.ulp_eq]
  apply zpow_le_zpow_right₀ (by norm_num)
  omega

/-- Rounding to the nearest double is monotone on positive numbers. -/
theorem JSNum.nearest_mono_pos (q r : ℚ) (hq : 0 < q) (h : q ≤ r) :
    JSNum.nearest q ≤ JSNum.nearest r := by
  have hr : 0 < r := lt_of_lt_of_le hq h
  have hb := JSNum.binade_mono q r hq h
  have huq : JSNum.ulp q = (2 : ℚ) ^ (Max.max (JSNum.binade q) (-1022) - 52) := by
    rw [JSNum.ulp_eq, abs_of_pos hq]
  have hur : JSNum.ulp r = (2 : ℚ) ^ (Max.max (JSNum.binade r) (-1022) - 52) := by
    rw [JSNum.ulp_eq, abs_of_pos hr]
  have two : (2 : ℚ) ≠ 0 := by norm_num
  by_cases he : Max.max (JSNum.binade q) (-1022) = Max.max (JSNum.binade r) (-1022)
  · have hu : JSNum.ulp q = JSNum.ulp r := by rw [huq, hur, he]
    have hpos := JSNum.ulp_pos r
    unfold JSNum.nearest
    rw [hu]
    apply mul_le_mul_of_nonneg_left _ hpos.le
    exact_mod_cast JSNum.roundHalfEven_mono _ _ (div_le_div_of_nonneg_right h hpos.le)
  · have hlt : Max.max (JSNum.binade q) (-1022) < Max.max (JSNum.binade r) (-1022) := by omega
    have her : Max.max (JSNum.binade r) (-1022) = JSNum.binade r := by omega
    obtain ⟨-, sq⟩ := JSNum.binade_spec q hq
    obtain ⟨sr, -⟩ := JSNum.binade_spec r hr
    have h1 : JSNum.nearest q ≤ (2 : ℚ) ^ (Max.max (JSNum.binade q) (-1022) + 1) := by
      apply JSNum.nearest_le_of_grid q _ (2 ^ 53)
      · rw [huq, show Max.max (JSNum.binade q) (-1022) + 1 =
          (Max.max (JSNum.binade q) (-1022) - 52) + 53 by ring, zpow_add₀ two]
        norm_num
      · apply le_trans sq.le
        apply zpow_le_zpow_right₀ (by norm_num)
        omega
    have h2 : (2 : ℚ) ^ (JSNum.binade r) ≤ JSNum.nearest r := by
      apply JSNum.le_nearest_of_grid r _ (2 ^ 52)
      · rw [hur, her]
        nth_rewrite 1 [show JSNum.binade r = (JSNum.binade r - 52) + 52 by ring]
        rw [zpow_add₀ two]
        norm_num
      · exact sr
    have h3 : (2 : ℚ) ^ (Max.max (JSNum.binade q) (-1022) + 1) ≤ (2 : ℚ) ^ (JSNum.binade r) := by
      apply zpow_le_zpow_right₀ (by norm_num)
      omega
    linarith

/-- Rounding to the nearest double is monotone. -/
theorem JSNum.nearest_mono (q r : ℚ) (h : q ≤ r) : JSNum.nearest q ≤ JSNum.nearest r := by
  rcases lt_or_le 0 q with hq | hq
  · exact JSNum.nearest_mono_pos q r hq h
  · rcases lt_or_le r 0 with hr | hr
    · have := JSNum.nearest_mono_pos (-r) (-q) (by linarith) (by linarith)
      rw [JSNum.nearest_neg, JSNum.nearest_neg] at this
      linarith
    · exact le_trans (JSNum.nearest_nonpos q hq) (JSNum.nearest_nonneg r hr)

/-- Every double is a whole multiple of the smallest positive double `2^-1074`. -/
theorem JSNum.nearest_multiple (q : ℚ) : ∃ m : ℤ, JSNum.nearest q = (2 : ℚ) ^ (-1074 : ℤ) * m := by
  have two : (2 : ℚ) ≠ 0 := by norm_num
  obtain ⟨k, hk⟩ : ∃ k : ℕ, Max.max (JSNum.binade |q|) (-1022) - 52 = -1074 + (k : ℤ) :=
    ⟨(Max.max (JSNum.binade |q|) (-1022) - 52 + 1074).toNat, by omega⟩
  refine ⟨2 ^ k * JSNum.roundHalfEven (q / JSNum.ulp q), ?_⟩
  unfold JSNum.nearest
  rw [JSNum.ulp_eq, hk, zpow_add₀ two, zpow_natCast]
  push_cast
  ring

/-- A whole number of magnitude below `2^53` is a double. -/
theorem JSNum.nearest_intCast (z : ℤ) (h : |z| ≤ 2 ^ 53) : JSNum.nearest (z : ℚ) = z := by
  have two : (2 : ℚ) ≠ 0 := by norm_num
  have key : ∀ n : ℤ, 0 < n → n ≤ 2 ^ 53 → JSNum.nearest (n : ℚ) = n := by
    intro n hn hle
    rcases hle.lt_or_eq with hlt | heq
    · have hq : (0 : ℚ) < (n : ℚ) := by exact_mod_cast hn
      have h0 : (0 : ℤ) ≤ JSNum.binade (n : ℚ) := by
        apply JSNum.le_binade
        rw [zpow_zero]
        exact_mod_cast hn
      have h1 : JSNum.binade (n : ℚ) < 53 := by
        apply JSNum.binade_lt _ _ hq
        rw [show ((53 : ℤ)) = ((53 : ℕ) : ℤ) by rfl, zpow_natCast]
        exact_mod_cast hlt
      obtain ⟨k, hk⟩ : ∃ k : ℕ, Max.max (JSNum.binade |(n : ℚ)|) (-1022) - 52 = -(k : ℤ) := by
        rw [abs_of_pos hq]
        exact ⟨(52 - JSNum.binade (n : ℚ)).toNat, by omega⟩
      apply JSNum.nearest_of_grid _ (n * 2 ^ k)
      rw [JSNum.ulp_eq, hk, zpow_neg, zpow_natCast]
      push_cast
      field_simp
    · rw [heq]
      decide!
  rcases lt_trichotomy z 0 with hz | hz | hz
  · have := key (-z) (by omega) (by rw [abs_of_neg hz] at h; exact h)
    push_cast at this
    rw [JSNum.nearest_neg] at this
    linarith
  · rw [hz]
    simpa using JSNum.nearest_zero
  · exact key z hz (by rwa [abs_of_pos hz] at h)

/-- Rounding error of a number of magnitude below `2^(k+1)`, for `k` in the normal range. -/
theorem JSNum.nearest_error (q : ℚ) (k : ℤ) (hk : -1022 ≤ k) (h : |q| < (2 : ℚ) ^ (k + 1)) :
    |JSNum.nearest q - q| ≤ (2 : ℚ) ^ (k - 53) := by
  have two : (2 : ℚ) ≠ 0 := by norm_num
  by_cases hq : q = 0
  · rw [hq, JSNum.nearest_zero]
    simp only [sub_zero, abs_zero]
    exact (zpow_pos (by norm_num) _).le
  · have hb : JSNum.binade |q| < k + 1 := JSNum.binade_lt _ _ (abs_pos.mpr hq) h
    have hu : JSNum.ulp q ≤ (2 : ℚ) ^ (k - 52) := by
      rw [JSNum.ulp_eq]
      apply zpow_le_zpow_right₀ (by norm_num)
      omega
    have he := JSNum.nearest_abs_sub_le q
    have : (2 : ℚ) ^ (k - 52) / 2 = (2 : ℚ) ^ (k - 53) := by
      rw [show k - 53 = k - 52 - 1 by ring, zpow_sub_one₀ two]
      ring
    linarith

theorem JSNum.overflowBound_gt : (1000 : ℚ) < JSNum.overflowBound := by
  unfold JSNum.overflowBound
  norm_num

/-- The overflow threshold lies half-way between the largest double and `2^1024`, and the
tie goes to `2^1024`. -/
theorem JSNum.nearest_overflowBound : JSNum.nearest JSNum.overflowBound = 2 ^ 1024 := by
  decide!

/-- Below the overflow threshold the nearest double is at most the largest double. -/
theorem JSNum.nearest_lt_of_lt (q : ℚ) (h : q < JSNum.overflowBound) :
    JSNum.nearest q < 2 ^ 1024 := by
  have hmax : JSNum.nearest (2 ^ 1024 - 2 ^ 971) = 2 ^ 1024 - 2 ^ 971 := by decide!
  rcases le_or_lt q (2 ^ 1024 - 2 ^ 971) with hq | hq
  · have := JSNum.nearest_mono _ _ hq
    rw [hmax] at this
    have : (0 : ℚ) < 2 ^ 971 := by positivity
    linarith
  · have hpos : (0 : ℚ) < q := lt_trans (by norm_num) hq
    have hb : JSNum.binade |q| = 1023 := by
      rw [abs_of_pos hpos]
      apply JSNum.binade_eq
      · refine le_trans ?_ hq.le
        norm_num
      · refine lt_trans h ?_
        unfold JSNum.overflowBound
        norm_num
    have hu : JSNum.ulp q = 2 ^ 971 := by
      rw [JSNum.ulp_eq, hb]
      norm_num
    have hr : JSNum.roundHalfEven (q / JSNum.ulp q) = 2 ^ 53 - 1 := by
      apply JSNum.roundHalfEven_of_lt_half
      · rw [hu, le_div_iff₀ (by positivity)]
        push_cast
        refine le_trans ?_ hq.le
        norm_num
      · rw [hu, div_lt_iff₀ (by positivity)]
        push_cast
        refine lt_of_lt_of_le h ?_
        unfold JSNum.overflowBound
        norm_num
    unfold JSNum.nearest
    rw [hr, hu]
    push_cast
    norm_num

theorem JSNum.ofRat_eq_posInf_iff (q : ℚ) :
    JSNum.ofRat q = JSNum.posInf ↔ JSNum.overflowBound ≤ q := by
  constructor
  · intro h
    by_contra hlt
    have := JSNum.nearest_lt_of_lt q (lt_of_not_le hlt)
    unfold JSNum.ofRat at h
    simp only at h
    rw [if_neg (not_le.mpr this)] at h
    split_ifs at h
  · intro h
    have := JSNum.nearest_mono _ _ h
    rw [JSNum.nearest_overflowBound] at this
    unfold JSNum.ofRat
    simp only
    rw [if_pos this]

theorem JSNum.ofRat_neg (q : ℚ) :
    JSNum.ofRat (-q) =
      match JSNum.ofRat q with
      | JSNum.posInf => JSNum.negInf
      | JSNum.negInf => JSNum.posInf
      | JSNum.fin r => JSNum.fin (-r)
      | JSNum.nan => JSNum.nan := by
  have hp : (0 : ℚ) < 2 ^ 1024 := by positivity
  unfold JSNum.ofRat
  simp only [JSNum.nearest_neg]
  by_cases h1 : (2 : ℚ) ^ 1024 ≤ JSNum.nearest q
  · rw [if_neg (by linarith), if_pos (by linarith), if_pos h1]
  · by_cases h2 : JSNum.nearest q ≤ -(2 : ℚ) ^ 1024
    · rw [if_pos (by linarith), if_neg h1, if_pos h2]
    · rw [if_neg (by linarith), if_neg (by linarith), if_neg h1, if_neg h2]

theorem JSNum.ofRat_eq_negInf_iff (q : ℚ) :
    JSNum.ofRat q = JSNum.negInf ↔ q ≤ -JSNum.overflowBound := by
  have h := JSNum.ofRat_eq_posInf_iff (-q)
  rw [JSNum.ofRat_neg] at h
  constructor
  · intro hq
    rw [hq] at h
    have := h.mp rfl
    linarith
  · intro hq
    have := h.mpr (by linarith)
    revert this
    cases JSNum.ofRat q <;> simp

theorem JSNum.ofRat_ne_nan (q : ℚ) : JSNum.ofRat q ≠ JSNum.nan := by
  unfold JSNum.ofRat
  simp only
  split_ifs <;> simp

/-- Between the two overflow thresholds the Number value is the nearest double. -/
theorem JSNum.ofRat_eq_fin (q : ℚ) (h1 : -JSNum.overflowBound < q)
    (h2 : q < JSNum.overflowBound) : JSNum.ofRat q = JSNum.fin (JSNum.nearest q) := by
  have a1 := JSNum.nearest_lt_of_lt q h2
  have a2 := JSNum.nearest_lt_of_lt (-q) (by linarith)
  rw [JSNum.nearest_neg] at a2
  unfold JSNum.ofRat
  simp only
  rw [if_neg (by linarith), if_neg (by linarith)]

/-- A finite Number value of a real number is the nearest double. -/
theorem JSNum.ofRat_fin (q r : ℚ) (h : JSNum.ofRat q = JSNum.fin r) : r = JSNum.nearest q := by
  unfold JSNum.ofRat at h
  simp only at h
  split_ifs at h
  injection h with h
  exact h.symm

theorem JSNum.ofRat_of_abs_le {q : ℚ} (h₁ : -1000 ≤ q) (h₂ : q ≤ 1000) :
    JSNum.ofRat q = JSNum.fin (JSNum.nearest q) := by
  have hb := JSNum.overflowBound_gt
  exact JSNum.ofRat_eq_fin q (by linarith) (by linarith)

/-- The Number value is monotone in the real number. -/
theorem JSNum.ofRat_mono (q r : ℚ) (h : q ≤ r) :
    JSNum.le (JSNum.ofRat q) (JSNum.ofRat r) = true := by
  have hm := JSNum.nearest_mono q r h
  have hp : (0 : ℚ) < 2 ^ 1024 := by positivity
  unfold JSNum.ofRat
  simp only
  split_ifs <;> simp only [JSNum.le, decide_eq_true_eq] <;> first | exact hm | linarith

/-- A double is a real number that is its own Number value. -/
theorem JSNum.isDouble_iff (q : ℚ) :
    JSNum.IsDouble q ↔ JSNum.nearest q = q ∧ |q| < 2 ^ 1024 := by
  have hp : (0 : ℚ) < 2 ^ 1024 := by positivity
  unfold JSNum.IsDouble JSNum.ofRat
  simp only
  constructor
  · intro h
    split_ifs at h with h1 h2
    injection h with h
    rw [h] at h1 h2
    exact ⟨h, abs_lt.mpr ⟨by linarith, by linarith⟩⟩
  · rintro ⟨h, hq⟩
    rw [h]
    obtain ⟨a, b⟩ := abs_lt.mp hq
    rw [if_neg (by linarith), if_neg (by linarith)]

theorem JSNum.isDouble_intCast (z : ℤ) (h : |z| ≤ 2 ^ 53) : JSNum.IsDouble (z : ℚ) := by
  rw [JSNum.isDouble_iff]
  refine ⟨JSNum.nearest_intCast z h, ?_⟩
  have : |(z : ℚ)| ≤ 2 ^ 53 := by exact_mod_cast h
  refine lt_of_le_of_lt this ?_
  norm_num

theorem JSNum.ofRat_intCast (z : ℤ) (h : |z| ≤ 2 ^ 53) : JSNum.ofRat (z : ℚ) = JSNum.fin z :=
  JSNum.isDouble_intCast z h

/-- Two different doubles are at least `2^-1074` apart. -/
theorem JSNum.isDouble_gap (b c : ℚ) (hb : JSNum.IsDouble b) (hc : JSNum.IsDouble c)
    (h : b < c) : (2 : ℚ) ^ (-1074 : ℤ) ≤ c - b := by
  obtain ⟨m, hm⟩ := JSNum.nearest_multiple b
  obtain ⟨n, hn⟩ := JSNum.nearest_multiple c
  rw [((JSNum.isDouble_iff b).mp hb).1] at hm
  rw [((JSNum.isDouble_iff c).mp hc).1] at hn
  have hp : (0 : ℚ) < (2 : ℚ) ^ (-1074 : ℤ) := zpow_pos (by norm_num) _
  have hmn : m < n := by
    by_contra hle
    have : (n : ℚ) ≤ (m : ℚ) := by exact_mod_cast not_lt.mp hle
    have := mul_le_mul_of_nonneg_left this hp.le
    linarith
  have : (m : ℚ) + 1 ≤ (n : ℚ) := by exact_mod_cast hmn
  rw [hm, hn]
  nlinarith

/-- The difference of two different doubles does not round to zero. -/
theorem JSNum.nearest_sub_pos (b c : ℚ) (hb : JSNum.IsDouble b) (hc : JSNum.IsDouble c)
    (h : b < c) : 0 < JSNum.nearest (c - b) := by
  have hg := JSNum.isDouble_gap b c hb hc h
  have hmin : JSNum.nearest ((2 : ℚ) ^ (-1074 : ℤ)) = (2 : ℚ) ^ (-1074 : ℤ) := by decide!
  have := JSNum.nearest_mono _ _ hg
  rw [hmin] at this
  exact lt_of_lt_of_le (zpow_pos (by norm_num) _) this

/-- The double nearest to a real number is a double when it is in range. -/
theorem JSNum.nearest_idem_of_bounds (q lo hi : ℚ) (hlo : JSNum.nearest lo = lo)
    (hhi : JSNum.nearest hi = hi) (h1 : lo ≤ q) (h2 : q ≤ hi) :
    lo ≤ JSNum.nearest q ∧ JSNum.nearest q ≤ hi := by
  have a := JSNum.nearest_mono _ _ h1
  have b := JSNum.nearest_mono _ _ h2
  rw [hlo] at a
  rw [hhi] at b
  exact ⟨a, b⟩

/-! ## Lemmas on clamping and normalisation -/

theorem clamp01_unit (x : ℚ) : 0 ≤ clamp01 x ∧ clamp01 x ≤ 1 := by
  unfold clamp01
  exact ⟨le_max_left _ _, max_le (by norm_num) (min_le_left _ _)⟩

theorem clamp01_mono (x y : ℚ) (h : x ≤ y) : clamp01 x ≤ clamp01 y := by
  unfold clamp01
  exact max_le_max (le_refl _) (min_le_min (le_refl _) h)

theorem clamp01_of_one_le (x : ℚ) (h : 1 ≤ x) : clamp01 x = 1 := by
  unfold clamp01
  rw [min_eq_left h, max_eq_right (by norm_num)]

theorem clamp01_of_nonpos (x : ℚ) (h : x ≤ 0) : clamp01 x = 0 := by
  unfold clamp01
  rw [min_eq_right (by linarith), max_eq_left h]

theorem clamp01_of_mem (x : ℚ) (h0 : 0 ≤ x) (h1 : x ≤ 1) : clamp01 x = x := by
  unfold clamp01
  rw [min_eq_right h1, max_eq_right h0]

theorem JSNum.nearest_one : JSNum.nearest 1 = 1 := by decide!

theorem JSNum.one_le_nearest (x : ℚ) (h : 1 ≤ x) : 1 ≤ JSNum.nearest x := by
  have := JSNum.nearest_mono _ _ h
  rwa [JSNum.nearest_one] at this

theorem JSNum.nearest_le_one (x : ℚ) (h : x ≤ 1) : JSNum.nearest x ≤ 1 := by
  have := JSNum.nearest_mono _ _ h
  rwa [JSNum.nearest_one] at this

/-- The calls `Math.max(0, Math.min(1, x))` on a Number value clamp the nearest double. -/
theorem JSNum.clamp_ofRat (x : ℚ) :
    JSNum.max (JSNum.fin 0) (JSNum.min (JSNum.fin 1) (JSNum.ofRat x)) =
      JSNum.fin (clamp01 (JSNum.nearest x)) := by
  have hp : (1 : ℚ) < 2 ^ 1024 := by norm_num
  unfold JSNum.ofRat
  simp only
  by_cases h1 : (2 : ℚ) ^ 1024 ≤ JSNum.nearest x
  · rw [if_pos h1, clamp01_of_one_le _ (by linarith)]
    simp [JSNum.min, JSNum.max]
  · rw [if_neg h1]
    by_cases h2 : JSNum.nearest x ≤ -(2 : ℚ) ^ 1024
    · rw [if_pos h2, clamp01_of_nonpos _ (by linarith)]
      simp [JSNum.min, JSNum.max]
    · rw [if_neg h2]
      simp only [JSNum.min]
      by_cases h3 : 1 ≤ JSNum.nearest x
      · rw [if_pos h3, clamp01_of_one_le _ h3]
        simp [JSNum.max]
      · rw [if_neg h3]
        simp only [JSNum.max]
        by_cases h4 : 0 ≤ JSNum.nearest x
        · rw [if_pos h4, clamp01_of_mem _ h4 (by linarith)]
        · rw [if_neg h4, clamp01_of_nonpos _ (by linarith)]

/-- With two different finite bounds whose difference is the positive double `d`,
`normalizeValue` clamps the double quotient of the double difference `v - min` by `d`. -/
theorem normalizeValue_quotient (a b c d : ℚ) (hbc : b ≠ c) (hd : 0 < d) (hd2 : d < 2 ^ 1024)
    (hsub : JSNum.sub (JSNum.fin c) (JSNum.fin b) = JSNum.fin d) :
    normalizeValue (some (JSNum.fin a)) (JSNum.fin b) (JSNum.fin c) =
      JSNum.fin (clamp01 (JSNum.nearest (JSNum.nearest (a - b) / d))) := by
  have hne : JSNum.strictEq (JSNum.fin b) (JSNum.fin c) = false := by
    simp [JSNum.strictEq, hbc]
  simp only [normalizeValue, JSNum.isNaN, hne, hsub, Bool.or_self, Bool.false_eq_true, if_false]
  simp only [JSNum.sub]
  unfold JSNum.ofRat
  simp only
  by_cases h1 : (2 : ℚ) ^ 1024 ≤ JSNum.nearest (a - b)
  · have hq : 1 ≤ JSNum.nearest (a - b) / d := by
      rw [le_div_iff₀ hd]
      linarith
    rw [if_pos h1, clamp01_of_one_le _ (JSNum.one_le_nearest _ hq)]
    simp [JSNum.div, hd.le, JSNum.min, JSNum.max]
  · rw [if_neg h1]
    by_cases h2 : JSNum.nearest (a - b) ≤ -(2 : ℚ) ^ 1024
    · have hp : (0 : ℚ) < 2 ^ 1024 := by positivity
      have hq : JSNum.nearest (a - b) / d ≤ 0 :=
        div_nonpos_of_nonpos_of_nonneg (by linarith) hd.le
      rw [if_pos h2, clamp01_of_nonpos _ (JSNum.nearest_nonpos _ hq)]
      simp [JSNum.div, hd.le, JSNum.min, JSNum.max]
    · rw [if_neg h2]
      simp only [JSNum.div, if_neg hd.ne.symm]
      exact JSNum.clamp_ofRat _

/-- With floor 0 and a ceiling that is a double between 1 and 1000, `normalizeValue` of any
number is the share `unitShare`. -/
theorem normalizeValue_unitShare (v : JSNum) (c : ℚ) (hc : 1 ≤ c) (hc' : c ≤ 1000)
    (hcd : JSNum.nearest c = c) :
    normalizeValue (some v) (JSNum.fin 0) (JSNum.fin c) = JSNum.fin (unitShare v c) := by
  have hpos : 0 < c := by linarith
  have hne : JSNum.strictEq (JSNum.fin 0) (JSNum.fin c) = false := by
    simp [JSNum.strictEq, hpos.ne]
  have hsub : JSNum.sub (JSNum.fin c) (JSNum.fin 0) = JSNum.fin c := by
    simp only [JSNum.sub, sub_zero]
    rw [JSNum.ofRat_of_abs_le (by linarith) hc', hcd]
  cases v with
  | nan => simp [normalizeValue, JSNum.isNaN, unitShare]
  | negInf =>
    simp only [normalizeValue, JSNum.isNaN, hne, hsub, Bool.or_self, Bool.false_eq_true, if_false]
    simp [JSNum.sub, JSNum.div, hpos.le, JSNum.min, JSNum.max, unitShare]
  | posInf =>
    simp only [normalizeValue, JSNum.isNaN, hne, hsub, Bool.or_self, Bool.false_eq_true, if_false]
    simp [JSNum.sub, JSNum.div, hpos.le, JSNum.min, JSNum.max, unitShare]
  | fin q =>
    have := normalizeValue_quotient q 0 c c hpos.ne hpos
      (lt_of_le_of_lt hc' (by norm_num)) hsub
    rw [sub_zero] at this
    exact this

theorem unitShare_unit (v : JSNum) (c : ℚ) : 0 ≤ unitShare v c ∧ unitShare v c ≤ 1 := by
  cases v with
  | nan => simp only [unitShare]; constructor <;> norm_num
  | negInf => simp only [unitShare]; constructor <;> norm_num
  | posInf => simp only [unitShare]; constructor <;> norm_num
  | fin q => exact clamp01_unit _

theorem unitShare_mono (v w : JSNum) (c : ℚ) (hc : 0 < c) (h : JSNum.le v w = true) :
    unitShare v c ≤ unitShare w c := by
  cases v <;> cases w <;> simp only [JSNum.le, Bool.false_eq_true] at h <;>
    simp only [unitShare]
  · exact le_refl _
  · norm_num
  · exact (clamp01_unit _).1
  · exact le_refl _
  · exact (clamp01_unit _).2
  · exact clamp01_mono _ _ (JSNum.nearest_mono _ _
      (div_le_div_of_nonneg_right (JSNum.nearest_mono _ _ (by simpa using h)) hc.le))

/-- The scaled average of two shares stays between 0 and 100. -/
theorem scoreValue_range (a b : ℚ) (ha0 : 0 ≤ a) (ha1 : a ≤ 1) (hb0 : 0 ≤ b) (hb1 : b ≤ 1) :
    (0 ≤ JSNum.nearest (a + b) ∧ JSNum.nearest (a + b) ≤ 2) ∧
    (0 ≤ JSNum.nearest (JSNum.nearest (a + b) / 2) ∧
      JSNum.nearest (JSNum.nearest (a + b) / 2) ≤ 1) ∧
    0 ≤ scoreValue a b ∧ scoreValue a b ≤ 100 := by
  have n2 : JSNum.nearest 2 = 2 := by decide!
  have n100 : JSNum.nearest 100 = 100 := by decide!
  have s1 := JSNum.nearest_idem_of_bounds (a + b) 0 2 JSNum.nearest_zero n2
    (by linarith) (by linarith)
  have s2 := JSNum.nearest_idem_of_bounds (JSNum.nearest (a + b) / 2) 0 1
    JSNum.nearest_zero JSNum.nearest_one (by linarith [s1.1]) (by linarith [s1.2])
  have s3 := JSNum.nearest_idem_of_bounds (JSNum.nearest (JSNum.nearest (a + b) / 2) * 100)
    0 100 JSNum.nearest_zero n100 (by linarith [s2.1]) (by linarith [s2.2])
  exact ⟨s1, s2, s3⟩

theorem scoreValue_mono (a b a' b' : ℚ) (ha : a ≤ a') (hb : b ≤ b') :
    scoreValue a b ≤ scoreValue a' b' := by
  unfold scoreValue
  apply JSNum.nearest_mono
  apply mul_le_mul_of_nonneg_right _ (by norm_num)
  apply JSNum.nearest_mono
  apply div_le_div_of_nonneg_right _ (by norm_num)
  apply JSNum.nearest_mono
  linarith

/-- The score in terms of the two shares: `Math.round` of their scaled average, every
step in double arithmetic. -/
theorem calculateConditionScore_shares (d : LatestData) :
    calculateConditionScore (some d) =
      JSNum.fin (⌊scoreValue (unitShare (d.waveHeight.getD (JSNum.fin 0)) 5)
        (unitShare (d.windSpeed.getD (JSNum.fin 0)) 25) + 1 / 2⌋ : ℤ) := by
  obtain ⟨a0, a1⟩ := unitShare_unit (d.waveHeight.getD (JSNum.fin 0)) 5
  obtain ⟨b0, b1⟩ := unitShare_unit (d.windSpeed.getD (JSNum.fin 0)) 25
  obtain ⟨s1, s2, s3⟩ := scoreValue_range _ _ a0 a1 b0 b1
  have n5 : JSNum.nearest 5 = 5 := by decide!
  have n25 : JSNum.nearest 25 = 25 := by decide!
  simp only [calculateConditionScore,
    normalizeValue_unitShare _ 5 (by norm_num) (by norm_num) n5,
    normalizeValue_unitShare _ 25 (by norm_num) (by norm_num) n25, JSNum.add]
  rw [JSNum.ofRat_of_abs_le (by linarith) (by linarith)]
  simp only [JSNum.div, if_neg (by norm_num : ¬ (2 : ℚ) = 0)]
  rw [JSNum.ofRat_of_abs_le (by linarith [s1.1]) (by linarith [s1.2])]
  simp only [JSNum.mul]
  rw [JSNum.ofRat_of_abs_le (by linarith [s2.1]) (by linarith [s2.2])]
  simp only [JSNum.round, scoreValue]

/-- Clamping a number to the range from 0 to `c` does not change its share of `c`. -/
theorem unitShare_saturate (v : JSNum) (c : ℚ) (hc : 0 < c) (hcd : JSNum.nearest c = c) :
    unitShare (JSNum.min (JSNum.max v (JSNum.fin 0)) (JSNum.fin c)) c = unitShare v c := by
  have hcc : clamp01 (JSNum.nearest (JSNum.nearest c / c)) = 1 := by
    rw [hcd, div_self hc.ne.symm, JSNum.nearest_one]
    exact clamp01_of_one_le _ (le_refl _)
  have h00 : clamp01 (JSNum.nearest (JSNum.nearest 0 / c)) = 0 := by
    rw [JSNum.nearest_zero, zero_div, JSNum.nearest_zero]
    exact clamp01_of_nonpos _ (le_refl _)
  cases v with
  | nan => rfl
  | negInf =>
    simp only [JSNum.max, JSNum.min, hc.le, if_true, unitShare]
    exact h00
  | posInf =>
    simp only [JSNum.max, JSNum.min, unitShare]
    exact hcc
  | fin q =>
    simp only [JSNum.max]
    by_cases h0 : q ≤ 0
    · rw [if_pos h0]
      simp only [JSNum.min, hc.le, if_true, unitShare]
      rw [h00]
      have hq : JSNum.nearest q / c ≤ 0 :=
        div_nonpos_of_nonpos_of_nonneg (JSNum.nearest_nonpos q h0) hc.le
      exact (clamp01_of_nonpos _ (JSNum.nearest_nonpos _ hq)).symm
    · rw [if_neg h0]
      simp only [JSNum.min]
      by_cases h5 : q ≤ c
      · rw [if_pos h5]
      · rw [if_neg h5]
        simp only [unitShare]
        rw [hcc]
        have h1 : 1 ≤ JSNum.nearest q / c := by
          rw [le_div_iff₀ hc]
          have := JSNum.nearest_mono c q (by linarith)
          rw [hcd] at this
          linarith
        exact (clamp01_of_one_le _ (JSNum.one_le_nearest _ h1)).symm

/-! ## The condition score -/

/-- C1: for every input whose `waveHeight` and `windSpeed` are each absent or any
number (NaN and the infinities included), and also for a missing input object,
`calculateConditionScore` returns an integer `n` with `0 ≤ n ≤ 100`. -/
theorem calculateConditionScore_range (data : Option LatestData) :
    ∃ n : ℤ, 0 ≤ n ∧ n ≤ 100 ∧ calculateConditionScore data = JSNum.fin (n : ℚ) := by
  cases data with
  | none => exact ⟨50, by norm_num, by norm_num, by simp [calculateConditionScore]⟩
  | some d =>
    obtain ⟨a0, a1⟩ := unitShare_unit (d.waveHeight.getD (JSNum.fin 0)) 5
    obtain ⟨b0, b1⟩ := unitShare_unit (d.windSpeed.getD (JSNum.fin 0)) 25
    obtain ⟨-, -, s0, s1⟩ := scoreValue_range _ _ a0 a1 b0 b1
    refine ⟨_, ?_, ?_, calculateConditionScore_shares d⟩
    · apply Int.floor_nonneg.mpr
      linarith
    · have h : scoreValue (unitShare (d.waveHeight.getD (JSNum.fin 0)) 5)
          (unitShare (d.windSpeed.getD (JSNum.fin 0)) 25) + 1 / 2 < ((101 : ℤ) : ℚ) := by
        push_cast
        linarith
      have := Int.floor_lt.mpr h
      omega

/-! ## Lemmas on lists and `findIndex` -/

theorem JS.findIndex_eq_none_iff {α : Type} (p : α → Bool) (l : List α) :
    JS.findIndex p l = none ↔ ∀ x ∈ l, p x = false := by
  induction l with
  | nil => simp [JS.findIndex]
  | cons a l ih =>
    by_cases h : p a = true
    · simp [JS.findIndex, h]
    · simp [JS.findIndex, h, ih]

theorem JS.findIndex_append_of_first {α : Type} (p : α → Bool) (pre : List α) (m : α)
    (post : List α) (hpre : ∀ x ∈ pre, p x = false) (hm : p m = true) :
    JS.findIndex p (pre ++ m :: post) = some pre.length := by
  induction pre with
  | nil => simp [JS.findIndex, hm]
  | cons a pre ih =>
    have ha : p a = false := hpre a (List.mem_cons_self _ _)
    have ih' := ih (fun x hx => hpre x (List.mem_cons_of_mem _ hx))
    simp [JS.findIndex, ha, ih']

theorem JS.findIndex_eq_some {α : Type} (p : α → Bool) (l : List α) (i : Nat)
    (h : JS.findIndex p l = some i) :
    ∃ pre m post, l = pre ++ m :: post ∧ pre.length = i ∧ (∀ x ∈ pre, p x = false) ∧
      p m = true := by
  induction l generalizing i with
  | nil => simp [JS.findIndex] at h
  | cons a l ih =>
    by_cases ha : p a = true
    · simp [JS.findIndex, ha] at h
      exact ⟨[], a, l, by simp, by simpa using h, by simp, ha⟩
    · simp only [JS.findIndex, ha, Bool.false_eq_true, if_false, Option.map_eq_some'] at h
      obtain ⟨j, hj, hji⟩ := h
      obtain ⟨pre, m, post, hl, hlen, hpre, hm⟩ := ih j hj
      refine ⟨a :: pre, m, post, by simp [hl], by simp [hlen, hji], ?_, hm⟩
      intro x hx
      rcases List.mem_cons.mp hx with rfl | hx
      · simpa using ha
      · exact hpre x hx

/-- A decomposition at the first element satisfying `p` is unique. -/
theorem List.first_split_unique {α : Type} (p : α → Bool) (pre₁ pre₂ : List α) (m₁ m₂ : α)
    (post₁ post₂ : List α) (h : pre₁ ++ m₁ :: post₁ = pre₂ ++ m₂ :: post₂)
    (h₁ : ∀ x ∈ pre₁, p x = false) (hm₁ : p m₁ = true)
    (h₂ : ∀ x ∈ pre₂, p x = false) (hm₂ : p m₂ = true) :
    pre₁ = pre₂ ∧ m₁ = m₂ ∧ post₁ = post₂ := by
  induction pre₁ generalizing pre₂ with
  | nil =>
    cases pre₂ with
    | nil => simpa using h
    | cons b pre₂ =>
      simp only [List.nil_append, List.cons_append, List.cons.injEq] at h
      have := h₂ b (List.mem_cons_self _ _)
      rw [← h.1, hm₁] at this
      exact absurd this (by simp)
  | cons a pre₁ ih =>
    cases pre₂ with
    | nil =>
      simp only [List.nil_append, List.cons_append, List.cons.injEq] at h
      have := h₁ a (List.mem_cons_self _ _)
      rw [h.1, hm₂] at this
      exact absurd this (by simp)
    | cons b pre₂ =>
      simp only [List.cons_append, List.cons.injEq] at h
      obtain ⟨hp, hm, hpost⟩ := ih pre₂ h.2 (fun x hx => h₁ x (List.mem_cons_of_mem _ hx))
        (fun x hx => h₂ x (List.mem_cons_of_mem _ hx))
      exact ⟨by rw [h.1, hp], hm, hpost⟩

/-! ## Lemmas on the observation parser -/

theorem findMostRecentValid_isFirstPresent (records : List ParsedRecord)
    (field : ParsedRecord → Option JSNum) :
    IsFirstPresent records field (findMostRecentValid records field) := by
  induction records with
  | nil =>
    refine ⟨fun v => ?_, ?_⟩
    · simp [findMostRecentValid]
    · simp [findMostRecentValid]
  | cons a l ih =>
    obtain ⟨ih₁, ih₂⟩ := ih
    cases hfa : field a with
    | some w =>
      have hfind : findMostRecentValid (a :: l) field = some w := by
        simp [findMostRecentValid, List.find?, hfa]
      rw [hfind]
      refine ⟨fun v => ⟨fun hv => ?_, ?_⟩, ?_⟩
      · exact ⟨[], a, l, rfl, by simp, by rw [hfa, ← hv]⟩
      · rintro ⟨pre, r, post, hl, hpre, hr⟩
        cases pre with
        | nil =>
          simp only [List.nil_append, List.cons.injEq] at hl
          rw [← hl.1, hfa] at hr
          exact hr
        | cons b pre =>
          simp only [List.cons_append, List.cons.injEq] at hl
          have := hpre b (List.mem_cons_self _ _)
          rw [← hl.1, hfa] at this
          exact absurd this (by simp)
      · constructor
        · intro h
          exact absurd h (by simp)
        · intro h
          have := h a (List.mem_cons_self _ _)
          rw [hfa] at this
          exact absurd this (by simp)
    | none =>
      have hfind : findMostRecentValid (a :: l) field = findMostRecentValid l field := by
        simp [findMostRecentValid, List.find?, hfa]
      rw [hfind]
      refine ⟨fun v => ⟨fun hv => ?_, ?_⟩, ?_⟩
      · obtain ⟨pre, r, post, hl, hpre, hr⟩ := (ih₁ v).mp hv
        refine ⟨a :: pre, r, post, by simp [hl], ?_, hr⟩
        intro x hx
        rcases List.mem_cons.mp hx with rfl | hx
        · exact hfa
        · exact hpre x hx
      · rintro ⟨pre, r, post, hl, hpre, hr⟩
        cases pre with
        | nil =>
          simp only [List.nil_append, List.cons.injEq] at hl
          rw [← hl.1, hfa] at hr
          exact absurd hr (by simp)
        | cons b pre =>
          simp only [List.cons_append, List.cons.injEq] at hl
          exact (ih₁ v).mpr ⟨pre, r, post, hl.2, fun x hx => hpre x (List.mem_cons_of_mem _ hx), hr⟩
      · rw [ih₂]
        constructor
        · intro h r hr
          rcases List.mem_cons.mp hr with rfl | hr
          · exact hfa
          · exact h r hr
        · intro h r hr
          exact h r (List.mem_cons_of_mem _ hr)

theorem aggregate_latest_fields (first : ParsedRecord) (parsedLines : List ParsedRecord)
    (lastUpdated : List Char) :
    (aggregate first parsedLines lastUpdated).latest.windDirection
        = findMostRecentValid parsedLines (·.windDirection) ∧
    (aggregate first parsedLines lastUpdated).latest.windSpeed
        = findMostRecentValid parsedLines (·.windSpeed) ∧
    (aggregate first parsedLines lastUpdated).latest.waveHeight
        = findMostRecentValid parsedLines (·.waveHeight) ∧
    (aggregate first parsedLines lastUpdated).latest.dominantWavePeriod
        = findMostRecentValid parsedLines (·.dominantWavePeriod) ∧
    (aggregate first parsedLines lastUpdated).latest.airTemperature
        = findMostRecentValid parsedLines (·.airTemperature) ∧
    (aggregate first parsedLines lastUpdated).latest.waterTemperature
        = findMostRecentValid parsedLines (·.waterTemperature) := by
  unfold aggregate
  cases first.timestamp with
  | none => simp
  | some ts =>
    by_cases h : JS.truthy ts = true
    · simp [h]
    · simp [h]

/-- C2: for every non-empty list of parsed records handed to the aggregation of
`parseBuoyData`, each of the six measurement fields of `latest` is, independently per
field, the value of that field in the first record of the list where it is not null, and
is null exactly when it is null in every record. -/
theorem latest_fields_first_present (first : ParsedRecord) (rest : List ParsedRecord)
    (lastUpdated : List Char) :
    IsFirstPresent (first :: rest) (·.windDirection)
      (aggregate first (first :: rest) lastUpdated).latest.windDirection ∧
    IsFirstPresent (first :: rest) (·.windSpeed)
      (aggregate first (first :: rest) lastUpdated).latest.windSpeed ∧
    IsFirstPresent (first :: rest) (·.waveHeight)
      (aggregate first (first :: rest) lastUpdated).latest.waveHeight ∧
    IsFirstPresent (first :: rest) (·.dominantWavePeriod)
      (aggregate first (first :: rest) lastUpdated).latest.dominantWavePeriod ∧
    IsFirstPresent (first :: rest) (·.airTemperature)
      (aggregate first (first :: rest) lastUpdated).latest.airTemperature ∧
    IsFirstPresent (first :: rest) (·.waterTemperature)
      (aggregate first (first :: rest) lastUpdated).latest.waterTemperature := by
  obtain ⟨h1, h2, h3, h4, h5, h6⟩ := aggregate_latest_fields first (first :: rest) lastUpdated
  rw [h1, h2, h3, h4, h5, h6]
  exact ⟨findMostRecentValid_isFirstPresent _ _, findMostRecentValid_isFirstPresent _ _,
    findMostRecentValid_isFirstPresent _ _, findMostRecentValid_isFirstPresent _ _,
    findMostRecentValid_isFirstPresent _ _, findMostRecentValid_isFirstPresent _ _⟩

theorem parseLines_eq_nil_iff (dataLines : List (List Char)) :
    parseLines dataLines = [] ↔ ∀ l ∈ dataLines, isValidDataLine l = false := by
  induction dataLines with
  | nil => simp [parseLines]
  | cons a l ih =>
    unfold parseLines at ih ⊢
    simp only [List.map_cons, List.filterMap_cons, List.mem_cons, forall_eq_or_imp]
    unfold isValidDataLine
    cases hpa : parseDataLine a with
    | none => simpa using ih
    | some r =>
      by_cases hts : r.timestamp.isSome = true
      · simp [hts]
      · simp only [hts, Bool.false_eq_true, if_false]
        simpa using ih

/-- What `parseBuoyData` does, in terms of the position of the first marker line. -/
theorem parseBuoyData_of_split (rawData lastUpdated : List Char) (pre : List (List Char))
    (m : List Char) (post : List (List Char)) (hl : feedLines rawData = pre ++ m :: post)
    (hpre : ∀ l ∈ pre, hasMarker l = false) (hm : hasMarker m = true) :
    parseBuoyData rawData lastUpdated =
      match parseLines post with
      | [] => Except.error ParseError.noValidData
      | first :: rest => Except.ok (aggregate first (first :: rest) lastUpdated) := by
  have hidx := JS.findIndex_append_of_first hasMarker pre m post hpre hm
  unfold hasMarker at hidx
  unfold parseBuoyData
  simp only [hl, hidx]
  have hdrop : List.drop (pre.length + 1) (pre ++ m :: post) = post := by
    rw [List.drop_append_eq_append_drop]
    simp
  rw [hdrop]
  cases parseLines post <;> rfl

theorem parseBuoyData_missingHeader_iff (rawData lastUpdated : List Char) :
    parseBuoyData rawData lastUpdated = Except.error ParseError.missingHeader ↔
      ∀ l ∈ feedLines rawData, hasMarker l = false := by
  constructor
  · intro h
    by_contra hcon
    have hne : JS.findIndex hasMarker (feedLines rawData) ≠ none := by
      rw [Ne, JS.findIndex_eq_none_iff]
      exact hcon
    obtain ⟨i, hi⟩ := Option.ne_none_iff_exists'.mp hne
    obtain ⟨pre, m, post, hl, -, hpre, hm⟩ := JS.findIndex_eq_some _ _ _ hi
    rw [parseBuoyData_of_split rawData lastUpdated pre m post hl hpre hm] at h
    cases hp : parseLines post with
    | nil => rw [hp] at h; cases h
    | cons a l => rw [hp] at h; cases h
  · intro h
    have hidx := (JS.findIndex_eq_none_iff hasMarker (feedLines rawData)).mpr h
    unfold hasMarker at hidx
    unfold parseBuoyData
    simp only [hidx]

/-- C3: `parseBuoyData` raises an error if and only if either no non-blank line of
the input contains the marker `#YY`, or no line after the first marker line parses to a
record with a timestamp; in every other case it returns a snapshot.  The first error is
`missingHeader`, the second `noValidData`. -/
theorem parseBuoyData_error_iff (rawData lastUpdated : List Char) :
    ((∃ e, parseBuoyData rawData lastUpdated = Except.error e) ↔
      ((∀ l ∈ feedLines rawData, hasMarker l = false) ∨
       (∃ pre m post, feedLines rawData = pre ++ m :: post ∧ (∀ l ∈ pre, hasMarker l = false) ∧
          hasMarker m = true ∧ ∀ l ∈ post, isValidDataLine l = false))) ∧
    (parseBuoyData rawData lastUpdated = Except.error ParseError.missingHeader ↔
      ∀ l ∈ feedLines rawData, hasMarker l = false) ∧
    (parseBuoyData rawData lastUpdated = Except.error ParseError.noValidData ↔
      ∃ pre m post, feedLines rawData = pre ++ m :: post ∧ (∀ l ∈ pre, hasMarker l = false) ∧
        hasMarker m = true ∧ ∀ l ∈ post, isValidDataLine l = false) ∧
    ((∃ snap, parseBuoyData rawData lastUpdated = Except.ok snap) ↔
      ∃ pre m post, feedLines rawData = pre ++ m :: post ∧ (∀ l ∈ pre, hasMarker l = false) ∧
        hasMarker m = true ∧ ∃ l ∈ post, isValidDataLine l = true) := by
  have hB : parseBuoyData rawData lastUpdated = Except.error ParseError.noValidData ↔
      ∃ pre m post, feedLines rawData = pre ++ m :: post ∧ (∀ l ∈ pre, hasMarker l = false) ∧
        hasMarker m = true ∧ ∀ l ∈ post, isValidDataLine l = false := by
    constructor
    · intro h
      cases hidx : JS.findIndex hasMarker (feedLines rawData) with
      | none =>
        have := (parseBuoyData_missingHeader_iff rawData lastUpdated).mpr
          ((JS.findIndex_eq_none_iff _ _).mp hidx)
        rw [this] at h
        cases h
      | some i =>
        obtain ⟨pre, m, post, hl, -, hpre, hm⟩ := JS.findIndex_eq_some _ _ _ hidx
        refine ⟨pre, m, post, hl, hpre, hm, ?_⟩
        rw [parseBuoyData_of_split rawData lastUpdated pre m post hl hpre hm] at h
        cases hp : parseLines post with
        | nil => exact (parseLines_eq_nil_iff post).mp hp
        | cons a l => rw [hp] at h; cases h
    · rintro ⟨pre, m, post, hl, hpre, hm, hpost⟩
      rw [parseBuoyData_of_split rawData lastUpdated pre m post hl hpre hm,
        (parseLines_eq_nil_iff post).mpr hpost]
  have hOk : (∃ snap, parseBuoyData rawData lastUpdated = Except.ok snap) ↔
      ∃ pre m post, feedLines rawData = pre ++ m :: post ∧ (∀ l ∈ pre, hasMarker l = false) ∧
        hasMarker m = true ∧ ∃ l ∈ post, isValidDataLine l = true := by
    constructor
    · rintro ⟨snap, h⟩
      cases hidx : JS.findIndex hasMarker (feedLines rawData) with
      | none =>
        have := (parseBuoyData_missingHeader_iff rawData lastUpdated).mpr
          ((JS.findIndex_eq_none_iff _ _).mp hidx)
        rw [this] at h
        cases h
      | some i =>
        obtain ⟨pre, m, post, hl, -, hpre, hm⟩ := JS.findIndex_eq_some _ _ _ hidx
        refine ⟨pre, m, post, hl, hpre, hm, ?_⟩
        by_contra hcon
        have hall : ∀ l ∈ post, isValidDataLine l = false := by
          intro l hlp
          by_contra hv
          exact hcon ⟨l, hlp, by simpa using hv⟩
        rw [parseBuoyData_of_split rawData lastUpdated pre m post hl hpre hm,
          (parseLines_eq_nil_iff post).mpr hall] at h
        cases h
    · rintro ⟨pre, m, post, hl, hpre, hm, l, hlp, hv⟩
      rw [parseBuoyData_of_split rawData lastUpdated pre m post hl hpre hm]
      cases hp : parseLines post with
      | nil =>
        have := (parseLines_eq_nil_iff post).mp hp l hlp
        rw [hv] at this
        cases this
      | cons a rest => exact ⟨_, rfl⟩
  refine ⟨?_, parseBuoyData_missingHeader_iff rawData lastUpdated, hB, hOk⟩
  constructor
  · rintro ⟨e, he⟩
    cases e with
    | missingHeader => exact Or.inl ((parseBuoyData_missingHeader_iff _ _).mp he)
    | noValidData => exact Or.inr (hB.mp he)
  · rintro (h | h)
    · exact ⟨_, (parseBuoyData_missingHeader_iff _ _).mpr h⟩
    · exact ⟨_, hB.mpr h⟩

/-- A successful `parseBuoyData` aggregates the valid records after the first marker
line. -/
theorem parseBuoyData_ok_split (rawData lastUpdated : List Char) (snap : Snapshot)
    (h : parseBuoyData rawData lastUpdated = Except.ok snap) :
    ∃ pre m post first rest, feedLines rawData = pre ++ m :: post ∧
      (∀ l ∈ pre, hasMarker l = false) ∧ hasMarker m = true ∧
      parseLines post = first :: rest ∧ snap = aggregate first (first :: rest) lastUpdated := by
  cases hidx : JS.findIndex hasMarker (feedLines rawData) with
  | none =>
    have := (parseBuoyData_missingHeader_iff rawData lastUpdated).mpr
      ((JS.findIndex_eq_none_iff _ _).mp hidx)
    rw [this] at h
    cases h
  | some i =>
    obtain ⟨pre, m, post, hl, -, hpre, hm⟩ := JS.findIndex_eq_some _ _ _ hidx
    rw [parseBuoyData_of_split rawData lastUpdated pre m post hl hpre hm] at h
    cases hp : parseLines post with
    | nil => rw [hp] at h; cases h
    | cons a rest =>
      rw [hp] at h
      refine ⟨pre, m, post, a, rest, hl, hpre, hm, hp, ?_⟩
      injection h with h
      exact h.symm

theorem aggregate_historical (first : ParsedRecord) (parsedLines : List ParsedRecord)
    (lastUpdated : List Char) :
    (aggregate first parsedLines lastUpdated).historical =
      (parsedLines.drop (parsedLines.length - 12)).map (fun data =>
        ({ timestamp := data.timestamp, windDirection := data.windDirection,
           windSpeed := data.windSpeed, waveHeight := data.waveHeight,
           dominantWavePeriod := data.dominantWavePeriod,
           airTemperature := data.airTemperature,
           waterTemperature := data.waterTemperature } : HistoricalEntry)) := by
  unfold aggregate
  rfl

/-- C5: when `parseBuoyData` succeeds, with `records` the valid records of the lines after
the first marker line (`n` of them), `historical` has length `min 12 n` and its `i`-th
entry is the projection of record number `n - min 12 n + i` to the seven fields timestamp,
windDirection, windSpeed, waveHeight, dominantWavePeriod, airTemperature and
waterTemperature: the final `min 12 n` records in their original order. -/
theorem historical_final_twelve (rawData lastUpdated : List Char) (snap : Snapshot)
    (h : parseBuoyData rawData lastUpdated = Except.ok snap) :
    ∃ pre m post, feedLines rawData = pre ++ m :: post ∧
      (∀ l ∈ pre, hasMarker l = false) ∧ hasMarker m = true ∧
      snap.historical.length = min 12 (parseLines post).length ∧
      ∀ i, i < min 12 (parseLines post).length →
        ∃ r, (parseLines post)[(parseLines post).length - min 12 (parseLines post).length + i]?
            = some r ∧
          snap.historical[i]? = some
            { timestamp := r.timestamp, windDirection := r.windDirection,
              windSpeed := r.windSpeed, waveHeight := r.waveHeight,
              dominantWavePeriod := r.dominantWavePeriod,
              airTemperature := r.airTemperature,
              waterTemperature := r.waterTemperature } := by
  obtain ⟨pre, m, post, first, rest, hl, hpre, hm, hp, hsnap⟩ :=
    parseBuoyData_ok_split rawData lastUpdated snap h
  refine ⟨pre, m, post, hl, hpre, hm, ?_, ?_⟩
  · rw [hsnap, aggregate_historical, hp]
    simp only [List.length_map, List.length_drop]
    omega
  · intro i hi
    rw [hsnap, aggregate_historical, hp]
    rw [hp] at hi
    have hidx : (first :: rest).length - min 12 (first :: rest).length + i
        < (first :: rest).length := by omega
    refine ⟨(first :: rest)[(first :: rest).length - min 12 (first :: rest).length + i], ?_, ?_⟩
    · exact List.getElem?_eq_getElem hidx
    · rw [List.getElem?_map, List.getElem?_drop]
      have hk : (first :: rest).length - 12 + i
          = (first :: rest).length - min 12 (first :: rest).length + i := by omega
      rw [hk, List.getElem?_eq_getElem hidx]
      rfl

theorem List.exists_cons_of_succ_le {α : Type} {n : Nat} (l : List α) (h : n + 1 ≤ l.length) :
    ∃ a t, l = a :: t ∧ n ≤ t.length := by
  cases l with
  | nil => simp at h
  | cons a t => exact ⟨a, t, rfl, by simpa using h⟩

theorem JS.trim_nil : JS.trim [] = [] := by
  simp [JS.trim, JS.trimEnd, JS.trimStart]

/-- Every token kept by `columnsOf` is a non-empty string. -/
theorem columnsOf_truthy (line col : List Char) (h : col ∈ columnsOf line) :
    JS.truthy col = true := by
  unfold columnsOf at h
  have h2 := (List.mem_filter.mp h).2
  cases col with
  | nil => simp [JS.trim_nil, JS.truthy] at h2
  | cons c cs => simp [JS.truthy]

theorem parseFloat_missing : parseFloat (some "MM".toList) = none := by
  simp [parseFloat]

/-- The expression `columns[i] || 'MM'` passed to `parseFloat`, on non-empty tokens. -/
theorem parseFloat_columnOrMissing (columns : List (List Char)) (i : Nat)
    (h : ∀ col ∈ columns, JS.truthy col = true) :
    parseFloat (some (columnOrMissing columns i)) =
      match columns.get? i with
      | some token => parseFloat (some token)
      | none => none := by
  unfold columnOrMissing
  cases hg : columns.get? i with
  | none => exact parseFloat_missing
  | some c =>
    have hc : JS.truthy c = true := h c (List.get?_mem hg)
    simp only [hc, if_true]

/-- C4: a line with at least 15 non-empty whitespace-separated tokens (`columnsOf`, the
maximal runs of non-whitespace characters, see `columnsOf_lineOfTokens`) yields a record
whose timestamp is built by `parseTimestamp` from tokens 0 to 4 (year, month, day, hour,
minute; the month is lowered by one for `Date.UTC`), whose windDirection is the
direction coercion of token 5, whose next nine fields are the numeric coercions of tokens
6 to 14 in order, and whose dewPoint, visibility, pressureTendency and tide are the
coercions of tokens 15 to 18 when present and null when the token is missing. -/
theorem parseDataLine_fields (line : List Char) (h : 15 ≤ (columnsOf line).length) :
    ∃ c0 c1 c2 c3 c4 c5 c6 c7 c8 c9 c10 c11 c12 c13 c14 rest,
      columnsOf line =
        c0 :: c1 :: c2 :: c3 :: c4 :: c5 :: c6 :: c7 :: c8 :: c9 :: c10 :: c11 :: c12 :: c13 ::
          c14 :: rest ∧
      parseDataLine line = some
        { timestamp := parseTimestamp (some c0) (some c1) (some c2) (some c3) (some c4)
          windDirection := parseWindDirection c5
          windSpeed := parseFloat (some c6)
          gustSpeed := parseFloat (some c7)
          waveHeight := parseFloat (some c8)
          dominantWavePeriod := parseFloat (some c9)
          averageWavePeriod := parseFloat (some c10)
          meanWaveDirection := parseFloat (some c11)
          pressure := parseFloat (some c12)
          airTemperature := parseFloat (some c13)
          waterTemperature := parseFloat (some c14)
          dewPoint := match rest.get? 0 with
            | some token => parseFloat (some token)
            | none => none
          visibility := match rest.get? 1 with
            | some token => parseFloat (some token)
            | none => none
          pressureTendency := match rest.get? 2 with
            | some token => parseFloat (some token)
            | none => none
          tide := match rest.get? 3 with
            | some token => parseFloat (some token)
            | none => none } := by
  have htr := columnsOf_truthy line
  obtain ⟨c0, t0, e0, h0⟩ := List.exists_cons_of_succ_le (columnsOf line) h
  obtain ⟨c1, t1, e1, h1⟩ := List.exists_cons_of_succ_le t0 h0
  obtain ⟨c2, t2, e2, h2⟩ := List.exists_cons_of_succ_le t1 h1
  obtain ⟨c3, t3, e3, h3⟩ := List.exists_cons_of_succ_le t2 h2
  obtain ⟨c4, t4, e4, h4⟩ := List.exists_cons_of_succ_le t3 h3
  obtain ⟨c5, t5, e5, h5⟩ := List.exists_cons_of_succ_le t4 h4
  obtain ⟨c6, t6, e6, h6⟩ := List.exists_cons_of_succ_le t5 h5
  obtain ⟨c7, t7, e7, h7⟩ := List.exists_cons_of_succ_le t6 h6
  obtain ⟨c8, t8, e8, h8⟩ := List.exists_cons_of_succ_le t7 h7
  obtain ⟨c9, t9, e9, h9⟩ := List.exists_cons_of_succ_le t8 h8
  obtain ⟨c10, t10, e10, h10⟩ := List.exists_cons_of_succ_le t9 h9
  obtain ⟨c11, t11, e11, h11⟩ := List.exists_cons_of_succ_le t10 h10
  obtain ⟨c12, t12, e12, h12⟩ := List.exists_cons_of_succ_le t11 h11
  obtain ⟨c13, t13, e13, h13⟩ := List.exists_cons_of_succ_le t12 h12
  obtain ⟨c14, rest, e14, -⟩ := List.exists_cons_of_succ_le t13 h13
  subst e1 e2 e3 e4 e5 e6 e7 e8 e9 e10 e11 e12 e13 e14
  refine ⟨c0, c1, c2, c3, c4, c5, c6, c7, c8, c9, c10, c11, c12, c13, c14, rest, e0, ?_⟩
  have hlen : ¬ (columnsOf line).length < 15 := by omega
  unfold columnsOf at e0 hlen htr
  unfold parseDataLine
  simp only [hlen, if_false]
  have hrest : ∀ col ∈ c0 :: c1 :: c2 :: c3 :: c4 :: c5 :: c6 :: c7 :: c8 :: c9 :: c10 :: c11 ::
      c12 :: c13 :: c14 :: rest, JS.truthy col = true := by
    intro col hcol
    rw [← e0] at hcol
    exact htr col hcol
  rw [e0]
  rw [parseFloat_columnOrMissing _ 15 hrest, parseFloat_columnOrMissing _ 16 hrest,
    parseFloat_columnOrMissing _ 17 hrest, parseFloat_columnOrMissing _ 18 hrest]
  rfl

/-- The scenario of C4: `sampleLine` has 15 tokens and yields `sampleRecord`
(windDirection 180, windSpeed 10.5, waveHeight 1.2, airTemperature 15.0, timestamp
`2024-01-15T12:00:00.000Z`, and null dewPoint, visibility, pressureTendency and tide). -/
theorem parseDataLine_fields_witness :
    15 ≤ (columnsOf sampleLine).length ∧
    (∃ c0 c1 c2 c3 c4 c5 c6 c7 c8 c9 c10 c11 c12 c13 c14 rest,
      columnsOf sampleLine =
        c0 :: c1 :: c2 :: c3 :: c4 :: c5 :: c6 :: c7 :: c8 :: c9 :: c10 :: c11 :: c12 :: c13 ::
          c14 :: rest ∧
      parseDataLine sampleLine = some
        { timestamp := parseTimestamp (some c0) (some c1) (some c2) (some c3) (some c4)
          windDirection := parseWindDirection c5
          windSpeed := parseFloat (some c6)
          gustSpeed := parseFloat (some c7)
          waveHeight := parseFloat (some c8)
          dominantWavePeriod := parseFloat (some c9)
          averageWavePeriod := parseFloat (some c10)
          meanWaveDirection := parseFloat (some c11)
          pressure := parseFloat (some c12)
          airTemperature := parseFloat (some c13)
          waterTemperature := parseFloat (some c14)
          dewPoint := match rest.get? 0 with
            | some token => parseFloat (some token)
            | none => none
          visibility := match rest.get? 1 with
            | some token => parseFloat (some token)
            | none => none
          pressureTendency := match rest.get? 2 with
            | some token => parseFloat (some token)
            | none => none
          tide := match rest.get? 3 with
            | some token => parseFloat (some token)
            | none => none }) ∧
    parseDataLine sampleLine = some sampleRecord :=
  ⟨by decide, parseDataLine_fields sampleLine (by decide), by decide!⟩

/-- The sample feed of C5: fourteen valid records, of which `historical` keeps the final
twelve. -/
theorem historical_final_twelve_witness :
    parseBuoyData sampleFeed sampleNow = Except.ok sampleSnapshot ∧
    ∃ pre m post, feedLines sampleFeed = pre ++ m :: post ∧
      (∀ l ∈ pre, hasMarker l = false) ∧ hasMarker m = true ∧
      sampleSnapshot.historical.length = min 12 (parseLines post).length ∧
      ∀ i, i < min 12 (parseLines post).length →
        ∃ r, (parseLines post)[(parseLines post).length - min 12 (parseLines post).length + i]?
            = some r ∧
          sampleSnapshot.historical[i]? = some
            { timestamp := r.timestamp, windDirection := r.windDirection,
              windSpeed := r.windSpeed, waveHeight := r.waveHeight,
              dominantWavePeriod := r.dominantWavePeriod,
              airTemperature := r.airTemperature,
              waterTemperature := r.waterTemperature } :=
  ⟨by decide!, historical_final_twelve sampleFeed sampleNow sampleSnapshot (by decide!)⟩

/-! ## Lemmas on the forecast scanner -/

theorem scanLines_blank (raw : List Char) (rest : List (List Char)) (st : ScanState)
    (h : JS.truthy (JS.trim raw) = false) :
    scanLines (raw :: rest) st = scanLines rest st := by
  simp [scanLines, h]

theorem scanLines_header (raw : List Char) (rest : List (List Char)) (st : ScanState)
    (h : JS.truthy (JS.trim raw) = true) (hh : isTargetHeader (JS.trim raw) = true) :
    scanLines (raw :: rest) st =
      scanLines rest { st with inTargetSection := true,
                               rawText := st.rawText ++ JS.trim raw ++ ['\n'] } := by
  unfold isTargetHeader at hh
  simp [scanLines, h, hh]

theorem scanLines_break (raw : List Char) (rest : List (List Char)) (st : ScanState)
    (h : JS.truthy (JS.trim raw) = true) (hin : st.inTargetSection = true)
    (ho : isOtherZoneHeader (JS.trim raw) = true) :
    scanLines (raw :: rest) st = st := by
  unfold isOtherZoneHeader at ho
  simp only [Bool.and_eq_true, Bool.not_eq_true'] at ho
  simp [scanLines, h, hin, ho.1, ho.2]

theorem scanLines_outside (raw : List Char) (rest : List (List Char)) (st : ScanState)
    (hh : isTargetHeader (JS.trim raw) = false) (hin : st.inTargetSection = false) :
    scanLines (raw :: rest) st = scanLines rest st := by
  unfold isTargetHeader at hh
  simp [scanLines, hh, hin]

theorem scanLines_inside (raw : List Char) (rest : List (List Char)) (st : ScanState)
    (h : JS.truthy (JS.trim raw) = true) (hh : isTargetHeader (JS.trim raw) = false)
    (hin : st.inTargetSection = true) (ho : isOtherZoneHeader (JS.trim raw) = false) :
    scanLines (raw :: rest) st =
      match periodEntry (JS.trim raw) with
      | some entry =>
        scanLines rest { st with
          rawText := st.rawText ++ JS.trim raw ++ ['\n']
          currentConditions :=
            match st.currentConditions with
            | some cc => some cc
            | none => some entry.conditions
          forecast := st.forecast ++ [entry] }
      | none => scanLines rest { st with rawText := st.rawText ++ JS.trim raw ++ ['\n'] } := by
  unfold isTargetHeader at hh
  unfold isOtherZoneHeader at ho
  rw [hh] at ho
  simp only [Bool.not_false, Bool.and_true] at ho
  simp only [scanLines, h, hh, hin, ho]
  cases periodEntry (JS.trim raw) <;> simp [ForecastEntry.conditions]

/-- A target header line does not match the period pattern. -/
theorem periodEntry_header (line : List Char) (h : isTargetHeader line = true) :
    periodEntry line = none := by
  unfold isTargetHeader JS.startsWith targetHeader at h
  cases line with
  | nil => simp [List.isPrefixOf] at h
  | cons c cs =>
    have hc : c = 'G' := by
      simp [List.isPrefixOf] at h
      exact h.1.symm
    subst hc
    simp [periodEntry, Regex.matchStart, periodPattern, Regex.cat, Regex.run, Regex.chr]

theorem isOtherZoneHeader_of_header (line : List Char) (h : isTargetHeader line = true) :
    isOtherZoneHeader line = false := by
  unfold isTargetHeader at h
  simp [isOtherZoneHeader, h]

theorem contentLines_cons_blank (raw : List Char) (rest : List (List Char))
    (h : JS.truthy (JS.trim raw) = false) : contentLines (raw :: rest) = contentLines rest := by
  simp [contentLines, h]

theorem contentLines_cons (raw : List Char) (rest : List (List Char))
    (h : JS.truthy (JS.trim raw) = true) :
    contentLines (raw :: rest) = JS.trim raw :: contentLines rest := by
  simp [contentLines, h]

/-- The loop of `parseForecastText` appends one entry per matching line of the
target section, in order. -/
theorem scanLines_forecast (lines : List (List Char)) (st : ScanState) :
    (scanLines lines st).forecast =
      st.forecast ++ (sectionFrom st.inTargetSection lines).filterMap periodEntry := by
  induction lines generalizing st with
  | nil => simp [scanLines, sectionFrom, contentLines]
  | cons raw rest ih =>
    by_cases h : JS.truthy (JS.trim raw) = true
    · by_cases hh : isTargetHeader (JS.trim raw) = true
      · rw [scanLines_header raw rest st h hh, ih]
        have ho := isOtherZoneHeader_of_header _ hh
        have hp := periodEntry_header _ hh
        cases hin : st.inTargetSection <;>
          simp [sectionFrom, contentLines_cons raw rest h, hh, ho, hp]
      · have hh' : isTargetHeader (JS.trim raw) = false := by simpa using hh
        cases hin : st.inTargetSection with
        | false =>
          rw [scanLines_outside raw rest st hh' hin, ih, hin]
          simp [sectionFrom, contentLines_cons raw rest h, hh']
        | true =>
          by_cases ho : isOtherZoneHeader (JS.trim raw) = true
          · rw [scanLines_break raw rest st h hin ho]
            simp [sectionFrom, contentLines_cons raw rest h, ho]
          · have ho' : isOtherZoneHeader (JS.trim raw) = false := by simpa using ho
            rw [scanLines_inside raw rest st h hh' hin ho']
            cases hp : periodEntry (JS.trim raw) with
            | none =>
              simp only []
              rw [ih]
              simp [sectionFrom, contentLines_cons raw rest h, ho', hp, hin]
            | some e =>
              simp only []
              rw [ih]
              simp [sectionFrom, contentLines_cons raw rest h, ho', hp, hin]
    · have h' : JS.truthy (JS.trim raw) = false := by simpa using h
      rw [scanLines_blank raw rest st h', ih]
      simp [sectionFrom, contentLines_cons_blank raw rest h']

/-- The loop keeps `currentConditions` equal to the fields of the first entry. -/
theorem scanLines_conditions (lines : List (List Char)) (st : ScanState)
    (hst : st.currentConditions = st.forecast.head?.map ForecastEntry.conditions) :
    (scanLines lines st).currentConditions =
      (scanLines lines st).forecast.head?.map ForecastEntry.conditions := by
  induction lines generalizing st with
  | nil => simpa [scanLines] using hst
  | cons raw rest ih =>
    by_cases h : JS.truthy (JS.trim raw) = true
    · by_cases hh : isTargetHeader (JS.trim raw) = true
      · rw [scanLines_header raw rest st h hh]
        exact ih _ hst
      · have hh' : isTargetHeader (JS.trim raw) = false := by simpa using hh
        cases hin : st.inTargetSection with
        | false =>
          rw [scanLines_outside raw rest st hh' hin]
          exact ih _ hst
        | true =>
          by_cases ho : isOtherZoneHeader (JS.trim raw) = true
          · rw [scanLines_break raw rest st h hin ho]
            exact hst
          · have ho' : isOtherZoneHeader (JS.trim raw) = false := by simpa using ho
            rw [scanLines_inside raw rest st h hh' hin ho']
            cases hp : periodEntry (JS.trim raw) with
            | none => exact ih _ hst
            | some e =>
              apply ih
              cases hf : st.forecast with
              | nil => simp [hst, hf]
              | cons a l => simp [hst, hf]
    · have h' : JS.truthy (JS.trim raw) = false := by simpa using h
      rw [scanLines_blank raw rest st h']
      exact ih _ hst

/-- The `forecast` list is the list of entries of the matching lines of the
target section. -/
theorem forecast_eq_filterMap (text : List Char) :
    (parseForecastText text).forecast = (sectionLines text).filterMap periodEntry := by
  simp only [parseForecastText, sectionLines]
  rw [scanLines_forecast]
  simp

/-- C6: the `forecast` list of `parseForecastText` has exactly one entry per line of
the target section that matches the period pattern, in document order;
`currentConditions` is the wind, seas and weather of the first entry; the result is an
empty list and null `currentConditions` exactly when no line of the section matches (a
target header without periods is no error).  The sample bulletin, whose section has the
periods TODAY, TONIGHT and MON, yields these three entries in that order. -/
theorem parseForecastText_forecast (text : List Char) :
    (parseForecastText text).forecast = (sectionLines text).filterMap periodEntry ∧
    (parseForecastText text).currentConditions =
      (parseForecastText text).forecast.head?.map ForecastEntry.conditions ∧
    (((parseForecastText text).forecast = [] ∧ (parseForecastText text).currentConditions = none)
      ↔ ∀ l ∈ sectionLines text, periodEntry l = none) ∧
    parseForecastText sampleBulletin = sampleForecast ∧
    sampleForecast.forecast.map (·.date) = ["TODAY".toList, "TONIGHT".toList, "MON".toList] := by
  have h1 := forecast_eq_filterMap text
  have h2 : (parseForecastText text).currentConditions =
      (parseForecastText text).forecast.head?.map ForecastEntry.conditions := by
    simp only [parseForecastText]
    exact scanLines_conditions _ _ (by simp)
  refine ⟨h1, h2, ?_, by decide!, by decide⟩
  rw [h2, h1]
  constructor
  · rintro ⟨hf, -⟩
    exact List.filterMap_eq_nil_iff.mp hf
  · intro h
    have := List.filterMap_eq_nil_iff.mpr h
    simp [this]

theorem truthy_of_isOtherZoneHeader (line : List Char) (h : isOtherZoneHeader line = true) :
    JS.truthy line = true ∧ isTargetHeader line = false := by
  unfold isOtherZoneHeader at h
  simp only [Bool.and_eq_true, Bool.not_eq_true'] at h
  refine ⟨?_, h.2⟩
  cases line with
  | nil => simp [JS.startsWith, zonePrefix, List.isPrefixOf] at h
  | cons c cs => simp [JS.truthy]

/-- Once the target section has been entered (or its header lies among `head`), a line
that is the header of another zone ends the loop: nothing after it is read. -/
theorem scanLines_stop (head : List (List Char)) (stop : List Char) (tail : List (List Char))
    (st : ScanState)
    (hin : st.inTargetSection = true ∨ ∃ l ∈ head, isTargetHeader (JS.trim l) = true)
    (hs : isOtherZoneHeader (JS.trim stop) = true) :
    scanLines (head ++ stop :: tail) st = scanLines head st := by
  induction head generalizing st with
  | nil =>
    have hin' : st.inTargetSection = true := by
      rcases hin with h | ⟨l, hl, -⟩
      · exact h
      · simp at hl
    obtain ⟨ht, -⟩ := truthy_of_isOtherZoneHeader _ hs
    rw [List.nil_append, scanLines_break stop tail st ht hin' hs]
    simp [scanLines]
  | cons raw rest ih =>
    rw [List.cons_append]
    by_cases h : JS.truthy (JS.trim raw) = true
    · by_cases hh : isTargetHeader (JS.trim raw) = true
      · rw [scanLines_header raw _ st h hh, scanLines_header raw rest st h hh]
        exact ih _ (Or.inl rfl)
      · have hh' : isTargetHeader (JS.trim raw) = false := by simpa using hh
        have hrest : st.inTargetSection = true ∨ ∃ l ∈ rest, isTargetHeader (JS.trim l) = true := by
          rcases hin with h | ⟨l, hl, hlh⟩
          · exact Or.inl h
          · rcases List.mem_cons.mp hl with rfl | hl
            · rw [hh'] at hlh
              cases hlh
            · exact Or.inr ⟨l, hl, hlh⟩
        cases hst : st.inTargetSection with
        | false =>
          rw [scanLines_outside raw _ st hh' hst, scanLines_outside raw rest st hh' hst]
          exact ih _ hrest
        | true =>
          by_cases ho : isOtherZoneHeader (JS.trim raw) = true
          · rw [scanLines_break raw _ st h hst ho, scanLines_break raw rest st h hst ho]
          · have ho' : isOtherZoneHeader (JS.trim raw) = false := by simpa using ho
            rw [scanLines_inside raw _ st h hh' hst ho', scanLines_inside raw rest st h hh' hst ho']
            cases periodEntry (JS.trim raw) with
            | none => exact ih _ (Or.inl hst)
            | some e => exact ih _ (Or.inl hst)
    · have h' : JS.truthy (JS.trim raw) = false := by simpa using h
      have hrest : st.inTargetSection = true ∨ ∃ l ∈ rest, isTargetHeader (JS.trim l) = true := by
        rcases hin with h | ⟨l, hl, hlh⟩
        · exact Or.inl h
        · rcases List.mem_cons.mp hl with rfl | hl
          · have : JS.trim l = [] := by
              cases ht : JS.trim l with
              | nil => rfl
              | cons c cs => rw [ht] at h'; simp [JS.truthy] at h'
            rw [this] at hlh
            simp [isTargetHeader, JS.startsWith, targetHeader, List.isPrefixOf] at hlh
          · exact Or.inr ⟨l, hl, hlh⟩
      rw [scanLines_blank raw _ st h', scanLines_blank raw rest st h']
      exact ih _ hrest

/-- C7: when the lines of a bulletin are `head`, then a line (trimmed) that starts with
`GMZ` but not with `GMZ040-`, then `tail`, and the target header occurs in `head`, the
result of `parseForecastText` (rawText, currentConditions and forecast) does not depend
on that line and `tail`: any other text with the same `head` followed by the header of
another zone gives the same result, whatever comes after, and so does the text that
ends with `head`. -/
theorem parseForecastText_stops_at_next_zone (text : List Char) (head : List (List Char))
    (stop : List Char) (tail : List (List Char))
    (h : JS.split '\n' text = head ++ stop :: tail)
    (hin : ∃ l ∈ head, isTargetHeader (JS.trim l) = true)
    (hs : isOtherZoneHeader (JS.trim stop) = true) :
    (∀ text' stop' tail', JS.split '\n' text' = head ++ stop' :: tail' →
      isOtherZoneHeader (JS.trim stop') = true →
      parseForecastText text = parseForecastText text') ∧
    (∀ text₀, JS.split '\n' text₀ = head → parseForecastText text = parseForecastText text₀) := by
  constructor
  · intro text' stop' tail' h' hs'
    unfold parseForecastText
    simp only [h, h']
    rw [scanLines_stop head stop tail _ (Or.inr hin) hs,
      scanLines_stop head stop' tail' _ (Or.inr hin) hs']
  · intro text₀ h₀
    unfold parseForecastText
    simp only [h, h₀]
    rw [scanLines_stop head stop tail _ (Or.inr hin) hs]

/-- The sample of C7: `sampleBulletin` and `sampleBulletinOtherTail` share the twelve
lines before the header `GMZ041-151500-` and differ after it, where the second has a
further `GMZ040-` header and a period line; both parse to `sampleForecast`, as does
`sampleBulletinHead`, the text of the twelve lines alone. -/
theorem parseForecastText_stops_at_next_zone_witness :
    JS.split '\n' sampleBulletin =
      JS.split '\n' sampleBulletinHead ++ "GMZ041-151500-".toList ::
        (JS.split '\n' sampleBulletin).drop 13 ∧
    (∃ l ∈ JS.split '\n' sampleBulletinHead, isTargetHeader (JS.trim l) = true) ∧
    isOtherZoneHeader (JS.trim "GMZ041-151500-".toList) = true ∧
    ((∀ text' stop' tail',
        JS.split '\n' text' = JS.split '\n' sampleBulletinHead ++ stop' :: tail' →
        isOtherZoneHeader (JS.trim stop') = true →
        parseForecastText sampleBulletin = parseForecastText text') ∧
      (∀ text₀, JS.split '\n' text₀ = JS.split '\n' sampleBulletinHead →
        parseForecastText sampleBulletin = parseForecastText text₀)) ∧
    JS.split '\n' sampleBulletinOtherTail =
      JS.split '\n' sampleBulletinHead ++ "GMZ041-151500-".toList ::
        (JS.split '\n' sampleBulletinOtherTail).drop 13 ∧
    parseForecastText sampleBulletin = sampleForecast ∧
    parseForecastText sampleBulletinOtherTail = sampleForecast ∧
    parseForecastText sampleBulletinHead = sampleForecast :=
  ⟨by decide!, ⟨"GMZ040-151500-".toList, by decide!, by decide!⟩, by decide!,
    parseForecastText_stops_at_next_zone sampleBulletin (JS.split '\n' sampleBulletinHead)
      "GMZ041-151500-".toList ((JS.split '\n' sampleBulletin).drop 13)
      (by decide!) ⟨"GMZ040-151500-".toList, by decide!, by decide!⟩ (by decide!),
    by decide!, by decide!, by decide!, by decide!⟩

/-! ## The refresh caches -/

/-- C9: in `fetchBuoyData`, when a previous value exists, the refresh interval has
elapsed since the last fetch and the producer fails, the call returns the prior cached
object and leaves `cachedData` and `lastFetchTime` unchanged; an error is thrown only
when no prior value exists (and then it is the producer's error, with the state
unchanged). -/
theorem fetchBuoyData_stale_on_failure (self : BuoyScraper) (now : Int)
    (response : Except FetchError (List Char)) (lastUpdated : List Char) :
    (∀ prior e, self.cachedData = some prior →
      (∀ t, self.lastFetchTime = some t → self.refreshInterval ≤ now - t) →
      fetchAndParse response lastUpdated = Except.error e →
      fetchBuoyData self now response lastUpdated = (Except.ok (some prior), self)) ∧
    (∀ e, (fetchBuoyData self now response lastUpdated).1 = Except.error e →
      self.cachedData = none ∧ fetchAndParse response lastUpdated = Except.error e ∧
      (fetchBuoyData self now response lastUpdated).2 = self) := by
  constructor
  · intro prior e hprior httl hfail
    have hfresh : self.isFresh now = false := by
      unfold BuoyScraper.isFresh
      cases hl : self.lastFetchTime with
      | none => rfl
      | some t =>
        have := httl t hl
        simp only [Bool.and_eq_false_iff, decide_eq_false_iff_not, not_lt]
        exact Or.inr this
    simp [fetchBuoyData, hfresh, hfail, hprior]
  · intro e he
    unfold fetchBuoyData at he ⊢
    by_cases hfresh : self.isFresh now = true
    · simp [hfresh] at he
    · simp only [hfresh, Bool.false_eq_true, if_false] at he ⊢
      cases hp : fetchAndParse response lastUpdated with
      | ok snap => simp [hp] at he
      | error e' =>
        simp only [hp] at he ⊢
        cases hc : self.cachedData with
        | some cached => simp [hc] at he
        | none =>
          simp only [hc] at he
          injection he with he
          exact ⟨rfl, by rw [he], rfl⟩

/-- The sample of C9: a scraper holding `sampleSnapshot` since instant 1000, called one
hour later with a rejected request, returns `sampleSnapshot` and is unchanged. -/
theorem fetchBuoyData_stale_on_failure_witness :
    sampleScraper.cachedData = some sampleSnapshot ∧
    (∀ t, sampleScraper.lastFetchTime = some t → sampleScraper.refreshInterval ≤ 3601000 - t) ∧
    fetchAndParse sampleFailure sampleNow
      = Except.error (FetchError.request "connect ETIMEDOUT".toList) ∧
    fetchBuoyData sampleScraper 3601000 sampleFailure sampleNow
      = (Except.ok (some sampleSnapshot), sampleScraper) ∧
    (fetchBuoyData BuoyScraper.new 3601000 sampleFailure sampleNow).1
      = Except.error (FetchError.request "connect ETIMEDOUT".toList) ∧
    BuoyScraper.new.cachedData = none :=
  have httl : ∀ t, sampleScraper.lastFetchTime = some t →
      sampleScraper.refreshInterval ≤ 3601000 - t := by
    intro t ht
    have : t = 1000 := by
      simp only [sampleScraper, Option.some.injEq] at ht
      exact ht.symm
    subst this
    decide
  ⟨rfl, httl, rfl,
    (fetchBuoyData_stale_on_failure sampleScraper 3601000 sampleFailure sampleNow).1
      sampleSnapshot (FetchError.request "connect ETIMEDOUT".toList) rfl httl rfl,
    rfl,
    ((fetchBuoyData_stale_on_failure BuoyScraper.new 3601000 sampleFailure sampleNow).2
      (FetchError.request "connect ETIMEDOUT".toList) rfl).1⟩

/-- C10 (behaviour of the code): in `scrapeNOAAForecast`, with `sampleBundle` cached
since instant 1000 and the call made twelve hours later, a rejected request is thrown
again by the `catch` block: the cached bundle is not returned. -/
theorem scrapeNOAAForecast_rethrows_with_cache :
    sampleForecastCache.cachedForecastData = some sampleBundle ∧
    sampleForecastCache.isFresh 43201000 = false ∧
    scrapeNOAAForecast sampleForecastCache 43201000 sampleFailure sampleNow
      = (Except.error (FetchError.request "connect ETIMEDOUT".toList), sampleForecastCache) := by
  decide!

/-- In `scrapeNOAAForecast`, whenever the cache is not fresh and the request fails, the
error is thrown, with or without a cached value. -/
theorem scrapeNOAAForecast_failure (vars : ForecastCache) (now : Int) (e : FetchError)
    (timestamp : List Char) (hstale : vars.isFresh now = false) :
    scrapeNOAAForecast vars now (Except.error e) timestamp = (Except.error e, vars) := by
  simp [scrapeNOAAForecast, hstale]

/-! ## Lemmas on the regular-expression matcher -/

namespace Regex

theorem run_empty {R : Type} (s : List Char) (caps : Captures)
    (k : List Char → Captures → Option R) : run empty s caps k = k s caps := rfl

theorem run_cls_cons {R : Type} (p : Char → Bool) (c : Char) (cs : List Char) (caps : Captures)
    (k : List Char → Captures → Option R) :
    run (cls p) (c :: cs) caps k = if p c then k cs caps else none := rfl

theorem run_cls_nil {R : Type} (p : Char → Bool) (caps : Captures)
    (k : List Char → Captures → Option R) : run (cls p) [] caps k = none := rfl

theorem run_seq {R : Type} (a b : Regex) (s : List Char) (caps : Captures)
    (k : List Char → Captures → Option R) :
    run (seq a b) s caps k = run a s caps (fun s' caps' => run b s' caps' k) := rfl

theorem run_rep {R : Type} (p : Char → Bool) (min : Nat) (max : Option Nat) (s : List Char)
    (caps : Captures) (k : List Char → Captures → Option R) :
    run (rep p min max) s caps k = repGreedy p (fun s' => k s' caps) min max s := rfl

theorem run_group {R : Type} (n : Nat) (a : Regex) (s : List Char) (caps : Captures)
    (k : List Char → Captures → Option R) :
    run (group n a) s caps k =
      run a s caps (fun s' caps' => k s' ((n, s.take (s.length - s'.length)) :: caps')) := rfl

theorem run_eos_nil {R : Type} (caps : Captures) (k : List Char → Captures → Option R) :
    run eos [] caps k = k [] caps := rfl

theorem run_alt_left {R : Type} (a b : Regex) (s : List Char) (caps : Captures)
    (k : List Char → Captures → Option R) (r : R) (h : run a s caps k = some r) :
    run (alt a b) s caps k = some r := by
  simp [run, h]

theorem run_alt_right {R : Type} (a b : Regex) (s : List Char) (caps : Captures)
    (k : List Char → Captures → Option R) (h : run a s caps k = none) :
    run (alt a b) s caps k = run b s caps k := by
  simp [run, h]

theorem run_opt_some {R : Type} (a : Regex) (s : List Char) (caps : Captures)
    (k : List Char → Captures → Option R) (r : R) (h : run a s caps k = some r) :
    run (opt a) s caps k = some r := by
  simp [run, h]

theorem run_opt_none {R : Type} (a : Regex) (s : List Char) (caps : Captures)
    (k : List Char → Captures → Option R) (h : run a s caps k = none) :
    run (opt a) s caps k = k s caps := by
  simp [run, h]

/-- A repetition fails when the continuation fails after every admissible number of
characters of the run. -/
theorem repGreedy_none {R : Type} (p : Char → Bool) (k : List Char → Option R)
    (run rest : List Char) (min : Nat) (max : Option Nat)
    (hrest : ∀ c tl, rest = c :: tl → p c = false)
    (hk : ∀ j, min ≤ j → j ≤ run.length → k (run.drop j ++ rest) = none) :
    repGreedy p k min max (run ++ rest) = none := by
  induction run generalizing min max with
  | nil =>
    have h0 := hk 0
    cases rest with
    | nil =>
      by_cases hm : min = 0
      · simpa [repGreedy, hm] using h0 (by omega) (by simp)
      · simp [repGreedy, hm]
    | cons c tl =>
      have hp := hrest c tl rfl
      by_cases hm : min = 0
      · simpa [repGreedy, hp, hm] using h0 (by omega) (by simp)
      · simp [repGreedy, hp, hm]
  | cons x xs ih =>
    have hrec : repGreedy p k (min - 1) (max.map (· - 1)) (xs ++ rest) = none := by
      apply ih
      intro j hj hjl
      have := hk (j + 1) (by omega) (by simp; omega)
      simpa using this
    have h0 : min = 0 → k (x :: (xs ++ rest)) = none := by
      intro hm
      have := hk 0 (by omega) (by simp)
      simpa using this
    rw [List.cons_append]
    unfold repGreedy
    by_cases hc : (p x && max != some 0) = true
    · rw [if_pos hc, hrec]
      by_cases hm : min = 0
      · simp [hm, h0 hm]
      · simp [hm]
    · rw [if_neg hc]
      by_cases hm : min = 0
      · simp [hm, h0 hm]
      · simp [hm]

/-- A repetition over a maximal run of class characters returns the first success of the
continuation, trying the longest admissible prefix first: here after `j` characters,
every longer prefix having failed. -/
theorem repGreedy_first {R : Type} (p : Char → Bool) (k : List Char → Option R)
    (run rest : List Char) (min : Nat) (max : Option Nat) (j : Nat) (r : R)
    (hrun : ∀ c ∈ run, p c = true)
    (hrest : ∀ c tl, rest = c :: tl → p c = false)
    (hmax : ∀ m, max = some m → run.length ≤ m)
    (hmin : min ≤ j) (hj : j ≤ run.length)
    (hk : k (run.drop j ++ rest) = some r)
    (hlater : ∀ i, j < i → i ≤ run.length → k (run.drop i ++ rest) = none) :
    repGreedy p k min max (run ++ rest) = some r := by
  induction run generalizing min max j with
  | nil =>
    have hj0 : j = 0 := by simpa using hj
    subst hj0
    have hm : min = 0 := by omega
    subst hm
    cases rest with
    | nil => simpa [repGreedy] using hk
    | cons c tl =>
      have hp := hrest c tl rfl
      simpa [repGreedy, hp] using hk
  | cons x xs ih =>
    have hx : p x = true := hrun x (List.mem_cons_self _ _)
    have hmax0 : (max != some 0) = true := by
      cases max with
      | none => rfl
      | some m =>
        have := hmax m rfl
        simp only [List.length_cons] at this
        have hne : m ≠ 0 := by omega
        simp [hne]
    rw [List.cons_append]
    unfold repGreedy
    rw [if_pos (by simp [hx, hmax0])]
    cases j with
    | zero =>
      have hm : min = 0 := by omega
      have hrec : repGreedy p k (min - 1) (max.map (· - 1)) (xs ++ rest) = none := by
        apply repGreedy_none p k xs rest _ _ hrest
        intro i _ hil
        have := hlater (i + 1) (by omega) (by simp; omega)
        simpa using this
      rw [hrec]
      simpa [hm] using hk
    | succ j' =>
      have hrec : repGreedy p k (min - 1) (max.map (· - 1)) (xs ++ rest) = some r := by
        apply ih (min - 1) (max.map (· - 1)) j' (fun c hc => hrun c (List.mem_cons_of_mem _ hc))
        · intro m hm
          cases max with
          | none => simp at hm
          | some m' =>
            have := hmax m' rfl
            simp only [Option.map_some', Option.some.injEq] at hm
            simp only [List.length_cons] at this
            omega
        · omega
        · simpa using hj
        · simpa using hk
        · intro i hi hil
          have := hlater (i + 1) (by omega) (by simp; omega)
          simpa using this
      rw [hrec]

/-- The greedy case: the continuation succeeds after the whole run. -/
theorem repGreedy_run {R : Type} (p : Char → Bool) (k : List Char → Option R)
    (run rest : List Char) (min : Nat) (max : Option Nat) (r : R)
    (hrun : ∀ c ∈ run, p c = true)
    (hrest : ∀ c tl, rest = c :: tl → p c = false)
    (hmin : min ≤ run.length)
    (hmax : ∀ m, max = some m → run.length ≤ m)
    (hk : k rest = some r) :
    repGreedy p k min max (run ++ rest) = some r := by
  apply repGreedy_first p k run rest min max run.length r hrun hrest hmax hmin (le_refl _)
  · simpa using hk
  · intro i hi hil
    omega

theorem search_of_matchStart (re : Regex) (s : List Char) (caps : Captures)
    (h : matchStart re s = some caps) : search re s = some caps := by
  cases s with
  | nil => simpa [search] using h
  | cons c cs => simp [search, h]

theorem search_cons_of_none (re : Regex) (c : Char) (cs : List Char)
    (h : matchStart re (c :: cs) = none) : search re (c :: cs) = search re cs := by
  simp [search, h]

/-- The search passes over a prefix none of whose positions starts a match. -/
theorem search_skip (re : Regex) (pre s : List Char)
    (h : ∀ c ∈ pre, ∀ tl, matchStart re (c :: tl) = none) :
    search re (pre ++ s) = search re s := by
  induction pre with
  | nil => rfl
  | cons c cs ih =>
    rw [List.cons_append, search_cons_of_none re c _ (h c (List.mem_cons_self _ _) _)]
    exact ih (fun d hd tl => h d (List.mem_cons_of_mem _ hd) tl)

end Regex

theorem List.take_append_length_sub {α : Type} (m rest : List α) :
    (m ++ rest).take ((m ++ rest).length - rest.length) = m := by
  simp

/-! ## Lemmas on the patterns of the forecast scanner -/

theorem isCapital_of_isWhiteSpace (c : Char) (h : JS.isWhiteSpace c = true) :
    Regex.isCapital c = false := by
  unfold JS.isWhiteSpace at h
  unfold Regex.isCapital
  simp only [Bool.or_eq_true, Bool.and_eq_true, beq_iff_eq, decide_eq_true_eq] at h
  simp only [Bool.and_eq_false_iff, decide_eq_false_iff_not]
  omega

/-- The alternation of period names inside capture group 1 of `periodPattern`. -/
theorem periodName_run {R : Type} (label rest : List Char) (caps : Captures)
    (k : List Char → Captures → Option R) (r : R) (hl : IsPeriodName label)
    (hk : k ('.' :: rest) caps = some r) :
    Regex.run (Regex.alt (Regex.lit "TODAY") (Regex.alt (Regex.lit "TONIGHT")
      (Regex.seq (Regex.rep Regex.isCapital 3 (some 3))
        (Regex.opt (Regex.seq Regex.spaces (Regex.lit "NIGHT"))))))
      (label ++ '.' :: rest) caps k = some r := by
  have hopt : ∀ (caps : Captures),
      Regex.run (Regex.opt (Regex.seq Regex.spaces (Regex.lit "NIGHT"))) ('.' :: rest) caps k
        = k ('.' :: rest) caps := by
    intro caps
    apply Regex.run_opt_none
    simp [Regex.run_seq, Regex.spaces, Regex.run_rep, Regex.repGreedy, JS.isWhiteSpace]
  rcases hl with rfl | rfl | ⟨x, y, z, hx, hy, hz, rfl | ⟨ws, hws, hwsp, rfl⟩⟩
  · apply Regex.run_alt_left
    simpa [Regex.lit, Regex.cat, Regex.chr, Regex.run_seq, Regex.run_cls_cons, Regex.run_empty]
      using hk
  · rw [Regex.run_alt_right _ _ _ _ _ (by
      simp [Regex.lit, Regex.cat, Regex.chr, Regex.run_seq, Regex.run_cls_cons, Regex.run_empty])]
    apply Regex.run_alt_left
    simpa [Regex.lit, Regex.cat, Regex.chr, Regex.run_seq, Regex.run_cls_cons, Regex.run_empty]
      using hk
  · rw [Regex.run_alt_right _ _ _ _ _ (by
      simp [Regex.lit, Regex.cat, Regex.chr, Regex.run_seq, Regex.run_cls_cons, Regex.run_empty])]
    rw [Regex.run_alt_right _ _ _ _ _ (by
      simp [Regex.lit, Regex.cat, Regex.chr, Regex.run_seq, Regex.run_cls_cons, Regex.run_empty])]
    rw [Regex.run_seq, Regex.run_rep]
    have := Regex.repGreedy_run Regex.isCapital
      (fun s' => Regex.run (Regex.opt (Regex.seq Regex.spaces (Regex.lit "NIGHT"))) s' caps k)
      [x, y, z] ('.' :: rest) 3 (some 3) r
      (by intro c hc; simp at hc; rcases hc with rfl | rfl | rfl <;> assumption)
      (by intro c tl h; injection h with h1 h2; subst h1; decide)
      (by simp) (by intro m h; injection h with h; subst h; simp)
      (by beta_reduce; rw [hopt]; exact hk)
    simpa using this
  · cases ws with
    | nil => exact absurd rfl hws
    | cons w0 ws' =>
      have hw0 : JS.isWhiteSpace w0 = true := hwsp w0 (List.mem_cons_self _ _)
      have hcap : Regex.isCapital w0 = false := isCapital_of_isWhiteSpace w0 hw0
      have hA : (w0 == 'A') = false := by
        rw [beq_eq_false_iff_ne]
        rintro rfl
        simp [Regex.isCapital] at hcap
      have hI : (w0 == 'I') = false := by
        rw [beq_eq_false_iff_ne]
        rintro rfl
        simp [Regex.isCapital] at hcap
      rw [Regex.run_alt_right _ _ _ _ _ (by
        simp [Regex.lit, Regex.cat, Regex.chr, Regex.run_seq, Regex.run_cls_cons, Regex.run_empty,
          hA])]
      rw [Regex.run_alt_right _ _ _ _ _ (by
        simp [Regex.lit, Regex.cat, Regex.chr, Regex.run_seq, Regex.run_cls_cons, Regex.run_empty,
          hI])]
      rw [Regex.run_seq, Regex.run_rep]
      have hinner : Regex.run (Regex.seq Regex.spaces (Regex.lit "NIGHT"))
          ((w0 :: ws') ++ ('N' :: 'I' :: 'G' :: 'H' :: 'T' :: '.' :: rest)) caps k = some r := by
        rw [Regex.run_seq, Regex.spaces, Regex.run_rep]
        apply Regex.repGreedy_run JS.isWhiteSpace _ (w0 :: ws') _ 1 none r hwsp
        · intro c tl h
          injection h with h1 h2
          subst h1
          decide
        · simp
        · intro m h
          cases h
        · simpa [Regex.lit, Regex.cat, Regex.chr, Regex.run_seq, Regex.run_cls_cons,
            Regex.run_empty] using hk
      have := Regex.repGreedy_run Regex.isCapital
        (fun s' => Regex.run (Regex.opt (Regex.seq Regex.spaces (Regex.lit "NIGHT"))) s' caps k)
        [x, y, z] ((w0 :: ws') ++ ('N' :: 'I' :: 'G' :: 'H' :: 'T' :: '.' :: rest)) 3 (some 3) r
        (by intro c hc; simp at hc; rcases hc with rfl | rfl | rfl <;> assumption)
        (by intro c tl h; injection h with h1 h2; subst h1; exact hcap)
        (by simp) (by intro m h; injection h with h; subst h; simp)
        (by beta_reduce; exact Regex.run_opt_some _ _ _ _ _ hinner)
      simpa using this

theorem periodPattern_tail (ft : List Char) (hne : ft ≠ [])
    (hft : ∀ c ∈ ft, JS.isLineTerminator c = false) (caps : Captures) :
    Regex.run (Regex.cat [Regex.lit "...",
        Regex.group 2 (Regex.rep (fun c => !JS.isLineTerminator c) 1 none), Regex.eos])
        ('.' :: '.' :: '.' :: ft) caps (fun _ caps => some caps) = some ((2, ft) :: caps) := by
  simp only [Regex.cat, Regex.lit, Regex.chr, String.toList, List.map, List.foldr,
    Regex.run_seq, Regex.run_empty, List.cons_append, List.nil_append, Regex.run_cls_cons,
    Regex.run_group, Regex.run_rep]
  simp only [beq_self_eq_true, if_true]
  have := Regex.repGreedy_run (fun c => !JS.isLineTerminator c)
    (fun s' => Regex.run Regex.eos s' ((2, List.take (ft.length - s'.length) ft) :: caps)
      (fun s' caps' => Regex.run Regex.empty s' caps' (fun _ caps => some caps)))
    ft [] 1 none ((2, ft) :: caps)
    (by intro c hc; simp [hft c hc]) (by intro c tl h; cases h)
    (by cases ft with
        | nil => exact absurd rfl hne
        | cons c cs => simp)
    (by intro m h; cases h)
    (by simp [Regex.run_eos_nil, Regex.run_empty])
  simpa using this

/-- The period pattern on a line `.<label>...<text>`: group 1 is the label and group 2
the text. -/
theorem periodPattern_match (label ft : List Char) (hl : IsPeriodName label) (hne : ft ≠ [])
    (hft : ∀ c ∈ ft, JS.isLineTerminator c = false) :
    Regex.matchStart periodPattern ('.' :: label ++ "...".toList ++ ft)
      = some [(2, ft), (1, label)] := by
  have htail := periodPattern_tail ft hne hft
  unfold Regex.matchStart periodPattern
  rw [show ∀ a b c d e, Regex.cat [a, b, c, d, e] = Regex.seq a (Regex.seq b (Regex.cat [c, d, e]))
    from fun _ _ _ _ _ => rfl]
  generalize Regex.cat [Regex.lit "...",
    Regex.group 2 (Regex.rep (fun c => !JS.isLineTerminator c) 1 none), Regex.eos] = tailRe
    at htail ⊢
  rw [show '.' :: label ++ "...".toList ++ ft = '.' :: (label ++ '.' :: ('.' :: '.' :: ft)) by simp]
  rw [Regex.run_seq, Regex.chr, Regex.run_cls_cons, if_pos (by decide), Regex.run_seq,
    Regex.run_group]
  apply periodName_run label _ _ _ _ hl
  beta_reduce
  rw [List.take_append_length_sub label ('.' :: '.' :: '.' :: ft)]
  exact htail _

theorem isWhiteSpace_of_isDigit (c : Char) (h : JS.isDigit c = true) :
    JS.isWhiteSpace c = false := by
  unfold JS.isDigit at h
  unfold JS.isWhiteSpace
  simp only [Bool.and_eq_true, decide_eq_true_eq] at h
  simp only [Bool.or_eq_false_iff, Bool.and_eq_false_iff, beq_eq_false_iff_ne,
    decide_eq_false_iff_not]
  omega

theorem compassTokens_shape : ∀ dir ∈ compassTokens,
    dir ≠ [] ∧ dir.length ≤ 3 ∧ (∀ c ∈ dir, Regex.isLetter c = true) ∧
    (∀ c ∈ dir, JS.isWhiteSpace c = false) ∧ (∀ c ∈ dir, JS.isLineTerminator c = false) ∧
    (∀ c ∈ dir, c ≠ '.') := by
  decide!

/-- The expression `\s+` on one space followed by a character that is not whitespace. -/
theorem spaces_run_one {R : Type} (c : Char) (tl : List Char) (caps : Captures)
    (k : List Char → Captures → Option R) (r : R) (hc : JS.isWhiteSpace c = false)
    (hk : k (c :: tl) caps = some r) :
    Regex.run Regex.spaces (' ' :: c :: tl) caps k = some r := by
  rw [Regex.spaces, Regex.run_rep]
  apply Regex.repGreedy_run JS.isWhiteSpace _ [' '] (c :: tl) 1 none r
  · intro x hx
    simp at hx
    subst hx
    decide
  · intro x tl' h
    injection h with h1 h2
    subst h1
    exact hc
  · simp
  · intro m h
    cases h
  · exact hk

/-- The expression `\d+` on a digit string followed by a character that is not a digit. -/
theorem digits_run {R : Type} (a : List Char) (c : Char) (tl : List Char) (caps : Captures)
    (k : List Char → Captures → Option R) (r : R) (ha : IsDigitString a)
    (hc : JS.isDigit c = false) (hk : k (c :: tl) caps = some r) :
    Regex.run Regex.digits (a ++ c :: tl) caps k = some r := by
  rw [Regex.digits, Regex.run_rep]
  apply Regex.repGreedy_run JS.isDigit _ a (c :: tl) 1 none r ha.2
  · intro x tl' h
    injection h with h1 h2
    subst h1
    exact hc
  · have := ha.1
    cases a with
    | nil => exact absurd rfl this
    | cons x xs => simp
  · intro m h
    cases h
  · exact hk

theorem Regex.cat_cons (x : Regex) (xs : List Regex) :
    Regex.cat (x :: xs) = Regex.seq x (Regex.cat xs) := rfl

theorem Regex.cat_nil : Regex.cat [] = Regex.empty := rfl

/-- A literal under the `i` flag on its own text. -/
theorem Regex.run_litI_to {R : Type} (s : List Char) (caps : Captures)
    (k : List Char → Captures → Option R) :
    Regex.run (Regex.litI "to") ('t' :: 'o' :: s) caps k = k s caps := by
  simp [Regex.litI, Regex.cat, Regex.chrI, Regex.run_seq, Regex.run_cls_cons, Regex.run_empty]

theorem Regex.run_litI_kt {R : Type} (s : List Char) (caps : Captures)
    (k : List Char → Captures → Option R) :
    Regex.run (Regex.litI "kt") ('k' :: 't' :: s) caps k = k s caps := by
  simp [Regex.litI, Regex.cat, Regex.chrI, Regex.run_seq, Regex.run_cls_cons, Regex.run_empty]

/-- The speed part `\d+(?:\s+to\s+\d+)?\s+kt` of `windPattern` on `<a> to <b> kt`. -/
theorem windSpeed_run {R : Type} (a b rest : List Char) (caps : Captures)
    (k : List Char → Captures → Option R) (r : R) (ha : IsDigitString a) (hb : IsDigitString b)
    (hk : k rest caps = some r) :
    Regex.run (Regex.cat [Regex.digits,
        Regex.opt (Regex.cat [Regex.spaces, Regex.litI "to", Regex.spaces, Regex.digits]),
        Regex.spaces, Regex.litI "kt"])
      (a ++ ' ' :: 't' :: 'o' :: ' ' :: (b ++ ' ' :: 'k' :: 't' :: rest)) caps k = some r := by
  obtain ⟨b0, b', rfl⟩ := List.exists_cons_of_ne_nil hb.1
  have hb0 : JS.isDigit b0 = true := hb.2 b0 (List.mem_cons_self _ _)
  simp only [Regex.cat_cons, Regex.cat_nil, Regex.run_seq, Regex.run_empty]
  apply digits_run a ' ' _ caps _ r ha (by decide)
  apply Regex.run_opt_some
  simp only [Regex.run_seq, Regex.run_empty]
  apply spaces_run_one 't' _ caps _ r (by decide)
  rw [Regex.run_litI_to]
  rw [List.cons_append]
  apply spaces_run_one b0 _ caps _ r (isWhiteSpace_of_isDigit b0 hb0)
  rw [← List.cons_append]
  apply digits_run (b0 :: b') ' ' _ caps _ r hb (by decide)
  apply spaces_run_one 'k' _ caps _ r (by decide)
  rw [Regex.run_litI_kt]
  exact hk

theorem Regex.run_opt_skip {R : Type} (a : Regex) (s : List Char) (caps : Captures)
    (k : List Char → Captures → Option R) (r : R) (h : Regex.run a s caps k = none)
    (hk : k s caps = some r) : Regex.run (Regex.opt a) s caps k = some r := by
  rw [Regex.run_opt_none a s caps k h]
  exact hk

theorem Regex.run_litI_wind {R : Type} (s : List Char) (caps : Captures)
    (k : List Char → Captures → Option R) :
    Regex.run (Regex.litI "wind") ('w' :: 'i' :: 'n' :: 'd' :: s) caps k = k s caps := by
  simp [Regex.litI, Regex.cat, Regex.chrI, Regex.run_seq, Regex.run_cls_cons, Regex.run_empty]

/-- The wind pattern finds `<dir> winds <a> to <b> kt` at the front of the text. -/
theorem windPattern_search (dir a b rest : List Char) (hdir : dir ∈ compassTokens)
    (ha : IsDigitString a) (hb : IsDigitString b) :
    Regex.search windPattern
      (dir ++ ' ' :: 'w' :: 'i' :: 'n' :: 'd' :: 's' :: ' ' ::
        (a ++ ' ' :: 't' :: 'o' :: ' ' :: (b ++ ' ' :: 'k' :: 't' :: rest)))
      = some [(2, a ++ ' ' :: 't' :: 'o' :: ' ' :: (b ++ [' ', 'k', 't'])), (1, dir)] := by
  obtain ⟨hne, hlen, hlet, -, -, -⟩ := compassTokens_shape dir hdir
  obtain ⟨a0, a', rfl⟩ := List.exists_cons_of_ne_nil ha.1
  have ha0 : JS.isDigit a0 = true := ha.2 a0 (List.mem_cons_self _ _)
  apply Regex.search_of_matchStart
  unfold Regex.matchStart windPattern
  simp only [Regex.cat_cons, Regex.cat_nil, Regex.run_seq, Regex.run_empty, Regex.run_group]
  rw [Regex.run_rep]
  apply Regex.repGreedy_run Regex.isLetter _ dir _ 1 (some 3) _ hlet
  · intro c tl h
    injection h with h1 h2
    subst h1
    decide
  · cases dir with
    | nil => exact absurd rfl hne
    | cons x xs => simp
  · intro m h
    injection h with h
    omega
  apply Regex.run_opt_skip
  · simp [Regex.spaces, Regex.run_rep, Regex.repGreedy, JS.isWhiteSpace, Regex.litI, Regex.cat,
      Regex.chrI, Regex.run_cls_cons, Regex.run_seq]
  apply spaces_run_one 'w' _ _ _ _ (by decide)
  rw [Regex.run_litI_wind]
  apply Regex.run_opt_some
  rw [Regex.chrI, Regex.run_cls_cons, if_pos (by decide)]
  rw [List.cons_append]
  apply spaces_run_one a0 _ _ _ _ (isWhiteSpace_of_isDigit a0 ha0)
  rw [← List.cons_append]
  apply windSpeed_run (a0 :: a') b rest _ _ _ ha hb
  rw [List.take_append_length_sub dir]
  rw [show (a0 :: a' ++ ' ' :: 't' :: 'o' :: ' ' :: (b ++ ' ' :: 'k' :: 't' :: rest))
      = (a0 :: a' ++ ' ' :: 't' :: 'o' :: ' ' :: (b ++ [' ', 'k', 't'])) ++ rest by simp]
  rw [List.take_append_length_sub]

theorem Regex.run_litI_ft {R : Type} (s : List Char) (caps : Captures)
    (k : List Char → Captures → Option R) :
    Regex.run (Regex.litI "ft") ('f' :: 't' :: s) caps k = k s caps := by
  simp [Regex.litI, Regex.cat, Regex.chrI, Regex.run_seq, Regex.run_cls_cons, Regex.run_empty]

/-- No match of `seasPattern` starts at a character other than `s` and `S`. -/
theorem seasPattern_first (c : Char) (tl : List Char) (h1 : c ≠ 's') (h2 : c ≠ 'S') :
    Regex.matchStart seasPattern (c :: tl) = none := by
  simp [Regex.matchStart, seasPattern, Regex.cat, Regex.run, Regex.litI, Regex.chrI, h1, h2]

theorem seasPattern_digit (c : Char) (tl : List Char) (h : JS.isDigit c = true) :
    Regex.matchStart seasPattern (c :: tl) = none := by
  apply seasPattern_first
  · rintro rfl
    simp [JS.isDigit] at h
  · rintro rfl
    simp [JS.isDigit] at h

/-- The search for `seasPattern` passes over `<dir> winds `. -/
theorem seasPattern_skip_dir (dir tl : List Char) (hdir : dir ∈ compassTokens) :
    Regex.search seasPattern (dir ++ ' ' :: 'w' :: 'i' :: 'n' :: 'd' :: 's' :: ' ' :: tl)
      = Regex.search seasPattern tl := by
  have hs : ∀ tl', Regex.matchStart seasPattern ('s' :: ' ' :: tl') = none := by
    intro tl'
    simp [Regex.matchStart, seasPattern, Regex.cat, Regex.run, Regex.litI, Regex.chrI]
  have hw : Regex.search seasPattern (' ' :: 'w' :: 'i' :: 'n' :: 'd' :: 's' :: ' ' :: tl)
      = Regex.search seasPattern tl := by
    rw [Regex.search_cons_of_none _ _ _ (seasPattern_first _ _ (by decide) (by decide)),
      Regex.search_cons_of_none _ _ _ (seasPattern_first _ _ (by decide) (by decide)),
      Regex.search_cons_of_none _ _ _ (seasPattern_first _ _ (by decide) (by decide)),
      Regex.search_cons_of_none _ _ _ (seasPattern_first _ _ (by decide) (by decide)),
      Regex.search_cons_of_none _ _ _ (seasPattern_first _ _ (by decide) (by decide)),
      Regex.search_cons_of_none _ _ _ (hs _),
      Regex.search_cons_of_none _ _ _ (seasPattern_first _ _ (by decide) (by decide))]
  have m1 : ∀ x tl', Regex.matchStart seasPattern (x :: ' ' :: tl') = none := by
    intro x tl'
    simp [Regex.matchStart, seasPattern, Regex.cat, Regex.run, Regex.litI, Regex.chrI]
  have m2 : ∀ x y tl', Regex.matchStart seasPattern (x :: y :: ' ' :: tl') = none := by
    intro x y tl'
    simp [Regex.matchStart, seasPattern, Regex.cat, Regex.run, Regex.litI, Regex.chrI]
  have m3 : ∀ x y z tl', Regex.matchStart seasPattern (x :: y :: z :: ' ' :: tl') = none := by
    intro x y z tl'
    simp [Regex.matchStart, seasPattern, Regex.cat, Regex.run, Regex.litI, Regex.chrI]
  obtain ⟨hne, hlen, -, -, -, -⟩ := compassTokens_shape dir hdir
  match dir, hne, hlen with
  | [x], _, _ =>
    rw [List.singleton_append, Regex.search_cons_of_none _ _ _ (m1 _ _), hw]
  | [x, y], _, _ =>
    rw [show [x, y] ++ ' ' :: 'w' :: 'i' :: 'n' :: 'd' :: 's' :: ' ' :: tl
      = x :: y :: ' ' :: 'w' :: 'i' :: 'n' :: 'd' :: 's' :: ' ' :: tl from rfl,
      Regex.search_cons_of_none _ _ _ (m2 _ _ _), Regex.search_cons_of_none _ _ _ (m1 _ _), hw]
  | [x, y, z], _, _ =>
    rw [show [x, y, z] ++ ' ' :: 'w' :: 'i' :: 'n' :: 'd' :: 's' :: ' ' :: tl
      = x :: y :: z :: ' ' :: 'w' :: 'i' :: 'n' :: 'd' :: 's' :: ' ' :: tl from rfl,
      Regex.search_cons_of_none _ _ _ (m3 _ _ _ _), Regex.search_cons_of_none _ _ _ (m2 _ _ _),
      Regex.search_cons_of_none _ _ _ (m1 _ _), hw]
  | [], h, _ => exact absurd rfl h
  | _ :: _ :: _ :: _ :: _, _, h => simp at h

/-- The range alternative of `seasPattern` on `<c> to <d> ft`. -/
theorem seasRange_run {R : Type} (c d rest : List Char) (caps : Captures)
    (k : List Char → Captures → Option R) (r : R) (hc : IsDigitString c) (hd : IsDigitString d)
    (hk : k rest caps = some r) :
    Regex.run (Regex.cat [Regex.digits, Regex.spaces, Regex.litI "to", Regex.spaces,
        Regex.digits, Regex.spaces, Regex.litI "ft"])
      (c ++ ' ' :: 't' :: 'o' :: ' ' :: (d ++ ' ' :: 'f' :: 't' :: rest)) caps k = some r := by
  obtain ⟨d0, d', rfl⟩ := List.exists_cons_of_ne_nil hd.1
  have hd0 : JS.isDigit d0 = true := hd.2 d0 (List.mem_cons_self _ _)
  simp only [Regex.cat_cons, Regex.cat_nil, Regex.run_seq, Regex.run_empty]
  apply digits_run c ' ' _ caps _ r hc (by decide)
  apply spaces_run_one 't' _ caps _ r (by decide)
  rw [Regex.run_litI_to]
  rw [List.cons_append]
  apply spaces_run_one d0 _ caps _ r (isWhiteSpace_of_isDigit d0 hd0)
  rw [← List.cons_append]
  apply digits_run (d0 :: d') ' ' _ caps _ r hd (by decide)
  apply spaces_run_one 'f' _ caps _ r (by decide)
  rw [Regex.run_litI_ft]
  exact hk

/-- The seas pattern finds `<c> to <d> ft` after `Seas `. -/
theorem seasPattern_match (c d rest : List Char) (hc : IsDigitString c) (hd : IsDigitString d) :
    Regex.matchStart seasPattern
      ('S' :: 'e' :: 'a' :: 's' :: ' ' :: (c ++ ' ' :: 't' :: 'o' :: ' ' ::
        (d ++ ' ' :: 'f' :: 't' :: rest)))
      = some [(1, c ++ ' ' :: 't' :: 'o' :: ' ' :: (d ++ [' ', 'f', 't']))] := by
  obtain ⟨c0, c', rfl⟩ := List.exists_cons_of_ne_nil hc.1
  have hc0 : JS.isDigit c0 = true := hc.2 c0 (List.mem_cons_self _ _)
  unfold Regex.matchStart seasPattern
  simp only [Regex.cat_cons, Regex.cat_nil, Regex.run_seq, Regex.run_empty, Regex.run_group]
  apply Regex.run_alt_left
  simp only [Regex.litI, Regex.cat, Regex.chrI, String.toList, List.map, List.foldr,
    Regex.run_seq, Regex.run_empty, Regex.run_cls_cons]
  rw [if_pos (by decide), if_pos (by decide), if_pos (by decide), if_pos (by decide)]
  rw [List.cons_append]
  apply spaces_run_one c0 _ _ _ _ (isWhiteSpace_of_isDigit c0 hc0)
  apply Regex.run_alt_left
  rw [← List.cons_append]
  apply seasRange_run (c0 :: c') d rest _ _ _ hc hd
  rw [show (c0 :: c' ++ ' ' :: 't' :: 'o' :: ' ' :: (d ++ ' ' :: 'f' :: 't' :: rest))
      = (c0 :: c' ++ ' ' :: 't' :: 'o' :: ' ' :: (d ++ [' ', 'f', 't'])) ++ rest by simp]
  rw [List.take_append_length_sub]

/-- The seas pattern on the text of a period line. -/
theorem seasPattern_search (dir a b c d rest : List Char) (hdir : dir ∈ compassTokens)
    (ha : IsDigitString a) (hb : IsDigitString b) (hc : IsDigitString c)
    (hd : IsDigitString d) :
    Regex.search seasPattern
      (dir ++ ' ' :: 'w' :: 'i' :: 'n' :: 'd' :: 's' :: ' ' ::
        (a ++ ' ' :: 't' :: 'o' :: ' ' :: (b ++ ' ' :: 'k' :: 't' :: '.' :: ' ' ::
          'S' :: 'e' :: 'a' :: 's' :: ' ' :: (c ++ ' ' :: 't' :: 'o' :: ' ' ::
            (d ++ ' ' :: 'f' :: 't' :: rest)))))
      = some [(1, c ++ ' ' :: 't' :: 'o' :: ' ' :: (d ++ [' ', 'f', 't']))] := by
  rw [seasPattern_skip_dir dir _ hdir]
  rw [Regex.search_skip seasPattern a _ (fun x hx tl => seasPattern_digit x tl (ha.2 x hx))]
  rw [Regex.search_cons_of_none _ _ _ (seasPattern_first _ _ (by decide) (by decide)),
    Regex.search_cons_of_none _ _ _ (seasPattern_first _ _ (by decide) (by decide)),
    Regex.search_cons_of_none _ _ _ (seasPattern_first _ _ (by decide) (by decide)),
    Regex.search_cons_of_none _ _ _ (seasPattern_first _ _ (by decide) (by decide))]
  rw [Regex.search_skip seasPattern b _ (fun x hx tl => seasPattern_digit x tl (hb.2 x hx))]
  rw [Regex.search_cons_of_none _ _ _ (seasPattern_first _ _ (by decide) (by decide)),
    Regex.search_cons_of_none _ _ _ (seasPattern_first _ _ (by decide) (by decide)),
    Regex.search_cons_of_none _ _ _ (seasPattern_first _ _ (by decide) (by decide)),
    Regex.search_cons_of_none _ _ _ (seasPattern_first _ _ (by decide) (by decide)),
    Regex.search_cons_of_none _ _ _ (seasPattern_first _ _ (by decide) (by decide))]
  exact Regex.search_of_matchStart _ _ _ (seasPattern_match c d rest hc hd)

theorem List.dropWhile_head_false {α : Type} (p : α → Bool) (l : List α) (x : α) (tl : List α)
    (h : l.dropWhile p = x :: tl) : p x = false := by
  induction l with
  | nil => simp at h
  | cons a l ih =>
    by_cases ha : p a = true
    · rw [List.dropWhile_cons_of_pos ha] at h
      exact ih h
    · rw [List.dropWhile_cons_of_neg ha] at h
      injection h with h1 h2
      subst h1
      simpa using ha

theorem isWhiteSpace_of_isLetter (c : Char) (h : Regex.isLetter c = true) :
    JS.isWhiteSpace c = false := by
  unfold Regex.isLetter at h
  unfold JS.isWhiteSpace
  simp only [Bool.or_eq_true, Bool.and_eq_true, decide_eq_true_eq] at h
  simp only [Bool.or_eq_false_iff, Bool.and_eq_false_iff, beq_eq_false_iff_ne,
    decide_eq_false_iff_not]
  omega

/-- No match of `weatherPattern` starts at a character other than a period. -/
theorem weatherPattern_first (c : Char) (tl : List Char) (h : c ≠ '.') :
    Regex.matchStart weatherPattern (c :: tl) = none := by
  simp [Regex.matchStart, weatherPattern, Regex.cat, Regex.run, Regex.chr, h]

/-- The tail `([A-Za-z\s]+)\.` of `weatherPattern` on a run of class characters followed
by the final period. -/
theorem weatherClause_run (w : List Char) (hne : w ≠ [])
    (hw : ∀ c ∈ w, (Regex.isLetter c || JS.isWhiteSpace c) = true) (caps : Captures) :
    Regex.run (Regex.cat [Regex.group 1
        (Regex.rep (fun c => Regex.isLetter c || JS.isWhiteSpace c) 1 none), Regex.chr '.'])
      (w ++ ['.']) caps (fun _ caps => some caps) = some ((1, w) :: caps) := by
  simp only [Regex.cat_cons, Regex.cat_nil, Regex.run_seq, Regex.run_empty, Regex.run_group,
    Regex.run_rep]
  apply Regex.repGreedy_run _ _ w ['.'] 1 none _ hw
  · intro c tl h
    injection h with h1 h2
    subst h1
    decide
  · cases w with
    | nil => exact absurd rfl hne
    | cons x xs => simp
  · intro m h
    cases h
  · rw [Regex.chr, Regex.run_cls_cons, if_pos (by decide)]
    rw [List.take_append_length_sub]

theorem weatherClause_none (caps : Captures) :
    Regex.run (Regex.cat [Regex.group 1
        (Regex.rep (fun c => Regex.isLetter c || JS.isWhiteSpace c) 1 none), Regex.chr '.'])
      ['.'] caps (fun _ caps => some caps) = none := by
  simp [Regex.cat, Regex.run, Regex.repGreedy, Regex.isLetter, JS.isWhiteSpace]

theorem List.drop_length_cons_spaces (l : List Char) (h : ∀ c ∈ l, c = ' ') :
    (' ' :: l).drop l.length = [' '] := by
  induction l with
  | nil => rfl
  | cons a l ih =>
    have ha : a = ' ' := h a (List.mem_cons_self _ _)
    subst ha
    simpa using ih (fun c hc => h c (List.mem_cons_of_mem _ hc))

/-- The weather pattern on `. <words>.`: the clause captured is `words` up to
surrounding whitespace. -/
theorem weatherPattern_match (words : List Char) (hw : IsLettersAndSpaces words) :
    ∃ clause, Regex.matchStart weatherPattern ('.' :: ' ' :: (words ++ ['.']))
        = some [(1, clause)] ∧ JS.trim clause = JS.trim words := by
  have hcls : ∀ c ∈ words, (Regex.isLetter c || JS.isWhiteSpace c) = true := by
    intro c hc
    rcases hw c hc with h | rfl
    · simp [h]
    · decide
  unfold Regex.matchStart weatherPattern
  rw [Regex.cat_cons, Regex.cat_cons, Regex.run_seq, Regex.chr, Regex.run_cls_cons,
    if_pos (by decide), Regex.run_seq, Regex.run_rep]
  cases hd : words.dropWhile JS.isWhiteSpace with
  | nil =>
    have hall : ∀ c ∈ words, c = ' ' := by
      intro c hc
      rcases hw c hc with h | rfl
      · have hws := isWhiteSpace_of_isLetter c h
        have := List.dropWhile_eq_nil_iff.mp hd c hc
        rw [hws] at this
        cases this
      · rfl
    have hallws : ∀ c ∈ ' ' :: words, JS.isWhiteSpace c = true := by
      intro c hc
      rcases List.mem_cons.mp hc with rfl | hc
      · decide
      · rw [hall c hc]
        decide
    refine ⟨[' '], ?_, ?_⟩
    · rw [show ' ' :: (words ++ ['.']) = (' ' :: words) ++ ['.'] from rfl]
      apply Regex.repGreedy_first JS.isWhiteSpace _ (' ' :: words) ['.'] 0 none words.length _
        hallws
      · intro c tl h
        injection h with h1 h2
        subst h1
        decide
      · intro m h
        cases h
      · omega
      · simp
      · rw [List.drop_length_cons_spaces words hall]
        exact weatherClause_run [' '] (by simp) (by intro c hc; simp at hc; subst hc; decide) []
      · intro i hi hil
        have : i = (' ' :: words).length := by
          simp only [List.length_cons] at hil ⊢
          omega
        rw [this, List.drop_length, List.nil_append]
        exact weatherClause_none []
    · have : JS.trim words = [] := by
        simp [JS.trim, JS.trimStart, hd, JS.trimEnd]
      rw [this]
      decide
  | cons x w'' =>
    have hx : JS.isWhiteSpace x = false := List.dropWhile_head_false _ _ _ _ hd
    have hsplit : words = words.takeWhile JS.isWhiteSpace ++ (x :: w'') := by
      rw [← hd, List.takeWhile_append_dropWhile]
    refine ⟨x :: w'', ?_, ?_⟩
    · rw [show ' ' :: (words ++ ['.'])
          = (' ' :: words.takeWhile JS.isWhiteSpace) ++ ((x :: w'') ++ ['.']) by
        conv_lhs => rw [hsplit]
        simp]
      apply Regex.repGreedy_run JS.isWhiteSpace _ _ _ 0 none _
      · intro c hc
        rcases List.mem_cons.mp hc with rfl | hc
        · decide
        · exact (List.mem_takeWhile_imp hc)
      · intro c tl h
        injection h with h1 h2
        subst h1
        exact hx
      · omega
      · intro m h
        cases h
      · apply weatherClause_run (x :: w'') (by simp)
        intro c hc
        apply hcls
        rw [hsplit]
        exact List.mem_append_right _ hc
    · simp [JS.trim, JS.trimStart, hd, hx]

theorem ne_period_of_isDigit (c : Char) (h : JS.isDigit c = true) : c ≠ '.' := by
  rintro rfl
  simp [JS.isDigit] at h

theorem isLetter_of_isDigit (c : Char) (h : JS.isDigit c = true) : Regex.isLetter c = false := by
  unfold JS.isDigit at h
  unfold Regex.isLetter
  simp only [Bool.and_eq_true, decide_eq_true_eq] at h
  simp only [Bool.or_eq_false_iff, Bool.and_eq_false_iff, decide_eq_false_iff_not]
  omega

/-- The weather pattern does not match at the period that ends the wind sentence: the
clause ` Seas ` runs into a digit. -/
theorem weatherPattern_seas_none (c0 : Char) (tl : List Char) (h : JS.isDigit c0 = true) :
    Regex.matchStart weatherPattern
      ('.' :: ' ' :: 'S' :: 'e' :: 'a' :: 's' :: ' ' :: c0 :: tl) = none := by
  have h1 := isLetter_of_isDigit c0 h
  have h2 := isWhiteSpace_of_isDigit c0 h
  have h3 : (c0 == '.') = false := by
    rw [beq_eq_false_iff_ne]
    exact ne_period_of_isDigit c0 h
  have e1 : JS.isWhiteSpace ' ' = true := by decide
  have e2 : JS.isWhiteSpace 'S' = false := by decide
  have e3 : JS.isWhiteSpace 'e' = false := by decide
  have e4 : JS.isWhiteSpace 'a' = false := by decide
  have e5 : JS.isWhiteSpace 's' = false := by decide
  have l1 : Regex.isLetter ' ' = false := by decide
  have l2 : Regex.isLetter 'S' = true := by decide
  have l3 : Regex.isLetter 'e' = true := by decide
  have l4 : Regex.isLetter 'a' = true := by decide
  have l5 : Regex.isLetter 's' = true := by decide
  simp [Regex.matchStart, weatherPattern, Regex.cat, Regex.run, Regex.repGreedy, Regex.chr,
    h1, h2, h3, e1, e2, e3, e4, e5, l1, l2, l3, l4, l5]

/-- The weather pattern on the text of a period line. -/
theorem weatherPattern_search (dir a b c d words : List Char) (hdir : dir ∈ compassTokens)
    (ha : IsDigitString a) (hb : IsDigitString b) (hc : IsDigitString c)
    (hd : IsDigitString d) (hw : IsLettersAndSpaces words) :
    ∃ clause, Regex.search weatherPattern
      (dir ++ ' ' :: 'w' :: 'i' :: 'n' :: 'd' :: 's' :: ' ' ::
        (a ++ ' ' :: 't' :: 'o' :: ' ' :: (b ++ ' ' :: 'k' :: 't' :: '.' :: ' ' ::
          'S' :: 'e' :: 'a' :: 's' :: ' ' :: (c ++ ' ' :: 't' :: 'o' :: ' ' ::
            (d ++ ' ' :: 'f' :: 't' :: '.' :: ' ' :: (words ++ ['.']))))))
      = some [(1, clause)] ∧ JS.trim clause = JS.trim words := by
  obtain ⟨clause, hm, htrim⟩ := weatherPattern_match words hw
  refine ⟨clause, ?_, htrim⟩
  obtain ⟨-, -, -, -, -, hdot⟩ := compassTokens_shape dir hdir
  obtain ⟨c0, c', rfl⟩ := List.exists_cons_of_ne_nil hc.1
  have hc0 : JS.isDigit c0 = true := hc.2 c0 (List.mem_cons_self _ _)
  have hskip : ∀ (x : Char) (tl : List Char), x ≠ '.' →
      Regex.search weatherPattern (x :: tl) = Regex.search weatherPattern tl :=
    fun x tl hx => Regex.search_cons_of_none _ _ _ (weatherPattern_first x tl hx)
  have hdigits : ∀ (s tl : List Char), IsDigitString s →
      Regex.search weatherPattern (s ++ tl) = Regex.search weatherPattern tl :=
    fun s tl hs => Regex.search_skip _ s tl
      (fun x hx tl' => weatherPattern_first x tl' (ne_period_of_isDigit x (hs.2 x hx)))
  rw [Regex.search_skip weatherPattern dir _
    (fun x hx tl => weatherPattern_first x tl (hdot x hx))]
  rw [hskip _ _ (by decide), hskip _ _ (by decide), hskip _ _ (by decide), hskip _ _ (by decide),
    hskip _ _ (by decide), hskip _ _ (by decide), hskip _ _ (by decide)]
  rw [hdigits a _ ha]
  rw [hskip _ _ (by decide), hskip _ _ (by decide), hskip _ _ (by decide), hskip _ _ (by decide)]
  rw [hdigits b _ hb]
  rw [hskip _ _ (by decide), hskip _ _ (by decide), hskip _ _ (by decide)]
  rw [List.cons_append, Regex.search_cons_of_none _ _ _ (weatherPattern_seas_none c0 _ hc0)]
  rw [hskip _ _ (by decide), hskip _ _ (by decide), hskip _ _ (by decide), hskip _ _ (by decide),
    hskip _ _ (by decide), hskip _ _ (by decide)]
  rw [← List.cons_append, hdigits (c0 :: c') _ hc]
  rw [hskip _ _ (by decide), hskip _ _ (by decide), hskip _ _ (by decide), hskip _ _ (by decide)]
  rw [hdigits d _ hd]
  rw [hskip _ _ (by decide), hskip _ _ (by decide), hskip _ _ (by decide)]
  exact Regex.search_of_matchStart _ _ _ hm

/-! ## Lemmas on `trim` and on collapsing whitespace -/

/-- A string whose first and last characters are not whitespace is its own trim. -/
theorem JS.trim_eq_self (s : List Char)
    (h1 : ∀ c tl, s = c :: tl → JS.isWhiteSpace c = false)
    (h2 : ∀ c tl, s.reverse = c :: tl → JS.isWhiteSpace c = false) : JS.trim s = s := by
  have hstart : JS.trimStart s = s := by
    unfold JS.trimStart
    cases s with
    | nil => rfl
    | cons c tl =>
      have := h1 c tl rfl
      rw [List.dropWhile_cons_of_neg (by simp [this])]
  unfold JS.trim
  rw [hstart]
  unfold JS.trimEnd
  cases hr : s.reverse with
  | nil =>
    have : s = [] := by simpa using hr
    subst this
    rfl
  | cons c tl =>
    have := h2 c tl hr
    rw [List.dropWhile_cons_of_neg (by simp [this]), ← hr, List.reverse_reverse]

theorem collapseWhitespaceAux_space (s : List Char) :
    collapseWhitespaceAux (' ' :: s) false = ' ' :: collapseWhitespaceAux s true := by
  simp [collapseWhitespaceAux, JS.isWhiteSpace]

theorem collapseWhitespaceAux_cons (c : Char) (s : List Char) (f : Bool)
    (h : JS.isWhiteSpace c = false) :
    collapseWhitespaceAux (c :: s) f = c :: collapseWhitespaceAux s false := by
  simp [collapseWhitespaceAux, h]

theorem collapseWhitespaceAux_run (w s : List Char) (f : Bool) (hne : w ≠ [])
    (hw : ∀ c ∈ w, JS.isWhiteSpace c = false) :
    collapseWhitespaceAux (w ++ s) f = w ++ collapseWhitespaceAux s false := by
  induction w generalizing f with
  | nil => exact absurd rfl hne
  | cons x xs ih =>
    rw [List.cons_append, collapseWhitespaceAux_cons x _ f (hw x (List.mem_cons_self _ _))]
    cases xs with
    | nil => rfl
    | cons y ys =>
      rw [ih false (by simp) (fun c hc => hw c (List.mem_cons_of_mem _ hc))]
      rfl

/-- The text that `extractWind` builds from the two groups is already normalised. -/
theorem extractWind_text (dir a b : List Char) (hdir : dir ∈ compassTokens)
    (ha : IsDigitString a) (hb : IsDigitString b) :
    JS.trim (collapseWhitespace (dir ++ " winds ".toList ++
        (a ++ ' ' :: 't' :: 'o' :: ' ' :: (b ++ [' ', 'k', 't']))))
      = dir ++ ' ' :: 'w' :: 'i' :: 'n' :: 'd' :: 's' :: ' ' ::
          (a ++ ' ' :: 't' :: 'o' :: ' ' :: (b ++ [' ', 'k', 't'])) := by
  obtain ⟨hne, -, -, hws, -, -⟩ := compassTokens_shape dir hdir
  have haw : ∀ c ∈ a, JS.isWhiteSpace c = false := fun c hc => isWhiteSpace_of_isDigit c (ha.2 c hc)
  have hbw : ∀ c ∈ b, JS.isWhiteSpace c = false := fun c hc => isWhiteSpace_of_isDigit c (hb.2 c hc)
  have hcol : collapseWhitespace (dir ++ " winds ".toList ++
        (a ++ ' ' :: 't' :: 'o' :: ' ' :: (b ++ [' ', 'k', 't'])))
      = dir ++ ' ' :: 'w' :: 'i' :: 'n' :: 'd' :: 's' :: ' ' ::
          (a ++ ' ' :: 't' :: 'o' :: ' ' :: (b ++ [' ', 'k', 't'])) := by
    unfold collapseWhitespace
    rw [show dir ++ " winds ".toList ++ (a ++ ' ' :: 't' :: 'o' :: ' ' :: (b ++ [' ', 'k', 't']))
        = dir ++ (' ' :: 'w' :: 'i' :: 'n' :: 'd' :: 's' :: ' ' ::
          (a ++ ' ' :: 't' :: 'o' :: ' ' :: (b ++ [' ', 'k', 't']))) by simp]
    rw [collapseWhitespaceAux_run dir _ _ hne hws, collapseWhitespaceAux_space,
      collapseWhitespaceAux_cons 'w' _ _ (by decide), collapseWhitespaceAux_cons 'i' _ _ (by decide),
      collapseWhitespaceAux_cons 'n' _ _ (by decide), collapseWhitespaceAux_cons 'd' _ _ (by decide),
      collapseWhitespaceAux_cons 's' _ _ (by decide), collapseWhitespaceAux_space,
      collapseWhitespaceAux_run a _ _ ha.1 haw, collapseWhitespaceAux_space,
      collapseWhitespaceAux_cons 't' _ _ (by decide), collapseWhitespaceAux_cons 'o' _ _ (by decide),
      collapseWhitespaceAux_space, collapseWhitespaceAux_run b _ _ hb.1 hbw,
      collapseWhitespaceAux_space, collapseWhitespaceAux_cons 'k' _ _ (by decide),
      collapseWhitespaceAux_cons 't' _ _ (by decide)]
    rfl
  rw [hcol]
  apply JS.trim_eq_self
  · intro c tl h
    cases dir with
    | nil => exact absurd rfl hne
    | cons x xs =>
      injection h with h1 h2
      subst h1
      exact hws _ (List.mem_cons_self _ _)
  · intro c tl h
    simp at h
    rw [← h.1]
    decide

/-- The text that `extractSeas` returns for the range `<c> to <d> ft`. -/
theorem extractSeas_text (c d : List Char) (hc : IsDigitString c) :
    JS.trim (c ++ ' ' :: 't' :: 'o' :: ' ' :: (d ++ [' ', 'f', 't']))
      = c ++ ' ' :: 't' :: 'o' :: ' ' :: (d ++ [' ', 'f', 't']) := by
  apply JS.trim_eq_self
  · intro x tl h
    obtain ⟨c0, c', rfl⟩ := List.exists_cons_of_ne_nil hc.1
    injection h with h1 h2
    subst h1
    exact isWhiteSpace_of_isDigit _ (hc.2 _ (List.mem_cons_self _ _))
  · intro x tl h
    simp at h
    rw [← h.1]
    decide

theorem isLineTerminator_of_isDigit (c : Char) (h : JS.isDigit c = true) :
    JS.isLineTerminator c = false := by
  unfold JS.isDigit at h
  unfold JS.isLineTerminator
  simp only [Bool.and_eq_true, decide_eq_true_eq] at h
  simp only [Bool.or_eq_false_iff, beq_eq_false_iff_ne]
  omega

theorem isLineTerminator_of_isLetter (c : Char) (h : Regex.isLetter c = true) :
    JS.isLineTerminator c = false := by
  unfold Regex.isLetter at h
  unfold JS.isLineTerminator
  simp only [Bool.or_eq_true, Bool.and_eq_true, decide_eq_true_eq] at h
  simp only [Bool.or_eq_false_iff, beq_eq_false_iff_ne]
  omega

/-- The text after `...` in `periodLine`. -/
theorem periodLine_eq (label dir a b c d words : List Char) :
    periodLine label dir a b c d words = '.' :: label ++ "...".toList ++
      (dir ++ ' ' :: 'w' :: 'i' :: 'n' :: 'd' :: 's' :: ' ' ::
        (a ++ ' ' :: 't' :: 'o' :: ' ' :: (b ++ ' ' :: 'k' :: 't' :: '.' :: ' ' ::
          'S' :: 'e' :: 'a' :: 's' :: ' ' :: (c ++ ' ' :: 't' :: 'o' :: ' ' ::
            (d ++ ' ' :: 'f' :: 't' :: '.' :: ' ' :: (words ++ ['.'])))))) := by
  simp [periodLine]

theorem extractWind_periodText (dir a b c d words : List Char) (hdir : dir ∈ compassTokens)
    (ha : IsDigitString a) (hb : IsDigitString b) :
    extractWind (dir ++ ' ' :: 'w' :: 'i' :: 'n' :: 'd' :: 's' :: ' ' ::
        (a ++ ' ' :: 't' :: 'o' :: ' ' :: (b ++ ' ' :: 'k' :: 't' :: '.' :: ' ' ::
          'S' :: 'e' :: 'a' :: 's' :: ' ' :: (c ++ ' ' :: 't' :: 'o' :: ' ' ::
            (d ++ ' ' :: 'f' :: 't' :: '.' :: ' ' :: (words ++ ['.']))))))
      = dir ++ " winds ".toList ++ a ++ " to ".toList ++ b ++ " kt".toList := by
  unfold extractWind
  rw [windPattern_search dir a b _ hdir ha hb]
  simp only [Regex.capture, List.lookup, Option.getD]
  have h : ((2 : Nat) == 1) = false := by decide
  have h' : ((1 : Nat) == 2) = false := by decide
  simp only [h, h', beq_self_eq_true]
  rw [extractWind_text dir a b hdir ha hb]
  simp

theorem extractSeas_periodText (dir a b c d words : List Char) (hdir : dir ∈ compassTokens)
    (ha : IsDigitString a) (hb : IsDigitString b) (hc : IsDigitString c)
    (hd : IsDigitString d) :
    extractSeas (dir ++ ' ' :: 'w' :: 'i' :: 'n' :: 'd' :: 's' :: ' ' ::
        (a ++ ' ' :: 't' :: 'o' :: ' ' :: (b ++ ' ' :: 'k' :: 't' :: '.' :: ' ' ::
          'S' :: 'e' :: 'a' :: 's' :: ' ' :: (c ++ ' ' :: 't' :: 'o' :: ' ' ::
            (d ++ ' ' :: 'f' :: 't' :: '.' :: ' ' :: (words ++ ['.']))))))
      = c ++ " to ".toList ++ d ++ " ft".toList := by
  unfold extractSeas
  rw [seasPattern_search dir a b c d _ hdir ha hb hc hd]
  simp only [Regex.capture, List.lookup, Option.getD, beq_self_eq_true]
  rw [extractSeas_text c d hc]
  simp

theorem extractWeather_periodText (dir a b c d words : List Char) (hdir : dir ∈ compassTokens)
    (ha : IsDigitString a) (hb : IsDigitString b) (hc : IsDigitString c)
    (hd : IsDigitString d) (hw : IsLettersAndSpaces words) :
    extractWeather (dir ++ ' ' :: 'w' :: 'i' :: 'n' :: 'd' :: 's' :: ' ' ::
        (a ++ ' ' :: 't' :: 'o' :: ' ' :: (b ++ ' ' :: 'k' :: 't' :: '.' :: ' ' ::
          'S' :: 'e' :: 'a' :: 's' :: ' ' :: (c ++ ' ' :: 't' :: 'o' :: ' ' ::
            (d ++ ' ' :: 'f' :: 't' :: '.' :: ' ' :: (words ++ ['.']))))))
      = some (JS.trim words) := by
  obtain ⟨clause, hwm, hwt⟩ := weatherPattern_search dir a b c d words hdir ha hb hc hd hw
  unfold extractWeather
  rw [hwm]
  simp only [Regex.capture, List.lookup, Option.getD, beq_self_eq_true]
  rw [hwt]

/-- No character of the text of a period line is a line terminator. -/
theorem periodText_no_lineTerminator (dir a b c d words : List Char)
    (hdir : dir ∈ compassTokens) (ha : IsDigitString a) (hb : IsDigitString b)
    (hc : IsDigitString c) (hd : IsDigitString d) (hw : IsLettersAndSpaces words) :
    ∀ x ∈ (dir ++ ' ' :: 'w' :: 'i' :: 'n' :: 'd' :: 's' :: ' ' ::
        (a ++ ' ' :: 't' :: 'o' :: ' ' :: (b ++ ' ' :: 'k' :: 't' :: '.' :: ' ' ::
          'S' :: 'e' :: 'a' :: 's' :: ' ' :: (c ++ ' ' :: 't' :: 'o' :: ' ' ::
            (d ++ ' ' :: 'f' :: 't' :: '.' :: ' ' :: (words ++ ['.'])))))),
      JS.isLineTerminator x = false := by
  obtain ⟨-, -, -, -, hlt, -⟩ := compassTokens_shape dir hdir
  intro x hx
  simp only [List.mem_append, List.mem_cons, List.mem_singleton, List.not_mem_nil,
    or_false] at hx
  have hdig : ∀ s, IsDigitString s → x ∈ s → JS.isLineTerminator x = false :=
    fun s hs hxs => isLineTerminator_of_isDigit x (hs.2 x hxs)
  have hwords : x ∈ words → JS.isLineTerminator x = false := by
    intro hxw
    rcases hw x hxw with h | rfl
    · exact isLineTerminator_of_isLetter x h
    · decide
  rcases hx with h | rfl | rfl | rfl | rfl | rfl | rfl | rfl | h | rfl | rfl | rfl | rfl | h |
    rfl | rfl | rfl | rfl | rfl | rfl | rfl | rfl | rfl | rfl | h | rfl | rfl | rfl | rfl | h |
    rfl | rfl | rfl | rfl | rfl | h | rfl
  all_goals first
    | exact hlt x h
    | exact hdig _ ha h
    | exact hdig _ hb h
    | exact hdig _ hc h
    | exact hdig _ hd h
    | exact hwords h
    | decide

/-- The entry of a period line of the form
`.<label>...<dir> winds <a> to <b> kt. Seas <c> to <d> ft. <words>.` -/
theorem periodEntry_periodLine (label dir a b c d words : List Char) (hl : IsPeriodName label)
    (hdir : dir ∈ compassTokens) (ha : IsDigitString a) (hb : IsDigitString b)
    (hc : IsDigitString c) (hd : IsDigitString d) (hw : IsLettersAndSpaces words) :
    periodEntry (periodLine label dir a b c d words) = some
      { date := label
        wind := dir ++ " winds ".toList ++ a ++ " to ".toList ++ b ++ " kt".toList
        seas := c ++ " to ".toList ++ d ++ " ft".toList
        weather := some (JS.trim words) } := by
  rw [periodLine_eq]
  have hft := periodText_no_lineTerminator dir a b c d words hdir ha hb hc hd hw
  have hW := extractWind_periodText dir a b c d words hdir ha hb
  have hS := extractSeas_periodText dir a b c d words hdir ha hb hc hd
  have hWe := extractWeather_periodText dir a b c d words hdir ha hb hc hd hw
  have hftne : (dir ++ ' ' :: 'w' :: 'i' :: 'n' :: 'd' :: 's' :: ' ' ::
        (a ++ ' ' :: 't' :: 'o' :: ' ' :: (b ++ ' ' :: 'k' :: 't' :: '.' :: ' ' ::
          'S' :: 'e' :: 'a' :: 's' :: ' ' :: (c ++ ' ' :: 't' :: 'o' :: ' ' ::
            (d ++ ' ' :: 'f' :: 't' :: '.' :: ' ' :: (words ++ ['.'])))))) ≠ [] := by
    obtain ⟨hne, -⟩ := compassTokens_shape dir hdir
    simp [hne]
  generalize (dir ++ ' ' :: 'w' :: 'i' :: 'n' :: 'd' :: 's' :: ' ' ::
        (a ++ ' ' :: 't' :: 'o' :: ' ' :: (b ++ ' ' :: 'k' :: 't' :: '.' :: ' ' ::
          'S' :: 'e' :: 'a' :: 's' :: ' ' :: (c ++ ' ' :: 't' :: 'o' :: ' ' ::
            (d ++ ' ' :: 'f' :: 't' :: '.' :: ' ' :: (words ++ ['.'])))))) = ft at hft hW hS hWe hftne ⊢
  unfold periodEntry
  rw [periodPattern_match label ft hl hftne hft]
  simp only [Regex.capture, List.lookup, Option.getD]
  have h : ((1 : Nat) == 2) = false := by decide
  simp only [h, beq_self_eq_true, hW, hS, hWe]

/-- C8 (as amended): for every period line of the form
`.<label>...<dir> winds <a> to <b> kt. Seas <c> to <d> ft. <words>.` (label a valid period
name, dir a compass token, a, b, c, d non-empty digit strings, words letters and spaces)
the entry built has date `<label>`, wind `<dir> winds <a> to <b> kt`, seas
`<c> to <d> ft` and weather `<words>` with leading and trailing whitespace removed; when the
line is a line of the target section of a bulletin, that entry is in the `forecast` list;
and the weather is `<words>` itself when `words` begins and ends with a letter. -/
theorem period_line_entry (label dir a b c d words : List Char) (hl : IsPeriodName label)
    (hdir : dir ∈ compassTokens) (ha : IsDigitString a) (hb : IsDigitString b)
    (hc : IsDigitString c) (hd : IsDigitString d) (hw : IsLettersAndSpaces words) :
    periodEntry (periodLine label dir a b c d words) = some
      { date := label
        wind := dir ++ " winds ".toList ++ a ++ " to ".toList ++ b ++ " kt".toList
        seas := c ++ " to ".toList ++ d ++ " ft".toList
        weather := some (JS.trim words) } ∧
    (∀ text, periodLine label dir a b c d words ∈ sectionLines text →
      ({ date := label
         wind := dir ++ " winds ".toList ++ a ++ " to ".toList ++ b ++ " kt".toList
         seas := c ++ " to ".toList ++ d ++ " ft".toList
         weather := some (JS.trim words) } : ForecastEntry) ∈ (parseForecastText text).forecast) ∧
    (((∀ x tl, words = x :: tl → Regex.isLetter x = true) ∧
        (∀ x tl, words.reverse = x :: tl → Regex.isLetter x = true)) →
      JS.trim words = words) := by
  have h := periodEntry_periodLine label dir a b c d words hl hdir ha hb hc hd hw
  refine ⟨h, ?_, ?_⟩
  · intro text hmem
    rw [forecast_eq_filterMap]
    exact List.mem_filterMap.mpr ⟨_, hmem, h⟩
  · rintro ⟨h1, h2⟩
    exact JS.trim_eq_self words (fun x tl hx => isWhiteSpace_of_isLetter x (h1 x tl hx))
      (fun x tl hx => isWhiteSpace_of_isLetter x (h2 x tl hx))

/-- The scenario of C8: the line
`.TODAY...SE winds 15 to 20 kt. Seas 4 to 6 ft. Isolated showers.` gives wind
`SE winds 15 to 20 kt`, seas `4 to 6 ft` and weather `Isolated showers`, and the entry is
in the forecast of `sampleBulletin`. -/
theorem period_line_entry_witness :
    IsPeriodName "TODAY".toList ∧ "SE".toList ∈ compassTokens ∧
    IsDigitString "15".toList ∧ IsDigitString "20".toList ∧
    IsDigitString "4".toList ∧ IsDigitString "6".toList ∧
    IsLettersAndSpaces "Isolated showers".toList ∧
    periodLine "TODAY".toList "SE".toList "15".toList "20".toList "4".toList "6".toList
      "Isolated showers".toList = samplePeriodLine ∧
    JS.trim "Isolated showers".toList = "Isolated showers".toList ∧
    (periodEntry (periodLine "TODAY".toList "SE".toList "15".toList "20".toList "4".toList
        "6".toList "Isolated showers".toList) = some
      { date := "TODAY".toList
        wind := "SE".toList ++ " winds ".toList ++ "15".toList ++ " to ".toList ++ "20".toList
          ++ " kt".toList
        seas := "4".toList ++ " to ".toList ++ "6".toList ++ " ft".toList
        weather := some (JS.trim "Isolated showers".toList) } ∧
    (∀ text, periodLine "TODAY".toList "SE".toList "15".toList "20".toList "4".toList
        "6".toList "Isolated showers".toList ∈ sectionLines text →
      ({ date := "TODAY".toList
         wind := "SE".toList ++ " winds ".toList ++ "15".toList ++ " to ".toList ++ "20".toList
           ++ " kt".toList
         seas := "4".toList ++ " to ".toList ++ "6".toList ++ " ft".toList
         weather := some (JS.trim "Isolated showers".toList) } : ForecastEntry)
        ∈ (parseForecastText text).forecast) ∧
    (((∀ x tl, "Isolated showers".toList = x :: tl → Regex.isLetter x = true) ∧
        (∀ x tl, "Isolated showers".toList.reverse = x :: tl → Regex.isLetter x = true)) →
      JS.trim "Isolated showers".toList = "Isolated showers".toList)) ∧
    samplePeriodLine ∈ sectionLines sampleBulletin :=
  have hl : IsPeriodName "TODAY".toList := Or.inl rfl
  have hdir : "SE".toList ∈ compassTokens := by decide!
  have h15 : IsDigitString "15".toList := ⟨by decide, by decide⟩
  have h20 : IsDigitString "20".toList := ⟨by decide, by decide⟩
  have h4 : IsDigitString "4".toList := ⟨by decide, by decide⟩
  have h6 : IsDigitString "6".toList := ⟨by decide, by decide⟩
  have hw : IsLettersAndSpaces "Isolated showers".toList := by
    unfold IsLettersAndSpaces
    decide
  ⟨hl, hdir, h15, h20, h4, h6, hw, by decide, by decide,
    period_line_entry "TODAY".toList "SE".toList "15".toList "20".toList "4".toList "6".toList
      "Isolated showers".toList hl hdir h15 h20 h4 h6 hw,
    by decide!⟩

/-- C8 (the claim as stated fails): with `words` the letters-and-spaces string `Rain `,
the line `.TODAY...SE winds 15 to 20 kt. Seas 4 to 6 ft. Rain .` gives weather `Rain`,
not `Rain ` with its trailing space. -/
theorem period_line_weather_counterexample :
    IsPeriodName "TODAY".toList ∧ "SE".toList ∈ compassTokens ∧
    IsDigitString "15".toList ∧ IsDigitString "20".toList ∧
    IsDigitString "4".toList ∧ IsDigitString "6".toList ∧
    IsLettersAndSpaces "Rain ".toList ∧
    periodLine "TODAY".toList "SE".toList "15".toList "20".toList "4".toList "6".toList
      "Rain ".toList = ".TODAY...SE winds 15 to 20 kt. Seas 4 to 6 ft. Rain .".toList ∧
    periodEntry ".TODAY...SE winds 15 to 20 kt. Seas 4 to 6 ft. Rain .".toList = some
      { date := "TODAY".toList
        wind := "SE winds 15 to 20 kt".toList
        seas := "4 to 6 ft".toList
        weather := some "Rain".toList } ∧
    periodEntry ".TODAY...SE winds 15 to 20 kt. Seas 4 to 6 ft. Rain .".toList ≠ some
      { date := "TODAY".toList
        wind := "SE winds 15 to 20 kt".toList
        seas := "4 to 6 ft".toList
        weather := some "Rain ".toList } := by
  refine ⟨Or.inl rfl, by decide!, ⟨by decide, by decide⟩, ⟨by decide, by decide⟩,
    ⟨by decide, by decide⟩, ⟨by decide, by decide⟩, ?_, by decide, by decide!, by decide!⟩
  unfold IsLettersAndSpaces
  decide

/-! ## Lemmas on the tokens of a data line -/

theorem truthy_trim_of_token (token : List Char) (hne : token ≠ [])
    (h : ∀ c ∈ token, JS.isWhiteSpace c = false) : JS.truthy (JS.trim token) = true := by
  rw [JS.trim_eq_self token]
  · cases token with
    | nil => exact absurd rfl hne
    | cons c cs => rfl
  · intro c tl hc
    exact h c (by rw [hc]; exact List.mem_cons_self _ _)
  · intro c tl hc
    have : c ∈ token.reverse := by rw [hc]; exact List.mem_cons_self _ _
    exact h c (List.mem_reverse.mp this)

/-- The non-empty pieces of the split do not depend on the flag, and a whitespace
character at the front contributes none. -/
theorem columns_cons_whitespace (c : Char) (s : List Char) (f : Bool)
    (hc : JS.isWhiteSpace c = true) :
    (JS.splitWhitespaceAux (c :: s) f).filter (fun col => JS.truthy (JS.trim col))
      = (JS.splitWhitespaceAux s true).filter (fun col => JS.truthy (JS.trim col)) := by
  cases f <;> simp [JS.splitWhitespaceAux, hc, JS.trim_nil, JS.truthy]

theorem columns_flag (s : List Char) :
    (JS.splitWhitespaceAux s true).filter (fun col => JS.truthy (JS.trim col))
      = (JS.splitWhitespaceAux s false).filter (fun col => JS.truthy (JS.trim col)) := by
  cases s with
  | nil => rfl
  | cons c cs =>
    by_cases hc : JS.isWhiteSpace c = true
    · rw [columns_cons_whitespace c cs true hc, columns_cons_whitespace c cs false hc]
    · simp [JS.splitWhitespaceAux, hc]

theorem columns_lead (lead s : List Char) (f : Bool)
    (h : ∀ c ∈ lead, JS.isWhiteSpace c = true) :
    (JS.splitWhitespaceAux (lead ++ s) f).filter (fun col => JS.truthy (JS.trim col))
      = (JS.splitWhitespaceAux s false).filter (fun col => JS.truthy (JS.trim col)) := by
  induction lead generalizing f with
  | nil =>
    cases f
    · rfl
    · exact columns_flag s
  | cons c cs ih =>
    rw [List.cons_append, columns_cons_whitespace c _ f (h c (List.mem_cons_self _ _))]
    exact ih true (fun d hd => h d (List.mem_cons_of_mem _ hd))

/-- A token followed by the end of the line or by whitespace is one piece of the split. -/
theorem splitWhitespaceAux_token (token s : List Char) (f : Bool) (hne : token ≠ [])
    (h : ∀ c ∈ token, JS.isWhiteSpace c = false)
    (hs : ∀ c tl, s = c :: tl → JS.isWhiteSpace c = true) :
    ∃ t, JS.splitWhitespaceAux s false = [] :: t ∧
      JS.splitWhitespaceAux (token ++ s) f = token :: t := by
  induction token generalizing f with
  | nil => exact absurd rfl hne
  | cons x xs ih =>
    have hx : JS.isWhiteSpace x = false := h x (List.mem_cons_self _ _)
    cases xs with
    | nil =>
      cases s with
      | nil => exact ⟨[], rfl, by simp [JS.splitWhitespaceAux, hx]⟩
      | cons c tl =>
        have hc := hs c tl rfl
        exact ⟨JS.splitWhitespaceAux tl true, by simp [JS.splitWhitespaceAux, hc],
          by simp [JS.splitWhitespaceAux, hx, hc]⟩
    | cons y ys =>
      obtain ⟨t, ht, hrec⟩ := ih false (by simp) (fun c hc => h c (List.mem_cons_of_mem _ hc))
      refine ⟨t, ht, ?_⟩
      rw [List.cons_append]
      unfold JS.splitWhitespaceAux
      simp only [hx, Bool.false_eq_true, if_false]
      rw [hrec]

theorem columns_token (token s : List Char) (f : Bool) (hne : token ≠ [])
    (h : ∀ c ∈ token, JS.isWhiteSpace c = false)
    (hs : ∀ c tl, s = c :: tl → JS.isWhiteSpace c = true) :
    (JS.splitWhitespaceAux (token ++ s) f).filter (fun col => JS.truthy (JS.trim col))
      = token :: (JS.splitWhitespaceAux s false).filter (fun col => JS.truthy (JS.trim col)) := by
  obtain ⟨t, ht, hrec⟩ := splitWhitespaceAux_token token s f hne h hs
  have h1 := truthy_trim_of_token token hne h
  rw [hrec, ht, List.filter_cons_of_pos (by simpa using h1),
    List.filter_cons_of_neg (by simp [JS.trim_nil, JS.truthy])]

theorem lineOfTokens_head (sep : List Char) (rest : List (List Char × List Char))
    (h : IsTokenLine sep rest) (hne : rest ≠ [] → sep ≠ []) :
    ∀ c tl, lineOfTokens sep rest = c :: tl → JS.isWhiteSpace c = true := by
  intro c tl hc
  cases rest with
  | nil =>
    simp only [lineOfTokens] at hc
    exact h c (by rw [hc]; exact List.mem_cons_self _ _)
  | cons p rest' =>
    obtain ⟨token, sep'⟩ := p
    obtain ⟨hsep, -⟩ := h
    have hsne := hne (by simp)
    cases sep with
    | nil => exact absurd rfl hsne
    | cons x xs =>
      simp only [lineOfTokens, List.cons_append, List.cons.injEq] at hc
      rw [← hc.1]
      exact hsep x (List.mem_cons_self _ _)

/-- The tokens of a line assembled from tokens and whitespace separators are those
tokens: `columnsOf` is the list of maximal runs of non-whitespace characters. -/
theorem columnsOf_lineOfTokens (lead : List Char) (parts : List (List Char × List Char))
    (h : IsTokenLine lead parts) : columnsOf (lineOfTokens lead parts) = parts.map (·.1) := by
  unfold columnsOf JS.splitWhitespace
  induction parts generalizing lead with
  | nil =>
    simp only [lineOfTokens, List.map_nil]
    have := columns_lead lead [] false h
    simpa [JS.splitWhitespaceAux, JS.trim_nil, JS.truthy] using this
  | cons p rest ih =>
    obtain ⟨token, sep⟩ := p
    obtain ⟨hlead, hne, htok, hsepne, hrest⟩ := h
    simp only [lineOfTokens, List.map_cons, List.append_assoc]
    rw [columns_lead lead _ false hlead,
      columns_token token _ false hne htok (lineOfTokens_head sep rest hrest hsepne),
      ih sep hrest]

/-! ## The refresh interval of the two caches -/

theorem BuoyScraper.isFresh_iff (self : BuoyScraper) (now t0 : Int)
    (ht : self.lastFetchTime = some t0) (h0 : t0 ≠ 0) :
    self.isFresh now = true ↔ now - t0 < self.refreshInterval := by
  simp [BuoyScraper.isFresh, ht, h0]

theorem ForecastCache.isFreshForecast_iff (vars : ForecastCache) (now t0 : Int)
    (ht : vars.lastFetchTime = some t0) (h0 : t0 ≠ 0) :
    vars.isFresh now = true ↔ now - t0 < REFRESH_INTERVAL := by
  simp [ForecastCache.isFresh, ht, h0]

/-- C11 (amended): for both caches, on explicit state.  After a successful refresh at an
instant `t0` other than 0 (the stored value is `v`, respectively `b`, and the capture
instant is `t0`), a call at instant `t` with `t - t0` below the interval (one hour for
`fetchBuoyData`, twelve hours for `scrapeNOAAForecast`) returns the stored value whatever
the request would give, and leaves the state as it is; a call with `t - t0` at or above the
interval runs the producer and, when it succeeds, returns the new value and stores it with
capture instant `t`.  Instants are readings of `Date.now()`; the instant 0 itself is taken
for "never fetched" by the test `lastFetchTime && ...`. -/
theorem caches_refresh_interval (t0 t : Int) (h0 : t0 ≠ 0) (v : Snapshot) (b : ForecastBundle)
    (response : Except FetchError (List Char)) (lastUpdated : List Char) :
    BuoyScraper.new.refreshInterval = 3600000 ∧ REFRESH_INTERVAL = 43200000 ∧
    (t - t0 < 3600000 →
      fetchBuoyData { BuoyScraper.new with cachedData := some v, lastFetchTime := some t0 } t
          response lastUpdated
        = (Except.ok (some v),
            { BuoyScraper.new with cachedData := some v, lastFetchTime := some t0 })) ∧
    (3600000 ≤ t - t0 → ∀ v', fetchAndParse response lastUpdated = Except.ok v' →
      fetchBuoyData { BuoyScraper.new with cachedData := some v, lastFetchTime := some t0 } t
          response lastUpdated
        = (Except.ok (some v'),
            { BuoyScraper.new with cachedData := some v', lastFetchTime := some t })) ∧
    (t - t0 < 43200000 →
      scrapeNOAAForecast { lastFetchTime := some t0, cachedForecastData := some b } t
          response lastUpdated
        = (Except.ok b, { lastFetchTime := some t0, cachedForecastData := some b })) ∧
    (43200000 ≤ t - t0 → ∀ text, response = Except.ok text →
      scrapeNOAAForecast { lastFetchTime := some t0, cachedForecastData := some b } t
          response lastUpdated
        = (Except.ok
            { timestamp := lastUpdated
              rawText := (parseForecastText text).rawText
              currentConditions := (parseForecastText text).currentConditions
              forecast := (parseForecastText text).forecast },
           { lastFetchTime := some t
             cachedForecastData := some
              { timestamp := lastUpdated
                rawText := (parseForecastText text).rawText
                currentConditions := (parseForecastText text).currentConditions
                forecast := (parseForecastText text).forecast } })) := by
  refine ⟨by decide, by decide, ?_, ?_, ?_, ?_⟩
  · intro h
    have hf : BuoyScraper.isFresh
        { BuoyScraper.new with cachedData := some v, lastFetchTime := some t0 } t = true := by
      rw [BuoyScraper.isFresh_iff _ t t0 rfl h0]
      exact h
    simp [fetchBuoyData, hf]
  · intro h v' hv'
    have hf : BuoyScraper.isFresh
        { BuoyScraper.new with cachedData := some v, lastFetchTime := some t0 } t = false := by
      rw [← Bool.not_eq_true, BuoyScraper.isFresh_iff _ t t0 rfl h0]
      have : BuoyScraper.new.refreshInterval = 3600000 := by decide
      simp only [this]
      omega
    simp [fetchBuoyData, hf, hv']
  · intro h
    have hf : ForecastCache.isFresh
        { lastFetchTime := some t0, cachedForecastData := some b } t = true := by
      rw [ForecastCache.isFreshForecast_iff _ t t0 rfl h0]
      have : REFRESH_INTERVAL = 43200000 := by decide
      omega
    simp [scrapeNOAAForecast, hf]
  · intro h text htext
    have hf : ForecastCache.isFresh
        { lastFetchTime := some t0, cachedForecastData := some b } t = false := by
      rw [← Bool.not_eq_true, ForecastCache.isFreshForecast_iff _ t t0 rfl h0]
      have : REFRESH_INTERVAL = 43200000 := by decide
      omega
    simp [scrapeNOAAForecast, hf, htext]

/-- The sample of C11: with `sampleSnapshot` and `sampleBundle` stored at instant 1000, the
calls at instant 2000 return them although the request would fail, and the calls at
instant 43201000 (twelve hours later) with the feed `sampleFeed`, respectively the
bulletin `sampleBulletin`, store and return the new values. -/
theorem caches_refresh_interval_witness :
    (1000 : Int) ≠ 0 ∧ (2000 : Int) - 1000 < 3600000 ∧
    (3600000 : Int) ≤ 43201000 - 1000 ∧
    fetchBuoyData { BuoyScraper.new with cachedData := some sampleSnapshot,
                                         lastFetchTime := some 1000 } 2000
        sampleFailure sampleNow
      = (Except.ok (some sampleSnapshot),
          { BuoyScraper.new with cachedData := some sampleSnapshot,
                                 lastFetchTime := some 1000 }) ∧
    scrapeNOAAForecast { lastFetchTime := some 1000, cachedForecastData := some sampleBundle }
        2000 sampleFailure sampleNow
      = (Except.ok sampleBundle,
          { lastFetchTime := some 1000, cachedForecastData := some sampleBundle }) ∧
    fetchBuoyData { BuoyScraper.new with cachedData := some sampleSnapshot,
                                         lastFetchTime := some 1000 } 43201000
        (Except.ok sampleFeed) sampleNow
      = (Except.ok (some sampleSnapshot),
          { BuoyScraper.new with cachedData := some sampleSnapshot,
                                 lastFetchTime := some 43201000 }) ∧
    scrapeNOAAForecast { lastFetchTime := some 1000, cachedForecastData := some sampleBundle }
        43201000 (Except.ok sampleBulletin) sampleNow
      = (Except.ok
          { timestamp := sampleNow
            rawText := (parseForecastText sampleBulletin).rawText
            currentConditions := (parseForecastText sampleBulletin).currentConditions
            forecast := (parseForecastText sampleBulletin).forecast },
         { lastFetchTime := some 43201000
           cachedForecastData := some
            { timestamp := sampleNow
              rawText := (parseForecastText sampleBulletin).rawText
              currentConditions := (parseForecastText sampleBulletin).currentConditions
              forecast := (parseForecastText sampleBulletin).forecast } }) :=
  ⟨by decide, by decide, by decide,
    (caches_refresh_interval 1000 2000 (by decide) sampleSnapshot sampleBundle sampleFailure
      sampleNow).2.2.1 (by decide),
    (caches_refresh_interval 1000 2000 (by decide) sampleSnapshot sampleBundle sampleFailure
      sampleNow).2.2.2.2.1 (by decide),
    (caches_refresh_interval 1000 43201000 (by decide) sampleSnapshot sampleBundle
      (Except.ok sampleFeed) sampleNow).2.2.2.1 (by decide) sampleSnapshot (by decide!),
    (caches_refresh_interval 1000 43201000 (by decide) sampleSnapshot sampleBundle
      (Except.ok sampleBulletin) sampleNow).2.2.2.2.2 (by decide) sampleBulletin rfl⟩

/-! ## Lines with too few tokens -/

/-- Every line is made of leading whitespace and tokens with their separators. -/
theorem exists_tokenLine (line : List Char) :
    ∃ lead parts, IsTokenLine lead parts ∧ line = lineOfTokens lead parts := by
  induction line with
  | nil => exact ⟨[], [], by simp [IsTokenLine], rfl⟩
  | cons c rest ih =>
    obtain ⟨lead, parts, hwf, hline⟩ := ih
    by_cases hc : JS.isWhiteSpace c = true
    · refine ⟨c :: lead, parts, ?_, ?_⟩
      · cases parts with
        | nil =>
          intro x hx
          rcases List.mem_cons.mp hx with rfl | hx
          · exact hc
          · exact hwf x hx
        | cons p ps =>
          obtain ⟨token, sep⟩ := p
          obtain ⟨h1, h2⟩ := hwf
          refine ⟨?_, h2⟩
          intro x hx
          rcases List.mem_cons.mp hx with rfl | hx
          · exact hc
          · exact h1 x hx
      · cases parts with
        | nil => simp [lineOfTokens, hline]
        | cons p ps =>
          obtain ⟨token, sep⟩ := p
          simp [lineOfTokens, hline]
    · have hc' : JS.isWhiteSpace c = false := by simpa using hc
      cases lead with
      | nil =>
        cases parts with
        | nil =>
          refine ⟨[], [([c], [])], ?_, ?_⟩
          · simp [IsTokenLine, hc']
          · simp [lineOfTokens, hline]
        | cons p ps =>
          obtain ⟨token, sep⟩ := p
          obtain ⟨h1, h2, h3, h4, h5⟩ := hwf
          refine ⟨[], (c :: token, sep) :: ps, ⟨h1, by simp, ?_, h4, h5⟩, ?_⟩
          · intro x hx
            rcases List.mem_cons.mp hx with rfl | hx
            · exact hc'
            · exact h3 x hx
          · simp [lineOfTokens, hline]
      | cons l ls =>
        refine ⟨[], ([c], l :: ls) :: parts, ⟨by simp, by simp, ?_, by simp, hwf⟩, ?_⟩
        · intro x hx
          simp at hx
          subst hx
          exact hc'
        · simp [lineOfTokens, hline]

/-- C14: `parseDataLine` is total (it never raises) and returns null if and only if the
line has fewer than 15 non-empty tokens after splitting on runs of whitespace; with 15
tokens or more it returns a record, whatever the tokens contain.  The tokens of a line
are its maximal runs of non-whitespace characters: every line is leading whitespace
followed by tokens, each with the whitespace after it, and `columnsOf` lists these
tokens. -/
theorem parseDataLine_none_iff (line : List Char) :
    (parseDataLine line = none ↔ (columnsOf line).length < 15) ∧
    ((∃ record, parseDataLine line = some record) ↔ 15 ≤ (columnsOf line).length) ∧
    ∃ lead parts, IsTokenLine lead parts ∧ line = lineOfTokens lead parts ∧
      columnsOf line = parts.map (·.1) ∧
      (parseDataLine line = none ↔ parts.length < 15) := by
  have h1 : parseDataLine line = none ↔ (columnsOf line).length < 15 := by
    unfold parseDataLine columnsOf
    by_cases h : ((JS.splitWhitespace line).filter
        (fun col => JS.truthy (JS.trim col))).length < 15
    · simp [h]
    · simp [h]
  refine ⟨h1, ?_, ?_⟩
  · constructor
    · rintro ⟨r, hr⟩
      by_contra hcon
      rw [h1.mpr (by omega)] at hr
      cases hr
    · intro h
      cases hp : parseDataLine line with
      | none =>
        have := h1.mp hp
        omega
      | some r => exact ⟨r, rfl⟩
  · obtain ⟨lead, parts, hwf, hline⟩ := exists_tokenLine line
    have hcols : columnsOf line = parts.map (·.1) := by
      rw [hline]
      exact columnsOf_lineOfTokens lead parts hwf
    refine ⟨lead, parts, hwf, hline, hcols, ?_⟩
    rw [h1, hcols, List.length_map]

/-! ## Timestamps of the snapshot -/

theorem JS.toISOString_ne_nil (t : Int) : JS.toISOString t ≠ [] := by
  unfold JS.toISOString
  simp

/-- A timestamp built by `parseTimestamp` is a non-empty string. -/
theorem parseTimestamp_ne_nil (year month day hour minute : Option (List Char))
    (ts : List Char) (h : parseTimestamp year month day hour minute = some ts) : ts ≠ [] := by
  unfold parseTimestamp at h
  split at h
  · split at h
    · cases h
    · split at h
      · injection h with h
        rw [← h]
        exact JS.toISOString_ne_nil _
      · cases h
  · cases h

theorem parseDataLine_timestamp_ne_nil (line : List Char) (r : ParsedRecord) (ts : List Char)
    (h : parseDataLine line = some r) (hts : r.timestamp = some ts) : ts ≠ [] := by
  unfold parseDataLine at h
  simp only at h
  split at h
  · cases h
  · injection h with h
    rw [← h] at hts
    exact parseTimestamp_ne_nil _ _ _ _ _ ts hts

/-- The first element of `parseLines` comes from the first valid line. -/
theorem parseLines_eq_cons (dataLines : List (List Char)) (first : ParsedRecord)
    (rest : List ParsedRecord) (h : parseLines dataLines = first :: rest) :
    ∃ skipped l later, dataLines = skipped ++ l :: later ∧
      (∀ x ∈ skipped, isValidDataLine x = false) ∧ parseDataLine l = some first ∧
      first.timestamp.isSome = true ∧ parseLines later = rest := by
  induction dataLines with
  | nil => simp [parseLines] at h
  | cons a as ih =>
    have hcons : parseLines (a :: as) =
        (match parseDataLine a with
          | some r => if r.timestamp.isSome then [r] else []
          | none => []) ++ parseLines as := by
      unfold parseLines
      cases hp : parseDataLine a with
      | none => simp [hp]
      | some r =>
        by_cases hts : r.timestamp.isSome = true
        · simp [hp, hts]
        · simp [hp, hts]
    rw [hcons] at h
    cases hp : parseDataLine a with
    | none =>
      rw [hp] at h
      obtain ⟨skipped, l, later, hd, hs, hl, hts, hlater⟩ := ih h
      refine ⟨a :: skipped, l, later, by simp [hd], ?_, hl, hts, hlater⟩
      intro x hx
      rcases List.mem_cons.mp hx with rfl | hx
      · simp [isValidDataLine, hp]
      · exact hs x hx
    | some r =>
      rw [hp] at h
      by_cases hts : r.timestamp.isSome = true
      · simp only [hts, if_true, List.singleton_append, List.cons.injEq] at h
        refine ⟨[], a, as, rfl, by simp, ?_, ?_, h.2⟩
        · rw [hp, h.1]
        · rw [← h.1]
          exact hts
      · have hts' : r.timestamp.isSome = false := by simpa using hts
        simp only [hts', Bool.false_eq_true, if_false, List.nil_append] at h
        obtain ⟨skipped, l, later, hd, hs, hl, hts2, hlater⟩ := ih h
        refine ⟨a :: skipped, l, later, by simp [hd], ?_, hl, hts2, hlater⟩
        intro x hx
        rcases List.mem_cons.mp hx with rfl | hx
        · simp [isValidDataLine, hp, hts']
        · exact hs x hx

/-- Every record kept by `parseLines` comes from a line of the list and carries a
non-empty timestamp. -/
theorem parseLines_mem (dataLines : List (List Char)) (r : ParsedRecord)
    (h : r ∈ parseLines dataLines) :
    ∃ l ∈ dataLines, parseDataLine l = some r ∧ ∃ ts, r.timestamp = some ts ∧ ts ≠ [] := by
  unfold parseLines at h
  rw [List.mem_filterMap] at h
  obtain ⟨o, ho, hr⟩ := h
  rw [List.mem_map] at ho
  obtain ⟨l, hl, rfl⟩ := ho
  cases hp : parseDataLine l with
  | none => simp [hp] at hr
  | some r' =>
    simp only [hp] at hr
    split at hr
    · rename_i hts
      injection hr with hr
      subst hr
      obtain ⟨ts, hts'⟩ := Option.isSome_iff_exists.mp hts
      exact ⟨l, hl, hp, ts, hts', parseDataLine_timestamp_ne_nil l r' ts hp hts'⟩
    · cases hr

theorem aggregate_latest_timestamp (first : ParsedRecord) (parsedLines : List ParsedRecord)
    (lastUpdated ts : List Char) (hts : first.timestamp = some ts) (hne : ts ≠ []) :
    (aggregate first parsedLines lastUpdated).latest.timestamp = some ts := by
  have htr : JS.truthy ts = true := by
    cases ts with
    | nil => exact absurd rfl hne
    | cons c cs => rfl
  unfold aggregate
  simp [hts, htr]

/-- C17: when `parseBuoyData` succeeds, the lines after the first marker line are some
lines that are not valid, then a first valid line `l`, then the rest; `latest.timestamp` is
the timestamp of the record of `l` and is a non-empty string, never absent; and every
entry of `historical` has a non-empty timestamp, the one of a valid record. -/
theorem latest_timestamp_first_valid (rawData lastUpdated : List Char) (snap : Snapshot)
    (h : parseBuoyData rawData lastUpdated = Except.ok snap) :
    ∃ pre m skipped l later r ts,
      feedLines rawData = pre ++ m :: (skipped ++ l :: later) ∧
      (∀ x ∈ pre, hasMarker x = false) ∧ hasMarker m = true ∧
      (∀ x ∈ skipped, isValidDataLine x = false) ∧ isValidDataLine l = true ∧
      parseDataLine l = some r ∧ r.timestamp = some ts ∧ ts ≠ [] ∧
      snap.latest.timestamp = some ts ∧
      ∀ e ∈ snap.historical, ∃ l' ∈ skipped ++ l :: later, ∃ r' ts',
        parseDataLine l' = some r' ∧ r'.timestamp = some ts' ∧ ts' ≠ [] ∧
        e.timestamp = some ts' := by
  obtain ⟨pre, m, post, first, rest, hl, hpre, hm, hp, hsnap⟩ :=
    parseBuoyData_ok_split rawData lastUpdated snap h
  obtain ⟨skipped, l, later, hd, hs, hline, htsome, -⟩ := parseLines_eq_cons post first rest hp
  obtain ⟨ts, hts⟩ := Option.isSome_iff_exists.mp htsome
  have hne := parseDataLine_timestamp_ne_nil l first ts hline hts
  refine ⟨pre, m, skipped, l, later, first, ts, by rw [hl, hd], hpre, hm, hs, ?_, hline, hts,
    hne, ?_, ?_⟩
  · simp [isValidDataLine, hline, htsome]
  · rw [hsnap]
    exact aggregate_latest_timestamp first _ lastUpdated ts hts hne
  · intro e he
    rw [hsnap, aggregate_historical, List.mem_map] at he
    obtain ⟨r', hr', rfl⟩ := he
    have hmem : r' ∈ parseLines post := by
      rw [hp]
      exact List.mem_of_mem_drop hr'
    obtain ⟨l', hl', hpl', ts', hts', hne'⟩ := parseLines_mem post r' hmem
    exact ⟨l', by rw [← hd]; exact hl', r', ts', hpl', hts', hne', hts'⟩

theorem latest_timestamp_first_valid_witness :
    parseBuoyData sampleFeed sampleNow = Except.ok sampleSnapshot ∧
    ∃ pre m skipped l later r ts,
      feedLines sampleFeed = pre ++ m :: (skipped ++ l :: later) ∧
      (∀ x ∈ pre, hasMarker x = false) ∧ hasMarker m = true ∧
      (∀ x ∈ skipped, isValidDataLine x = false) ∧ isValidDataLine l = true ∧
      parseDataLine l = some r ∧ r.timestamp = some ts ∧ ts ≠ [] ∧
      sampleSnapshot.latest.timestamp = some ts ∧
      ∀ e ∈ sampleSnapshot.historical, ∃ l' ∈ skipped ++ l :: later, ∃ r' ts',
        parseDataLine l' = some r' ∧ r'.timestamp = some ts' ∧ ts' ≠ [] ∧
        e.timestamp = some ts' :=
  ⟨by decide!, latest_timestamp_first_valid sampleFeed sampleNow sampleSnapshot (by decide!)⟩

/-! ## The range of the wind direction -/

/-- Every value of the direction table is a multiple of 22.5 from 0 to 337.5. -/
theorem directionMap_values (s : List Char) (q : ℚ) (h : directionMap.lookup s = some q) :
    ∃ k : ℕ, k < 16 ∧ q = 22.5 * k := by
  have hmem : q ∈ (List.range 16).map (fun k : ℕ => (22.5 : ℚ) * k) := by
    unfold directionMap at h
    simp only [List.lookup] at h
    repeat' split at h
    all_goals try cases h
    all_goals decide!
  obtain ⟨k, hk, rfl⟩ := List.mem_map.mp hmem
  exact ⟨k, List.mem_range.mp hk, rfl⟩

/-- The three outcomes of the direction coercion. -/
theorem parseWindDirection_cases (s : List Char) :
    (JS.parseFloat s ≠ JSNum.nan ∧ parseWindDirection s = some (JS.parseFloat s)) ∨
    (JS.parseFloat s = JSNum.nan ∧ ∃ k : ℕ, k < 16 ∧
      directionMap.lookup (JS.toUpperCase s) = some ((22.5 : ℚ) * k) ∧
      parseWindDirection s = some (JSNum.fin (22.5 * k))) ∨
    (JS.parseFloat s = JSNum.nan ∧ directionMap.lookup (JS.toUpperCase s) = none ∧
      parseWindDirection s = none) := by
  unfold parseWindDirection
  cases hp : JS.parseFloat s with
  | nan =>
    right
    cases hl : directionMap.lookup (JS.toUpperCase s) with
    | none => right; simp [JSNum.isNaN, hl]
    | some q =>
      left
      obtain ⟨k, hk, rfl⟩ := directionMap_values _ q hl
      exact ⟨rfl, k, hk, rfl, by simp [JSNum.isNaN, hl]⟩
  | negInf => left; simp [JSNum.isNaN]
  | posInf => left; simp [JSNum.isNaN]
  | fin q => left; simp [JSNum.isNaN]

/-- The counterexample to C16: the direction column `400` is a number, so it is returned
as it is, and 400 is not a number of degrees between 0 and 360. -/
theorem windDirection_range_counterexample :
    (parseDataLine sampleLineOutOfRange).map (·.windDirection) = some (some (JSNum.fin 400)) ∧
    ¬ IsDegrees (JSNum.fin 400) := by
  refine ⟨by decide!, ?_⟩
  rintro ⟨q, hq, -, h360⟩
  injection hq with hq
  subst hq
  norm_num at h360

/-- C16 (amended): the windDirection of the record of a data line is the direction
coercion of column 5 (which is present), and is one of: the number that the numeric
prefix of column 5 denotes, whatever its size (also beyond 360, negative or infinite);
a value 22.5 * k with k < 16 of the compass table when column 5 has no numeric prefix
and its upper-case form is in the table; or absent. So it is a number of degrees from 0
to 360 exactly when column 5 has no numeric prefix or its numeric prefix is in that
range. -/
theorem windDirection_values (line : List Char) (r : ParsedRecord)
    (h : parseDataLine line = some r) :
    ∃ c5, (columnsOf line).get? 5 = some c5 ∧ r.windDirection = parseWindDirection c5 ∧
      ((JS.parseFloat c5 ≠ JSNum.nan ∧ r.windDirection = some (JS.parseFloat c5)) ∨
       (JS.parseFloat c5 = JSNum.nan ∧ ∃ k : ℕ, k < 16 ∧
          directionMap.lookup (JS.toUpperCase c5) = some ((22.5 : ℚ) * k) ∧
          r.windDirection = some (JSNum.fin (22.5 * k))) ∨
       (JS.parseFloat c5 = JSNum.nan ∧ directionMap.lookup (JS.toUpperCase c5) = none ∧
          r.windDirection = none)) ∧
      ∀ d, r.windDirection = some d →
        (IsDegrees d ↔ (JS.parseFloat c5 = JSNum.nan ∨ IsDegrees (JS.parseFloat c5))) := by
  have hlen : 15 ≤ (columnsOf line).length := by
    by_contra hlt
    unfold parseDataLine at h
    unfold columnsOf at hlt
    simp only at h
    rw [if_pos (by omega)] at h
    cases h
  have h5 : 5 < (columnsOf line).length := by omega
  obtain ⟨c5, hc5⟩ : ∃ c5, (columnsOf line).get? 5 = some c5 :=
    ⟨(columnsOf line).get ⟨5, h5⟩, List.get?_eq_get h5⟩
  have hw : r.windDirection = parseWindDirection c5 := by
    unfold parseDataLine at h
    unfold columnsOf at hlen hc5
    simp only at h
    rw [if_neg (by omega)] at h
    injection h with h
    rw [← h]
    simp only [hc5, Option.getD_some]
  refine ⟨c5, hc5, hw, ?_, ?_⟩
  · rw [hw]
    exact parseWindDirection_cases c5
  · intro d hd
    rw [hw] at hd
    rcases parseWindDirection_cases c5 with ⟨hn, hv⟩ | ⟨hn, k, hk, -, hv⟩ | ⟨hn, -, hv⟩
    · rw [hv] at hd
      injection hd with hd
      rw [← hd]
      simp [hn]
    · rw [hv] at hd
      injection hd with hd
      rw [← hd]
      constructor
      · intro _
        exact Or.inl hn
      · intro _
        have hk' : (k : ℚ) ≤ 15 := by exact_mod_cast Nat.lt_succ_iff.mp hk
        exact ⟨22.5 * k, rfl, by positivity, by norm_num; linarith⟩
    · rw [hv] at hd
      cases hd

theorem windDirection_values_witness :
    parseDataLine sampleLineOutOfRange = some { sampleRecord with
      windDirection := some (JSNum.fin 400) } ∧
    ∃ c5, (columnsOf sampleLineOutOfRange).get? 5 = some c5 ∧
      some (JSNum.fin 400) = parseWindDirection c5 ∧
      ((JS.parseFloat c5 ≠ JSNum.nan ∧ some (JSNum.fin 400) = some (JS.parseFloat c5)) ∨
       (JS.parseFloat c5 = JSNum.nan ∧ ∃ k : ℕ, k < 16 ∧
          directionMap.lookup (JS.toUpperCase c5) = some ((22.5 : ℚ) * k) ∧
          some (JSNum.fin 400) = some (JSNum.fin (22.5 * k))) ∨
       (JS.parseFloat c5 = JSNum.nan ∧ directionMap.lookup (JS.toUpperCase c5) = none ∧
          some (JSNum.fin 400) = none)) ∧
      ∀ d, some (JSNum.fin 400) = some d →
        (IsDegrees d ↔ (JS.parseFloat c5 = JSNum.nan ∨ IsDegrees (JS.parseFloat c5))) :=
  ⟨by decide!, windDirection_values sampleLineOutOfRange
    { sampleRecord with windDirection := some (JSNum.fin 400) } (by decide!)⟩

/-! ## Timestamps of data lines -/

theorem JS.truthy_iff (s : List Char) : JS.truthy s = true ↔ s ≠ [] := by
  cases s <;> simp [JS.truthy]

/-! ## The numeric coercion -/

theorem JS.trimStart_append (ws t : List Char) (hws : ∀ c ∈ ws, JS.isWhiteSpace c = true)
    (ht : ∀ c ∈ t.head?, JS.isWhiteSpace c = false) : JS.trimStart (ws ++ t) = t := by
  unfold JS.trimStart
  induction ws with
  | nil =>
    cases t with
    | nil => rfl
    | cons c r =>
      have := ht c (by simp)
      simp [List.dropWhile, this]
  | cons w ws ih =>
    have hw := hws w (by simp)
    simp only [List.cons_append, List.dropWhile, hw]
    exact ih (fun c hc => hws c (List.mem_cons_of_mem _ hc))

theorem JS.trimStart_split (s : List Char) :
    ∃ ws, s = ws ++ JS.trimStart s ∧ (∀ c ∈ ws, JS.isWhiteSpace c = true) ∧
      ∀ c ∈ (JS.trimStart s).head?, JS.isWhiteSpace c = false := by
  refine ⟨s.takeWhile JS.isWhiteSpace, ?_, ?_, ?_⟩
  · unfold JS.trimStart
    exact (List.takeWhile_append_dropWhile _ _).symm
  · intro c hc
    exact List.mem_takeWhile_imp hc
  · intro c hc
    unfold JS.trimStart at hc
    cases hd : s.dropWhile JS.isWhiteSpace with
    | nil => simp [hd] at hc
    | cons a r =>
      rw [hd] at hc
      simp only [List.head?_cons, Option.mem_def, Option.some.injEq] at hc
      subst hc
      have := List.head_dropWhile_not JS.isWhiteSpace s (by simp [hd])
      simpa [hd] using this

theorem JS.isDigit_ne (d : Char) (h : JS.isDigit d = true) :
    d ≠ '-' ∧ d ≠ '+' ∧ d ≠ 'I' ∧ d ≠ '.' ∧ d ≠ 'e' ∧ d ≠ 'E' := by
  refine ⟨?_, ?_, ?_, ?_, ?_, ?_⟩ <;> (rintro rfl; revert h; decide)

theorem JS.sign_match (u : List Char) (hu : ∀ c ∈ u.head?, c ≠ '-' ∧ c ≠ '+') :
    JS.parseIntValue.match_1 (fun _ => Bool × List Char) u (fun r => (true, r))
      (fun r => (false, r)) (fun _ => (false, u)) = (false, u) := by
  split
  · exact absurd rfl (hu _ (by simp)).1
  · exact absurd rfl (hu _ (by simp)).2
  · rfl

theorem JS.sign_match_text (sign : Option Bool) (u : List Char)
    (hu : sign = none → ∀ c ∈ u.head?, c ≠ '-' ∧ c ≠ '+') :
    JS.parseIntValue.match_1 (fun _ => Bool × List Char) (signText sign ++ u) (fun r => (true, r))
      (fun r => (false, r)) (fun _ => (false, signText sign ++ u)) = (sign == some true, u) := by
  rcases sign with _ | _ | _
  · simp only [signText, List.nil_append]
    exact JS.sign_match u (hu rfl)
  · rfl
  · rfl

/-- Every text is an optional sign followed by a text that is not read as a sign. -/
theorem JS.sign_split (t : List Char) :
    ∃ sign u, t = signText sign ++ u ∧ (sign = none → ∀ c ∈ u.head?, c ≠ '-' ∧ c ≠ '+') := by
  rcases t with _ | ⟨c, r⟩
  · exact ⟨none, [], rfl, by simp⟩
  · by_cases hm : c = '-'
    · exact ⟨some true, r, by simp [signText, hm], by simp⟩
    · by_cases hp : c = '+'
      · exact ⟨some false, r, by simp [signText, hp], by simp⟩
      · exact ⟨none, c :: r, rfl, by simp [hm, hp]⟩

theorem JS.point_match {α : Type} (r1 : List Char) (f g : List Char → α)
    (h : ∀ c ∈ r1.head?, c ≠ '.') :
    JS.parseFloat.match_1 (fun _ => α) r1 f g = g r1 := by
  split
  · exact absurd rfl (h _ (by simp))
  · rfl

theorem List.takeWhile_dropWhile_append {α : Type} (p : α → Bool) (a b : List α)
    (ha : ∀ c ∈ a, p c = true) (hb : ∀ c ∈ b.head?, p c = false) :
    (a ++ b).takeWhile p = a ∧ (a ++ b).dropWhile p = b := by
  induction a with
  | nil =>
    cases b with
    | nil => exact ⟨rfl, rfl⟩
    | cons c r =>
      have := hb c (by simp)
      simp [List.takeWhile, List.dropWhile, this]
  | cons x xs ih =>
    have hx := ha x (by simp)
    have := ih (fun c hc => ha c (List.mem_cons_of_mem _ hc))
    simp [List.takeWhile, List.dropWhile, hx, this]

theorem JS.digitsValue_append (a b : List Char) :
    JS.digitsValue (a ++ b) = JS.digitsValue a * 10 ^ b.length + JS.digitsValue b := by
  unfold JS.digitsValue
  have key : ∀ (l : List Char) (n : Nat),
      l.foldl (fun n c => 10 * n + (c.toNat - 48)) n =
        n * 10 ^ l.length + l.foldl (fun n c => 10 * n + (c.toNat - 48)) 0 := by
    intro l
    induction l with
    | nil => intro n; simp
    | cons c cs ih =>
      intro n
      simp only [List.foldl_cons, List.length_cons]
      rw [ih (10 * n + (c.toNat - 48)), ih (10 * 0 + (c.toNat - 48))]
      ring
  rw [List.foldl_append, key b]

/-- The result of `parseFloat` on a text that is, after leading whitespace, an optional
sign, digits, an optional fraction and a tail that continues neither. -/
theorem JS.parseFloat_parts (s : List Char) (sign : Option Bool) (ip : List Char)
    (frac : Option (List Char)) (tail : List Char)
    (hs : JS.trimStart s = signText sign ++ (ip ++ (fractionText frac ++ tail)))
    (hip : ∀ c ∈ ip, JS.isDigit c = true)
    (hfp : ∀ fp, frac = some fp → ∀ c ∈ fp, JS.isDigit c = true)
    (hne : ip ≠ [] ∨ ∃ fp, frac = some fp ∧ fp ≠ [])
    (htail : ∀ c ∈ tail.head?, JS.isDigit c = false ∧ (frac = none → c ≠ '.')) :
    JS.parseFloat s = JSNum.ofRat ((if sign = some true then -1 else 1) *
      (((JS.digitsValue ip : ℚ) + fractionValue frac) * (10 : ℚ) ^ JS.exponentPart tail)) := by
  have hhead : ∀ c ∈ (ip ++ (fractionText frac ++ tail)).head?,
      JS.isDigit c = true ∨ c = '.' := by
    intro c hc
    rcases ip with _ | ⟨d, ds⟩
    · rcases hne with hne | ⟨fp, rfl, -⟩
      · exact absurd rfl hne
      · simp [fractionText] at hc
        exact Or.inr hc.symm
    · simp at hc
      subst hc
      exact Or.inl (hip _ (by simp))
  have hsign := JS.sign_match_text sign (ip ++ (fractionText frac ++ tail)) (by
    intro _ c hc
    rcases hhead c hc with hd | rfl
    · exact ⟨(JS.isDigit_ne c hd).1, (JS.isDigit_ne c hd).2.1⟩
    · exact ⟨by decide, by decide⟩)
  have hinf : "Infinity".toList.isPrefixOf (ip ++ (fractionText frac ++ tail)) = false := by
    rcases hu : ip ++ (fractionText frac ++ tail) with _ | ⟨c, r⟩
    · rfl
    · have hc : JS.isDigit c = true ∨ c = '.' := hhead c (by simp [hu])
      have hI : c ≠ 'I' := by
        rcases hc with hd | rfl
        · exact (JS.isDigit_ne c hd).2.2.1
        · decide
      simp [List.isPrefixOf, Ne.symm hI]
  have hfrachead : ∀ c ∈ (fractionText frac ++ tail).head?, JS.isDigit c = false := by
    intro c hc
    rcases frac with _ | fp
    · exact (htail c (by simpa [fractionText] using hc)).1
    · simp [fractionText] at hc
      subst hc
      rfl
  obtain ⟨htake, hdrop⟩ := List.takeWhile_dropWhile_append JS.isDigit ip
    (fractionText frac ++ tail) hip hfrachead
  have hpoint : JS.parseFloat.match_1 (fun _ => List Char × List Char)
      (fractionText frac ++ tail)
      (fun r => (r.takeWhile JS.isDigit, r.dropWhile JS.isDigit))
      (fun _ => ([], fractionText frac ++ tail)) = (frac.getD [], tail) := by
    rcases frac with _ | fp
    · simp only [fractionText, List.nil_append, Option.getD_none]
      exact JS.point_match tail _ (fun _ => ([], tail))
        (fun c hc => (htail c hc).2 rfl)
    · obtain ⟨h1, h2⟩ := List.takeWhile_dropWhile_append JS.isDigit fp tail (hfp fp rfl)
        (fun c hc => (htail c hc).1)
      simp only [fractionText, List.cons_append, Option.getD_some, h1, h2]
  have hempty : (ip.isEmpty && (frac.getD []).isEmpty) = false := by
    rcases hne with hne | ⟨fp, rfl, hne⟩
    · cases ip with
      | nil => exact absurd rfl hne
      | cons _ _ => rfl
    · cases fp with
      | nil => exact absurd rfl hne
      | cons _ _ => simp
  have hval : ((JS.digitsValue (ip ++ frac.getD []) : ℕ) : ℚ) / 10 ^ (frac.getD []).length =
      (JS.digitsValue ip : ℚ) + fractionValue frac := by
    rcases frac with _ | fp
    · simp [fractionValue]
    · simp only [Option.getD_some, fractionValue, JS.digitsValue_append]
      push_cast
      field_simp
  unfold JS.parseFloat
  simp only [hs, hsign, hinf, htake, hdrop, hpoint, hempty, hval]
  rcases sign with _ | _ | _ <;> simp

theorem JS.exponentPart_text (exp : Option (Char × Option Bool × List Char)) (rest : List Char)
    (hexp : ∀ e s ed, exp = some (e, s, ed) →
      (e = 'e' ∨ e = 'E') ∧ ed ≠ [] ∧ ∀ c ∈ ed, JS.isDigit c = true)
    (hrest : ∀ c ∈ rest.head?, JS.isDigit c = false ∧ (exp = none → c ≠ 'e' ∧ c ≠ 'E')) :
    JS.exponentPart (exponentText exp ++ rest) = exponentValue exp := by
  rcases exp with _ | ⟨e, s, ed⟩
  · simp only [exponentText, List.nil_append, exponentValue]
    rcases rest with _ | ⟨c, r⟩
    · rfl
    · have hc := (hrest c (by simp)).2 rfl
      simp [JS.exponentPart, hc.1, hc.2]
  · obtain ⟨he, hne, hed⟩ := hexp e s ed rfl
    have hsign := JS.sign_match_text s (ed ++ rest) (by
      intro _ c hc
      rcases ed with _ | ⟨d, ds⟩
      · exact absurd rfl hne
      · simp at hc
        subst hc
        have := JS.isDigit_ne d (hed d (by simp))
        exact ⟨this.1, this.2.1⟩)
    obtain ⟨htake, -⟩ := List.takeWhile_dropWhile_append JS.isDigit ed rest hed
      (fun c hc => (hrest c hc).1)
    have hempty : ed.isEmpty = false := by
      cases ed with
      | nil => exact absurd rfl hne
      | cons _ _ => rfl
    simp only [exponentText, List.cons_append, List.append_assoc, exponentValue]
    unfold JS.exponentPart
    simp only [he, if_true, hsign, htake, hempty, Bool.false_eq_true, if_false]
    rcases s with _ | _ | _ <;> simp

/-- The value read by the global `parseFloat` from a text that starts with a well-formed
decimal literal and goes on with something that does not continue the literal. -/
theorem JS.parseFloat_literal (lit : DecimalLiteral) (rest : List Char)
    (hwf : lit.WellFormed)
    (hrest : ∀ c ∈ rest.head?, JS.isDigit c = false ∧
      (lit.fraction = none → lit.exponent = none → c ≠ '.') ∧
      (lit.exponent = none → c ≠ 'e' ∧ c ≠ 'E')) :
    JS.parseFloat (lit.text ++ rest) = JSNum.ofRat lit.value := by
  obtain ⟨hip, hfp, hne, hexp⟩ := hwf
  have htext : lit.text ++ rest = signText lit.sign ++ (lit.intDigits ++
      (fractionText lit.fraction ++ (exponentText lit.exponent ++ rest))) := by
    simp [DecimalLiteral.text]
  have hhead : ∀ c ∈ (lit.text ++ rest).head?, JS.isWhiteSpace c = false := by
    rw [htext]
    intro c hc
    rcases hsg : lit.sign with _ | _ | _
    · rw [hsg] at hc
      rcases hdig : lit.intDigits with _ | ⟨d, ds⟩
      · rcases hne with hne | ⟨fp, hfr, -⟩
        · exact absurd hdig hne
        · simp [hdig, hfr, fractionText, signText] at hc
          subst hc
          rfl
      · simp [hdig, signText] at hc
        subst hc
        exact isWhiteSpace_of_isDigit _ (hip _ (by simp [hdig]))
    · rw [hsg] at hc
      simp [signText] at hc
      subst hc
      rfl
    · rw [hsg] at hc
      simp [signText] at hc
      subst hc
      rfl
  have htrim : JS.trimStart (lit.text ++ rest) = lit.text ++ rest := by
    have := JS.trimStart_append [] (lit.text ++ rest) (by simp) hhead
    simpa using this
  have htail : ∀ c ∈ (exponentText lit.exponent ++ rest).head?,
      JS.isDigit c = false ∧ (lit.fraction = none → c ≠ '.') := by
    intro c hc
    rcases hex : lit.exponent with _ | ⟨e, s, ed⟩
    · rw [hex] at hc
      simp only [exponentText, List.nil_append] at hc
      exact ⟨(hrest c hc).1, fun hf => (hrest c hc).2.1 hf hex⟩
    · rw [hex] at hc
      simp [exponentText] at hc
      subst hc
      rcases (hexp _ s ed hex).1 with rfl | rfl
      · exact ⟨rfl, fun _ => by decide⟩
      · exact ⟨rfl, fun _ => by decide⟩
  rw [JS.parseFloat_parts (lit.text ++ rest) lit.sign lit.intDigits lit.fraction
    (exponentText lit.exponent ++ rest) (by rw [htrim, htext]) hip hfp hne htail,
    JS.exponentPart_text lit.exponent rest hexp (fun c hc => ⟨(hrest c hc).1, (hrest c hc).2.2⟩)]
  rfl

/-- The characters of a well-formed decimal literal. -/
theorem DecimalLiteral.chars (lit : DecimalLiteral) (hwf : lit.WellFormed) :
    ∀ c ∈ lit.text, JS.isDigit c = true ∨ c = '+' ∨ c = '-' ∨ c = '.' ∨ c = 'e' ∨ c = 'E' := by
  obtain ⟨hip, hfp, -, hexp⟩ := hwf
  have hsign : ∀ (sg : Option Bool), ∀ c ∈ signText sg, c = '+' ∨ c = '-' := by
    intro sg c hc
    rcases sg with _ | _ | _ <;> simp [signText] at hc <;> simp [hc]
  intro c hc
  simp only [DecimalLiteral.text, List.mem_append] at hc
  rcases hc with hc | hc | hc | hc
  · rcases hsign _ c hc with h | h
    · exact Or.inr (Or.inl h)
    · exact Or.inr (Or.inr (Or.inl h))
  · exact Or.inl (hip c hc)
  · rcases hfr : lit.fraction with _ | fp
    · simp [hfr, fractionText] at hc
    · rw [hfr] at hc
      simp only [fractionText, List.mem_cons] at hc
      rcases hc with rfl | hc
      · simp
      · exact Or.inl (hfp fp hfr c hc)
  · rcases hex : lit.exponent with _ | ⟨e, s, ed⟩
    · simp [hex, exponentText] at hc
    · rw [hex] at hc
      simp only [exponentText, List.mem_cons, List.mem_append] at hc
      obtain ⟨he, -, hed⟩ := hexp e s ed hex
      rcases hc with rfl | hc | hc
      · rcases he with rfl | rfl <;> simp
      · rcases hsign _ c hc with h | h
        · exact Or.inr (Or.inl h)
        · exact Or.inr (Or.inr (Or.inl h))
      · exact Or.inl (hed c hc)

theorem List.digits_split (l : List Char) :
    ∃ ds tail, l = ds ++ tail ∧ (∀ c ∈ ds, JS.isDigit c = true) ∧
      ∀ c ∈ tail.head?, JS.isDigit c = false := by
  refine ⟨l.takeWhile JS.isDigit, l.dropWhile JS.isDigit,
    (List.takeWhile_append_dropWhile _ _).symm, fun c hc => List.mem_takeWhile_imp hc, ?_⟩
  intro c hc
  cases hd : l.dropWhile JS.isDigit with
  | nil => simp [hd] at hc
  | cons a r =>
    rw [hd] at hc
    simp only [List.head?_cons, Option.mem_def, Option.some.injEq] at hc
    subst hc
    have := List.head_dropWhile_not JS.isDigit l (by simp [hd])
    simpa [hd] using this

/-- A text with a numeric prefix is not read as NaN. -/
theorem JS.parseFloat_hasPrefix (v : List Char) (h : HasNumericPrefix v) :
    JS.parseFloat v ≠ JSNum.nan := by
  obtain ⟨ws, sign, body, rest, rfl, hws, hbody⟩ := h
  have htrim : JS.trimStart (ws ++ (signText sign ++ (body ++ rest))) =
      signText sign ++ (body ++ rest) := by
    apply JS.trimStart_append ws _ hws
    intro c hc
    rcases sign with _ | _ | _ <;> rcases hbody with rfl | ⟨d, hd, rfl | rfl⟩ <;>
      simp [signText] at hc <;> subst hc <;>
      first
        | rfl
        | exact isWhiteSpace_of_isDigit _ hd
  rcases hbody with rfl | ⟨d, hd, rfl | rfl⟩
  · have hsign := JS.sign_match_text sign ("Infinity".toList ++ rest) (by
      intro _ c hc
      simp at hc
      subst hc
      exact ⟨by decide, by decide⟩)
    have hinf : "Infinity".toList.isPrefixOf ("Infinity".toList ++ rest) = true := by
      simp [List.isPrefixOf]
    unfold JS.parseFloat
    simp only [htrim, hsign, hinf, if_true]
    split_ifs <;> simp
  · obtain ⟨ds, tail1, rfl, hds, htail1⟩ := List.digits_split rest
    by_cases hpt : ∃ r, tail1 = '.' :: r
    · obtain ⟨r, rfl⟩ := hpt
      obtain ⟨fs, tail2, rfl, hfs, htail2⟩ := List.digits_split r
      rw [JS.parseFloat_parts _ sign (d :: ds) (some fs) tail2 (by
          rw [htrim]; simp [fractionText]) (by
          intro c hc
          rcases List.mem_cons.mp hc with rfl | hc
          · exact hd
          · exact hds c hc) (by
          intro fp hfp
          injection hfp with hfp
          subst hfp
          exact hfs) (Or.inl (by simp)) (fun c hc => ⟨htail2 c hc, by simp⟩)]
      exact JSNum.ofRat_ne_nan _
    · rw [JS.parseFloat_parts _ sign (d :: ds) none tail1 (by
          rw [htrim]; simp [fractionText]) (by
          intro c hc
          rcases List.mem_cons.mp hc with rfl | hc
          · exact hd
          · exact hds c hc) (by simp) (Or.inl (by simp)) (fun c hc => ⟨htail1 c hc, by
          intro _ hdot
          apply hpt
          rcases tail1 with _ | ⟨x, r⟩
          · simp at hc
          · simp at hc
            exact ⟨r, by rw [hc, hdot]⟩⟩)]
      exact JSNum.ofRat_ne_nan _
  · obtain ⟨ds, tail1, rfl, hds, htail1⟩ := List.digits_split rest
    rw [JS.parseFloat_parts _ sign [] (some (d :: ds)) tail1 (by
        rw [htrim]; simp [fractionText]) (by simp) (by
        intro fp hfp
        injection hfp with hfp
        subst hfp
        intro c hc
        rcases List.mem_cons.mp hc with rfl | hc
        · exact hd
        · exact hds c hc) (Or.inr ⟨_, rfl, by simp⟩) (fun c hc => ⟨htail1 c hc, by simp⟩)]
    exact JSNum.ofRat_ne_nan _

/-- A text without a numeric prefix is read as NaN. -/
theorem JS.parseFloat_noPrefix (v : List Char) (h : ¬ HasNumericPrefix v) :
    JS.parseFloat v = JSNum.nan := by
  obtain ⟨ws, hv, hws, -⟩ := JS.trimStart_split v
  obtain ⟨sign, u, ht, hu⟩ := JS.sign_split (JS.trimStart v)
  have hsign := JS.sign_match_text sign u hu
  have hinf : "Infinity".toList.isPrefixOf u = false := by
    by_contra hcon
    have hpre : "Infinity".toList.isPrefixOf u = true := by simpa using hcon
    obtain ⟨rest, rfl⟩ := List.isPrefixOf_iff_prefix.mp hpre
    exact h ⟨ws, sign, "Infinity".toList, rest, by rw [← ht, ← hv], hws, Or.inl rfl⟩
  have hdigit : ∀ c ∈ u.head?, JS.isDigit c = false := by
    intro c hc
    by_contra hcon
    have hd : JS.isDigit c = true := by simpa using hcon
    rcases u with _ | ⟨x, r⟩
    · simp at hc
    · simp at hc
      subst hc
      exact h ⟨ws, sign, [x], r, hv.trans (by rw [ht]; simp), hws,
        Or.inr ⟨x, hd, Or.inl rfl⟩⟩
  obtain ⟨htake, hdrop⟩ := List.takeWhile_dropWhile_append JS.isDigit [] u (by simp) hdigit
  simp only [List.nil_append] at htake hdrop
  have hpoint : (JS.parseFloat.match_1 (fun _ => List Char × List Char) u
      (fun r => (r.takeWhile JS.isDigit, r.dropWhile JS.isDigit))
      (fun _ => ([], u))).1 = [] := by
    by_cases hpt : ∃ r, u = '.' :: r
    · obtain ⟨r, rfl⟩ := hpt
      have hr : ∀ c ∈ r.head?, JS.isDigit c = false := by
        intro c hc
        by_contra hcon
        have hd : JS.isDigit c = true := by simpa using hcon
        rcases r with _ | ⟨x, r⟩
        · simp at hc
        · simp at hc
          subst hc
          exact h ⟨ws, sign, ['.', x], r, hv.trans (by rw [ht]; simp), hws,
            Or.inr ⟨x, hd, Or.inr rfl⟩⟩
      obtain ⟨h1, -⟩ := List.takeWhile_dropWhile_append JS.isDigit [] r (by simp) hr
      simpa using h1
    · rw [JS.point_match u _ (fun _ => ([], u)) (by
        intro c hc hdot
        apply hpt
        rcases u with _ | ⟨x, r⟩
        · simp at hc
        · simp at hc
          exact ⟨r, by rw [hc, hdot]⟩)]
  unfold JS.parseFloat
  simp only [ht, hsign, hinf, htake, hdrop, hpoint]
  simp

theorem sampleLiteral_wellFormed : sampleLiteral.WellFormed :=
  ⟨by decide, fun fp h => by injection h with h; subst h; decide, Or.inl (by decide),
    fun e s ed h => by
      injection h with h
      injection h with h1 h2
      injection h2 with h2 h3
      subst h1 h3
      exact ⟨Or.inl rfl, by decide, by decide⟩⟩

theorem sampleTenth_wellFormed : sampleTenth.WellFormed :=
  ⟨by decide, fun fp h => by injection h with h; subst h; decide, Or.inl (by decide),
    fun e s ed h => (by cases h)⟩

theorem sampleTiny_wellFormed : sampleTiny.WellFormed :=
  ⟨by decide, fun fp h => (by cases h), Or.inl (by decide),
    fun e s ed h => by
      injection h with h
      injection h with h1 h2
      injection h2 with h2 h3
      subst h1 h3
      exact ⟨Or.inl rfl, by decide, by decide⟩⟩

/-- The Number value of a real number: an infinity from the overflow threshold on, else
the nearest double, which is at most half a spacing away. -/
theorem JSNum.ofRat_spec (q : ℚ) :
    (JSNum.ofRat q = JSNum.posInf ↔ JSNum.overflowBound ≤ q) ∧
    (JSNum.ofRat q = JSNum.negInf ↔ q ≤ -JSNum.overflowBound) ∧
    (-JSNum.overflowBound < q → q < JSNum.overflowBound →
      JSNum.ofRat q = JSNum.fin (JSNum.nearest q) ∧
      |JSNum.nearest q - q| ≤ JSNum.ulp q / 2) ∧
    (JSNum.IsDouble q → JSNum.ofRat q = JSNum.fin q) :=
  ⟨JSNum.ofRat_eq_posInf_iff q, JSNum.ofRat_eq_negInf_iff q,
    fun h1 h2 => ⟨JSNum.ofRat_eq_fin q h1 h2, JSNum.nearest_abs_sub_le q⟩, fun h => h⟩

/-- The counterexample to C12: the token `12abc` is not a real-number literal (no
well-formed literal has the letter `a`), yet the coercion returns 12, the value of its
numeric prefix; and the token `Infinity` gives the number Infinity, not null.  A valid
token is not always returned exactly either: `0.1` gives the double nearest to one tenth,
which is not one tenth, and `1e-400` gives 0. -/
theorem parseFloat_leading_number_counterexample :
    parseFloat (some "12abc".toList) = some (JSNum.fin 12) ∧
    (¬ ∃ lit : DecimalLiteral, lit.WellFormed ∧ lit.text = "12abc".toList) ∧
    parseFloat (some "Infinity".toList) = some JSNum.posInf ∧
    (sampleTenth.WellFormed ∧ sampleTenth.text = "0.1".toList ∧ sampleTenth.value = 1 / 10 ∧
      parseFloat (some "0.1".toList) =
        some (JSNum.fin (3602879701896397 / 36028797018963968)) ∧
      (3602879701896397 / 36028797018963968 : ℚ) ≠ 1 / 10) ∧
    (sampleTiny.WellFormed ∧ sampleTiny.text = "1e-400".toList ∧
      sampleTiny.value = 1 / 10 ^ 400 ∧
      parseFloat (some "1e-400".toList) = some (JSNum.fin 0)) := by
  refine ⟨by decide!, ?_, by decide!,
    ⟨sampleTenth_wellFormed, by decide, by decide!, by decide!, by norm_num⟩,
    ⟨sampleTiny_wellFormed, by decide, by decide!, by decide!⟩⟩
  rintro ⟨lit, hwf, htext⟩
  have := DecimalLiteral.chars lit hwf 'a' (by rw [htext]; decide)
  revert this
  decide

/-- C12 (amended): the numeric coercion is a total function (it never raises).  It
returns null for an absent input and for the token `MM`, and for any other token exactly
when the token has no numeric prefix, that is when it does not start, after leading
whitespace and an optional sign, with `Infinity`, a digit, or a point and a digit; in
every other case it returns the number read from the longest numeric prefix, which is
never NaN.  For a token that is a well-formed decimal literal, alone or followed by text
that does not continue it, the result is the Number value of the real number `x` the
literal denotes: `x` itself when `x` is a double, `+Infinity` when `x` is at least
`2^1024 - 2^970`, `-Infinity` when `x` is at most the negative of that, and otherwise the
double nearest to `x` (ties to even, 0 for a magnitude of at most `2^-1075`), which lies
within half the spacing of the doubles around `x`. -/
theorem parseFloat_coercion :
    parseFloat none = none ∧ parseFloat (some "MM".toList) = none ∧
    (∀ v, parseFloat (some v) = none ↔ (v = "MM".toList ∨ ¬ HasNumericPrefix v)) ∧
    (∀ v, v ≠ "MM".toList → HasNumericPrefix v →
      parseFloat (some v) = some (JS.parseFloat v) ∧ JS.parseFloat v ≠ JSNum.nan) ∧
    (∀ (lit : DecimalLiteral) (rest : List Char), lit.WellFormed →
      (∀ c ∈ rest.head?, JS.isDigit c = false ∧
        (lit.fraction = none → lit.exponent = none → c ≠ '.') ∧
        (lit.exponent = none → c ≠ 'e' ∧ c ≠ 'E')) →
      parseFloat (some (lit.text ++ rest)) = some (JSNum.ofRat lit.value) ∧
      (JSNum.IsDouble lit.value →
        parseFloat (some (lit.text ++ rest)) = some (JSNum.fin lit.value)) ∧
      (JSNum.overflowBound ≤ lit.value →
        parseFloat (some (lit.text ++ rest)) = some JSNum.posInf) ∧
      (lit.value ≤ -JSNum.overflowBound →
        parseFloat (some (lit.text ++ rest)) = some JSNum.negInf) ∧
      (-JSNum.overflowBound < lit.value → lit.value < JSNum.overflowBound →
        parseFloat (some (lit.text ++ rest)) = some (JSNum.fin (JSNum.nearest lit.value)) ∧
        |JSNum.nearest lit.value - lit.value| ≤ JSNum.ulp lit.value / 2) ∧
      (|lit.value| ≤ 1 / 2 ^ 1075 →
        parseFloat (some (lit.text ++ rest)) = some (JSNum.fin 0))) := by
  have hsome : ∀ v, v ≠ "MM".toList → HasNumericPrefix v →
      parseFloat (some v) = some (JS.parseFloat v) ∧ JS.parseFloat v ≠ JSNum.nan := by
    intro v hmm hpre
    have hne := JS.parseFloat_hasPrefix v hpre
    refine ⟨?_, hne⟩
    unfold parseFloat
    simp only [hmm, if_false]
    cases hp : JS.parseFloat v with
    | nan => exact absurd hp hne
    | negInf => rfl
    | posInf => rfl
    | fin q => rfl
  refine ⟨rfl, rfl, ?_, hsome, ?_⟩
  · intro v
    constructor
    · intro hnone
      by_cases hmm : v = "MM".toList
      · exact Or.inl hmm
      · right
        intro hpre
        rw [(hsome v hmm hpre).1] at hnone
        cases hnone
    · rintro (rfl | hpre)
      · rfl
      · unfold parseFloat
        simp only [JS.parseFloat_noPrefix v hpre, JSNum.isNaN, if_true, ite_self]
  · intro lit rest hwf hrest
    have hval := JS.parseFloat_literal lit rest hwf hrest
    have hmm : lit.text ++ rest ≠ "MM".toList := by
      intro heq
      rw [heq] at hval
      have hnan : JS.parseFloat "MM".toList = JSNum.nan := by decide!
      rw [hnan] at hval
      exact JSNum.ofRat_ne_nan _ hval.symm
    have hmain : parseFloat (some (lit.text ++ rest)) = some (JSNum.ofRat lit.value) := by
      unfold parseFloat
      simp only [hmm, if_false, hval]
      cases hq : JSNum.ofRat lit.value with
      | nan => exact absurd hq (JSNum.ofRat_ne_nan _)
      | negInf => rfl
      | posInf => rfl
      | fin q => rfl
    obtain ⟨s1, s2, s3, s4⟩ := JSNum.ofRat_spec lit.value
    refine ⟨hmain, ?_, ?_, ?_, ?_, ?_⟩
    · intro hd
      rw [hmain, s4 hd]
    · intro h
      rw [hmain, s1.mpr h]
    · intro h
      rw [hmain, s2.mpr h]
    · intro h1 h2
      obtain ⟨e, herr⟩ := s3 h1 h2
      exact ⟨by rw [hmain, e], herr⟩
    · intro h
      rw [hmain]
      have hb := JSNum.overflowBound_gt
      have hsmall : (1 : ℚ) / 2 ^ 1075 < 1 := by
        rw [div_lt_one (by positivity)]
        exact one_lt_pow₀ (by norm_num) (by norm_num)
      obtain ⟨l, u⟩ := abs_le.mp h
      rw [JSNum.ofRat_eq_fin _ (by linarith) (by linarith)]
      have hup : JSNum.nearest (1 / 2 ^ 1075) = 0 := by decide!
      have hlo : JSNum.nearest (-(1 / 2 ^ 1075)) = 0 := by
        rw [JSNum.nearest_neg, hup, neg_zero]
      have a := JSNum.nearest_mono _ _ u
      have b := JSNum.nearest_mono _ _ l
      rw [hup] at a
      rw [hlo] at b
      rw [le_antisymm a b]

theorem parseFloat_coercion_witness :
    sampleLiteral.WellFormed ∧
    sampleLiteral.text ++ "kt".toList = "-12.5e2kt".toList ∧
    JSNum.ofRat sampleLiteral.value = JSNum.fin (-1250) ∧
    parseFloat (some (sampleLiteral.text ++ "kt".toList)) =
      some (JSNum.ofRat sampleLiteral.value) :=
  ⟨sampleLiteral_wellFormed, by decide, by decide!,
    (parseFloat_coercion.2.2.2.2 sampleLiteral "kt".toList sampleLiteral_wellFormed (by
      intro c hc
      simp at hc
      subst hc
      exact ⟨rfl, fun _ => by decide, fun _ => by decide⟩)).1⟩

/-! ## The direction coercion on the compass table -/

/-- Membership in `caseVariants`: letter by letter, the upper-case letter or its lower-case
form. -/
theorem mem_caseVariants (t s : List Char) :
    s ∈ caseVariants t ↔
      List.Forall₂ (fun c u => c = u ∨ c = Char.ofNat (u.toNat + 32)) s t := by
  induction t generalizing s with
  | nil =>
    simp [caseVariants]
  | cons u us ih =>
    simp only [caseVariants, List.mem_append, List.mem_map]
    constructor
    · rintro (⟨r, hr, rfl⟩ | ⟨r, hr, rfl⟩)
      · exact List.Forall₂.cons (Or.inl rfl) ((ih r).mp hr)
      · exact List.Forall₂.cons (Or.inr rfl) ((ih r).mp hr)
    · intro h
      cases h with
      | cons hc hr =>
        rename_i c r
        rcases hc with rfl | rfl
        · exact Or.inl ⟨r, (ih r).mpr hr, rfl⟩
        · exact Or.inr ⟨r, (ih r).mpr hr, rfl⟩

/-- The counterexample to C13: the numeric string `0.1` is not coerced to one tenth but to
the double nearest to it, and the numeric string `1e-400` is coerced to 0. -/
theorem parseWindDirection_rounding_counterexample :
    (sampleTenth.WellFormed ∧ sampleTenth.value = 1 / 10 ∧
      parseWindDirection sampleTenth.text =
        some (JSNum.fin (3602879701896397 / 36028797018963968)) ∧
      (3602879701896397 / 36028797018963968 : ℚ) ≠ sampleTenth.value) ∧
    (sampleTiny.WellFormed ∧ sampleTiny.value = 1 / 10 ^ 400 ∧
      parseWindDirection sampleTiny.text = some (JSNum.fin 0) ∧
      (0 : ℚ) ≠ sampleTiny.value) := by
  refine ⟨⟨sampleTenth_wellFormed, by decide!, by decide!, by decide!⟩,
    ⟨sampleTiny_wellFormed, by decide!, by decide!, by decide!⟩⟩

/-- C13 (amended): for each k below 16, the k-th of the sixteen compass abbreviations,
written with each letter in upper or lower case, is coerced to exactly 22.5 * k (so `SSW`
and `ssw` give 202.5, `N` gives 0 and `ENE` gives 67.5).  A numeric degree string, a
well-formed decimal literal, is coerced to the Number value of the number it denotes:
that number itself when it is a double (as every whole number of degrees is), and for a
number between 0 and 360 a double between 0 and 360 that differs from it by at most
`2^-45`. -/
theorem parseWindDirection_compass_table :
    compassTokens = ["N", "NNE", "NE", "ENE", "E", "ESE", "SE", "SSE", "S", "SSW", "SW",
      "WSW", "W", "WNW", "NW", "NNW"].map String.toList ∧
    (∀ k, k < 16 → ∀ s ∈ caseVariants (compassTokens.getD k []),
      parseWindDirection s = some (JSNum.fin (22.5 * k))) ∧
    parseWindDirection "SSW".toList = some (JSNum.fin 202.5) ∧
    parseWindDirection "ssw".toList = some (JSNum.fin 202.5) ∧
    parseWindDirection "N".toList = some (JSNum.fin 0) ∧
    parseWindDirection "ENE".toList = some (JSNum.fin 67.5) ∧
    (∀ lit : DecimalLiteral, lit.WellFormed →
      parseWindDirection lit.text = some (JSNum.ofRat lit.value) ∧
      (JSNum.IsDouble lit.value → parseWindDirection lit.text = some (JSNum.fin lit.value)) ∧
      (0 ≤ lit.value → lit.value ≤ 360 →
        ∃ r : ℚ, parseWindDirection lit.text = some (JSNum.fin r) ∧ 0 ≤ r ∧ r ≤ 360 ∧
          |r - lit.value| ≤ 1 / 2 ^ 45)) ∧
    (∀ n : ℕ, n ≤ 360 → JSNum.IsDouble (n : ℚ)) := by
  refine ⟨by decide, by decide!, by decide!, by decide!, by decide!, by decide!, ?_, ?_⟩
  · intro lit hwf
    have hval := JS.parseFloat_literal lit [] hwf (by simp)
    rw [List.append_nil] at hval
    have hdir : parseWindDirection lit.text = some (JSNum.ofRat lit.value) := by
      unfold parseWindDirection
      simp only [hval]
      cases hq : JSNum.ofRat lit.value with
      | nan => exact absurd hq (JSNum.ofRat_ne_nan _)
      | negInf => rfl
      | posInf => rfl
      | fin q => rfl
    refine ⟨hdir, fun hd => by rw [hdir, hd], fun h0 h360 => ?_⟩
    have n360 : JSNum.nearest 360 = 360 := by decide!
    obtain ⟨b0, b1⟩ := JSNum.nearest_idem_of_bounds lit.value 0 360 JSNum.nearest_zero n360
      h0 h360
    refine ⟨JSNum.nearest lit.value, ?_, b0, b1, ?_⟩
    · rw [hdir, JSNum.ofRat_of_abs_le (by linarith) (by linarith)]
    · have := JSNum.nearest_error lit.value 8 (by norm_num) (by
        rw [abs_of_nonneg h0]
        refine lt_of_le_of_lt h360 ?_
        norm_num)
      refine le_trans this ?_
      norm_num
  · intro n hn
    have := JSNum.isDouble_intCast (n : ℤ) (by
      rw [abs_of_nonneg (by positivity)]
      have : (n : ℤ) ≤ 360 := by exact_mod_cast hn
      refine le_trans this ?_
      norm_num)
    exact_mod_cast this

theorem parseWindDirection_compass_table_witness :
    sampleLiteral.WellFormed ∧
    JSNum.ofRat sampleLiteral.value = JSNum.fin (-1250) ∧
    parseWindDirection "-12.5e2".toList = some (JSNum.ofRat sampleLiteral.value) :=
  ⟨sampleLiteral_wellFormed, by decide!,
    (parseWindDirection_compass_table.2.2.2.2.2.2.1 sampleLiteral sampleLiteral_wellFormed).1⟩

/-! ## The formula of the condition score -/

/-- Clamping does not move two numbers apart. -/
theorem clamp01_lipschitz (x y : ℚ) : |clamp01 x - clamp01 y| ≤ |x - y| := by
  unfold clamp01
  rw [abs_le]
  have h1 := le_abs_self (x - y)
  have h2 := neg_abs_le (x - y)
  simp only [max_def, min_def]
  constructor <;> split_ifs <;> linarith

/-- Rounding a quotient before the clamp changes the clamped value by at most `2^-54`. -/
theorem clamp01_nearest_error (x : ℚ) :
    |clamp01 (JSNum.nearest x) - clamp01 x| ≤ 1 / 2 ^ 54 := by
  have hp : (0 : ℚ) ≤ 1 / 2 ^ 54 := by positivity
  rcases le_or_lt 1 x with h1 | h1
  · rw [clamp01_of_one_le _ h1, clamp01_of_one_le _ (JSNum.one_le_nearest _ h1)]
    simp
  · rcases le_or_lt x 0 with h0 | h0
    · rw [clamp01_of_nonpos _ h0, clamp01_of_nonpos _ (JSNum.nearest_nonpos _ h0)]
      simp
    · have herr := JSNum.nearest_error x (-1) (by norm_num) (by
        rw [abs_of_pos h0]
        simpa using h1)
      refine le_trans (clamp01_lipschitz _ _) (le_trans herr ?_)
      norm_num

/-- The scaled average computed in doubles from two rounded shares stays within
`157 * 2^-52` of the exact scaled average of the exact shares. -/
theorem scoreValue_error (a b a' b' : ℚ) (ha0 : 0 ≤ a') (ha1 : a' ≤ 1) (hb0 : 0 ≤ b')
    (hb1 : b' ≤ 1) (ha : |a' - a| ≤ 1 / 2 ^ 54) (hb : |b' - b| ≤ 1 / 2 ^ 54) :
    |scoreValue a' b' - 100 * (a + b) / 2| ≤ 157 / 2 ^ 52 := by
  obtain ⟨s1, s2, s3⟩ := scoreValue_range a' b' ha0 ha1 hb0 hb1
  have e1 := JSNum.nearest_error (a' + b') 1 (by norm_num) (by
    rw [abs_of_nonneg (by linarith)]
    norm_num
    linarith)
  have e2 := JSNum.nearest_error (JSNum.nearest (a' + b') / 2) 0 (by norm_num) (by
    rw [abs_of_nonneg (by linarith [s1.1])]
    norm_num
    linarith [s1.2])
  have e3 := JSNum.nearest_error (JSNum.nearest (JSNum.nearest (a' + b') / 2) * 100) 6
    (by norm_num) (by
    rw [abs_of_nonneg (by linarith [s2.1])]
    norm_num
    linarith [s2.2])
  norm_num at e1 e2 e3
  unfold scoreValue
  rw [abs_le] at ha hb e1 e2 e3 ⊢
  norm_num at ha hb ⊢
  constructor <;> linarith

/-- Two numbers less than one apart round to integers at most one apart. -/
theorem roundNearest_close (x y ε : ℚ) (hε : ε < 1) (h : |x - y| ≤ ε) :
    |(roundNearest x : ℚ) - (roundNearest y : ℚ)| ≤ 1 := by
  unfold roundNearest
  have x1 := Int.floor_le (x + 1 / 2)
  have x2 := Int.lt_floor_add_one (x + 1 / 2)
  have y1 := Int.floor_le (y + 1 / 2)
  have y2 := Int.lt_floor_add_one (y + 1 / 2)
  obtain ⟨l, u⟩ := abs_le.mp h
  have a : (⌊x + 1 / 2⌋ : ℚ) < (⌊y + 1 / 2⌋ : ℚ) + 2 := by linarith
  have b : (⌊y + 1 / 2⌋ : ℚ) < (⌊x + 1 / 2⌋ : ℚ) + 2 := by linarith
  have a' : ⌊x + 1 / 2⌋ < ⌊y + 1 / 2⌋ + 2 := by exact_mod_cast a
  have b' : ⌊y + 1 / 2⌋ < ⌊x + 1 / 2⌋ + 2 := by exact_mod_cast b
  rw [abs_le]
  constructor
  · have : (-1 : ℤ) ≤ ⌊x + 1 / 2⌋ - ⌊y + 1 / 2⌋ := by omega
    exact_mod_cast this
  · have : ⌊x + 1 / 2⌋ - ⌊y + 1 / 2⌋ ≤ (1 : ℤ) := by omega
    exact_mod_cast this

/-- Two close numbers round to the same integer when the second is not close to the middle
between two integers. -/
theorem roundNearest_eq (x y ε : ℚ) (h : |x - y| ≤ ε)
    (hfar : ∀ n : ℤ, ε < |y - ((n : ℚ) + 1 / 2)|) : roundNearest x = roundNearest y := by
  unfold roundNearest
  have y1 := Int.floor_le (y + 1 / 2)
  have y2 := Int.lt_floor_add_one (y + 1 / 2)
  obtain ⟨l, u⟩ := abs_le.mp h
  have f1 := hfar (⌊y + 1 / 2⌋ - 1)
  have f2 := hfar ⌊y + 1 / 2⌋
  push_cast at f1
  rw [abs_of_nonneg (by linarith)] at f1
  rw [abs_of_nonpos (by linarith)] at f2
  rw [Int.floor_eq_iff]
  constructor <;> linarith
/-- The counterexample to C18: for a wave height of 0 and a wind speed of 7.25 the exact
value `100 * (0 + 7.25 / 25) / 2` is 14.5, which rounds to 15, but the code returns 14: the
double quotient `7.25 / 25` lies just below 0.29, so the product with 100 lies just below
14.5. -/
theorem calculateConditionScore_rounding_counterexample :
    JSNum.IsDouble 0 ∧ JSNum.IsDouble 7.25 ∧
    calculateConditionScore (some (scoreInput (some (JSNum.fin 0)) (some (JSNum.fin 7.25)))) =
      JSNum.fin 14 ∧
    100 * (clamp01 (0 / 5) + clamp01 (7.25 / 25)) / 2 = (14.5 : ℚ) ∧
    scoreFormula 0 7.25 = 15 ∧
    scoreValue (clamp01 (JSNum.nearest (0 / 5))) (clamp01 (JSNum.nearest (7.25 / 25))) =
      8162774324609023 / 2 ^ 49 ∧
    (8162774324609023 / 2 ^ 49 : ℚ) < 14.5 := by
  refine ⟨by decide!, by decide!, by decide!, by decide!, by decide!, by decide!, by norm_num⟩

/-- C18 (amended): for a wave height `w` and a wind speed `s` that are each absent, read
as 0, or a finite double, `calculateConditionScore` returns `Math.round` of the value `x`
that double arithmetic gives to `100 * (clamp01 (w / 5) + clamp01 (s / 25)) / 2`, each
quotient, the sum, the halving and the product being rounded to the nearest double.  The
value `x` is within `10^-13` of the exact value, so the score is within 1 of the integer
nearest to the exact value, and equal to it unless the exact value is within `10^-13` of
the middle between two integers.  The score is 0 for `w = 0, s = 0` and for both absent,
and 100 for `w = 5, s = 25`. -/
theorem calculateConditionScore_formula (d : LatestData) (w s : ℚ)
    (hw : d.waveHeight.getD (JSNum.fin 0) = JSNum.fin w)
    (hs : d.windSpeed.getD (JSNum.fin 0) = JSNum.fin s)
    (hwd : JSNum.IsDouble w) (hsd : JSNum.IsDouble s) :
    calculateConditionScore (some d) =
      JSNum.fin (roundNearest
        (scoreValue (clamp01 (JSNum.nearest (w / 5))) (clamp01 (JSNum.nearest (s / 25))))) ∧
    |scoreValue (clamp01 (JSNum.nearest (w / 5))) (clamp01 (JSNum.nearest (s / 25))) -
      100 * (clamp01 (w / 5) + clamp01 (s / 25)) / 2| ≤ 1 / 10 ^ 13 ∧
    |(roundNearest
        (scoreValue (clamp01 (JSNum.nearest (w / 5))) (clamp01 (JSNum.nearest (s / 25)))) : ℚ) -
      (scoreFormula w s : ℚ)| ≤ 1 ∧
    ((∀ n : ℤ, 1 / 10 ^ 13 <
        |100 * (clamp01 (w / 5) + clamp01 (s / 25)) / 2 - ((n : ℚ) + 1 / 2)|) →
      calculateConditionScore (some d) = JSNum.fin (scoreFormula w s)) ∧
    calculateConditionScore (some (scoreInput (some (JSNum.fin 0)) (some (JSNum.fin 0)))) =
      JSNum.fin 0 ∧
    calculateConditionScore (some (scoreInput none none)) = JSNum.fin 0 ∧
    calculateConditionScore (some (scoreInput (some (JSNum.fin 5)) (some (JSNum.fin 25)))) =
      JSNum.fin 100 := by
  have hscore : calculateConditionScore (some d) =
      JSNum.fin (roundNearest
        (scoreValue (clamp01 (JSNum.nearest (w / 5))) (clamp01 (JSNum.nearest (s / 25))))) := by
    rw [calculateConditionScore_shares, hw, hs]
    simp only [unitShare, ((JSNum.isDouble_iff w).mp hwd).1, ((JSNum.isDouble_iff s).mp hsd).1,
      roundNearest]
  obtain ⟨a0, a1⟩ := clamp01_unit (JSNum.nearest (w / 5))
  obtain ⟨b0, b1⟩ := clamp01_unit (JSNum.nearest (s / 25))
  have herr := scoreValue_error (clamp01 (w / 5)) (clamp01 (s / 25)) _ _ a0 a1 b0 b1
    (clamp01_nearest_error (w / 5)) (clamp01_nearest_error (s / 25))
  have hsmall : (157 : ℚ) / 2 ^ 52 ≤ 1 / 10 ^ 13 := by norm_num
  have herr' := le_trans herr hsmall
  refine ⟨hscore, herr', ?_, ?_, by decide!, by decide!, by decide!⟩
  · unfold scoreFormula
    exact roundNearest_close _ _ (1 / 10 ^ 13) (by norm_num) herr'
  · intro hfar
    rw [hscore]
    unfold scoreFormula
    rw [roundNearest_eq _ _ (1 / 10 ^ 13) herr' hfar]

theorem calculateConditionScore_formula_witness :
    JSNum.IsDouble (1 / 2) ∧ JSNum.IsDouble 0 ∧
    scoreFormula (1 / 2) 0 = 5 ∧
    roundNearest (scoreValue (clamp01 (JSNum.nearest (1 / 2 / 5)))
      (clamp01 (JSNum.nearest (0 / 25)))) = 5 ∧
    calculateConditionScore (some (scoreInput (some (JSNum.fin (1 / 2))) none)) =
      JSNum.fin (roundNearest
        (scoreValue (clamp01 (JSNum.nearest (1 / 2 / 5))) (clamp01 (JSNum.nearest (0 / 25))))) :=
  ⟨by decide!, by decide!, by decide!, by decide!,
    (calculateConditionScore_formula (scoreInput (some (JSNum.fin (1 / 2))) none) (1 / 2) 0
      rfl rfl (by decide!) (by decide!)).1⟩

/-! ## The matcher against the declarative reading of the expressions -/

/-- What a successful greedy repetition has taken. -/
theorem Regex.repGreedy_sound {R : Type} (p : Char → Bool) (k : List Char → Option R)
    (s : List Char) (min : Nat) (max : Option Nat) (r : R)
    (h : Regex.repGreedy p k min max s = some r) :
    ∃ m rest, s = m ++ rest ∧ (∀ c ∈ m, p c = true) ∧ min ≤ m.length ∧
      (∀ n, max = some n → m.length ≤ n) ∧ k rest = some r := by
  induction s generalizing min max with
  | nil =>
    by_cases hm : min = 0
    · simp only [Regex.repGreedy, hm, if_true] at h
      exact ⟨[], [], rfl, by simp, by simp [hm], by simp, h⟩
    · simp [Regex.repGreedy, hm] at h
  | cons c cs ih =>
    have hskip : (if min = 0 then k (c :: cs) else none) = some r →
        ∃ m rest, c :: cs = m ++ rest ∧ (∀ x ∈ m, p x = true) ∧ min ≤ m.length ∧
          (∀ n, max = some n → m.length ≤ n) ∧ k rest = some r := by
      intro h0
      by_cases hm : min = 0
      · rw [if_pos hm] at h0
        exact ⟨[], c :: cs, rfl, by simp, by simp [hm], by simp, h0⟩
      · rw [if_neg hm] at h0
        cases h0
    unfold Regex.repGreedy at h
    by_cases hc : (p c && max != some 0) = true
    · rw [if_pos hc] at h
      cases hrec : Regex.repGreedy p k (min - 1) (max.map (· - 1)) cs with
      | some r' =>
        rw [hrec] at h
        simp only [Option.some.injEq] at h
        subst h
        obtain ⟨m, rest, hs, hm, hmin, hmax, hk⟩ := ih (min - 1) (max.map (· - 1)) hrec
        simp only [Bool.and_eq_true, bne_iff_ne, ne_eq] at hc
        refine ⟨c :: m, rest, by rw [hs]; rfl, ?_, by simp; omega, ?_, hk⟩
        · intro x hx
          rcases List.mem_cons.mp hx with rfl | hx
          · exact hc.1
          · exact hm x hx
        · intro n hn
          subst hn
          have := hmax (n - 1) rfl
          have hn0 : n ≠ 0 := fun h0 => hc.2 (by rw [h0])
          simp only [List.length_cons]
          omega
      | none =>
        rw [hrec] at h
        exact hskip h
    · rw [if_neg hc] at h
      exact hskip h

/-- A greedy repetition succeeds when some admissible run lets the continuation succeed. -/
theorem Regex.repGreedy_complete {R : Type} (p : Char → Bool) (k : List Char → Option R)
    (m rest : List Char) (min : Nat) (max : Option Nat)
    (hm : ∀ c ∈ m, p c = true) (hmin : min ≤ m.length)
    (hmax : ∀ n, max = some n → m.length ≤ n) (hk : (k rest).isSome = true) :
    (Regex.repGreedy p k min max (m ++ rest)).isSome = true := by
  induction m generalizing min max with
  | nil =>
    have h0 : min = 0 := by simpa using hmin
    cases rest with
    | nil => simpa [Regex.repGreedy, h0] using hk
    | cons c cs =>
      simp only [List.nil_append]
      unfold Regex.repGreedy
      simp only [h0, if_true]
      split
      · split
        · rfl
        · exact hk
      · exact hk
  | cons c cs ih =>
    have hc : (p c && max != some 0) = true := by
      simp only [Bool.and_eq_true, bne_iff_ne, ne_eq]
      refine ⟨hm c (by simp), ?_⟩
      intro h0
      have := hmax 0 h0
      simp at this
    have hrec := ih (min - 1) (max.map (· - 1)) (fun x hx => hm x (List.mem_cons_of_mem _ hx))
      (by simp only [List.length_cons] at hmin; omega) (by
        intro n hn
        cases max with
        | none => simp at hn
        | some n' =>
          simp only [Option.map_some', Option.some.injEq] at hn
          have := hmax n' rfl
          simp only [List.length_cons] at this
          omega)
    simp only [List.cons_append]
    unfold Regex.repGreedy
    rw [if_pos hc]
    obtain ⟨r, hr⟩ := Option.isSome_iff_exists.mp hrec
    rw [hr]
    rfl

/-- Soundness of the matcher: a successful run has matched a prefix of the input that the
expression denotes, and has handed the rest and the captures to the continuation. -/
theorem Regex.run_sound {R : Type} (re : Regex) :
    ∀ (s : List Char) (caps : Captures) (k : List Char → Captures → Option R) (r : R),
      Regex.run re s caps k = some r →
      ∃ m rest delta, s = m ++ rest ∧ Regex.Matches re m rest delta ∧
        k rest (delta ++ caps) = some r := by
  induction re with
  | empty =>
    intro s caps k r h
    exact ⟨[], s, [], rfl, ⟨rfl, rfl⟩, h⟩
  | cls p =>
    intro s caps k r h
    cases s with
    | nil => simp [Regex.run] at h
    | cons c cs =>
      rw [Regex.run_cls_cons] at h
      by_cases hp : p c = true
      · rw [if_pos hp] at h
        exact ⟨[c], cs, [], rfl, ⟨⟨c, hp, rfl⟩, rfl⟩, h⟩
      · rw [if_neg hp] at h
        cases h
  | seq a b iha ihb =>
    intro s caps k r h
    rw [Regex.run_seq] at h
    obtain ⟨m1, rest1, d1, hs1, hm1, hk1⟩ := iha s caps _ r h
    obtain ⟨m2, rest, d2, hs2, hm2, hk2⟩ := ihb rest1 (d1 ++ caps) k r hk1
    refine ⟨m1 ++ m2, rest, d2 ++ d1, by rw [hs1, hs2, List.append_assoc], ?_, by
      rw [List.append_assoc]; exact hk2⟩
    exact ⟨m1, m2, d1, d2, rfl, by rw [← hs2]; exact hm1, hm2, rfl⟩
  | alt a b iha ihb =>
    intro s caps k r h
    cases ha : Regex.run a s caps k with
    | some r' =>
      rw [Regex.run_alt_left a b s caps k r' ha] at h
      injection h with h
      subst h
      obtain ⟨m, rest, d, hs, hm, hk⟩ := iha s caps k r' ha
      exact ⟨m, rest, d, hs, Or.inl hm, hk⟩
    | none =>
      rw [Regex.run_alt_right a b s caps k ha] at h
      obtain ⟨m, rest, d, hs, hm, hk⟩ := ihb s caps k r h
      exact ⟨m, rest, d, hs, Or.inr hm, hk⟩
  | opt a iha =>
    intro s caps k r h
    cases ha : Regex.run a s caps k with
    | some r' =>
      rw [Regex.run_opt_some a s caps k r' ha] at h
      injection h with h
      subst h
      obtain ⟨m, rest, d, hs, hm, hk⟩ := iha s caps k r' ha
      exact ⟨m, rest, d, hs, Or.inl hm, hk⟩
    | none =>
      rw [Regex.run_opt_none a s caps k ha] at h
      exact ⟨[], s, [], rfl, Or.inr ⟨rfl, rfl⟩, h⟩
  | rep p min max =>
    intro s caps k r h
    rw [Regex.run_rep] at h
    obtain ⟨m, rest, hs, hm, hmin, hmax, hk⟩ := Regex.repGreedy_sound p _ s min max r h
    exact ⟨m, rest, [], hs, ⟨⟨hm, hmin, hmax⟩, rfl⟩, hk⟩
  | group n a iha =>
    intro s caps k r h
    rw [Regex.run_group] at h
    obtain ⟨m, rest, d, hs, hm, hk⟩ := iha s caps _ r h
    refine ⟨m, rest, (n, m) :: d, hs, ⟨d, hm, rfl⟩, ?_⟩
    have htake : s.take (s.length - rest.length) = m := by
      rw [hs]
      simp
    rw [htake] at hk
    exact hk
  | eos =>
    intro s caps k r h
    cases s with
    | nil => exact ⟨[], [], [], rfl, ⟨⟨rfl, rfl⟩, rfl⟩, h⟩
    | cons c cs => simp [Regex.run] at h

/-- Completeness of the matcher: when the expression denotes a prefix of the input and
the continuation accepts what follows, whatever the captures, the run succeeds. -/
theorem Regex.run_complete {R : Type} (re : Regex) :
    ∀ (m rest : List Char) (delta caps : Captures) (k : List Char → Captures → Option R),
      Regex.Matches re m rest delta → (∀ c, (k rest c).isSome = true) →
      (Regex.run re (m ++ rest) caps k).isSome = true := by
  induction re with
  | empty =>
    intro m rest delta caps k hm hk
    obtain ⟨rfl, -⟩ := hm
    exact hk caps
  | cls p =>
    intro m rest delta caps k hm hk
    obtain ⟨⟨c, hp, rfl⟩, -⟩ := hm
    simp only [List.singleton_append, Regex.run_cls_cons, hp, if_true]
    exact hk caps
  | seq a b iha ihb =>
    intro m rest delta caps k hm hk
    obtain ⟨m1, m2, d1, d2, rfl, h1, h2, -⟩ := hm
    rw [Regex.run_seq, List.append_assoc]
    exact iha m1 (m2 ++ rest) d1 caps _ h1 (fun c => ihb m2 rest d2 c k h2 hk)
  | alt a b iha ihb =>
    intro m rest delta caps k hm hk
    cases ha : Regex.run a (m ++ rest) caps k with
    | some r' =>
      rw [Regex.run_alt_left a b _ caps k r' ha]
      rfl
    | none =>
      rw [Regex.run_alt_right a b _ caps k ha]
      rcases hm with hm | hm
      · have := iha m rest delta caps k hm hk
        rw [ha] at this
        cases this
      · exact ihb m rest delta caps k hm hk
  | opt a iha =>
    intro m rest delta caps k hm hk
    cases ha : Regex.run a (m ++ rest) caps k with
    | some r' =>
      rw [Regex.run_opt_some a _ caps k r' ha]
      rfl
    | none =>
      rw [Regex.run_opt_none a _ caps k ha]
      rcases hm with hm | ⟨rfl, -⟩
      · have := iha m rest delta caps k hm hk
        rw [ha] at this
        cases this
      · exact hk caps
  | rep p min max =>
    intro m rest delta caps k hm hk
    obtain ⟨⟨hp, hmin, hmax⟩, -⟩ := hm
    rw [Regex.run_rep]
    exact Regex.repGreedy_complete p _ m rest min max hp hmin hmax (hk caps)
  | group n a iha =>
    intro m rest delta caps k hm hk
    obtain ⟨d, hm, -⟩ := hm
    rw [Regex.run_group]
    exact iha m rest d caps _ hm (fun c => hk _)
  | eos =>
    intro m rest delta caps k hm hk
    obtain ⟨⟨rfl, rfl⟩, -⟩ := hm
    exact hk caps

/-- A match at the front of the text, with the captures it records. -/
theorem Regex.matchStart_sound (re : Regex) (s : List Char) (caps : Captures)
    (h : Regex.matchStart re s = some caps) :
    ∃ m rest, s = m ++ rest ∧ Regex.Matches re m rest caps := by
  obtain ⟨m, rest, delta, hs, hm, hk⟩ := Regex.run_sound re s [] _ caps h
  simp only [List.append_nil, Option.some.injEq] at hk
  subst hk
  exact ⟨m, rest, hs, hm⟩

theorem Regex.matchStart_complete (re : Regex) (m rest : List Char) (delta : Captures)
    (h : Regex.Matches re m rest delta) : (Regex.matchStart re (m ++ rest)).isSome = true :=
  Regex.run_complete re m rest delta [] _ h (fun _ => rfl)

/-- The search finds a match, with the captures it records. -/
theorem Regex.search_sound (re : Regex) (s : List Char) (caps : Captures)
    (h : Regex.search re s = some caps) :
    ∃ pre m rest, s = pre ++ (m ++ rest) ∧ Regex.Matches re m rest caps := by
  induction s with
  | nil =>
    obtain ⟨m, rest, hs, hm⟩ := Regex.matchStart_sound re [] caps h
    exact ⟨[], m, rest, hs, hm⟩
  | cons c cs ih =>
    unfold Regex.search at h
    cases hms : Regex.matchStart re (c :: cs) with
    | some caps' =>
      rw [hms] at h
      injection h with h
      subst h
      obtain ⟨m, rest, hs, hm⟩ := Regex.matchStart_sound re _ caps' hms
      exact ⟨[], m, rest, hs, hm⟩
    | none =>
      rw [hms] at h
      obtain ⟨pre, m, rest, hs, hm⟩ := ih h
      exact ⟨c :: pre, m, rest, by rw [hs]; rfl, hm⟩

/-- The search fails exactly when the text contains no match of the expression. -/
theorem Regex.search_none_iff (re : Regex) (s : List Char) :
    Regex.search re s = none ↔ ¬ Regex.Occurs re s := by
  constructor
  · intro h ⟨pre, m, rest, delta, hs, hm⟩
    subst hs
    induction pre with
    | nil =>
      have hc := Regex.matchStart_complete re m rest delta hm
      simp only [List.nil_append] at h
      cases hmr : m ++ rest with
      | nil =>
        rw [hmr] at h hc
        unfold Regex.search at h
        rw [h] at hc
        cases hc
      | cons c cs =>
        rw [hmr] at h hc
        unfold Regex.search at h
        obtain ⟨r, hr⟩ := Option.isSome_iff_exists.mp hc
        rw [hr] at h
        cases h
    | cons c cs ih =>
      apply ih
      simp only [List.cons_append] at h
      unfold Regex.search at h
      cases hms : Regex.matchStart re (c :: (cs ++ (m ++ rest))) with
      | some r =>
        rw [hms] at h
        cases h
      | none =>
        rw [hms] at h
        exact h
  · intro h
    cases hs : Regex.search re s with
    | none => rfl
    | some caps =>
      obtain ⟨pre, m, rest, hs', hm⟩ := Regex.search_sound re s caps hs
      exact absurd ⟨pre, m, rest, caps, hs', hm⟩ h

/-! ## The phrases of the wind, seas and weather patterns -/

theorem Regex.matches_empty (m rest : List Char) (delta : Captures) :
    Regex.Matches Regex.empty m rest delta ↔ m = [] ∧ delta = [] := by
  simp only [Regex.Matches]

theorem Regex.matches_cls (p : Char → Bool) (m rest : List Char) (delta : Captures) :
    Regex.Matches (Regex.cls p) m rest delta ↔ (∃ c, p c = true ∧ m = [c]) ∧ delta = [] := by
  simp only [Regex.Matches]

theorem Regex.matches_seq (a b : Regex) (m rest : List Char) (delta : Captures) :
    Regex.Matches (Regex.seq a b) m rest delta ↔
      ∃ m1 m2 d1 d2, m = m1 ++ m2 ∧ Regex.Matches a m1 (m2 ++ rest) d1 ∧
        Regex.Matches b m2 rest d2 ∧ delta = d2 ++ d1 := by
  simp only [Regex.Matches]

theorem Regex.matches_alt (a b : Regex) (m rest : List Char) (delta : Captures) :
    Regex.Matches (Regex.alt a b) m rest delta ↔
      Regex.Matches a m rest delta ∨ Regex.Matches b m rest delta := by
  simp only [Regex.Matches]

theorem Regex.matches_opt (a : Regex) (m rest : List Char) (delta : Captures) :
    Regex.Matches (Regex.opt a) m rest delta ↔
      Regex.Matches a m rest delta ∨ (m = [] ∧ delta = []) := by
  simp only [Regex.Matches]

theorem Regex.matches_rep (p : Char → Bool) (min : Nat) (max : Option Nat) (m rest : List Char)
    (delta : Captures) :
    Regex.Matches (Regex.rep p min max) m rest delta ↔
      ((∀ c ∈ m, p c = true) ∧ min ≤ m.length ∧ ∀ n, max = some n → m.length ≤ n) ∧
        delta = [] := by
  simp only [Regex.Matches]

theorem Regex.matches_group (n : Nat) (a : Regex) (m rest : List Char) (delta : Captures) :
    Regex.Matches (Regex.group n a) m rest delta ↔
      ∃ d, Regex.Matches a m rest d ∧ delta = (n, m) :: d := by
  simp only [Regex.Matches]

/-- The last member of a sequence written with `cat`. -/
theorem Regex.matches_seq_empty (a : Regex) (m rest : List Char) (delta : Captures) :
    Regex.Matches (Regex.seq a Regex.empty) m rest delta ↔ Regex.Matches a m rest delta := by
  rw [Regex.matches_seq]
  constructor
  · rintro ⟨m1, m2, d1, d2, rfl, h1, h2, rfl⟩
    obtain ⟨rfl, rfl⟩ := (Regex.matches_empty _ _ _).mp h2
    simpa using h1
  · intro h
    exact ⟨m, [], delta, [], by simp, by simpa using h, (Regex.matches_empty _ _ _).mpr ⟨rfl, rfl⟩,
      by simp⟩

theorem Regex.matches_spaces (m rest : List Char) (delta : Captures) :
    Regex.Matches Regex.spaces m rest delta ↔ IsBlank m ∧ delta = [] := by
  simp only [Regex.spaces, Regex.Matches, IsBlank]
  constructor
  · rintro ⟨⟨h1, h2, -⟩, h3⟩
    exact ⟨⟨fun h => by simp [h] at h2, h1⟩, h3⟩
  · rintro ⟨⟨h1, h2⟩, h3⟩
    refine ⟨⟨h2, ?_, by simp⟩, h3⟩
    cases m with
    | nil => exact absurd rfl h1
    | cons _ _ => simp

theorem Regex.matches_digits (m rest : List Char) (delta : Captures) :
    Regex.Matches Regex.digits m rest delta ↔ IsDigitString m ∧ delta = [] := by
  simp only [Regex.digits, Regex.Matches, IsDigitString]
  constructor
  · rintro ⟨⟨h1, h2, -⟩, h3⟩
    exact ⟨⟨fun h => by simp [h] at h2, h1⟩, h3⟩
  · rintro ⟨⟨h1, h2⟩, h3⟩
    refine ⟨⟨h2, ?_, by simp⟩, h3⟩
    cases m with
    | nil => exact absurd rfl h1
    | cons _ _ => simp

theorem Regex.matches_letterToken (m rest : List Char) (delta : Captures) :
    Regex.Matches (Regex.rep Regex.isLetter 1 (some 3)) m rest delta ↔
      IsLetterToken m ∧ delta = [] := by
  simp only [Regex.Matches, IsLetterToken, Option.some.injEq, forall_eq']

theorem Regex.matches_chars (word : List Char) (m rest : List Char) (delta : Captures) :
    Regex.Matches (Regex.cat (word.map Regex.chrI)) m rest delta ↔
      List.Forall₂ (fun x c => x = c.toLower ∨ x = c.toUpper) m word ∧ delta = [] := by
  induction word generalizing m delta with
  | nil =>
    simp only [List.map_nil, Regex.cat_nil, Regex.matches_empty, List.forall₂_nil_right_iff]
  | cons c cs ih =>
    rw [List.map_cons, Regex.cat_cons, Regex.matches_seq]
    constructor
    · rintro ⟨m1, m2, d1, d2, rfl, hc, hrest, rfl⟩
      obtain ⟨⟨x, hx, rfl⟩, rfl⟩ := (Regex.matches_cls _ _ _ _).mp hc
      obtain ⟨hf, rfl⟩ := (ih m2 d2).mp hrest
      refine ⟨List.Forall₂.cons ?_ hf, rfl⟩
      simpa using hx
    · rintro ⟨h, rfl⟩
      cases h with
      | cons hx h2 =>
        rename_i x m2
        exact ⟨[x], m2, [], [], rfl, (Regex.matches_cls _ _ _ _).mpr ⟨⟨x, by simpa using hx, rfl⟩, rfl⟩,
          (ih m2 []).mpr ⟨h2, rfl⟩, rfl⟩

theorem Regex.matches_litI (word : String) (m rest : List Char) (delta : Captures) :
    Regex.Matches (Regex.litI word) m rest delta ↔ IsWord word m ∧ delta = [] :=
  Regex.matches_chars word.toList m rest delta

/-- A sequence of two expressions without captures. -/
theorem Regex.matches_seq_plain (a b : Regex) (P Q : List Char → Prop)
    (ha : ∀ m rest delta, Regex.Matches a m rest delta ↔ P m ∧ delta = [])
    (hb : ∀ m rest delta, Regex.Matches b m rest delta ↔ Q m ∧ delta = [])
    (m rest : List Char) (delta : Captures) :
    Regex.Matches (Regex.seq a b) m rest delta ↔
      (∃ m1 m2, m = m1 ++ m2 ∧ P m1 ∧ Q m2) ∧ delta = [] := by
  rw [Regex.matches_seq]
  constructor
  · rintro ⟨m1, m2, d1, d2, rfl, h1, h2, rfl⟩
    obtain ⟨hP, rfl⟩ := (ha _ _ _).mp h1
    obtain ⟨hQ, rfl⟩ := (hb _ _ _).mp h2
    exact ⟨⟨m1, m2, rfl, hP, hQ⟩, rfl⟩
  · rintro ⟨⟨m1, m2, rfl, hP, hQ⟩, rfl⟩
    exact ⟨m1, m2, [], [], rfl, (ha _ _ _).mpr ⟨hP, rfl⟩, (hb _ _ _).mpr ⟨hQ, rfl⟩, rfl⟩

/-- The joined second member `(?:\s+to\s+X)?` of the wind pattern. -/
theorem Regex.matches_joined (x : Regex) (P : List Char → Prop)
    (hx : ∀ m rest delta, Regex.Matches x m rest delta ↔ P m ∧ delta = [])
    (m rest : List Char) (delta : Captures) :
    Regex.Matches (Regex.opt (Regex.cat [Regex.spaces, Regex.litI "to", Regex.spaces, x]))
        m rest delta ↔
      (∃ second, IsJoined P m second) ∧ delta = [] := by
  have h4 : ∀ m rest delta, Regex.Matches (Regex.seq x Regex.empty) m rest delta ↔
      P m ∧ delta = [] := fun m rest delta => by rw [Regex.matches_seq_empty, hx]
  have h3 := Regex.matches_seq_plain Regex.spaces _ _ _ Regex.matches_spaces h4
  have h2 := Regex.matches_seq_plain (Regex.litI "to") _ _ _ (Regex.matches_litI "to") h3
  have h1 := Regex.matches_seq_plain Regex.spaces _ _ _ Regex.matches_spaces h2
  rw [Regex.matches_opt]
  simp only [Regex.cat_cons, Regex.cat_nil, h1]
  constructor
  · rintro (⟨⟨ws1, r1, rfl, hws1, tw, r2, rfl, htw, ws2, xm, rfl, hws2, hP⟩, rfl⟩ | ⟨rfl, rfl⟩)
    · exact ⟨⟨some (tw, xm), ws1, ws2, rfl, hws1, htw, hws2, hP⟩, rfl⟩
    · exact ⟨⟨none, rfl⟩, rfl⟩
  · rintro ⟨⟨second, hsec⟩, rfl⟩
    rcases second with _ | ⟨tw, xm⟩
    · exact Or.inr ⟨hsec, rfl⟩
    · obtain ⟨ws1, ws2, rfl, hws1, htw, hws2, hP⟩ := hsec
      exact Or.inl ⟨⟨ws1, _, rfl, hws1, tw, _, rfl, htw, ws2, xm, rfl, hws2, hP⟩, rfl⟩

/-- A sequence whose first member records no capture. -/
theorem Regex.matches_seq_left (a b : Regex) (P : List Char → Prop)
    (ha : ∀ m rest delta, Regex.Matches a m rest delta ↔ P m ∧ delta = [])
    (m rest : List Char) (delta : Captures) :
    Regex.Matches (Regex.seq a b) m rest delta ↔
      ∃ m1 m2, m = m1 ++ m2 ∧ P m1 ∧ Regex.Matches b m2 rest delta := by
  rw [Regex.matches_seq]
  constructor
  · rintro ⟨m1, m2, d1, d2, rfl, h1, h2, rfl⟩
    obtain ⟨hP, rfl⟩ := (ha _ _ _).mp h1
    exact ⟨m1, m2, rfl, hP, by simpa using h2⟩
  · rintro ⟨m1, m2, rfl, hP, h2⟩
    exact ⟨m1, m2, [], delta, rfl, (ha _ _ _).mpr ⟨hP, rfl⟩, h2, by simp⟩

/-- The optional letter `s` after `wind`. -/
theorem Regex.matches_optS (m rest : List Char) (delta : Captures) :
    Regex.Matches (Regex.opt (Regex.chrI 's')) m rest delta ↔
      (m = [] ∨ m = ['s'] ∨ m = ['S']) ∧ delta = [] := by
  rw [Regex.matches_opt, Regex.chrI, Regex.matches_cls]
  constructor
  · rintro (⟨⟨c, hc, rfl⟩, rfl⟩ | ⟨rfl, rfl⟩)
    · refine ⟨Or.inr ?_, rfl⟩
      simp only [Bool.or_eq_true, beq_iff_eq] at hc
      rcases hc with rfl | rfl
      · exact Or.inl rfl
      · exact Or.inr rfl
    · exact ⟨Or.inl rfl, rfl⟩
  · rintro ⟨rfl | rfl | rfl, rfl⟩
    · exact Or.inr ⟨rfl, rfl⟩
    · exact Or.inl ⟨⟨'s', by decide, rfl⟩, rfl⟩
    · exact Or.inl ⟨⟨'S', by decide, rfl⟩, rfl⟩

theorem IsWord.append_s (w0 sopt : List Char) (h0 : IsWord "wind" w0)
    (hs : sopt = [] ∨ sopt = ['s'] ∨ sopt = ['S']) :
    IsWord "wind" (w0 ++ sopt) ∨ IsWord "winds" (w0 ++ sopt) := by
  unfold IsWord at h0 ⊢
  rcases hs with rfl | rfl | rfl
  · left
    simpa using h0
  · right
    have : "winds".toList = "wind".toList ++ ['s'] := by decide
    rw [this]
    exact List.rel_append h0 (List.Forall₂.cons (Or.inl (by decide)) List.Forall₂.nil)
  · right
    have : "winds".toList = "wind".toList ++ ['s'] := by decide
    rw [this]
    exact List.rel_append h0 (List.Forall₂.cons (Or.inr (by decide)) List.Forall₂.nil)

theorem IsWord.split_s (w : List Char) (h : IsWord "wind" w ∨ IsWord "winds" w) :
    ∃ w0 sopt, w = w0 ++ sopt ∧ IsWord "wind" w0 ∧ (sopt = [] ∨ sopt = ['s'] ∨ sopt = ['S']) := by
  rcases h with h | h
  · exact ⟨w, [], by simp, h, Or.inl rfl⟩
  · unfold IsWord at h
    have hw : "winds".toList = "wind".toList ++ ['s'] := by decide
    rw [hw] at h
    have h0 := List.forall₂_take_append w _ _ h
    have hs := List.forall₂_drop_append w _ _ h
    refine ⟨w.take "wind".toList.length, w.drop "wind".toList.length,
      (List.take_append_drop _ _).symm, h0, Or.inr ?_⟩
    generalize w.drop "wind".toList.length = sopt at hs
    cases hs with
    | cons hx hnil =>
      cases hnil
      rcases hx with rfl | rfl
      · exact Or.inl rfl
      · exact Or.inr rfl

/-- The direction part of the wind pattern. -/
theorem Regex.matches_direction (m rest : List Char) (delta : Captures) :
    Regex.Matches (Regex.seq (Regex.rep Regex.isLetter 1 (some 3))
        (Regex.opt (Regex.cat [Regex.spaces, Regex.litI "to", Regex.spaces,
          Regex.rep Regex.isLetter 1 (some 3)]))) m rest delta ↔
      (∃ t1 second, IsDirectionPart m t1 second) ∧ delta = [] := by
  rw [Regex.matches_seq_plain _ _ _ _ Regex.matches_letterToken
    (Regex.matches_joined _ _ Regex.matches_letterToken)]
  constructor
  · rintro ⟨⟨t1, tail, rfl, ht1, second, hsec⟩, rfl⟩
    exact ⟨⟨t1, second, tail, rfl, ht1, hsec⟩, rfl⟩
  · rintro ⟨⟨t1, second, tail, rfl, ht1, hsec⟩, rfl⟩
    exact ⟨⟨t1, tail, rfl, ht1, second, hsec⟩, rfl⟩

/-- The speed part of the wind pattern. -/
theorem Regex.matches_speed (m rest : List Char) (delta : Captures) :
    Regex.Matches (Regex.cat [Regex.digits,
        Regex.opt (Regex.cat [Regex.spaces, Regex.litI "to", Regex.spaces, Regex.digits]),
        Regex.spaces, Regex.litI "kt"]) m rest delta ↔
      (∃ n second kt, IsSpeedPart m n second kt) ∧ delta = [] := by
  have h4 : ∀ m rest delta, Regex.Matches (Regex.seq (Regex.litI "kt") Regex.empty) m rest delta ↔
      IsWord "kt" m ∧ delta = [] := fun m rest delta => by
    rw [Regex.matches_seq_empty, Regex.matches_litI]
  have h3 := Regex.matches_seq_plain Regex.spaces _ _ _ Regex.matches_spaces h4
  have h2 := Regex.matches_seq_plain _ _ _ _
    (Regex.matches_joined _ _ Regex.matches_digits) h3
  have h1 := Regex.matches_seq_plain Regex.digits _ _ _ Regex.matches_digits h2
  simp only [Regex.cat_cons, Regex.cat_nil] at h1 ⊢
  rw [h1]
  constructor
  · rintro ⟨⟨n, r1, rfl, hn, tail, r2, rfl, ⟨second, hsec⟩, ws, kt, rfl, hws, hkt⟩, rfl⟩
    exact ⟨⟨n, second, kt, tail, ws, rfl, hn, hsec, hws, hkt⟩, rfl⟩
  · rintro ⟨⟨n, second, kt, tail, ws, rfl, hn, hsec, hws, hkt⟩, rfl⟩
    exact ⟨⟨n, _, rfl, hn, tail, _, rfl, ⟨second, hsec⟩, ws, kt, rfl, hws, hkt⟩, rfl⟩

/-- The matches of the wind pattern are the wind phrases, with the direction part in
group 1 and the speed part in group 2. -/
theorem windPattern_matches (m rest : List Char) (delta : Captures) :
    Regex.Matches windPattern m rest delta ↔
      ∃ dir speed, IsWindPhrase m dir speed ∧ delta = [(2, speed), (1, dir)] := by
  have hdir := Regex.matches_direction
  have hspeed := Regex.matches_speed
  simp only [Regex.cat_cons, Regex.cat_nil] at hdir hspeed
  unfold windPattern
  simp only [Regex.cat_cons, Regex.cat_nil]
  rw [Regex.matches_seq]
  simp only [Regex.matches_group, hdir,
    Regex.matches_seq_left _ _ _ Regex.matches_spaces,
    Regex.matches_seq_left _ _ _ (Regex.matches_litI "wind"),
    Regex.matches_seq_left _ _ _ Regex.matches_optS, Regex.matches_seq_empty,
    hspeed]
  constructor
  · rintro ⟨dir, r1, d1, d2, rfl, ⟨d, ⟨hd, rfl⟩, rfl⟩, ⟨ws1, r2, rfl, hws1, w0, r3, rfl, hw0,
      sopt, r4, rfl, hs, ws2, speed, rfl, hws2, d', ⟨hsp, rfl⟩, rfl⟩, rfl⟩
    refine ⟨dir, speed, ⟨ws1, w0 ++ sopt, ws2, by simp, hd, hws1, IsWord.append_s w0 sopt hw0 hs,
      hws2, hsp⟩, rfl⟩
  · rintro ⟨dir, speed, ⟨ws1, w, ws2, rfl, hd, hws1, hw, hws2, hsp⟩, rfl⟩
    obtain ⟨w0, sopt, rfl, hw0, hs⟩ := IsWord.split_s w hw
    exact ⟨dir, _, [(1, dir)], [(2, speed)], rfl, ⟨[], ⟨hd, rfl⟩, rfl⟩,
      ⟨ws1, _, rfl, hws1, w0, _, by simp, hw0, sopt, _, rfl, hs, ws2, speed, rfl, hws2, [],
        ⟨hsp, rfl⟩, rfl⟩, rfl⟩

theorem IsWord.seas_capital (m : List Char) : IsWord "Seas" m ↔ IsWord "seas" m := by
  unfold IsWord
  have h1 : "Seas".toList = 'S' :: "eas".toList := by decide
  have h2 : "seas".toList = 's' :: "eas".toList := by decide
  have h3 : 'S'.toLower = 's'.toLower := by decide
  have h4 : 'S'.toUpper = 's'.toUpper := by decide
  rw [h1, h2, List.forall₂_cons_right_iff, List.forall₂_cons_right_iff, h3, h4]

/-- The height part of the seas pattern. -/
theorem Regex.matches_height (m rest : List Char) (delta : Captures) :
    Regex.Matches (Regex.alt
      (Regex.cat [Regex.digits, Regex.spaces, Regex.litI "to", Regex.spaces, Regex.digits,
        Regex.spaces, Regex.litI "ft"])
      (Regex.cat [Regex.digits, Regex.spaces, Regex.litI "ft", Regex.spaces, Regex.litI "or",
        Regex.spaces, Regex.litI "less"])) m rest delta ↔ IsHeightPart m ∧ delta = [] := by
  have a7 : ∀ m rest delta, Regex.Matches (Regex.seq (Regex.litI "ft") Regex.empty) m rest delta ↔
      IsWord "ft" m ∧ delta = [] := fun m rest delta => by
    rw [Regex.matches_seq_empty, Regex.matches_litI]
  have a6 := Regex.matches_seq_plain Regex.spaces _ _ _ Regex.matches_spaces a7
  have a5 := Regex.matches_seq_plain Regex.digits _ _ _ Regex.matches_digits a6
  have a4 := Regex.matches_seq_plain Regex.spaces _ _ _ Regex.matches_spaces a5
  have a3 := Regex.matches_seq_plain (Regex.litI "to") _ _ _ (Regex.matches_litI "to") a4
  have a2 := Regex.matches_seq_plain Regex.spaces _ _ _ Regex.matches_spaces a3
  have a1 := Regex.matches_seq_plain Regex.digits _ _ _ Regex.matches_digits a2
  have b7 : ∀ m rest delta,
      Regex.Matches (Regex.seq (Regex.litI "less") Regex.empty) m rest delta ↔
      IsWord "less" m ∧ delta = [] := fun m rest delta => by
    rw [Regex.matches_seq_empty, Regex.matches_litI]
  have b6 := Regex.matches_seq_plain Regex.spaces _ _ _ Regex.matches_spaces b7
  have b5 := Regex.matches_seq_plain (Regex.litI "or") _ _ _ (Regex.matches_litI "or") b6
  have b4 := Regex.matches_seq_plain Regex.spaces _ _ _ Regex.matches_spaces b5
  have b3 := Regex.matches_seq_plain (Regex.litI "ft") _ _ _ (Regex.matches_litI "ft") b4
  have b2 := Regex.matches_seq_plain Regex.spaces _ _ _ Regex.matches_spaces b3
  have b1 := Regex.matches_seq_plain Regex.digits _ _ _ Regex.matches_digits b2
  rw [Regex.matches_alt]
  simp only [Regex.cat_cons, Regex.cat_nil]
  rw [a1, b1]
  unfold IsHeightPart
  constructor
  · rintro (⟨⟨n, _, rfl, hn, ws1, _, rfl, hws1, tw, _, rfl, htw, ws2, _, rfl, hws2, k, _, rfl, hk,
        ws3, ft, rfl, hws3, hft⟩, rfl⟩ |
      ⟨⟨n, _, rfl, hn, ws1, _, rfl, hws1, ft, _, rfl, hft, ws2, _, rfl, hws2, ow, _, rfl, how,
        ws3, less, rfl, hws3, hless⟩, rfl⟩)
    · exact ⟨Or.inl ⟨n, ws1, tw, ws2, k, ws3, ft, rfl, hn, hws1, htw, hws2, hk, hws3, hft⟩, rfl⟩
    · exact ⟨Or.inr ⟨n, ws1, ft, ws2, ow, ws3, less, rfl, hn, hws1, hft, hws2, how, hws3, hless⟩,
        rfl⟩
  · rintro ⟨⟨n, ws1, tw, ws2, k, ws3, ft, rfl, hn, hws1, htw, hws2, hk, hws3, hft⟩ |
      ⟨n, ws1, ft, ws2, ow, ws3, less, rfl, hn, hws1, hft, hws2, how, hws3, hless⟩, rfl⟩
    · exact Or.inl ⟨⟨n, _, rfl, hn, ws1, _, rfl, hws1, tw, _, rfl, htw, ws2, _, rfl, hws2, k, _,
        rfl, hk, ws3, ft, rfl, hws3, hft⟩, rfl⟩
    · exact Or.inr ⟨⟨n, _, rfl, hn, ws1, _, rfl, hws1, ft, _, rfl, hft, ws2, _, rfl, hws2, ow, _,
        rfl, how, ws3, less, rfl, hws3, hless⟩, rfl⟩

/-- The matches of the seas pattern are the seas phrases, with the height part in
group 1. -/
theorem seasPattern_matches (m rest : List Char) (delta : Captures) :
    Regex.Matches seasPattern m rest delta ↔ ∃ h, IsSeasPhrase m h ∧ delta = [(1, h)] := by
  have hword : ∀ m rest delta,
      Regex.Matches (Regex.alt (Regex.litI "seas") (Regex.litI "Seas")) m rest delta ↔
        IsWord "seas" m ∧ delta = [] := by
    intro m rest delta
    rw [Regex.matches_alt, Regex.matches_litI, Regex.matches_litI, IsWord.seas_capital]
    exact or_self_iff
  have hheight := Regex.matches_height
  simp only [Regex.cat_cons, Regex.cat_nil] at hheight
  unfold seasPattern
  simp only [Regex.cat_cons, Regex.cat_nil]
  simp only [Regex.matches_seq_left _ _ _ hword,
    Regex.matches_seq_left _ _ _ Regex.matches_spaces, Regex.matches_seq_empty,
    Regex.matches_group, hheight]
  unfold IsSeasPhrase
  constructor
  · rintro ⟨seas, _, rfl, hseas, ws, h, rfl, hws, d, ⟨hh, rfl⟩, rfl⟩
    exact ⟨h, ⟨seas, ws, rfl, hseas, hws, hh⟩, rfl⟩
  · rintro ⟨h, ⟨seas, ws, rfl, hseas, hws, hh⟩, rfl⟩
    exact ⟨seas, _, rfl, hseas, ws, h, rfl, hws, [], ⟨hh, rfl⟩, rfl⟩

/-- The matches of the weather pattern: a period, whitespace, a non-empty run of letters
and whitespace kept in group 1, and a period. -/
theorem weatherPattern_matches (m rest : List Char) (delta : Captures) :
    Regex.Matches weatherPattern m rest delta ↔
      ∃ ws clause, m = '.' :: (ws ++ (clause ++ ['.'])) ∧
        (∀ c ∈ ws, JS.isWhiteSpace c = true) ∧ IsClause clause ∧ delta = [(1, clause)] := by
  have hdot : ∀ m rest delta, Regex.Matches (Regex.chr '.') m rest delta ↔
      m = ['.'] ∧ delta = [] := by
    intro m rest delta
    rw [Regex.chr, Regex.matches_cls]
    constructor
    · rintro ⟨⟨c, hc, rfl⟩, rfl⟩
      simp only [beq_iff_eq] at hc
      exact ⟨by rw [hc], rfl⟩
    · rintro ⟨rfl, rfl⟩
      exact ⟨⟨'.', by decide, rfl⟩, rfl⟩
  have hws : ∀ m rest delta, Regex.Matches (Regex.rep JS.isWhiteSpace 0 none) m rest delta ↔
      (∀ c ∈ m, JS.isWhiteSpace c = true) ∧ delta = [] := by
    intro m rest delta
    rw [Regex.matches_rep]
    simp
  have hclause : ∀ m rest delta,
      Regex.Matches (Regex.rep (fun c => Regex.isLetter c || JS.isWhiteSpace c) 1 none) m rest
        delta ↔ IsClause m ∧ delta = [] := by
    intro m rest delta
    rw [Regex.matches_rep]
    unfold IsClause
    constructor
    · rintro ⟨⟨h1, h2, -⟩, rfl⟩
      refine ⟨⟨fun h => by simp [h] at h2, ?_⟩, rfl⟩
      intro c hc
      simpa using h1 c hc
    · rintro ⟨⟨h1, h2⟩, rfl⟩
      refine ⟨⟨fun c hc => by simpa using h2 c hc, ?_, by simp⟩, rfl⟩
      cases m with
      | nil => exact absurd rfl h1
      | cons _ _ => simp
  unfold weatherPattern
  simp only [Regex.cat_cons, Regex.cat_nil]
  simp only [Regex.matches_seq_left _ _ _ hdot, Regex.matches_seq_left _ _ _ hws,
    Regex.matches_seq_empty]
  constructor
  · rintro ⟨_, _, rfl, rfl, ws, _, rfl, hw, h⟩
    rw [Regex.matches_seq] at h
    obtain ⟨clause, dot, d1, d2, rfl, hg, hd, rfl⟩ := h
    rw [Regex.matches_group] at hg
    obtain ⟨d, hrep, rfl⟩ := hg
    obtain ⟨hcl, rfl⟩ := (hclause _ _ _).mp hrep
    rw [Regex.matches_seq_empty] at hd
    obtain ⟨rfl, rfl⟩ := (hdot _ _ _).mp hd
    exact ⟨ws, clause, rfl, hw, hcl, rfl⟩
  · rintro ⟨ws, clause, rfl, hw, hc, rfl⟩
    refine ⟨['.'], _, rfl, rfl, ws, _, rfl, hw, ?_⟩
    rw [Regex.matches_seq]
    exact ⟨clause, ['.'], [(1, clause)], [], rfl,
      (Regex.matches_group _ _ _ _ _).mpr ⟨[], (hclause _ _ _).mpr ⟨hc, rfl⟩, rfl⟩,
      (Regex.matches_seq_empty _ _ _ _).mpr ((hdot _ _ _).mpr ⟨rfl, rfl⟩), rfl⟩

/-! ## The text built by `extractWind` -/

/-- A text with no whitespace and at least one character. -/
theorem IsWord.solid_to (s : List Char) (h : IsWord "to" s) :
    s ≠ [] ∧ ∀ c ∈ s, JS.isWhiteSpace c = false := by
  unfold IsWord at h
  have hw : "to".toList = ['t', 'o'] := by decide
  rw [hw] at h
  cases h with
  | cons h1 h' =>
    cases h' with
    | cons h2 h'' =>
      cases h''
      rcases h1 with rfl | rfl <;> rcases h2 with rfl | rfl <;> exact ⟨by simp, by decide⟩

theorem IsWord.solid_kt (s : List Char) (h : IsWord "kt" s) :
    s ≠ [] ∧ ∀ c ∈ s, JS.isWhiteSpace c = false := by
  unfold IsWord at h
  have hw : "kt".toList = ['k', 't'] := by decide
  rw [hw] at h
  cases h with
  | cons h1 h' =>
    cases h' with
    | cons h2 h'' =>
      cases h''
      rcases h1 with rfl | rfl <;> rcases h2 with rfl | rfl <;> exact ⟨by simp, by decide⟩

theorem IsLetterToken.solid_letters (t : List Char) (h : IsLetterToken t) :
    t ≠ [] ∧ ∀ c ∈ t, JS.isWhiteSpace c = false := by
  obtain ⟨h1, h2, -⟩ := h
  refine ⟨fun h0 => by simp [h0] at h2, fun c hc => isWhiteSpace_of_isLetter c (h1 c hc)⟩

theorem IsDigitString.solid_digits (t : List Char) (h : IsDigitString t) :
    t ≠ [] ∧ ∀ c ∈ t, JS.isWhiteSpace c = false :=
  ⟨h.1, fun c hc => isWhiteSpace_of_isDigit c (h.2 c hc)⟩

/-- Whitespace that follows whitespace is dropped. -/
theorem collapseWhitespaceAux_skip (ws s : List Char) (hws : ∀ c ∈ ws, JS.isWhiteSpace c = true) :
    collapseWhitespaceAux (ws ++ s) true = collapseWhitespaceAux s true := by
  induction ws with
  | nil => rfl
  | cons w ws ih =>
    have hw := hws w (List.mem_cons_self _ _)
    simp only [List.cons_append, collapseWhitespaceAux, hw, if_true]
    exact ih (fun c hc => hws c (List.mem_cons_of_mem _ hc))

/-- A run of whitespace after a character that is none becomes one space. -/
theorem collapseWhitespaceAux_blank (ws s : List Char) (hws : IsBlank ws) :
    collapseWhitespaceAux (ws ++ s) false = ' ' :: collapseWhitespaceAux s true := by
  obtain ⟨hne, hall⟩ := hws
  cases ws with
  | nil => exact absurd rfl hne
  | cons w ws =>
    have hw := hall w (List.mem_cons_self _ _)
    have hskip := collapseWhitespaceAux_skip ws s (fun c hc => hall c (List.mem_cons_of_mem _ hc))
    rw [List.cons_append, collapseWhitespaceAux]
    simp only [hw, if_true, Bool.false_eq_true, if_false]
    rw [hskip]

/-- A text without whitespace is kept as it is. -/
theorem collapseWhitespaceAux_solid (w : List Char) (f : Bool)
    (hw : ∀ c ∈ w, JS.isWhiteSpace c = false) : collapseWhitespaceAux w f = w := by
  induction w generalizing f with
  | nil => rfl
  | cons x xs ih =>
    rw [collapseWhitespaceAux_cons x xs f (hw x (List.mem_cons_self _ _)),
      ih false (fun c hc => hw c (List.mem_cons_of_mem _ hc))]

/-- A blank and a solid text: one space and the text. -/
theorem collapseWhitespaceAux_blank_solid (ws w s : List Char) (hws : IsBlank ws)
    (hw : w ≠ [] ∧ ∀ c ∈ w, JS.isWhiteSpace c = false) :
    collapseWhitespaceAux (ws ++ (w ++ s)) false = ' ' :: (w ++ collapseWhitespaceAux s false) := by
  rw [collapseWhitespaceAux_blank ws _ hws, collapseWhitespaceAux_run w s true hw.1 hw.2]

/-- The optional second member of a pair after collapsing. -/
theorem collapseWhitespaceAux_joined (P : List Char → Prop)
    (hP : ∀ x, P x → x ≠ [] ∧ ∀ c ∈ x, JS.isWhiteSpace c = false)
    (tail : List Char) (second : Option (List Char × List Char)) (s : List Char)
    (h : IsJoined P tail second) :
    collapseWhitespaceAux (tail ++ s) false = joinedText second ++ collapseWhitespaceAux s false := by
  rcases second with _ | ⟨tw, x⟩
  · have : tail = [] := h
    subst this
    rfl
  · obtain ⟨ws1, ws2, rfl, hws1, htw, hws2, hx⟩ := h
    have e : ws1 ++ (tw ++ (ws2 ++ x)) ++ s = ws1 ++ (tw ++ (ws2 ++ (x ++ s))) := by simp
    rw [e, collapseWhitespaceAux_blank_solid ws1 tw _ hws1 (IsWord.solid_to tw htw),
      collapseWhitespaceAux_blank_solid ws2 x _ hws2 (hP x hx)]
    simp [joinedText]

/-- The text that `extractWind` builds from the two groups of a match: the parts joined
by single spaces. -/
theorem extractWind_windText (dir speed t1 n kt : List Char)
    (second range : Option (List Char × List Char))
    (hdir : IsDirectionPart dir t1 second) (hspeed : IsSpeedPart speed n range kt) :
    JS.trim (collapseWhitespace (dir ++ " winds ".toList ++ speed)) =
      windText t1 second n range kt := by
  obtain ⟨tail1, rfl, ht1, hsec⟩ := hdir
  obtain ⟨tail2, ws, rfl, hn, hrange, hws, hkt⟩ := hspeed
  have st1 := IsLetterToken.solid_letters t1 ht1
  have sn := IsDigitString.solid_digits n hn
  have skt := IsWord.solid_kt kt hkt
  have hsp : IsBlank [' '] := ⟨by simp, by decide⟩
  have hwinds : "winds".toList ≠ [] ∧ ∀ c ∈ "winds".toList, JS.isWhiteSpace c = false :=
    ⟨by decide, by decide⟩
  have hcol : collapseWhitespace (t1 ++ tail1 ++ " winds ".toList ++ (n ++ (tail2 ++ (ws ++ kt))))
      = windText t1 second n range kt := by
    unfold collapseWhitespace windText
    have e : t1 ++ tail1 ++ " winds ".toList ++ (n ++ (tail2 ++ (ws ++ kt))) =
        t1 ++ (tail1 ++ ([' '] ++ ("winds".toList ++ ([' '] ++ (n ++ (tail2 ++ (ws ++ kt))))))) := by
      have : " winds ".toList = [' '] ++ ("winds".toList ++ [' ']) := by decide
      rw [this]
      simp
    rw [e, collapseWhitespaceAux_run t1 _ false st1.1 st1.2,
      collapseWhitespaceAux_joined IsLetterToken IsLetterToken.solid_letters tail1 second _ hsec,
      collapseWhitespaceAux_blank_solid [' '] "winds".toList _ hsp hwinds,
      collapseWhitespaceAux_blank_solid [' '] n _ hsp sn,
      collapseWhitespaceAux_joined IsDigitString IsDigitString.solid_digits tail2 range _ hrange,
      collapseWhitespaceAux_blank ws kt hws, collapseWhitespaceAux_solid kt true skt.2]
    have : " winds ".toList = [' '] ++ ("winds".toList ++ [' ']) := by decide
    rw [this]
    simp
  rw [hcol]
  apply JS.trim_eq_self
  · intro c tl h
    obtain ⟨x, xs, rfl⟩ := List.exists_cons_of_ne_nil st1.1
    unfold windText at h
    simp only [List.cons_append, List.cons.injEq] at h
    rw [← h.1]
    exact st1.2 x (List.mem_cons_self _ _)
  · intro c tl h
    unfold windText at h
    simp only [List.reverse_append, List.reverse_cons, List.append_assoc] at h
    have hk : kt.reverse ≠ [] := by simpa using skt.1
    obtain ⟨x, xs, hx⟩ := List.exists_cons_of_ne_nil hk
    rw [hx] at h
    simp only [List.cons_append, List.cons.injEq] at h
    rw [← h.1]
    apply skt.2
    have : x ∈ kt.reverse := by rw [hx]; exact List.mem_cons_self _ _
    simpa using this

theorem windText_ne_nil (t1 n kt : List Char) (second range : Option (List Char × List Char))
    (h : t1 ≠ []) : windText t1 second n range kt ≠ [] := by
  unfold windText
  simp [h]

/-- The outcome of `extractWind` on a text in which the search finds a match. -/
theorem extractWind_of_search (text : List Char) (caps : Captures)
    (h : Regex.search windPattern text = some caps) :
    ∃ pre phrase post dir speed t1 second n range kt,
      text = pre ++ (phrase ++ post) ∧ IsWindPhrase phrase dir speed ∧
      IsDirectionPart dir t1 second ∧ IsSpeedPart speed n range kt ∧
      extractWind text = windText t1 second n range kt := by
  obtain ⟨pre, phrase, post, htext, hm⟩ := Regex.search_sound windPattern text caps h
  obtain ⟨dir, speed, hphrase, rfl⟩ := (windPattern_matches phrase post caps).mp hm
  have hp := hphrase
  obtain ⟨ws1, w, ws2, -, ⟨t1, second, hdir⟩, -, -, -, ⟨n, range, kt, hspeed⟩⟩ := hp
  refine ⟨pre, phrase, post, dir, speed, t1, second, n, range, kt, htext, hphrase, hdir, hspeed, ?_⟩
  unfold extractWind
  rw [h]
  have h1 : Regex.capture [(2, speed), (1, dir)] 1 = dir := rfl
  have h2 : Regex.capture [(2, speed), (1, dir)] 2 = speed := rfl
  simp only [h1, h2]
  exact extractWind_windText dir speed t1 n kt second range hdir hspeed

/-- What `extractWind` returns: the empty string, or, when the text contains a wind phrase
of its pattern, the text `<t1> winds <n> <kt>`, `<t1> winds <n> to <m> <kt>`,
`<t1> to <t2> winds <n> <kt>` or `<t1> to <t2> winds <n> to <m> <kt>` with single spaces,
where `t1` and `t2` are the runs of one to three ASCII letters of either case that stand in
the text before `wind` (any letters, not only compass abbreviations), `n` and `m` are
digit strings, and the words `to` and `kt` keep the letter case they have in the text. -/
theorem extractWind_form (text : List Char) :
    extractWind text = [] ∨
    ∃ pre phrase post dir speed t1 second n range kt,
      text = pre ++ (phrase ++ post) ∧ IsWindPhrase phrase dir speed ∧
      IsDirectionPart dir t1 second ∧ IsSpeedPart speed n range kt ∧
      extractWind text = windText t1 second n range kt := by
  cases h : Regex.search windPattern text with
  | none =>
    left
    unfold extractWind
    rw [h]
  | some caps => exact Or.inr (extractWind_of_search text caps h)

/-! ## The sentinels of the three extractors -/

theorem List.dropWhile_append_singleton {α : Type} (p : α → Bool) (l : List α) (d : α)
    (hd : p d = false) : (l ++ [d]).dropWhile p = l.dropWhile p ++ [d] := by
  induction l with
  | nil => simp [List.dropWhile, hd]
  | cons a l ih =>
    by_cases ha : p a = true
    · simp only [List.cons_append, List.dropWhile_cons_of_pos ha, ih]
    · simp only [List.cons_append, List.dropWhile_cons_of_neg ha]

/-- Trimming keeps a first character that is not whitespace. -/
theorem JS.trim_cons (d : Char) (rest : List Char) (hd : JS.isWhiteSpace d = false) :
    ∃ tl, JS.trim (d :: rest) = d :: tl := by
  unfold JS.trim JS.trimStart JS.trimEnd
  rw [List.dropWhile_cons_of_neg (by simp [hd]), List.reverse_cons,
    List.dropWhile_append_singleton _ _ _ hd]
  exact ⟨(rest.reverse.dropWhile JS.isWhiteSpace).reverse, by simp⟩

/-- The text contains a wind phrase exactly when the wind pattern occurs in it. -/
theorem windPattern_occurs (text : List Char) :
    Regex.Occurs windPattern text ↔
      ∃ pre phrase post dir speed, text = pre ++ (phrase ++ post) ∧
        IsWindPhrase phrase dir speed := by
  constructor
  · rintro ⟨pre, m, rest, delta, htext, hm⟩
    obtain ⟨dir, speed, hphrase, -⟩ := (windPattern_matches m rest delta).mp hm
    exact ⟨pre, m, rest, dir, speed, htext, hphrase⟩
  · rintro ⟨pre, phrase, post, dir, speed, htext, hphrase⟩
    exact ⟨pre, phrase, post, _, htext,
      (windPattern_matches phrase post _).mpr ⟨dir, speed, hphrase, rfl⟩⟩

theorem seasPattern_occurs (text : List Char) :
    Regex.Occurs seasPattern text ↔
      ∃ pre phrase post h, text = pre ++ (phrase ++ post) ∧ IsSeasPhrase phrase h := by
  constructor
  · rintro ⟨pre, m, rest, delta, htext, hm⟩
    obtain ⟨h, hphrase, -⟩ := (seasPattern_matches m rest delta).mp hm
    exact ⟨pre, m, rest, h, htext, hphrase⟩
  · rintro ⟨pre, phrase, post, h, htext, hphrase⟩
    exact ⟨pre, phrase, post, _, htext, (seasPattern_matches phrase post _).mpr ⟨h, hphrase, rfl⟩⟩

theorem weatherPattern_occurs (text : List Char) :
    Regex.Occurs weatherPattern text ↔
      ∃ pre clause post, text = pre ++ ('.' :: (clause ++ '.' :: post)) ∧ IsClause clause := by
  constructor
  · rintro ⟨pre, m, rest, delta, htext, hm⟩
    obtain ⟨ws, clause, rfl, hws, ⟨hne, hcl⟩, -⟩ := (weatherPattern_matches m rest delta).mp hm
    refine ⟨pre, ws ++ clause, rest, by rw [htext]; simp, by simp [hne], ?_⟩
    intro c hc
    rcases List.mem_append.mp hc with hc | hc
    · exact Or.inr (hws c hc)
    · exact hcl c hc
  · rintro ⟨pre, clause, post, htext, hcl⟩
    exact ⟨pre, '.' :: (clause ++ ['.']), post, _, by rw [htext]; simp,
      (weatherPattern_matches _ post _).mpr ⟨[], clause, rfl, by simp, hcl, rfl⟩⟩

/-- The height part of a seas phrase is never trimmed to the word `Unknown`. -/
theorem IsHeightPart.trim_ne (h : List Char) (hh : IsHeightPart h) :
    JS.trim h ≠ "Unknown".toList := by
  have key : ∀ n tl : List Char, IsDigitString n → JS.trim (n ++ tl) ≠ "Unknown".toList := by
    intro n tl hn
    obtain ⟨d, ds, rfl⟩ := List.exists_cons_of_ne_nil hn.1
    have hd := hn.2 d (List.mem_cons_self _ _)
    obtain ⟨t, ht⟩ := JS.trim_cons d (ds ++ tl) (isWhiteSpace_of_isDigit d hd)
    rw [List.cons_append, ht]
    intro heq
    have hU : d = 'U' := by
      have := congrArg List.head? heq
      simpa using this
    rw [hU] at hd
    revert hd
    decide
  rcases hh with ⟨n, ws1, tw, ws2, k, ws3, ft, rfl, hn, -⟩ |
    ⟨n, ws1, ft, ws2, ow, ws3, less, rfl, hn, -⟩
  · exact key n _ hn
  · exact key n _ hn

/-- The sentinels of the three extractors against their own patterns.  `extractWind`
returns the empty string exactly when the text contains no wind phrase of its pattern: a
direction part of one or two runs of one to three letters (two are joined by `to`),
whitespace, `wind` or `winds`, whitespace, and a speed part `N kt` or `N to M kt`.
`extractSeas` returns `Unknown` exactly when the text contains no phrase `seas N to M ft`
or `seas N ft or less`.  `extractWeather` returns null exactly when the text contains no
non-empty run of letters and whitespace between two periods.  Words are read in either
letter case and every gap is a run of whitespace. -/
theorem extractors_sentinels (text : List Char) :
    (extractWind text = [] ↔
      ¬ ∃ pre phrase post dir speed, text = pre ++ (phrase ++ post) ∧
        IsWindPhrase phrase dir speed) ∧
    (extractSeas text = "Unknown".toList ↔
      ¬ ∃ pre phrase post h, text = pre ++ (phrase ++ post) ∧ IsSeasPhrase phrase h) ∧
    (extractWeather text = none ↔
      ¬ ∃ pre clause post, text = pre ++ ('.' :: (clause ++ '.' :: post)) ∧ IsClause clause) := by
  rw [← windPattern_occurs, ← seasPattern_occurs, ← weatherPattern_occurs,
    ← Regex.search_none_iff, ← Regex.search_none_iff, ← Regex.search_none_iff]
  refine ⟨?_, ?_, ?_⟩
  · cases h : Regex.search windPattern text with
    | none => simp [extractWind, h]
    | some caps =>
      obtain ⟨pre, phrase, post, dir, speed, t1, second, n, range, kt, -, -, hdir, -, hres⟩ :=
        extractWind_of_search text caps h
      obtain ⟨tail, -, ht1, -⟩ := hdir
      have hne := windText_ne_nil t1 n kt second range (IsLetterToken.solid_letters t1 ht1).1
      rw [hres]
      simp [hne]
  · cases h : Regex.search seasPattern text with
    | none => simp [extractSeas, h]
    | some caps =>
      obtain ⟨pre, phrase, post, -, hm⟩ := Regex.search_sound seasPattern text caps h
      obtain ⟨hp, hphrase, rfl⟩ := (seasPattern_matches phrase post caps).mp hm
      obtain ⟨seas, ws, -, -, -, hh⟩ := hphrase
      have hcap : Regex.capture [(1, hp)] 1 = hp := rfl
      simp only [extractSeas, h, hcap]
      have hne := IsHeightPart.trim_ne hp hh
      simp only [hne, reduceCtorEq]
  · cases h : Regex.search weatherPattern text with
    | none => simp [extractWeather, h]
    | some caps => simp [extractWeather, h]

/-! ## The normalisation primitive with general bounds -/

/-- With bounds that are doubles `b < c` whose difference does not overflow, `normalizeValue`
works on the double differences: their double quotient is clamped to the unit interval, and
the infinities go to its ends. -/
theorem normalizeValue_doubles (a b c : ℚ) (hb : JSNum.IsDouble b) (hc : JSNum.IsDouble c)
    (hbc : b < c) (hov : c - b < JSNum.overflowBound) :
    0 < JSNum.nearest (c - b) ∧
    normalizeValue (some (JSNum.fin a)) (JSNum.fin b) (JSNum.fin c) =
      JSNum.fin (clamp01 (JSNum.nearest (JSNum.nearest (a - b) / JSNum.nearest (c - b)))) ∧
    normalizeValue (some JSNum.posInf) (JSNum.fin b) (JSNum.fin c) = JSNum.fin 1 ∧
    normalizeValue (some JSNum.negInf) (JSNum.fin b) (JSNum.fin c) = JSNum.fin 0 := by
  have hob := JSNum.overflowBound_gt
  have hd := JSNum.nearest_sub_pos b c hb hc hbc
  have hd2 := JSNum.nearest_lt_of_lt (c - b) hov
  have hsub : JSNum.sub (JSNum.fin c) (JSNum.fin b) = JSNum.fin (JSNum.nearest (c - b)) := by
    simp only [JSNum.sub]
    exact JSNum.ofRat_eq_fin _ (by linarith) hov
  have hne : JSNum.strictEq (JSNum.fin b) (JSNum.fin c) = false := by
    simp [JSNum.strictEq, hbc.ne]
  refine ⟨hd, normalizeValue_quotient a b c _ hbc.ne hd hd2 hsub, ?_, ?_⟩
  · simp only [normalizeValue, JSNum.isNaN, hne, hsub, Bool.or_self, Bool.false_eq_true,
      if_false]
    simp [JSNum.sub, JSNum.div, hd.le, JSNum.min, JSNum.max]
  · simp only [normalizeValue, JSNum.isNaN, hne, hsub, Bool.or_self, Bool.false_eq_true,
      if_false]
    simp [JSNum.sub, JSNum.div, hd.le, JSNum.min, JSNum.max]

/-- With finite bounds whose difference overflows to `+Infinity`, `normalizeValue` gives 0
for every value whose own difference from the floor stays finite, and NaN for the others
and for the infinities. -/
theorem normalizeValue_overflow (a b c : ℚ) (hov : JSNum.overflowBound ≤ c - b) :
    normalizeValue (some (JSNum.fin a)) (JSNum.fin b) (JSNum.fin c) =
      (if JSNum.overflowBound ≤ |a - b| then JSNum.nan else JSNum.fin 0) ∧
    normalizeValue (some JSNum.posInf) (JSNum.fin b) (JSNum.fin c) = JSNum.nan ∧
    normalizeValue (some JSNum.negInf) (JSNum.fin b) (JSNum.fin c) = JSNum.nan := by
  have hob := JSNum.overflowBound_gt
  have hbc : b ≠ c := by
    intro h
    rw [h, sub_self] at hov
    linarith
  have hsub : JSNum.sub (JSNum.fin c) (JSNum.fin b) = JSNum.posInf := by
    simp only [JSNum.sub]
    exact (JSNum.ofRat_eq_posInf_iff _).mpr hov
  have hne : JSNum.strictEq (JSNum.fin b) (JSNum.fin c) = false := by
    simp [JSNum.strictEq, hbc]
  refine ⟨?_, ?_, ?_⟩
  · simp only [normalizeValue, JSNum.isNaN, hne, hsub, Bool.or_self, Bool.false_eq_true,
      if_false]
    simp only [JSNum.sub]
    by_cases h1 : JSNum.overflowBound ≤ a - b
    · rw [(JSNum.ofRat_eq_posInf_iff _).mpr h1, if_pos (le_trans h1 (le_abs_self _))]
      rfl
    · by_cases h2 : a - b ≤ -JSNum.overflowBound
      · rw [(JSNum.ofRat_eq_negInf_iff _).mpr h2,
          if_pos (le_trans (by linarith) (neg_le_abs (a - b)))]
        rfl
      · have habs : ¬ JSNum.overflowBound ≤ |a - b| := by
          rw [not_le, abs_lt]
          constructor <;> linarith
        rw [JSNum.ofRat_eq_fin _ (by linarith) (by linarith), if_neg habs]
        have h10 : ¬ (1 : ℚ) ≤ 0 := by norm_num
        simp only [JSNum.div, JSNum.min, JSNum.max, if_neg h10, le_refl, if_true]
  · simp only [normalizeValue, JSNum.isNaN, hne, hsub, Bool.or_self, Bool.false_eq_true,
      if_false]
    rfl
  · simp only [normalizeValue, JSNum.isNaN, hne, hsub, Bool.or_self, Bool.false_eq_true,
      if_false]
    rfl

/-- The counterexample to C21: with the bounds `-2^1023 < 2^1023`, two finite numbers whose
difference overflows, the value `2^1023` (equal to the upper bound) gives NaN, which is
not in the unit interval, and the value 0 (half-way) gives 0 instead of 0.5.  Within the
range of doubles the quotient is rounded: the double 0.35 with bounds 0 and 5 gives the
double below 0.07, not their exact quotient, and the smallest positive double `2^-1074`
with bounds 0 and 2 gives 0. -/
theorem normalizeValue_overflow_counterexample :
    (-(2 : ℚ) ^ 1023 < 2 ^ 1023) ∧
    normalizeValue (some (JSNum.fin (2 ^ 1023))) (JSNum.fin (-(2 ^ 1023))) (JSNum.fin (2 ^ 1023))
      = JSNum.nan ∧
    normalizeValue (some (JSNum.fin 0)) (JSNum.fin (-(2 ^ 1023))) (JSNum.fin (2 ^ 1023))
      = JSNum.fin 0 ∧
    clamp01 ((0 - -(2 : ℚ) ^ 1023) / (2 ^ 1023 - -(2 : ℚ) ^ 1023)) = 1 / 2 ∧
    (JSNum.ofRat 0.35 = JSNum.fin (3152519739159347 / 2 ^ 53) ∧
      normalizeValue (some (JSNum.fin (3152519739159347 / 2 ^ 53))) (JSNum.fin 0) (JSNum.fin 5) =
        JSNum.fin (5044031582654955 / 2 ^ 56) ∧
      clamp01 ((3152519739159347 / 2 ^ 53 - 0) / (5 - 0)) ≠ (5044031582654955 / 2 ^ 56 : ℚ)) ∧
    (JSNum.IsDouble (1 / 2 ^ 1074) ∧
      normalizeValue (some (JSNum.fin (1 / 2 ^ 1074))) (JSNum.fin 0) (JSNum.fin 2) = JSNum.fin 0 ∧
      clamp01 ((1 / 2 ^ 1074 - 0) / (2 - 0)) = (1 / 2 ^ 1075 : ℚ)) := by
  refine ⟨by norm_num, by decide!, by decide!, ?_, ⟨by decide!, by decide!, by decide!⟩,
    ⟨by decide!, by decide!, by decide!⟩⟩
  have h : (0 - -(2 : ℚ) ^ 1023) / (2 ^ 1023 - -(2 : ℚ) ^ 1023) = 1 / 2 := by
    have : (2 : ℚ) ^ 1023 ≠ 0 := by positivity
    field_simp
    ring
  rw [h]
  unfold clamp01
  norm_num

/-- C21 (amended): `normalizeValue` returns 0.5 when the two bounds are the same number,
whatever the value, and when the value is null or NaN.  For bounds that are doubles
`min < max` whose difference `max - min` stays below the overflow threshold
`2^1024 - 2^970`, it returns for every finite `v` the quotient of `v - min` by `max - min`
as double arithmetic computes it, the two differences and the quotient each rounded to
the nearest double, clamped to the unit interval: the exact clamped quotient whenever the
differences and their quotient are doubles; 1 for `+Infinity` and 0 for `-Infinity`.  So
the result is 0 for `v <= min`, 1 for `v >= max`, and always between 0 and 1.  When
`max - min` overflows, the result is 0 for every finite `v` whose difference `v - min` does
not overflow, and NaN otherwise. -/
theorem normalizeValue_clamped :
    (∀ (v : Option JSNum) (m : JSNum), m ≠ JSNum.nan →
      normalizeValue v m m = JSNum.fin (1 / 2)) ∧
    (∀ min max : JSNum, normalizeValue none min max = JSNum.fin (1 / 2) ∧
      normalizeValue (some JSNum.nan) min max = JSNum.fin (1 / 2)) ∧
    (∀ a b c : ℚ, JSNum.IsDouble b → JSNum.IsDouble c → b < c →
      c - b < JSNum.overflowBound →
      0 < JSNum.nearest (c - b) ∧
      normalizeValue (some (JSNum.fin a)) (JSNum.fin b) (JSNum.fin c) =
        JSNum.fin (clamp01 (JSNum.nearest (JSNum.nearest (a - b) / JSNum.nearest (c - b)))) ∧
      0 ≤ clamp01 (JSNum.nearest (JSNum.nearest (a - b) / JSNum.nearest (c - b))) ∧
      clamp01 (JSNum.nearest (JSNum.nearest (a - b) / JSNum.nearest (c - b))) ≤ 1 ∧
      (a ≤ b → normalizeValue (some (JSNum.fin a)) (JSNum.fin b) (JSNum.fin c) = JSNum.fin 0) ∧
      (c ≤ a → normalizeValue (some (JSNum.fin a)) (JSNum.fin b) (JSNum.fin c) = JSNum.fin 1) ∧
      (JSNum.IsDouble (a - b) → JSNum.IsDouble (c - b) →
        JSNum.IsDouble ((a - b) / (c - b)) →
        normalizeValue (some (JSNum.fin a)) (JSNum.fin b) (JSNum.fin c) =
          JSNum.fin (clamp01 ((a - b) / (c - b)))) ∧
      normalizeValue (some JSNum.posInf) (JSNum.fin b) (JSNum.fin c) = JSNum.fin 1 ∧
      normalizeValue (some JSNum.negInf) (JSNum.fin b) (JSNum.fin c) = JSNum.fin 0) ∧
    (∀ a b c : ℚ, JSNum.overflowBound ≤ c - b →
      normalizeValue (some (JSNum.fin a)) (JSNum.fin b) (JSNum.fin c) =
        (if JSNum.overflowBound ≤ |a - b| then JSNum.nan else JSNum.fin 0) ∧
      normalizeValue (some JSNum.posInf) (JSNum.fin b) (JSNum.fin c) = JSNum.nan ∧
      normalizeValue (some JSNum.negInf) (JSNum.fin b) (JSNum.fin c) = JSNum.nan) := by
  refine ⟨?_, ?_, ?_, normalizeValue_overflow⟩
  · intro v m hm
    have heq : JSNum.strictEq m m = true := by
      cases m with
      | nan => exact absurd rfl hm
      | negInf => rfl
      | posInf => rfl
      | fin q => simp [JSNum.strictEq]
    cases v with
    | none => rfl
    | some x => simp [normalizeValue, heq]
  · intro min max
    exact ⟨rfl, by simp [normalizeValue, JSNum.isNaN]⟩
  · intro a b c hb hc hbc hov
    obtain ⟨hd, hval, hpos, hneg⟩ := normalizeValue_doubles a b c hb hc hbc hov
    obtain ⟨h0, h1⟩ :=
      clamp01_unit (JSNum.nearest (JSNum.nearest (a - b) / JSNum.nearest (c - b)))
    refine ⟨hd, hval, h0, h1, ?_, ?_, ?_, hpos, hneg⟩
    · intro hab
      rw [hval]
      have hq : JSNum.nearest (a - b) / JSNum.nearest (c - b) ≤ 0 :=
        div_nonpos_of_nonpos_of_nonneg (JSNum.nearest_nonpos _ (by linarith)) hd.le
      rw [clamp01_of_nonpos _ (JSNum.nearest_nonpos _ hq)]
    · intro hca
      rw [hval]
      have hq : 1 ≤ JSNum.nearest (a - b) / JSNum.nearest (c - b) := by
        rw [le_div_iff₀ hd, one_mul]
        exact JSNum.nearest_mono _ _ (by linarith)
      rw [clamp01_of_one_le _ (JSNum.one_le_nearest _ hq)]
    · intro d1 d2 d3
      rw [hval, ((JSNum.isDouble_iff _).mp d1).1, ((JSNum.isDouble_iff _).mp d2).1,
        ((JSNum.isDouble_iff _).mp d3).1]

theorem normalizeValue_clamped_witness :
    JSNum.IsDouble 1 ∧ JSNum.IsDouble 5 ∧
    normalizeValue (some (JSNum.fin 2)) (JSNum.fin 1) (JSNum.fin 5) =
      JSNum.fin (clamp01 (JSNum.nearest (JSNum.nearest (2 - 1) / JSNum.nearest (5 - 1)))) ∧
    clamp01 (JSNum.nearest (JSNum.nearest (2 - 1) / JSNum.nearest (5 - 1))) = 1 / 4 ∧
    normalizeValue (some (JSNum.fin 7)) (JSNum.fin 3) (JSNum.fin 3) = JSNum.fin (1 / 2) :=
  ⟨by decide!, by decide!,
    (normalizeValue_clamped.2.2.1 2 1 5 (by decide!) (by decide!) (by norm_num) (by
      have := JSNum.overflowBound_gt
      linarith)).2.1,
    by decide!,
    normalizeValue_clamped.1 (some (JSNum.fin 7)) (JSNum.fin 3) (by simp)⟩

/-! ## Monotonicity and saturation of the condition score -/

/-- C22: `calculateConditionScore` is monotone and saturates.  For numbers `w1 <= w2` and
`s1 <= s2` (finite or infinite; the comparison is false on NaN) the scores are integers
with `score(w1, s1) <= score(w2, s2)`; and for all numbers `w` and `s`, NaN included,
`score(w, s) = score(min(max(w, 0), 5), min(max(s, 0), 25))`.  The score of any input is
the score of its wave height and wind speed, an absent one read as 0. -/
theorem calculateConditionScore_monotone (w1 w2 s1 s2 : JSNum)
    (hw : JSNum.le w1 w2 = true) (hs : JSNum.le s1 s2 = true) :
    (∃ n1 n2 : ℤ,
      calculateConditionScore (some (scoreInput (some w1) (some s1))) = JSNum.fin n1 ∧
      calculateConditionScore (some (scoreInput (some w2) (some s2))) = JSNum.fin n2 ∧
      n1 ≤ n2) ∧
    (∀ w s : JSNum,
      calculateConditionScore (some (scoreInput (some w) (some s))) =
        calculateConditionScore (some (scoreInput
          (some (JSNum.min (JSNum.max w (JSNum.fin 0)) (JSNum.fin 5)))
          (some (JSNum.min (JSNum.max s (JSNum.fin 0)) (JSNum.fin 25)))))) ∧
    (∀ d : LatestData,
      calculateConditionScore (some d) =
        calculateConditionScore (some (scoreInput (some (d.waveHeight.getD (JSNum.fin 0)))
          (some (d.windSpeed.getD (JSNum.fin 0)))))) := by
  have n5 : JSNum.nearest 5 = 5 := by decide!
  have n25 : JSNum.nearest 25 = 25 := by decide!
  refine ⟨⟨_, _, calculateConditionScore_shares _, calculateConditionScore_shares _, ?_⟩, ?_, ?_⟩
  · apply Int.floor_mono
    have h1 := unitShare_mono w1 w2 5 (by norm_num) hw
    have h2 := unitShare_mono s1 s2 25 (by norm_num) hs
    simp only [scoreInput, Option.getD_some]
    have := scoreValue_mono _ _ _ _ h1 h2
    linarith
  · intro w s
    rw [calculateConditionScore_shares, calculateConditionScore_shares]
    simp only [scoreInput, Option.getD_some, unitShare_saturate w 5 (by norm_num) n5,
      unitShare_saturate s 25 (by norm_num) n25]
  · intro d
    rw [calculateConditionScore_shares, calculateConditionScore_shares]
    simp only [scoreInput, Option.getD_some]

theorem calculateConditionScore_monotone_witness :
    JSNum.le (JSNum.fin 1) (JSNum.fin 6) = true ∧
    JSNum.le (JSNum.fin 3) JSNum.posInf = true ∧
    calculateConditionScore (some (scoreInput (some (JSNum.fin 1)) (some (JSNum.fin 3)))) =
      JSNum.fin 16 ∧
    calculateConditionScore (some (scoreInput (some (JSNum.fin 6)) (some JSNum.posInf))) =
      JSNum.fin 100 ∧
    ∃ n1 n2 : ℤ,
      calculateConditionScore (some (scoreInput (some (JSNum.fin 1)) (some (JSNum.fin 3)))) =
        JSNum.fin n1 ∧
      calculateConditionScore (some (scoreInput (some (JSNum.fin 6)) (some JSNum.posInf))) =
        JSNum.fin n2 ∧
      n1 ≤ n2 :=
  ⟨by decide!, by decide!, by decide!, by decide!,
    (calculateConditionScore_monotone (JSNum.fin 1) (JSNum.fin 6) (JSNum.fin 3) JSNum.posInf
      (by decide!) (by decide!)).1⟩

/-! ## The raw text of the target section -/

/-- Lines without a target header leave the state outside the section untouched. -/
theorem scanLines_no_header (lines : List (List Char)) (st : ScanState)
    (hin : st.inTargetSection = false)
    (h : ∀ l ∈ lines, isTargetHeader (JS.trim l) = false) : scanLines lines st = st := by
  induction lines with
  | nil => simp [scanLines]
  | cons raw rest ih =>
    rw [scanLines_outside raw rest st (h raw (List.mem_cons_self _ _)) hin]
    exact ih (fun l hl => h l (List.mem_cons_of_mem _ hl))

/-- The loop only appends to `rawText`. -/
theorem scanLines_rawText_grows (lines : List (List Char)) (st : ScanState) :
    ∃ more, (scanLines lines st).rawText = st.rawText ++ more := by
  induction lines generalizing st with
  | nil => exact ⟨[], by simp [scanLines]⟩
  | cons raw rest ih =>
    by_cases h : JS.truthy (JS.trim raw) = true
    · by_cases hh : isTargetHeader (JS.trim raw) = true
      · rw [scanLines_header raw rest st h hh]
        obtain ⟨more, hm⟩ := ih { st with inTargetSection := true,
                                          rawText := st.rawText ++ JS.trim raw ++ ['\n'] }
        exact ⟨JS.trim raw ++ ['\n'] ++ more, by rw [hm]; simp⟩
      · have hh' : isTargetHeader (JS.trim raw) = false := by simpa using hh
        cases hin : st.inTargetSection with
        | false =>
          rw [scanLines_outside raw rest st hh' hin]
          exact ih st
        | true =>
          by_cases ho : isOtherZoneHeader (JS.trim raw) = true
          · rw [scanLines_break raw rest st h hin ho]
            exact ⟨[], by simp⟩
          · have ho' : isOtherZoneHeader (JS.trim raw) = false := by simpa using ho
            rw [scanLines_inside raw rest st h hh' hin ho']
            cases periodEntry (JS.trim raw) with
            | none =>
              obtain ⟨more, hm⟩ := ih { st with rawText := st.rawText ++ JS.trim raw ++ ['\n'] }
              exact ⟨JS.trim raw ++ ['\n'] ++ more, by simp only [hm]; simp⟩
            | some entry =>
              obtain ⟨more, hm⟩ := ih { st with
                rawText := st.rawText ++ JS.trim raw ++ ['\n']
                currentConditions :=
                  match st.currentConditions with
                  | some cc => some cc
                  | none => some entry.conditions
                forecast := st.forecast ++ [entry] }
              exact ⟨JS.trim raw ++ ['\n'] ++ more, hm.trans (by simp)⟩
    · have h' : JS.truthy (JS.trim raw) = false := by simpa using h
      rw [scanLines_blank raw rest st h']
      exact ih st

/-- A header line among the lines makes the raw text start with the header token. -/
theorem scanLines_rawText_header (lines : List (List Char)) (st : ScanState)
    (hin : st.inTargetSection = false) (hraw : st.rawText = [])
    (h : ∃ l ∈ lines, isTargetHeader (JS.trim l) = true) :
    ∃ more, (scanLines lines st).rawText = targetHeader ++ more := by
  induction lines with
  | nil =>
    obtain ⟨l, hl, -⟩ := h
    simp at hl
  | cons raw rest ih =>
    by_cases hh : isTargetHeader (JS.trim raw) = true
    · have ht : JS.truthy (JS.trim raw) = true := by
        cases htr : JS.trim raw with
        | nil =>
          rw [htr] at hh
          simp [isTargetHeader, JS.startsWith, targetHeader, List.isPrefixOf] at hh
        | cons _ _ => rfl
      rw [scanLines_header raw rest st ht hh]
      obtain ⟨more, hm⟩ := scanLines_rawText_grows rest
        { st with inTargetSection := true, rawText := st.rawText ++ JS.trim raw ++ ['\n'] }
      unfold isTargetHeader JS.startsWith at hh
      obtain ⟨r, hr⟩ := List.isPrefixOf_iff_prefix.mp hh
      refine ⟨r ++ ['\n'] ++ more, ?_⟩
      rw [hm, hraw, ← hr]
      simp
    · have hh' : isTargetHeader (JS.trim raw) = false := by simpa using hh
      rw [scanLines_outside raw rest st hh' hin]
      apply ih
      obtain ⟨l, hl, hlh⟩ := h
      rcases List.mem_cons.mp hl with rfl | hl
      · rw [hlh] at hh'
        cases hh'
      · exact ⟨l, hl, hlh⟩

theorem List.dropWhile_append_cons {α : Type} (p : α → Bool) (l : List α) (d : α) (r : List α)
    (hd : p d = false) : (l ++ d :: r).dropWhile p = l.dropWhile p ++ d :: r := by
  induction l with
  | nil => simp [List.dropWhile, hd]
  | cons a l ih =>
    by_cases ha : p a = true
    · simp only [List.cons_append, List.dropWhile_cons_of_pos ha, ih]
    · simp only [List.cons_append, List.dropWhile_cons_of_neg ha]

/-- Trimming keeps the header token at the front. -/
theorem JS.trim_targetHeader (more : List Char) :
    ∃ more', JS.trim (targetHeader ++ more) = targetHeader ++ more' := by
  have hG : JS.isWhiteSpace 'G' = false := by decide
  have hd : JS.isWhiteSpace '-' = false := by decide
  have e : targetHeader ++ more = "GMZ040".toList ++ '-' :: more := by
    simp [targetHeader]
  unfold JS.trim JS.trimStart JS.trimEnd
  have hstart : (targetHeader ++ more).dropWhile JS.isWhiteSpace = targetHeader ++ more := by
    simp only [targetHeader, String.toList, List.cons_append]
    exact List.dropWhile_cons_of_neg (by simp [hG])
  rw [hstart, e, List.reverse_append, List.reverse_cons, List.append_assoc,
    List.singleton_append, List.dropWhile_append_cons _ _ _ _ hd]
  exact ⟨(more.reverse.dropWhile JS.isWhiteSpace).reverse, by simp [targetHeader]⟩

/-- C23: for every bulletin text, the `rawText` of `parseForecastText` is empty or starts
with the header token `GMZ040-`; it is empty exactly when no trimmed line of the text
starts with that token, and then `forecast` is empty and `currentConditions` is null: the
period lines of a text without the target header, as in the example, give no entry. -/
theorem parseForecastText_rawText (text : List Char) :
    targetHeader = "GMZ040-".toList ∧
    ((parseForecastText text).rawText = [] ∨
      JS.startsWith (parseForecastText text).rawText targetHeader = true) ∧
    ((parseForecastText text).rawText = [] ↔
      ∀ l ∈ JS.split '\n' text, JS.startsWith (JS.trim l) targetHeader = false) ∧
    ((∀ l ∈ JS.split '\n' text, JS.startsWith (JS.trim l) targetHeader = false) →
      (parseForecastText text).forecast = [] ∧
      (parseForecastText text).currentConditions = none) ∧
    parseForecastText
        ".TODAY...SE winds 15 kt.\nGMZ041-151500-\n.TONIGHT...S winds 5 kt.".toList =
      { rawText := [], currentConditions := none, forecast := [] } := by
  have hnone : (∀ l ∈ JS.split '\n' text, JS.startsWith (JS.trim l) targetHeader = false) →
      parseForecastText text = { rawText := [], currentConditions := none, forecast := [] } := by
    intro h
    unfold parseForecastText
    simp only
    rw [scanLines_no_header _ _ rfl h]
    simp [JS.trim_nil]
  have hsome : (∃ l ∈ JS.split '\n' text, JS.startsWith (JS.trim l) targetHeader = true) →
      ∃ more, (parseForecastText text).rawText = targetHeader ++ more := by
    intro h
    obtain ⟨more, hm⟩ := scanLines_rawText_header (JS.split '\n' text)
      { inTargetSection := false, rawText := [], currentConditions := none, forecast := [] }
      rfl rfl h
    obtain ⟨more', hm'⟩ := JS.trim_targetHeader more
    refine ⟨more', ?_⟩
    unfold parseForecastText
    simp only
    rw [hm, hm']
  have hcases : (∀ l ∈ JS.split '\n' text, JS.startsWith (JS.trim l) targetHeader = false) ∨
      ∃ l ∈ JS.split '\n' text, JS.startsWith (JS.trim l) targetHeader = true := by
    by_cases h : ∃ l ∈ JS.split '\n' text, JS.startsWith (JS.trim l) targetHeader = true
    · exact Or.inr h
    · left
      intro l hl
      by_contra hcon
      exact h ⟨l, hl, by simpa using hcon⟩
  refine ⟨rfl, ?_, ?_, ?_, by decide!⟩
  · rcases hcases with h | h
    · left
      rw [hnone h]
    · right
      obtain ⟨more, hm⟩ := hsome h
      rw [hm]
      simp [JS.startsWith]
  · constructor
    · intro hraw
      rcases hcases with h | h
      · exact h
      · obtain ⟨more, hm⟩ := hsome h
        rw [hm] at hraw
        simp [targetHeader] at hraw
    · intro h
      rw [hnone h]
  · intro h
    rw [hnone h]
    exact ⟨rfl, rfl⟩

/-! ## The time value of a data line in double arithmetic -/

theorem JSNum.truncate_intCast (z : ℤ) : JSNum.truncate (z : ℚ) = z := by
  unfold JSNum.truncate
  split_ifs <;> simp

/-- A whole number of at most 53 bits, shifted left, is a double. -/
theorem JSNum.nearest_int_mul_pow (z : ℤ) (n : ℕ) (h : |z| < 2 ^ 53) :
    JSNum.nearest ((z : ℚ) * 2 ^ n) = (z : ℚ) * 2 ^ n := by
  have two : (2 : ℚ) ≠ 0 := by norm_num
  have key : ∀ k : ℤ, 0 < k → k < 2 ^ 53 →
      JSNum.nearest ((k : ℚ) * 2 ^ n) = (k : ℚ) * 2 ^ n := by
    intro k hk hlt
    have hkq : (0 : ℚ) < (k : ℚ) := by exact_mod_cast hk
    have hq : (0 : ℚ) < (k : ℚ) * 2 ^ n := by positivity
    have h0 : (0 : ℤ) ≤ JSNum.binade ((k : ℚ) * 2 ^ n) := by
      apply JSNum.le_binade
      rw [zpow_zero]
      have h1 : (1 : ℚ) ≤ (k : ℚ) := by exact_mod_cast hk
      have h2 : (1 : ℚ) ≤ (2 : ℚ) ^ n := one_le_pow₀ (by norm_num)
      calc (1 : ℚ) = 1 * 1 := by ring
        _ ≤ (k : ℚ) * 2 ^ n := mul_le_mul h1 h2 (by norm_num) hkq.le
    have h1 : JSNum.binade ((k : ℚ) * 2 ^ n) < 53 + (n : ℤ) := by
      apply JSNum.binade_lt _ _ hq
      rw [zpow_add₀ two, zpow_natCast]
      apply mul_lt_mul_of_pos_right _ (by positivity)
      rw [show ((53 : ℤ)) = ((53 : ℕ) : ℤ) by rfl, zpow_natCast]
      exact_mod_cast hlt
    obtain ⟨j, hj⟩ : ∃ j : ℕ,
        Max.max (JSNum.binade |(k : ℚ) * 2 ^ n|) (-1022) - 52 = (n : ℤ) - (j : ℤ) := by
      rw [abs_of_pos hq]
      exact ⟨(52 + (n : ℤ) - JSNum.binade ((k : ℚ) * 2 ^ n)).toNat, by omega⟩
    apply JSNum.nearest_of_grid _ (k * 2 ^ j)
    rw [JSNum.ulp_eq, hj, zpow_sub₀ two, zpow_natCast, zpow_natCast]
    push_cast
    field_simp
    ring
  rcases lt_trichotomy z 0 with hz | hz | hz
  · have := key (-z) (by omega) (by rw [abs_of_neg hz] at h; exact h)
    push_cast at this
    rw [neg_mul, JSNum.nearest_neg] at this
    linarith
  · rw [hz]
    simpa using JSNum.nearest_zero
  · exact key z hz (by rwa [abs_of_pos hz] at h)

theorem JSNum.overflowBound_gt_big : (2 : ℚ) ^ 100 < JSNum.overflowBound := by
  unfold JSNum.overflowBound
  norm_num

/-- A whole number of magnitude at most `2^53` is its own Number value. -/
theorem JSNum.ofRat_int (z : ℤ) (h : |z| ≤ 2 ^ 53) : JSNum.ofRat ((z : ℤ) : ℚ) = JSNum.fin z :=
  JSNum.ofRat_intCast z h

/-- A multiple of 1024 with a quotient below `2^53` is its own Number value. -/
theorem JSNum.ofRat_int_mul (z : ℤ) (h : |z| < 2 ^ 53) :
    JSNum.ofRat ((z : ℚ) * 1024) = JSNum.fin ((z : ℚ) * 1024) := by
  have hb := JSNum.overflowBound_gt_big
  have hz : |(z : ℚ)| < 2 ^ 53 := by exact_mod_cast h
  obtain ⟨l, u⟩ := abs_lt.mp hz
  have e := JSNum.nearest_int_mul_pow z 10 h
  norm_num at e
  rw [JSNum.ofRat_eq_fin _ (by linarith) (by linarith), e]

/-- Truncating division by 12 followed by the correction for a negative remainder is the
division that rounds down. -/
theorem Int.tdiv_tmod_floor (a : ℤ) :
    (if Int.tmod a 12 < 0 then Int.tdiv a 12 - 1 else Int.tdiv a 12) = a / 12 ∧
    (if Int.tmod a 12 < 0 then Int.tmod a 12 + 12 else Int.tmod a 12) = a % 12 := by
  rcases le_or_lt 0 a with h | h
  · rw [Int.tdiv_eq_ediv h (by norm_num), Int.tmod_eq_emod h (by norm_num)]
    constructor <;> split_ifs <;> omega
  · have h1 : Int.tdiv a 12 = -((-a) / 12) := by
      have := Int.neg_tdiv (-a) 12
      rw [neg_neg] at this
      rw [this, Int.tdiv_eq_ediv (by omega) (by norm_num)]
    have h2 : Int.tmod a 12 = a + 12 * ((-a) / 12) := by
      rw [Int.tmod_def, h1]
      ring
    rw [h1, h2]
    constructor <;> split_ifs <;> omega

theorem Int.decide_tmod_eq_zero (a b : ℤ) : decide (Int.tmod a b = 0) = (a % b == 0) := by
  rw [Bool.eq_iff_iff, decide_eq_true_iff, beq_iff_eq, ← Int.dvd_iff_tmod_eq_zero,
    ← Int.dvd_iff_emod_eq_zero]

theorem Int.decide_tmod_ne_zero (a b : ℤ) : decide (Int.tmod a b ≠ 0) = (a % b != 0) := by
  rw [Bool.eq_iff_iff, decide_eq_true_iff, bne_iff_ne, Ne, Ne, ← Int.dvd_iff_tmod_eq_zero,
    ← Int.dvd_iff_emod_eq_zero]

theorem JS.daysBeforeMonth_bounds (mn : ℤ) (leap : Bool) :
    0 ≤ JS.daysBeforeMonth mn leap ∧ JS.daysBeforeMonth mn leap ≤ 335 := by
  by_cases h : mn = 0 ∨ mn = 1 ∨ mn = 2 ∨ mn = 3 ∨ mn = 4 ∨ mn = 5 ∨ mn = 6 ∨ mn = 7 ∨
      mn = 8 ∨ mn = 9 ∨ mn = 10
  · rcases h with rfl | rfl | rfl | rfl | rfl | rfl | rfl | rfl | rfl | rfl | rfl <;>
      cases leap <;> decide
  · simp only [not_or] at h
    obtain ⟨h0, h1, h2, h3, h4, h5, h6, h7, h8, h9, h10⟩ := h
    unfold JS.daysBeforeMonth
    simp only [if_neg h0, if_neg h1, if_neg h2, if_neg h3, if_neg h4, if_neg h5, if_neg h6,
      if_neg h7, if_neg h8, if_neg h9, if_neg h10]
    constructor <;> split_ifs <;> omega
/-- The day number of 1 January as V8 counts it, for a year from -399999 on. -/
theorem JS.dayFromYear_shifted (y : ℤ) (hy : -399999 ≤ y) :
    365 * (y + 399999) + Int.tdiv (y + 399999) 4 - Int.tdiv (y + 399999) 100 +
      Int.tdiv (y + 399999) 400 - JS.kBaseDay = JS.dayFromYear y := by
  rw [Int.tdiv_eq_ediv (by omega) (by norm_num), Int.tdiv_eq_ediv (by omega) (by norm_num),
    Int.tdiv_eq_ediv (by omega) (by norm_num)]
  unfold JS.kBaseDay JS.dayFromYear
  omega

/-- The leap-year test of V8 is the Gregorian one. -/
theorem JS.isLeapYear_tmod (y : ℤ) :
    (!(decide (Int.tmod y 4 ≠ 0) ||
      (decide (Int.tmod y 100 = 0) && decide (Int.tmod y 400 ≠ 0)))) = JS.isLeapYear y := by
  unfold JS.isLeapYear
  rw [Int.decide_tmod_ne_zero, Int.decide_tmod_ne_zero, Int.decide_tmod_eq_zero]
  simp only [bne]
  generalize (y % 4 == 0) = a
  generalize (y % 100 == 0) = b
  generalize (y % 400 == 0) = c
  cases a <;> cases b <;> cases c <;> rfl

/-- On whole numbers in range `MakeDay` is the day number of ECMAScript. -/
theorem JS.makeDay_int (yr m d : ℤ) (hy1 : -1000000 ≤ yr) (hy2 : yr ≤ 1000000)
    (hm1 : -10000000 ≤ m) (hm2 : m ≤ 10000000) (hyr : -399999 ≤ yr + m / 12)
    (hd : |JS.dayNumber yr m d| ≤ 2 ^ 53) :
    JS.makeDay (JSNum.fin yr) (JSNum.fin m) (JSNum.fin d) = JSNum.fin (JS.dayNumber yr m d) := by
  have c1 : (-1000000 : ℚ) ≤ (yr : ℚ) := by exact_mod_cast hy1
  have c2 : (yr : ℚ) ≤ 1000000 := by exact_mod_cast hy2
  have c3 : (-10000000 : ℚ) ≤ (m : ℚ) := by exact_mod_cast hm1
  have c4 : (m : ℚ) ≤ 10000000 := by exact_mod_cast hm2
  obtain ⟨f1, f2⟩ := Int.tdiv_tmod_floor m
  unfold JS.makeDay
  simp only [if_pos (And.intro c1 (And.intro c2 (And.intro c3 c4))), JSNum.truncate_intCast]
  have e1 : (if Int.tmod m 12 < 0 then yr + Int.tdiv m 12 - 1 else yr + Int.tdiv m 12) =
      yr + m / 12 := by
    rw [← f1]
    split_ifs <;> ring
  rw [e1, f2, JS.dayFromYear_shifted _ hyr, JS.isLeapYear_tmod]
  simp only [JSNum.add]
  have e2 : ((JS.dayFromYear (yr + m / 12) +
      JS.daysBeforeMonth (m % 12) (JS.isLeapYear (yr + m / 12)) - 1 : ℤ) : ℚ) + (d : ℚ) =
      ((JS.dayNumber yr m d : ℤ) : ℚ) := by
    unfold JS.dayNumber
    push_cast
    ring
  rw [e2]
  exact JSNum.ofRat_int _ hd

/-- Outside the range of years or months, and on a NaN or an infinity, `MakeDay` is NaN. -/
theorem JS.makeDay_nan (year month date : JSNum)
    (h : (∀ q, year ≠ JSNum.fin q) ∨ (∀ q, month ≠ JSNum.fin q) ∨ (∀ q, date ≠ JSNum.fin q) ∨
      (∃ q, year = JSNum.fin q ∧ (q < -1000000 ∨ 1000000 < q)) ∨
      (∃ q, month = JSNum.fin q ∧ (q < -10000000 ∨ 10000000 < q))) :
    JS.makeDay year month date = JSNum.nan := by
  unfold JS.makeDay
  split
  · rename_i yr mo dt
    rcases h with h | h | h | ⟨q, hq, hr⟩ | ⟨q, hq, hr⟩
    · exact absurd rfl (h yr)
    · exact absurd rfl (h mo)
    · exact absurd rfl (h dt)
    · injection hq with hq
      subst hq
      rw [if_neg]
      rintro ⟨a, b, -⟩
      rcases hr with hr | hr <;> linarith
    · injection hq with hq
      subst hq
      rw [if_neg]
      rintro ⟨-, -, a, b⟩
      rcases hr with hr | hr <;> linarith
  · rfl

/-- On whole hours and minutes of moderate size `MakeTime` is exact. -/
theorem JS.makeTime_int (h mi : ℤ) (hh : |h| ≤ 1000000000) (hmi : |mi| ≤ 10000000000) :
    JS.makeTime (JSNum.fin h) (JSNum.fin mi) =
      JSNum.fin ((h * 3600000 + mi * 60000 : ℤ) : ℚ) := by
  obtain ⟨h1, h2⟩ := abs_le.mp hh
  obtain ⟨m1, m2⟩ := abs_le.mp hmi
  unfold JS.makeTime
  simp only [JSNum.truncate_intCast, JSNum.mul]
  have e1 : (h : ℚ) * 3600000 = ((h * 3600000 : ℤ) : ℚ) := by push_cast; ring
  have e2 : (mi : ℚ) * 60000 = ((mi * 60000 : ℤ) : ℚ) := by push_cast; ring
  rw [e1, e2, JSNum.ofRat_int _ (by rw [abs_le]; constructor <;> norm_num <;> omega),
    JSNum.ofRat_int _ (by rw [abs_le]; constructor <;> norm_num <;> omega)]
  simp only [JSNum.add]
  rw [← Int.cast_add]
  exact JSNum.ofRat_int _ (by rw [abs_le]; constructor <;> norm_num <;> omega)

/-- On a whole day number and a whole time of moderate size, the clipped date is the exact
time value when that is within 8.64e15 ms of the epoch, and NaN when it is not. -/
theorem JS.timeClip_makeDate_int (dn t : ℤ) (hdn : |dn| ≤ 1000000000)
    (ht : |t| ≤ 5000000000000000) :
    JS.timeClip (JS.makeDate (JSNum.fin dn) (JSNum.fin t)) =
      if 8640000000000000 < (t + dn * 86400000).natAbs then JSNum.nan
      else JSNum.fin ((t + dn * 86400000 : ℤ) : ℚ) := by
  obtain ⟨d1, d2⟩ := abs_le.mp hdn
  obtain ⟨t1, t2⟩ := abs_le.mp ht
  have hb := JSNum.overflowBound_gt_big
  unfold JS.makeDate
  simp only [JSNum.mul]
  have e1 : (dn : ℚ) * 86400000 = ((dn * 84375 : ℤ) : ℚ) * 1024 := by push_cast; ring
  rw [e1, JSNum.ofRat_int_mul _ (by rw [abs_lt]; constructor <;> norm_num <;> omega)]
  simp only [JSNum.add]
  have e2 : (t : ℚ) + ((dn * 84375 : ℤ) : ℚ) * 1024 = ((t + dn * 86400000 : ℤ) : ℚ) := by
    push_cast
    ring
  rw [e2]
  generalize hS : t + dn * 86400000 = S
  have hSb : |S| ≤ 2 ^ 60 := by
    rw [abs_le]
    constructor <;> norm_num <;> omega
  have hSq : |(S : ℚ)| ≤ 2 ^ 60 := by exact_mod_cast hSb
  obtain ⟨s1, s2⟩ := abs_le.mp hSq
  have hfin : JSNum.ofRat (S : ℚ) = JSNum.fin (JSNum.nearest (S : ℚ)) :=
    JSNum.ofRat_eq_fin _ (by linarith) (by linarith)
  have n1 : JSNum.nearest ((8640000000000001 : ℤ) : ℚ) = ((8640000000000001 : ℤ) : ℚ) :=
    JSNum.nearest_intCast _ (by norm_num)
  by_cases hgt : 8640000000000000 < S.natAbs
  · rw [if_pos hgt, hfin]
    unfold JS.timeClip
    simp only
    rw [if_neg]
    rintro ⟨a, b⟩
    rcases le_or_lt 0 S with hs | hs
    · have h1 : (8640000000000001 : ℤ) ≤ S := by omega
      have h2 : ((8640000000000001 : ℤ) : ℚ) ≤ (S : ℚ) := by exact_mod_cast h1
      have := JSNum.nearest_mono _ _ h2
      rw [n1] at this
      push_cast at this
      linarith
    · have h1 : S ≤ -(8640000000000001 : ℤ) := by omega
      have h2 : (S : ℚ) ≤ -((8640000000000001 : ℤ) : ℚ) := by exact_mod_cast h1
      have := JSNum.nearest_mono _ _ h2
      rw [JSNum.nearest_neg, n1] at this
      push_cast at this
      linarith
  · rw [if_neg hgt, JSNum.ofRat_int _ (by rw [abs_le]; constructor <;> norm_num <;> omega)]
    unfold JS.timeClip
    simp only [JSNum.truncate_intCast]
    rw [if_pos]
    constructor
    · have : (-8640000000000000 : ℤ) ≤ S := by omega
      exact_mod_cast this
    · have : S ≤ (8640000000000000 : ℤ) := by omega
      exact_mod_cast this

theorem JS.parseInt_eq_nan_iff (s : List Char) :
    JS.parseInt s = JSNum.nan ↔ JS.parseIntValue s = none := by
  unfold JS.parseInt
  cases JS.parseIntValue s with
  | none => simp
  | some z => simp [JSNum.ofRat_ne_nan]

theorem IsIntegerStart.head_digit (u : List Char) (h : IsIntegerStart u) :
    ∃ d r, u = d :: r ∧ JS.isDigit d = true := by
  rcases h with ⟨x, h, r, -, -, rfl⟩ | ⟨d, r, hd, rfl, -⟩
  · exact ⟨'0', _, rfl, by decide⟩
  · exact ⟨d, r, rfl, hd⟩

theorem List.takeWhile_isEmpty_iff {α : Type} (p : α → Bool) (l : List α) :
    (l.takeWhile p).isEmpty = true ↔ ∀ c ∈ l.head?, p c = false := by
  cases l with
  | nil => simp
  | cons a r =>
    by_cases h : p a = true
    · simp [List.takeWhile, h]
    · have h' : p a = false := by simpa using h
      simp [List.takeWhile, h']

/-- What `parseInt` reads after the whitespace and the sign. -/
theorem JS.parseIntValue_start (s : List Char) (sign : Option Bool) (u : List Char)
    (hs : JS.trimStart s = signText sign ++ u)
    (hu : sign = none → ∀ c ∈ u.head?, c ≠ '-' ∧ c ≠ '+') :
    JS.parseIntValue s = none ↔ ¬ IsIntegerStart u := by
  have hsign := JS.sign_match_text sign u hu
  unfold JS.parseIntValue
  simp only [hs, hsign]
  split
  · rename_i x r
    by_cases hx : x = 'x' ∨ x = 'X'
    · simp only [if_pos hx]
      rw [ite_eq_left_iff]
      simp only [reduceCtorEq, imp_false, not_not, List.takeWhile_isEmpty_iff]
      constructor
      · intro hr hstart
        rcases hstart with ⟨x', h', r', -, hh, heq⟩ | ⟨d, r', -, heq, hnot⟩
        · injection heq with _ heq
          injection heq with _ heq
          subst heq
          have := hr h' (by simp)
          rw [this] at hh
          simp at hh
        · injection heq with h1 h2
          subst h1 h2
          exact hnot ⟨rfl, x, r, hx, rfl⟩
      · intro hstart c hc
        by_contra hcon
        apply hstart
        rcases r with _ | ⟨h', r'⟩
        · simp at hc
        · simp at hc
          subst hc
          exact Or.inl ⟨x, h', r', hx, (by
            revert hcon
            cases (JS.hexDigit? h').isSome <;> simp), rfl⟩
    · simp only [if_neg hx]
      have hd0 : JS.isDigit '0' = true := by decide
      simp only [List.takeWhile, hd0, List.isEmpty_cons, Bool.false_eq_true, if_false,
        reduceCtorEq, false_iff, not_not]
      refine Or.inr ⟨'0', x :: r, hd0, rfl, ?_⟩
      rintro ⟨-, x', r', hx', heq⟩
      injection heq with h1 h2
      subst h1
      exact hx hx'
  · rename_i hnot
    rw [ite_eq_left_iff]
    simp only [reduceCtorEq, imp_false, not_not, List.takeWhile_isEmpty_iff]
    constructor
    · intro hr hstart
      obtain ⟨d, r, rfl, hd⟩ := IsIntegerStart.head_digit u hstart
      have := hr d (by simp)
      rw [this] at hd
      cases hd
    · intro hstart c hc
      by_contra hcon
      apply hstart
      rcases u with _ | ⟨d, r⟩
      · simp at hc
      · simp at hc
        subst hc
        refine Or.inr ⟨d, r, by simpa using hcon, rfl, ?_⟩
        rintro ⟨rfl, x, r', -, rfl⟩
        exact hnot x r' rfl

/-- The texts on which `parseInt` gives NaN: those without the start of an integer after
the whitespace and the sign. -/
theorem JS.parseInt_nan_iff (s : List Char) :
    JS.parseInt s = JSNum.nan ↔ ¬ HasIntegerPrefix s := by
  rw [JS.parseInt_eq_nan_iff]
  obtain ⟨ws, hv, hws, -⟩ := JS.trimStart_split s
  obtain ⟨sign, u, ht, hu⟩ := JS.sign_split (JS.trimStart s)
  rw [JS.parseIntValue_start s sign u ht hu, not_iff_not]
  constructor
  · intro h
    exact ⟨ws, sign, u, by rw [← ht]; exact hv, hws, h⟩
  · rintro ⟨ws', sign', u', hs', hws', hstart⟩
    obtain ⟨d, r, rfl, hd⟩ := IsIntegerStart.head_digit u' hstart
    obtain ⟨n1, n2, -⟩ := JS.isDigit_ne d hd
    have htrim : JS.trimStart s = signText sign' ++ d :: r := by
      rw [hs']
      apply JS.trimStart_append ws' _ hws'
      intro c hc
      rcases sign' with _ | _ | _ <;> simp [signText] at hc <;> subst hc <;>
        first
          | rfl
          | exact isWhiteSpace_of_isDigit _ hd
    rw [htrim] at ht
    rcases sign' with _ | _ | _ <;> rcases sign with _ | _ | _ <;>
      simp only [signText, List.nil_append, List.cons_append] at ht
    · rw [← ht]
      exact hstart
    · injection ht with h1 _
      exact absurd h1 n2
    · injection ht with h1 _
      exact absurd h1 n1
    · have := hu rfl '+' (by rw [← ht]; simp)
      exact absurd rfl this.2
    · injection ht with _ h2
      rw [← h2]
      exact hstart
    · injection ht with h1 _
      cases h1
    · have := hu rfl '-' (by rw [← ht]; simp)
      exact absurd rfl this.1
    · injection ht with h1 _
      cases h1
    · injection ht with _ h2
      rw [← h2]
      exact hstart

theorem JS.timeClip_nan_or_fin (t : JSNum) :
    JS.timeClip t = JSNum.nan ∨ ∃ z : ℤ, JS.timeClip t = JSNum.fin (z : ℚ) := by
  unfold JS.timeClip
  split
  · split_ifs
    · exact Or.inr ⟨_, rfl⟩
    · exact Or.inl rfl
  · exact Or.inl rfl

/-- A time value is NaN or a whole number. -/
theorem JS.dateUTC_nan_or_fin (year month day hour minute : JSNum) :
    JS.dateUTC year month day hour minute = JSNum.nan ∨
      ∃ z : ℤ, JS.dateUTC year month day hour minute = JSNum.fin (z : ℚ) := by
  unfold JS.dateUTC
  exact JS.timeClip_nan_or_fin _

/-- The result of `parseTimestamp` on five tokens that are present and not empty. -/
theorem parseTimestamp_present (y m d h mi : List Char)
    (hy : y ≠ []) (hm : m ≠ []) (hd : d ≠ []) (hh : h ≠ []) (hmi : mi ≠ []) :
    parseTimestamp (some y) (some m) (some d) (some h) (some mi) =
      match JS.dateUTC (JS.parseInt y) (JSNum.sub (JS.parseInt m) (JSNum.fin 1)) (JS.parseInt d)
          (JS.parseInt h) (JS.parseInt mi) with
      | JSNum.fin t => some (JS.toISOString (JSNum.truncate t))
      | _ => none := by
  have ty := (JS.truthy_iff y).mpr hy
  have tm := (JS.truthy_iff m).mpr hm
  have td := (JS.truthy_iff d).mpr hd
  have th := (JS.truthy_iff h).mpr hh
  have tmi := (JS.truthy_iff mi).mpr hmi
  unfold parseTimestamp
  simp only [ty, tm, td, th, tmi, Bool.not_true, Bool.or_self, Bool.false_eq_true, if_false]

/-- A token that is missing or empty makes `parseTimestamp` return null. -/
theorem parseTimestamp_absent (year month day hour minute : Option (List Char))
    (h : ¬ IsPresent year ∨ ¬ IsPresent month ∨ ¬ IsPresent day ∨ ¬ IsPresent hour ∨
      ¬ IsPresent minute) :
    parseTimestamp year month day hour minute = none := by
  unfold parseTimestamp
  split
  · rename_i y m d h' mi
    have hcases : y = [] ∨ m = [] ∨ d = [] ∨ h' = [] ∨ mi = [] := by
      rcases h with h | h | h | h | h
      · left; by_contra hne; exact h ⟨_, rfl, hne⟩
      · right; left; by_contra hne; exact h ⟨_, rfl, hne⟩
      · right; right; left; by_contra hne; exact h ⟨_, rfl, hne⟩
      · right; right; right; left; by_contra hne; exact h ⟨_, rfl, hne⟩
      · right; right; right; right; by_contra hne; exact h ⟨_, rfl, hne⟩
    rcases hcases with rfl | rfl | rfl | rfl | rfl <;> simp [JS.truthy]
  · rfl

/-- `Date.UTC` is NaN when an argument is NaN or infinite, when the year is more than a
million from 0, and when the month is more than ten million from 0. -/
theorem JS.dateUTC_nan (year month day hour minute : JSNum)
    (h : (∀ q, year ≠ JSNum.fin q) ∨ (∀ q, month ≠ JSNum.fin q) ∨ (∀ q, day ≠ JSNum.fin q) ∨
      (∀ q, hour ≠ JSNum.fin q) ∨ (∀ q, minute ≠ JSNum.fin q) ∨
      (∃ q, year = JSNum.fin q ∧ (q < -1000000 ∨ 1000000 < q)) ∨
      (∃ q, month = JSNum.fin q ∧ (q < -10000000 ∨ 10000000 < q))) :
    JS.dateUTC year month day hour minute = JSNum.nan := by
  have hclip : ∀ a b, (a = JSNum.nan ∨ b = JSNum.nan) →
      JS.timeClip (JS.makeDate a b) = JSNum.nan := by
    intro a b hab
    rcases hab with rfl | rfl
    · rfl
    · cases a <;> rfl
  have htime : ((∀ q, hour ≠ JSNum.fin q) ∨ (∀ q, minute ≠ JSNum.fin q)) →
      JS.makeTime hour minute = JSNum.nan := by
    intro hhm
    unfold JS.makeTime
    split
    · rename_i a b
      rcases hhm with hhm | hhm
      · exact absurd rfl (hhm a)
      · exact absurd rfl (hhm b)
    · rfl
  unfold JS.dateUTC
  simp only
  rcases h with h | h | h | h | h | ⟨q, rfl, hq⟩ | h
  · apply hclip _ _ (Or.inl _)
    apply JS.makeDay_nan _ _ _ (Or.inl _)
    cases year with
    | fin q => exact absurd rfl (h q)
    | nan => intro q hq; cases hq
    | posInf => intro q hq; cases hq
    | negInf => intro q hq; cases hq
  · exact hclip _ _ (Or.inl (JS.makeDay_nan _ _ _ (Or.inr (Or.inl h))))
  · exact hclip _ _ (Or.inl (JS.makeDay_nan _ _ _ (Or.inr (Or.inr (Or.inl h)))))
  · exact hclip _ _ (Or.inr (htime (Or.inl h)))
  · exact hclip _ _ (Or.inr (htime (Or.inr h)))
  · apply hclip _ _ (Or.inl _)
    have hno : ¬ (0 ≤ JSNum.truncate q ∧ JSNum.truncate q ≤ 99) := by
      rintro ⟨a, b⟩
      unfold JSNum.truncate at a b
      rcases hq with hq | hq
      · rw [if_neg (by linarith)] at a
        have : ⌈q⌉ ≤ -1000000 := Int.ceil_le.mpr (by push_cast; linarith)
        omega
      · rw [if_pos (by linarith)] at b
        have : (1000000 : ℤ) ≤ ⌊q⌋ := Int.le_floor.mpr (by push_cast; linarith)
        omega
    simp only [if_neg hno]
    exact JS.makeDay_nan _ _ _ (Or.inr (Or.inr (Or.inr (Or.inl ⟨q, rfl, hq⟩))))
  · exact hclip _ _ (Or.inl (JS.makeDay_nan _ _ _ (Or.inr (Or.inr (Or.inr (Or.inr h))))))

theorem JS.dayFromYear_bounds (y : ℤ) (h1 : -400000 ≤ y) (h2 : y ≤ 400000) :
    -150000000 ≤ JS.dayFromYear y ∧ JS.dayFromYear y ≤ 150000000 := by
  unfold JS.dayFromYear
  constructor <;> omega

/-- On whole numbers of moderate size `Date.UTC` is the time value of ECMAScript, clipped. -/
theorem JS.dateUTC_int (Y M D H Mi : ℤ) (hY : |Y| ≤ 300000) (hM : |M| ≤ 1000000)
    (hD : |D| ≤ 100000000) (hH : |H| ≤ 1000000000) (hMi : |Mi| ≤ 10000000000) :
    JS.dateUTC (JSNum.fin Y) (JSNum.sub (JSNum.fin M) (JSNum.fin 1)) (JSNum.fin D) (JSNum.fin H)
        (JSNum.fin Mi) =
      if 8640000000000000 < (timeValue Y M D H Mi).natAbs then JSNum.nan
      else JSNum.fin ((timeValue Y M D H Mi : ℤ) : ℚ) := by
  obtain ⟨y1, y2⟩ := abs_le.mp hY
  obtain ⟨m1, m2⟩ := abs_le.mp hM
  obtain ⟨d1, d2⟩ := abs_le.mp hD
  have hsub : JSNum.sub (JSNum.fin M) (JSNum.fin 1) = JSNum.fin ((M - 1 : ℤ) : ℚ) := by
    simp only [JSNum.sub]
    rw [show (M : ℚ) - 1 = ((M - 1 : ℤ) : ℚ) by push_cast; ring]
    exact JSNum.ofRat_int _ (by rw [abs_le]; constructor <;> norm_num <;> omega)
  unfold JS.dateUTC
  simp only [JSNum.truncate_intCast, hsub]
  have hyr : (if 0 ≤ Y ∧ Y ≤ 99 then JSNum.fin ((1900 + Y : ℤ) : ℚ) else JSNum.fin (Y : ℚ)) =
      JSNum.fin (((if 0 ≤ Y ∧ Y ≤ 99 then 1900 + Y else Y : ℤ)) : ℚ) := by
    split_ifs <;> rfl
  rw [hyr]
  generalize hyrv : (if 0 ≤ Y ∧ Y ≤ 99 then 1900 + Y else Y : ℤ) = yr
  have r1 : -300000 ≤ yr ∧ yr ≤ 300000 := by
    rw [← hyrv]
    split_ifs <;> constructor <;> omega
  obtain ⟨b0, b1⟩ := JS.daysBeforeMonth_bounds ((M - 1) % 12) (JS.isLeapYear (yr + (M - 1) / 12))
  obtain ⟨f0, f1⟩ := JS.dayFromYear_bounds (yr + (M - 1) / 12) (by omega) (by omega)
  have hdn : |JS.dayNumber yr (M - 1) D| ≤ 1000000000 := by
    unfold JS.dayNumber
    simp only
    rw [abs_le]
    constructor <;> omega
  rw [JS.makeDay_int yr (M - 1) D (by omega) (by omega) (by omega) (by omega) (by omega)
    (le_trans hdn (by norm_num)), JS.makeTime_int H Mi hH hMi]
  obtain ⟨h1, h2⟩ := abs_le.mp hH
  obtain ⟨mi1, mi2⟩ := abs_le.mp hMi
  rw [JS.timeClip_makeDate_int _ _ hdn (by rw [abs_le]; constructor <;> omega)]
  have htv : H * 3600000 + Mi * 60000 + JS.dayNumber yr (M - 1) D * 86400000 =
      timeValue Y M D H Mi := by
    unfold timeValue
    rw [hyrv]
    ring
  rw [htv]

/-- A month beyond 12 is carried into the next year. -/
theorem timeValue_month_carry (year month day hour minute : Int)
    (hy : ¬ (0 ≤ year ∧ year ≤ 99)) (hy1 : ¬ (0 ≤ year + 1 ∧ year + 1 ≤ 99)) :
    timeValue year (month + 12) day hour minute = timeValue (year + 1) month day hour minute := by
  unfold timeValue JS.dayNumber
  simp only [if_neg hy, if_neg hy1]
  have h1 : (month + 12 - 1) / 12 = (month - 1) / 12 + 1 := by omega
  have h2 : (month + 12 - 1) % 12 = (month - 1) % 12 := by omega
  rw [h1, h2]
  have h3 : year + ((month - 1) / 12 + 1) = year + 1 + (month - 1) / 12 := by ring
  rw [h3]

/-- Each day beyond the end of a month is one more day of 86400000 ms. -/
theorem timeValue_day_carry (year month day hour minute k : Int) :
    timeValue year month (day + k) hour minute =
      timeValue year month day hour minute + k * 86400000 := by
  unfold timeValue JS.dayNumber
  ring

/-- The counterexample to C15: month 13 and day 30 of month 02 do not give null; the
first is read as January of the next year and the second as 1 March. -/
theorem parseTimestamp_invalid_date_counterexample :
    parseTimestamp (some "2024".toList) (some "13".toList) (some "15".toList)
        (some "12".toList) (some "00".toList) = some "2025-01-15T12:00:00.000Z".toList ∧
    parseTimestamp (some "2024".toList) (some "02".toList) (some "30".toList)
        (some "12".toList) (some "00".toList) = some "2024-03-01T12:00:00.000Z".toList := by
  constructor <;> decide!

/-- C15 (amended): `parseTimestamp` is a total function whose result is null exactly when
a token is missing or empty or `Date.UTC` of the five numbers read by `parseInt` is NaN.
`parseInt` gives NaN exactly for a token that has, after whitespace and an optional sign,
neither `0x` or `0X` with a hexadecimal digit nor a decimal digit that is not the 0 of a
`0x`.  `Date.UTC` is NaN when one of the five numbers is NaN or infinite, when the year is
more than a million from 0, and when the month is more than ten million from 0.  For
tokens that read as whole numbers with a year within 300000, a month within a million, a
day within `10^8`, an hour within `10^9` and a minute within `10^10` of 0, the result is
null when the time value `timeValue` of the five numbers exceeds 8.64e15 ms in magnitude,
and otherwise the ISO string of that instant, in which fields out of their calendar range
are not rejected but carried over: twelve months more is the same month of the next year,
and `k` days more is the instant `k` days later. -/
theorem parseTimestamp_null_iff (year month day hour minute : Option (List Char)) :
    (parseTimestamp year month day hour minute = none ↔
      (¬ IsPresent year ∨ ¬ IsPresent month ∨ ¬ IsPresent day ∨ ¬ IsPresent hour ∨
        ¬ IsPresent minute) ∨
      ∃ y m d h mi, year = some y ∧ month = some m ∧ day = some d ∧ hour = some h ∧
        minute = some mi ∧
        JS.dateUTC (JS.parseInt y) (JSNum.sub (JS.parseInt m) (JSNum.fin 1)) (JS.parseInt d)
          (JS.parseInt h) (JS.parseInt mi) = JSNum.nan) ∧
    (∀ s, JS.parseInt s = JSNum.nan ↔ ¬ HasIntegerPrefix s) ∧
    (∀ Y M D H Mi : JSNum,
      ((∀ q, Y ≠ JSNum.fin q) ∨ (∀ q, M ≠ JSNum.fin q) ∨ (∀ q, D ≠ JSNum.fin q) ∨
        (∀ q, H ≠ JSNum.fin q) ∨ (∀ q, Mi ≠ JSNum.fin q) ∨
        (∃ q, Y = JSNum.fin q ∧ (q < -1000000 ∨ 1000000 < q)) ∨
        (∃ q, M = JSNum.fin q ∧ (q < -10000000 ∨ 10000000 < q))) →
      JS.dateUTC Y M D H Mi = JSNum.nan) ∧
    (∀ y m d h mi (Y M D H Mi : ℤ), year = some y → month = some m → day = some d →
      hour = some h → minute = some mi → y ≠ [] → m ≠ [] → d ≠ [] → h ≠ [] → mi ≠ [] →
      JS.parseInt y = JSNum.fin Y → JS.parseInt m = JSNum.fin M → JS.parseInt d = JSNum.fin D →
      JS.parseInt h = JSNum.fin H → JS.parseInt mi = JSNum.fin Mi →
      |Y| ≤ 300000 → |M| ≤ 1000000 → |D| ≤ 100000000 → |H| ≤ 1000000000 →
      |Mi| ≤ 10000000000 →
      parseTimestamp year month day hour minute =
        if 8640000000000000 < (timeValue Y M D H Mi).natAbs then none
        else some (JS.toISOString (timeValue Y M D H Mi))) ∧
    (∀ Y M D H Mi : Int, ¬ (0 ≤ Y ∧ Y ≤ 99) → ¬ (0 ≤ Y + 1 ∧ Y + 1 ≤ 99) →
      timeValue Y (M + 12) D H Mi = timeValue (Y + 1) M D H Mi) ∧
    (∀ Y M D H Mi k : Int, timeValue Y M (D + k) H Mi = timeValue Y M D H Mi + k * 86400000) := by
  refine ⟨?_, JS.parseInt_nan_iff, JS.dateUTC_nan, ?_, timeValue_month_carry,
    timeValue_day_carry⟩
  · by_cases hp : IsPresent year ∧ IsPresent month ∧ IsPresent day ∧ IsPresent hour ∧
        IsPresent minute
    · obtain ⟨⟨y, rfl, hy⟩, ⟨m, rfl, hm⟩, ⟨d, rfl, hd⟩, ⟨h, rfl, hh⟩, ⟨mi, rfl, hmi⟩⟩ := hp
      rw [parseTimestamp_present y m d h mi hy hm hd hh hmi]
      have hpres : ∀ s : List Char, s ≠ [] → IsPresent (some s) := fun s hs => ⟨s, rfl, hs⟩
      constructor
      · intro hnone
        right
        refine ⟨y, m, d, h, mi, rfl, rfl, rfl, rfl, rfl, ?_⟩
        rcases JS.dateUTC_nan_or_fin (JS.parseInt y) (JSNum.sub (JS.parseInt m) (JSNum.fin 1))
          (JS.parseInt d) (JS.parseInt h) (JS.parseInt mi) with hn | ⟨z, hz⟩
        · exact hn
        · rw [hz] at hnone
          cases hnone
      · rintro (hab | ⟨y', m', d', h', mi', ey, em, ed, eh, emi, hrest⟩)
        · rcases hab with hab | hab | hab | hab | hab
          · exact absurd (hpres y hy) hab
          · exact absurd (hpres m hm) hab
          · exact absurd (hpres d hd) hab
          · exact absurd (hpres h hh) hab
          · exact absurd (hpres mi hmi) hab
        · injection ey with ey
          injection em with em
          injection ed with ed
          injection eh with eh
          injection emi with emi
          subst ey em ed eh emi
          rw [hrest]
    · have hab : ¬ IsPresent year ∨ ¬ IsPresent month ∨ ¬ IsPresent day ∨ ¬ IsPresent hour ∨
          ¬ IsPresent minute := by
        by_contra hcon
        push_neg at hcon
        exact hp hcon
      simp only [parseTimestamp_absent year month day hour minute hab, true_iff]
      exact Or.inl hab
  · intro y m d h mi Y M D H Mi ey em ed eh emi hy hm hd hh hmi hY hM hD hH hMi bY bM bD bH bMi
    subst ey em ed eh emi
    rw [parseTimestamp_present y m d h mi hy hm hd hh hmi, hY, hM, hD, hH, hMi,
      JS.dateUTC_int Y M D H Mi bY bM bD bH bMi]
    split_ifs
    · rfl
    · simp only [JSNum.truncate_intCast]

theorem parseTimestamp_null_iff_witness :
    parseTimestamp (some "2024".toList) (some "13".toList) (some "15".toList)
        (some "12".toList) (some "00".toList) =
      (if 8640000000000000 < (timeValue 2024 13 15 12 0).natAbs then none
        else some (JS.toISOString (timeValue 2024 13 15 12 0))) ∧
    timeValue 2024 13 15 12 0 = 1736942400000 ∧
    timeValue 2024 (1 + 12) 15 12 0 = timeValue (2024 + 1) 1 15 12 0 ∧
    JS.toISOString (timeValue 2025 1 15 12 0) = "2025-01-15T12:00:00.000Z".toList ∧
    (parseTimestamp (some "1000001".toList) (some "01".toList) (some "-364523337".toList)
        (some "12".toList) (some "00".toList) = none ∧
      timeValue 1000001 1 (-364523337) 12 0 = 43200000) ∧
    JS.parseInt "9007199254740993".toList = JSNum.fin 9007199254740992 ∧
    JS.parseInt "0x".toList = JSNum.nan ∧ JS.parseInt "0x1F".toList = JSNum.fin 31 :=
  ⟨(parseTimestamp_null_iff (some "2024".toList) (some "13".toList) (some "15".toList)
      (some "12".toList) (some "00".toList)).2.2.2.1 "2024".toList "13".toList "15".toList
      "12".toList "00".toList 2024 13 15 12 0 rfl rfl rfl rfl rfl (by decide) (by decide)
      (by decide) (by decide) (by decide) (by decide!) (by decide!) (by decide!) (by decide!)
      (by decide!) (by decide) (by decide) (by decide) (by decide) (by decide),
   by decide!,
   (parseTimestamp_null_iff none none none none none).2.2.2.2.1 2024 1 15 12 0 (by decide)
      (by decide),
   by decide!, ⟨by decide!, by decide!⟩, by decide!, by decide!, by decide!⟩

/-! ## Wind phrases with compass tokens -/

/-- An alternation of literals matches the texts that are one of the words. -/
theorem Regex.matches_words (words : List (List Char)) (m rest : List Char) (delta : Captures) :
    Regex.Matches (words.foldr (fun dir r => Regex.alt (Regex.litI (String.mk dir)) r)
        (Regex.cls (fun _ => false))) m rest delta ↔
      (∃ dir ∈ words, IsWord (String.mk dir) m) ∧ delta = [] := by
  induction words with
  | nil =>
    simp only [List.foldr_nil, Regex.matches_cls, List.not_mem_nil, false_and, exists_false]
    simp
  | cons w ws ih =>
    simp only [List.foldr_cons, Regex.matches_alt, Regex.matches_litI, ih, List.mem_cons]
    constructor
    · rintro (⟨hw, rfl⟩ | ⟨⟨dir, hdir, hm⟩, rfl⟩)
      · exact ⟨⟨w, Or.inl rfl, hw⟩, rfl⟩
      · exact ⟨⟨dir, Or.inr hdir, hm⟩, rfl⟩
    · rintro ⟨⟨dir, rfl | hdir, hm⟩, rfl⟩
      · exact Or.inl ⟨hm, rfl⟩
      · exact Or.inr ⟨⟨dir, hdir, hm⟩, rfl⟩

theorem Regex.matches_compassToken (m rest : List Char) (delta : Captures) :
    Regex.Matches compassTokenPattern m rest delta ↔ IsCompassToken m ∧ delta = [] :=
  Regex.matches_words compassTokens m rest delta

/-- The direction part of the specified wind pattern. -/
theorem Regex.matches_compassDirection (m rest : List Char) (delta : Captures) :
    Regex.Matches (Regex.seq compassTokenPattern
        (Regex.opt (Regex.cat [Regex.spaces, Regex.litI "to", Regex.spaces,
          compassTokenPattern]))) m rest delta ↔
      IsCompassDirection m ∧ delta = [] := by
  rw [Regex.matches_seq_plain _ _ _ _ Regex.matches_compassToken
    (Regex.matches_joined _ _ Regex.matches_compassToken)]
  constructor
  · rintro ⟨⟨t1, tail, rfl, ht1, second, hsec⟩, rfl⟩
    exact ⟨⟨t1, tail, second, rfl, ht1, hsec⟩, rfl⟩
  · rintro ⟨⟨t1, tail, second, rfl, ht1, hsec⟩, rfl⟩
    exact ⟨⟨t1, tail, rfl, ht1, second, hsec⟩, rfl⟩

/-- The matches of the specified wind pattern are the wind phrases with compass tokens. -/
theorem compassWindPattern_matches (m rest : List Char) (delta : Captures) :
    Regex.Matches compassWindPattern m rest delta ↔
      ∃ dir speed, IsCompassWindPhrase m dir speed ∧ delta = [(2, speed), (1, dir)] := by
  have hdir := Regex.matches_compassDirection
  have hspeed := Regex.matches_speed
  simp only [Regex.cat_cons, Regex.cat_nil] at hdir hspeed
  unfold compassWindPattern
  simp only [Regex.cat_cons, Regex.cat_nil]
  rw [Regex.matches_seq]
  simp only [Regex.matches_group, hdir,
    Regex.matches_seq_left _ _ _ Regex.matches_spaces,
    Regex.matches_seq_left _ _ _ (Regex.matches_litI "wind"),
    Regex.matches_seq_left _ _ _ Regex.matches_optS, Regex.matches_seq_empty,
    hspeed]
  constructor
  · rintro ⟨dir, r1, d1, d2, rfl, ⟨d, ⟨hd, rfl⟩, rfl⟩, ⟨ws1, r2, rfl, hws1, w0, r3, rfl, hw0,
      sopt, r4, rfl, hs, ws2, speed, rfl, hws2, d', ⟨hsp, rfl⟩, rfl⟩, rfl⟩
    refine ⟨dir, speed, ⟨ws1, w0 ++ sopt, ws2, by simp, hd, hws1, IsWord.append_s w0 sopt hw0 hs,
      hws2, hsp⟩, rfl⟩
  · rintro ⟨dir, speed, ⟨ws1, w, ws2, rfl, hd, hws1, hw, hws2, hsp⟩, rfl⟩
    obtain ⟨w0, sopt, rfl, hw0, hs⟩ := IsWord.split_s w hw
    exact ⟨dir, _, [(1, dir)], [(2, speed)], rfl, ⟨[], ⟨hd, rfl⟩, rfl⟩,
      ⟨ws1, _, rfl, hws1, w0, _, by simp, hw0, sopt, _, rfl, hs, ws2, speed, rfl, hws2, [],
        ⟨hsp, rfl⟩, rfl⟩, rfl⟩

/-- The text contains a wind phrase with compass tokens exactly when the specified wind
pattern occurs in it. -/
theorem compassWindPattern_occurs (text : List Char) :
    Regex.Occurs compassWindPattern text ↔
      ∃ pre phrase post dir speed, text = pre ++ (phrase ++ post) ∧
        IsCompassWindPhrase phrase dir speed := by
  constructor
  · rintro ⟨pre, m, rest, delta, htext, hm⟩
    obtain ⟨dir, speed, hphrase, -⟩ := (compassWindPattern_matches m rest delta).mp hm
    exact ⟨pre, m, rest, dir, speed, htext, hphrase⟩
  · rintro ⟨pre, phrase, post, dir, speed, htext, hphrase⟩
    exact ⟨pre, phrase, post, _, htext,
      (compassWindPattern_matches phrase post _).mpr ⟨dir, speed, hphrase, rfl⟩⟩

/-- A text written like a word of letters, in either case, is a run of letters of the
length of the word. -/
theorem IsWord.letters (word s : List Char)
    (hw : ∀ c ∈ word, Regex.isLetter c.toLower = true ∧ Regex.isLetter c.toUpper = true)
    (h : List.Forall₂ (fun x c => x = c.toLower ∨ x = c.toUpper) s word) :
    (∀ c ∈ s, Regex.isLetter c = true) ∧ s.length = word.length := by
  induction h with
  | nil => simp
  | @cons x c s' word' hx _ ih =>
    obtain ⟨h1, h2⟩ := ih (fun c hc => hw c (List.mem_cons_of_mem _ hc))
    obtain ⟨l1, l2⟩ := hw c (List.mem_cons_self _ _)
    refine ⟨?_, by simp [h2]⟩
    intro y hy
    rcases List.mem_cons.mp hy with rfl | hy
    · rcases hx with rfl | rfl
      · exact l1
      · exact l2
    · exact h1 y hy

/-- A compass token is a run of one to three letters. -/
theorem IsCompassToken.letterToken (t : List Char) (h : IsCompassToken t) : IsLetterToken t := by
  obtain ⟨dir, hdir, hw⟩ := h
  have hall : ∀ d ∈ compassTokens, (∀ c ∈ d, Regex.isLetter c.toLower = true ∧
      Regex.isLetter c.toUpper = true) ∧ 1 ≤ d.length ∧ d.length ≤ 3 := by decide
  obtain ⟨hl, h1, h3⟩ := hall dir hdir
  obtain ⟨a, b⟩ := IsWord.letters dir t hl hw
  exact ⟨a, by omega, by omega⟩

/-- A wind phrase with compass tokens is a wind phrase of the pattern of `extractWind`. -/
theorem IsCompassWindPhrase.windPhrase (phrase dir speed : List Char)
    (h : IsCompassWindPhrase phrase dir speed) : IsWindPhrase phrase dir speed := by
  obtain ⟨ws1, w, ws2, hp, ⟨t1, tail, second, hd, ht1, hsec⟩, hws1, hw, hws2, hsp⟩ := h
  refine ⟨ws1, w, ws2, hp, ⟨t1, second, tail, hd, IsCompassToken.letterToken t1 ht1, ?_⟩,
    hws1, hw, hws2, hsp⟩
  rcases second with _ | ⟨tw, x⟩
  · exact hsec
  · obtain ⟨a, b, e, ha, htw, hb, hx⟩ := hsec
    exact ⟨a, b, e, ha, htw, hb, IsCompassToken.letterToken x hx⟩

theorem List.forall₂_congr_mem {α β : Type} (R S : α → β → Prop) (l2 : List β)
    (h : ∀ u ∈ l2, ∀ x, R x u ↔ S x u) (l1 : List α) :
    List.Forall₂ R l1 l2 ↔ List.Forall₂ S l1 l2 := by
  induction l2 generalizing l1 with
  | nil => simp
  | cons u us ih =>
    rw [List.forall₂_cons_right_iff, List.forall₂_cons_right_iff]
    constructor
    · rintro ⟨a, l, ha, hl, rfl⟩
      exact ⟨a, l, (h u (List.mem_cons_self _ _) a).mp ha,
        (ih (fun v hv => h v (List.mem_cons_of_mem _ hv)) l).mp hl, rfl⟩
    · rintro ⟨a, l, ha, hl, rfl⟩
      exact ⟨a, l, (h u (List.mem_cons_self _ _) a).mpr ha,
        (ih (fun v hv => h v (List.mem_cons_of_mem _ hv)) l).mpr hl, rfl⟩

/-- The compass tokens are the case variants of the keys of `directionMap`. -/
theorem isCompassToken_iff (t : List Char) :
    IsCompassToken t ↔ ∃ dir ∈ compassTokens, t ∈ caseVariants dir := by
  have hall : ∀ d ∈ compassTokens, ∀ u ∈ d,
      u.toUpper = u ∧ u.toLower = Char.ofNat (u.toNat + 32) := by decide
  unfold IsCompassToken IsWord
  constructor
  · rintro ⟨dir, hdir, hw⟩
    refine ⟨dir, hdir, (mem_caseVariants dir t).mpr ?_⟩
    refine (List.forall₂_congr_mem _ _ dir (fun u hu x => ?_) t).mp hw
    obtain ⟨a, b⟩ := hall dir hdir u hu
    rw [a, b]
    exact or_comm
  · rintro ⟨dir, hdir, hv⟩
    refine ⟨dir, hdir, ?_⟩
    refine (List.forall₂_congr_mem _ _ dir (fun u hu x => ?_) t).mpr
      ((mem_caseVariants dir t).mp hv)
    obtain ⟨a, b⟩ := hall dir hdir u hu
    rw [a, b]
    exact or_comm

/-- C19: the sentinel of `extractWind` is not returned exactly on the texts without a wind
phrase of the specified form.  The text `Calm winds 10 kt` contains no wind phrase with
compass tokens, yet `extractWind` returns `alm winds 10 kt` instead of the empty string:
its pattern accepts any run of one to three letters, also the end of a longer word, as the
direction.  The other half holds, as do the two other sentinels: on a text that contains
a wind phrase with compass tokens the result is not empty, `extractSeas` returns `Unknown`
exactly when the text contains no phrase `seas N to M ft` or `seas N ft or less`, and
`extractWeather` returns null exactly when the text contains no non-empty run of letters
and whitespace between two periods. -/
theorem extractWind_sentinel_missed :
    extractWind "Calm winds 10 kt".toList = "alm winds 10 kt".toList ∧
    (¬ ∃ pre phrase post dir speed, "Calm winds 10 kt".toList = pre ++ (phrase ++ post) ∧
      IsCompassWindPhrase phrase dir speed) ∧
    (∀ text, (∃ pre phrase post dir speed, text = pre ++ (phrase ++ post) ∧
      IsCompassWindPhrase phrase dir speed) → extractWind text ≠ []) ∧
    (∀ text, extractSeas text = "Unknown".toList ↔
      ¬ ∃ pre phrase post h, text = pre ++ (phrase ++ post) ∧ IsSeasPhrase phrase h) ∧
    (∀ text, extractWeather text = none ↔
      ¬ ∃ pre clause post, text = pre ++ ('.' :: (clause ++ '.' :: post)) ∧
        IsClause clause) := by
  refine ⟨by decide!, ?_, ?_, fun text => (extractors_sentinels text).2.1,
    fun text => (extractors_sentinels text).2.2⟩
  · rw [← compassWindPattern_occurs, ← Regex.search_none_iff]
    decide!
  · rintro text ⟨pre, phrase, post, dir, speed, htext, hphrase⟩ hempty
    exact (extractors_sentinels text).1.mp hempty
      ⟨pre, phrase, post, dir, speed, htext, IsCompassWindPhrase.windPhrase _ _ _ hphrase⟩

/-- C20: `extractWind` returns a phrase whose direction part is not a compass token.  On
`Variable winds 10 kt` the pattern, which has no word boundary in front of `[A-Z]{1,3}`,
takes the last three letters of `Variable` as the direction and the result is
`ble winds 10 kt`; `ble` is none of the sixteen compass abbreviations in any letter
case. -/
theorem extractWind_word_fragment :
    extractWind "Variable winds 10 kt".toList = "ble winds 10 kt".toList ∧
    (∀ dir ∈ compassTokens, "ble".toList ∉ caseVariants dir) ∧
    ¬ IsCompassToken "ble".toList ∧
    IsLetterToken "ble".toList := by
  have h : ∀ dir ∈ compassTokens, "ble".toList ∉ caseVariants dir := by decide!
  refine ⟨by decide!, h, ?_, ⟨by decide, by decide, by decide⟩⟩
  rw [isCompassToken_iff]
  rintro ⟨dir, hdir, hmem⟩
  exact h dir hdir hmem

/-- The counterexample to C11: a capture instant of 0 is read as "never fetched".  With a
value stored at instant 0, a call at instant 1000, well inside both intervals, runs the
producer: `fetchBuoyData` returns the snapshot parsed from the new response, not the stored
one, and moves the capture instant to 1000; `scrapeNOAAForecast`, whose request fails,
throws instead of returning the stored bundle. -/
theorem caches_epoch_counterexample :
    (1000 : Int) - 0 < 3600000 ∧ (1000 : Int) - 0 < 43200000 ∧
    fetchBuoyData { BuoyScraper.new with
          cachedData := some { sampleSnapshot with conditionScore := JSNum.fin 0 },
          lastFetchTime := some 0 } 1000 (Except.ok sampleFeed) sampleNow
      = (Except.ok (some sampleSnapshot),
          { BuoyScraper.new with cachedData := some sampleSnapshot,
                                 lastFetchTime := some 1000 }) ∧
    sampleSnapshot ≠ { sampleSnapshot with conditionScore := JSNum.fin 0 } ∧
    scrapeNOAAForecast { lastFetchTime := some 0, cachedForecastData := some sampleBundle }
        1000 sampleFailure sampleNow
      = (Except.error (FetchError.request "connect ETIMEDOUT".toList),
          { lastFetchTime := some 0, cachedForecastData := some sampleBundle }) := by
  refine ⟨by decide, by decide, by decide!, by decide!, by decide!⟩

end GulfDiveGuide
